import Mathlib

/-!
# A verification development for `VM/src/lutf8lib.cpp`

Shallow embedding of the UTF-8 codec, the backtracking pattern matcher and the
match drivers (`find`, `match`, `gmatch`, `gsub`) of the Luau `utf8` library.

Conventions of the embedding:

* a C string is a list of bytes; a `const char *` into it is a `Nat` offset
  from its first byte, and a `NULL` result is `none`;
* Lua strings carry a terminating `'\0'` at index `len`, so a read at or
  beyond the length of the list yields `0`;
* `unsigned` arithmetic that can wrap is reduced `% 2 ^ 32`;
* `luaL_error` (a `longjmp`) is the `error` branch of `Except PatErr`, and so
  is a failed `assert` of `<assert.h>`, which aborts the program.
-/

namespace Lutf8

/-! ## Bytes and buffers -/

/-- One `unsigned char`. -/
abbrev Byte := Fin 256

/-- A byte buffer (a Lua string without its terminating NUL). -/
abbrev Bytes := List Byte

/-- The conversion `(char) x` of an `unsigned` value: the low eight bits. -/
def toByte (x : Nat) : Byte := ⟨x % 256, Nat.mod_lt x (by decide)⟩

/-- Read of `(unsigned char) b[i]`; the terminating NUL is read at the end. -/
def byteAt (b : Bytes) (i : Nat) : Nat :=
  match b.get? i with
  | some x => x.val
  | none => 0

/-- The bytes `b[s .. s+n)` as pushed by `lua_pushlstring (L, b + s, n)`. -/
def slice (b : Bytes) (s n : Nat) : Bytes := (b.drop s).take n

/-- Macro `iscont (p)`: `(*(p) & 0xC0) == 0x80`. -/
def iscont (b : Bytes) (p : Nat) : Bool := (byteAt b p &&& 0xC0) == 0x80

/-! ## UTF-8 codec (lines 282-402) -/

/-- The `do { ... } while (ch > mfb)` loop of `utf8_encode` together with the
store of the first byte; `acc` holds the bytes already put at the end of
`buff`.  The counter bounds the iterations (`mfb` reaches 0 after six). -/
def utf8_encode_loop : Nat → Nat → Nat → List Byte → List Byte
  | 0, _, _, acc => acc
  | k + 1, ch, mfb, acc =>
    let acc1 := toByte (0x80 ||| (ch &&& 0x3F)) :: acc
    let ch1 := ch >>> 6
    let mfb1 := mfb >>> 1
    if ch1 > mfb1 then utf8_encode_loop k ch1 mfb1 acc1
    else toByte ((((0xFFFFFFFF - mfb1) <<< 1) % 2 ^ 32) ||| ch1) :: acc1

/-- Function `utf8_encode (s, ch)`: the bytes written to `s`; the returned
count is their number. -/
def utf8_encode (ch : Nat) : List Byte :=
  if ch < 0x80 then [toByte ch]
  else if ch ≤ 0x7FF then
    [toByte ((ch >>> 6) ||| 0xC0), toByte ((ch ||| 0x80) &&& 0xBF)]
  else if ch ≤ 0xFFFF then
    [toByte ((ch >>> 12) ||| 0xE0), toByte (((ch >>> 6) ||| 0x80) &&& 0xBF),
     toByte ((ch ||| 0x80) &&& 0xBF)]
  else utf8_encode_loop 8 ch 0x3F []

/-- The `while ((ch & 0x40) != 0)` loop of the lenient `utf8_decode`.
`Sum.inl ch` is a `goto fallback` taken with the current value of `ch`;
`Sum.inr (count, res, ch)` is a normal exit of the loop.  The counter bounds
the iterations: the tested bit is bit `6 - count` of the lead byte, so the
loop body runs at most seven times. -/
def utf8_decode_loop (b : Bytes) (s : Nat) :
    Nat → Nat → Nat → Nat → Sum Nat (Nat × Nat × Nat)
  | 0, count, res, ch => Sum.inr (count, res, ch)
  | k + 1, count, res, ch =>
    if ch &&& 0x40 ≠ 0 then
      let cc := byteAt b (s + (count + 1))
      if cc &&& 0xC0 ≠ 0x80 then Sum.inl ch
      else utf8_decode_loop b s k (count + 1)
        (((res <<< 6) % 2 ^ 32) ||| (cc &&& 0x3F)) ((ch <<< 1) % 2 ^ 32)
    else Sum.inr (count, res, ch)

/-- The lenient `utf8_decode (s, e, pch)` of line 313: the pair
`(bytes consumed, *pch)`. -/
def utf8_decode (b : Bytes) (s e : Nat) : Nat × Nat :=
  if s ≥ e then (0, 0)
  else
    let ch := byteAt b s
    if ch < 0xC0 then (1, ch)
    else if ch < 0xE0 then
      if s + 1 ≥ e ∨ (byteAt b (s + 1) &&& 0xC0) ≠ 0x80 then (1, ch)
      else (2, ((ch &&& 0x1F) <<< 6) ||| (byteAt b (s + 1) &&& 0x3F))
    else if ch < 0xF0 then
      if s + 2 ≥ e ∨ (byteAt b (s + 1) &&& 0xC0) ≠ 0x80
          ∨ (byteAt b (s + 2) &&& 0xC0) ≠ 0x80 then (1, ch)
      else (3, ((ch &&& 0x0F) <<< 12) ||| ((byteAt b (s + 1) &&& 0x3F) <<< 6)
                ||| (byteAt b (s + 2) &&& 0x3F))
    else
      match utf8_decode_loop b s 8 0 0 ch with
      | Sum.inl ch1 => (1, ch1)
      | Sum.inr (count, res, ch1) =>
        if count > 5 then (1, ch1)
        else (count + 1, res ||| (((ch1 &&& 0x7F) <<< (count * 5)) % 2 ^ 32))

/-- Function `utf8_next (s, e)`. -/
def utf8_next (b : Bytes) (s e : Nat) : Nat := s + (utf8_decode b s e).1

/-- The `while (s <= look)` loop of `utf8_prev`; `look` decreases at every
iteration, so `look + 1` iterations suffice. -/
def utf8_prev_loop (b : Bytes) (s : Nat) : Nat → Nat → Nat
  | 0, _ => s
  | n + 1, look =>
    if s ≤ look then
      let ch := byteAt b look
      if ch < 0x80 ∨ ch ≥ 0xC0 then look
      else if look = 0 then s else utf8_prev_loop b s n (look - 1)
    else s

/-- Function `utf8_prev (s, e)`.  For `e = 0` the C code forms `e - 1` below
the buffer and returns `s`. -/
def utf8_prev (b : Bytes) (s e : Nat) : Nat :=
  if e = 0 then s else utf8_prev_loop b s e (e - 1)

/-- The loop of `utf8_length (s, e)`; every step advances `s`, so `e - s`
steps suffice. -/
def utf8_length_loop (b : Bytes) (e : Nat) : Nat → Nat → Nat → Nat
  | 0, _, i => i
  | n + 1, s, i =>
    if s < e then
      let s1 := if byteAt b s < 0xC0 then s + 1 else utf8_next b s e
      utf8_length_loop b e n s1 (i + 1)
    else i

/-- Function `utf8_length (s, e)`. -/
def utf8_length (b : Bytes) (s e : Nat) : Nat := utf8_length_loop b e (e - s) s 0

/-- Loop `while (s < e && --idx > 0) s = utf8_next (s, e);` of `utf8_index`. -/
def utf8_index_fwd (b : Bytes) (e : Nat) : Nat → Nat → Int → Nat
  | 0, s, _ => s
  | n + 1, s, idx =>
    if s < e ∧ idx - 1 > 0 then utf8_index_fwd b e n (utf8_next b s e) (idx - 1)
    else s

/-- Loop `while (s < e && idx++ < 0) e = utf8_prev (s, e);` of `utf8_index`. -/
def utf8_index_bwd (b : Bytes) (s : Nat) : Nat → Nat → Int → Nat
  | 0, e, _ => e
  | n + 1, e, idx =>
    if s < e ∧ idx < 0 then utf8_index_bwd b s n (utf8_prev b s e) (idx + 1)
    else e

/-- Function `utf8_index (s, e, idx)`. -/
def utf8_index (b : Bytes) (s e : Nat) (idx : Int) : Nat :=
  if idx ≥ 0 then utf8_index_fwd b e (e - s + 1) s idx
  else utf8_index_bwd b s (e - s + 1) e idx

/-! ## Unicode tables (lines 405-501)

The header `unidata.h` holding the literal tables is not part of the sources;
the tables are a parameter of everything that consults them. -/

/-- Struct `range_table` of `unidata.h`, as used by `find_in_range`. -/
structure range_table where
  first : Nat
  last : Nat
  step : Nat
deriving DecidableEq

/-- Struct `conv_table` of `unidata.h`, as used by `convert_char`. -/
structure conv_table where
  first : Nat
  last : Nat
  step : Nat
  offset : Int
deriving DecidableEq

/-- The tables named in `lutf8lib.cpp` and defined in `unidata.h`. -/
structure UniData where
  alpha_table : List range_table
  lower_table : List range_table
  upper_table : List range_table
  cntrl_table : List range_table
  digit_table : List range_table
  xdigit_table : List range_table
  punct_table : List range_table
  space_table : List range_table
  graph_table : List range_table
  compose_table : List range_table
  alnum_extend_table : List range_table
  doublewidth_table : List range_table
  ambiwidth_table : List range_table
  unprintable_table : List range_table
  tolower_table : List conv_table
  toupper_table : List conv_table
  totitle_table : List conv_table
  tofold_table : List conv_table

/-- The binary-search loop of `find_in_range`; `en - begin` shrinks at every
iteration, so `size + 1` iterations suffice.  (`% 0` is undefined in C; here
`x % 0 = x`.) -/
def find_in_range_loop (t : List range_table) (ch : Nat) : Nat → Nat → Nat → Bool
  | 0, _, _ => false
  | n + 1, begin, en =>
    if begin < en then
      let mid := (begin + en) / 2
      match t.get? mid with
      | none => false
      | some r =>
        if r.last < ch then find_in_range_loop t ch n (mid + 1) en
        else if r.first > ch then find_in_range_loop t ch n begin mid
        else (ch - r.first) % r.step == 0
    else false

/-- Function `find_in_range (t, size, ch)`. -/
def find_in_range (t : List range_table) (ch : Nat) : Bool :=
  find_in_range_loop t ch (t.length + 1) 0 t.length

/-- The binary-search loop of `convert_char`; `ch + offset` is `unsigned`. -/
def convert_char_loop (t : List conv_table) (ch : Nat) : Nat → Nat → Nat → Nat
  | 0, _, _ => ch
  | n + 1, begin, en =>
    if begin < en then
      let mid := (begin + en) / 2
      match t.get? mid with
      | none => ch
      | some r =>
        if r.last < ch then convert_char_loop t ch n (mid + 1) en
        else if r.first > ch then convert_char_loop t ch n begin mid
        else if (ch - r.first) % r.step == 0 then (((ch : Int) + r.offset) % 2 ^ 32).toNat
        else ch
    else ch

/-- Function `convert_char (t, size, ch)`. -/
def convert_char (t : List conv_table) (ch : Nat) : Nat :=
  convert_char_loop t ch (t.length + 1) 0 t.length

/-- Expansion of `define_category (alpha)`. -/
def utf8_isalpha (U : UniData) (ch : Nat) : Bool := find_in_range U.alpha_table ch
/-- Expansion of `define_category (lower)`. -/
def utf8_islower (U : UniData) (ch : Nat) : Bool := find_in_range U.lower_table ch
/-- Expansion of `define_category (upper)`. -/
def utf8_isupper (U : UniData) (ch : Nat) : Bool := find_in_range U.upper_table ch
/-- Expansion of `define_category (cntrl)`. -/
def utf8_iscntrl (U : UniData) (ch : Nat) : Bool := find_in_range U.cntrl_table ch
/-- Expansion of `define_category (digit)`. -/
def utf8_isdigit (U : UniData) (ch : Nat) : Bool := find_in_range U.digit_table ch
/-- Expansion of `define_category (xdigit)`. -/
def utf8_isxdigit (U : UniData) (ch : Nat) : Bool := find_in_range U.xdigit_table ch
/-- Expansion of `define_category (punct)`. -/
def utf8_ispunct (U : UniData) (ch : Nat) : Bool := find_in_range U.punct_table ch
/-- Expansion of `define_category (space)`. -/
def utf8_isspace (U : UniData) (ch : Nat) : Bool := find_in_range U.space_table ch
/-- Expansion of `define_converter (tolower)`. -/
def utf8_tolower (U : UniData) (ch : Nat) : Nat := convert_char U.tolower_table ch
/-- Expansion of `define_converter (toupper)`. -/
def utf8_toupper (U : UniData) (ch : Nat) : Nat := convert_char U.toupper_table ch
/-- Expansion of `define_converter (totitle)`. -/
def utf8_totitle (U : UniData) (ch : Nat) : Nat := convert_char U.totitle_table ch
/-- Expansion of `define_converter (tofold)`. -/
def utf8_tofold (U : UniData) (ch : Nat) : Nat := convert_char U.tofold_table ch

/-- Function `utf8_isgraph (ch)`. -/
def utf8_isgraph (U : UniData) (ch : Nat) : Bool :=
  if find_in_range U.space_table ch then false
  else if find_in_range U.graph_table ch then true
  else if find_in_range U.compose_table ch then true
  else false

/-- Function `utf8_isalnum (ch)`. -/
def utf8_isalnum (U : UniData) (ch : Nat) : Bool :=
  if find_in_range U.alpha_table ch then true
  else if find_in_range U.alnum_extend_table ch then true
  else false

/-- Function `utf8_width (ch, ambi_is_single)`. -/
def utf8_width (U : UniData) (ch : Nat) (ambi_is_single : Bool) : Nat :=
  if find_in_range U.doublewidth_table ch then 2
  else if find_in_range U.ambiwidth_table ch then (if ambi_is_single then 1 else 2)
  else if find_in_range U.compose_table ch then 0
  else if find_in_range U.unprintable_table ch then 0
  else 1

/-! ## Pattern matcher (lines 913-1241) -/

/-- Constant `LUA_MAXCAPTURES`. -/
def LUA_MAXCAPTURES : Nat := 32
/-- Constant `CAP_UNFINISHED`. -/
def CAP_UNFINISHED : Int := -1
/-- Constant `CAP_POSITION`. -/
def CAP_POSITION : Int := -2
/-- Constant `MAXCCALLS`. -/
def MAXCCALLS : Nat := 200
/-- Constant `L_ESC`, the character `'%'`. -/
def L_ESC : Nat := 37

/-- The messages passed to `luaL_error` by the matcher and the drivers;
`assertionFailed`, the abort of the program by a failed `assert`; and
`outOfFuel`, which no C execution produces: it marks an exhausted counter of
the embedding. -/
inductive PatErr where
  /-- Message "invalid capture index %%%d" of `check_captureUTF8`. -/
  | invalidCaptureIndexArg (l : Int)
  /-- Message "invalid pattern capture" of `capture_to_closeUTF8`. -/
  | invalidPatternCapture
  /-- Message "malformed pattern (ends with '%')". -/
  | malformedEndsWithEsc
  /-- Message "malformed pattern (missing ']')". -/
  | malformedMissingBracket
  /-- Message "malformed pattern (missing arguments to '%b')". -/
  | malformedMissingArgsB
  /-- Message "missing '[' after '%f' in pattern". -/
  | missingBracketAfterF
  /-- Message "too many captures". -/
  | tooManyCaptures
  /-- Message "pattern too complex". -/
  | patternTooComplex
  /-- Message "invalid capture index" of `push_onecaptureUTF8`. -/
  | invalidCaptureIndex
  /-- Message "unfinished capture". -/
  | unfinishedCapture
  /-- Message "invalid use of '%' in replacement string". -/
  | invalidUseOfEsc
  /-- Message "invalid replacement value (a ...)". -/
  | invalidReplacementValue
  /-- The failed `assert (*p == '[')` of `matchbracketclassUTF8`: the program aborts. -/
  | assertionFailed
  /-- An exhausted counter of the embedding. -/
  | outOfFuel
deriving DecidableEq

/-- One element of the array `capture` of `MatchStateUTF8`. -/
structure Capture where
  init : Nat
  len : Int
deriving DecidableEq

/-- Struct `MatchStateUTF8` (the field `L` is the ambient Lua state). -/
structure MatchStateUTF8 where
  matchdepth : Nat
  src_init : Nat
  src_end : Nat
  p_end : Nat
  level : Nat
  capture : List Capture
deriving DecidableEq

/-- Read of `ms->capture[l]`. -/
def MatchStateUTF8.cap (ms : MatchStateUTF8) (l : Nat) : Capture :=
  ms.capture.getD l ⟨0, 0⟩

/-- Result of the matcher functions: the returned cursor (`none` for `NULL`)
and the match state after the call, or a raised error. -/
abbrev MRes := Except PatErr (Option Nat × MatchStateUTF8)

/-- Function `check_captureUTF8 (ms, l)`. -/
def check_captureUTF8 (ms : MatchStateUTF8) (l : Nat) : Except PatErr Nat :=
  let l1 : Int := (l : Int) - 49
  if l1 < 0 ∨ l1 ≥ ms.level ∨ (ms.cap l1.toNat).len = CAP_UNFINISHED then
    Except.error (PatErr.invalidCaptureIndexArg (l1 + 1))
  else Except.ok l1.toNat

/-- The `for (level--; level>=0; level--)` loop of `capture_to_closeUTF8`,
`level` being one more than the index tested next. -/
def capture_to_close_loop (ms : MatchStateUTF8) : Nat → Except PatErr Nat
  | 0 => Except.error PatErr.invalidPatternCapture
  | l + 1 =>
    if (ms.cap l).len = CAP_UNFINISHED then Except.ok l
    else capture_to_close_loop ms l

/-- Function `capture_to_closeUTF8 (ms)`. -/
def capture_to_closeUTF8 (ms : MatchStateUTF8) : Except PatErr Nat :=
  capture_to_close_loop ms ms.level

/-- The `do { ... } while (*p != ']')` loop of `classendUTF8`; `p` grows at
every iteration and the loop raises at `p == p_end`, so `p_end + 1`
iterations suffice. -/
def classend_loop (pat : Bytes) (p_end : Nat) : Nat → Nat → Except PatErr Nat
  | 0, _ => Except.error PatErr.outOfFuel
  | n + 1, p =>
    if p = p_end then Except.error PatErr.malformedMissingBracket
    else
      let p1 := p + 1
      let p2 := if byteAt pat p = L_ESC ∧ p1 < p_end then p1 + 1 else p1
      if byteAt pat p2 ≠ 93 then classend_loop pat p_end n p2
      else Except.ok (p2 + 1)

/-- Function `classendUTF8 (ms, p)`. -/
def classendUTF8 (pat : Bytes) (ms : MatchStateUTF8) (p : Nat) : Except PatErr Nat :=
  let d := utf8_decode pat p ms.p_end
  let p1 := p + d.1
  if d.2 = L_ESC then
    if p1 = ms.p_end then Except.error PatErr.malformedEndsWithEsc
    else Except.ok (utf8_next pat p1 ms.p_end)
  else if d.2 = 91 then
    let p2 := if byteAt pat p1 = 94 then p1 + 1 else p1
    classend_loop pat ms.p_end (ms.p_end + 1) p2
  else Except.ok p1

/-- Function `match_classUTF8 (c, cl)`. -/
def match_classUTF8 (U : UniData) (c cl : Nat) : Bool :=
  let k := utf8_tolower U cl
  let fin := fun (res : Bool) => if utf8_islower U cl then res else !res
  if k = 97 then fin (utf8_isalpha U c)
  else if k = 99 then fin (utf8_iscntrl U c)
  else if k = 100 then fin (utf8_isdigit U c)
  else if k = 103 then fin (utf8_isgraph U c)
  else if k = 108 then fin (utf8_islower U c)
  else if k = 112 then fin (utf8_ispunct U c)
  else if k = 115 then fin (utf8_isspace U c)
  else if k = 117 then fin (utf8_isupper U c)
  else if k = 119 then fin (utf8_isalnum U c)
  else if k = 120 then fin (utf8_isxdigit U c)
  else if k = 122 then fin (c == 0)
  else cl == c

/-- The `while (p < ec)` loop of `matchbracketclassUTF8`; `p` grows at every
iteration, so `ec + 1` iterations suffice. -/
def matchbracket_loop (U : UniData) (pat : Bytes) (c ec : Nat) (sig : Bool) :
    Nat → Nat → Bool
  | 0, _ => !sig
  | n + 1, p =>
    if p < ec then
      let d := utf8_decode pat p ec
      let p1 := p + d.1
      if d.2 = L_ESC then
        let d2 := utf8_decode pat p1 ec
        if match_classUTF8 U c d2.2 then sig
        else matchbracket_loop U pat c ec sig n (p1 + d2.1)
      else
        let d2 := utf8_decode pat p1 ec
        let np := p1 + d2.1
        if d2.2 = 45 ∧ np < ec then
          let d3 := utf8_decode pat np ec
          if d.2 ≤ c ∧ c ≤ d3.2 then sig
          else matchbracket_loop U pat c ec sig n (np + d3.1)
        else if d.2 = c then sig
        else matchbracket_loop U pat c ec sig n p1
    else !sig

/-- Function `matchbracketclassUTF8 (c, p, ec)`; a failed `assert (*p == '[')`
is the error `assertionFailed`. -/
def matchbracketclassUTF8 (U : UniData) (pat : Bytes) (c p ec : Nat) : Except PatErr Bool :=
  if byteAt pat p ≠ 91 then Except.error PatErr.assertionFailed
  else if byteAt pat (p + 1) = 94 then
    Except.ok (matchbracket_loop U pat c ec false (ec + 1) (p + 2))
  else Except.ok (matchbracket_loop U pat c ec true (ec + 1) (p + 1))

/-- Function `singlematchUTF8 (ms, s, p, ep)`. -/
def singlematchUTF8 (U : UniData) (text pat : Bytes) (ms : MatchStateUTF8)
    (s p ep : Nat) : Except PatErr Bool :=
  if s ≥ ms.src_end then Except.ok false
  else
    let ch := (utf8_decode text s ms.src_end).2
    let d := utf8_decode pat p ms.p_end
    let p1 := p + d.1
    if d.2 = 46 then Except.ok true
    else if d.2 = L_ESC then Except.ok (match_classUTF8 U ch (utf8_decode pat p1 ms.p_end).2)
    else if d.2 = 91 then matchbracketclassUTF8 U pat ch (p1 - 1) (ep - 1)
    else Except.ok (d.2 == ch)

/-- The `while (s < ms->src_end)` loop of `matchbalanceUTF8`. -/
def matchbalance_loop (text : Bytes) (src_end begin en : Nat) : Nat → Nat → Nat → Option Nat
  | 0, _, _ => none
  | n + 1, s, cont =>
    if s < src_end then
      let d := utf8_decode text s src_end
      let s1 := s + d.1
      if d.2 = en then
        if cont - 1 = 0 then some s1
        else matchbalance_loop text src_end begin en n s1 (cont - 1)
      else if d.2 = begin then matchbalance_loop text src_end begin en n s1 (cont + 1)
      else matchbalance_loop text src_end begin en n s1 cont
    else none

/-- Function `matchbalanceUTF8 (ms, s, &p)`: the returned cursor and the
value left in `p`. -/
def matchbalanceUTF8 (text pat : Bytes) (ms : MatchStateUTF8) (s p : Nat) :
    Except PatErr (Option Nat × Nat) :=
  let d := utf8_decode pat p ms.p_end
  let p1 := p + d.1
  if p1 ≥ ms.p_end then Except.error PatErr.malformedMissingArgsB
  else
    let d2 := utf8_decode pat p1 ms.p_end
    let p2 := p1 + d2.1
    let d3 := utf8_decode text s ms.src_end
    let s1 := s + d3.1
    if d3.2 ≠ d.2 then Except.ok (none, p2)
    else Except.ok (matchbalance_loop text ms.src_end d.2 d2.2 (ms.src_end + 1) s1 1, p2)

/-- First loop of `max_expandUTF8`: the cursor after the longest run of
single matches; the cursor grows at every iteration. -/
def max_expand_count (U : UniData) (text pat : Bytes) (ms : MatchStateUTF8)
    (p ep : Nat) : Nat → Nat → Except PatErr Nat
  | 0, m => Except.ok m
  | n + 1, m =>
    match singlematchUTF8 U text pat ms m p ep with
    | Except.error err => Except.error err
    | Except.ok b =>
      if b then max_expand_count U text pat ms p ep n (utf8_next text m ms.src_end)
      else Except.ok m

/-- Second loop of `max_expandUTF8`, `while (s <= m)`; `m` decreases at every
iteration.  `rec` is the recursive call of `matchUTF8`. -/
def max_expand_back (rec : MatchStateUTF8 → Nat → Nat → MRes) (text : Bytes)
    (s ep : Nat) : Nat → MatchStateUTF8 → Nat → MRes
  | 0, _, _ => Except.error PatErr.outOfFuel
  | n + 1, ms, m =>
    if s ≤ m then
      match rec ms m (ep + 1) with
      | Except.error err => Except.error err
      | Except.ok (some r, ms1) => Except.ok (some r, ms1)
      | Except.ok (none, ms1) =>
        if s = m then Except.ok (none, ms1)
        else max_expand_back rec text s ep n ms1 (utf8_prev text s m)
    else Except.ok (none, ms)

/-- Function `max_expandUTF8 (ms, s, p, ep)`. -/
def max_expandUTF8 (rec : MatchStateUTF8 → Nat → Nat → MRes) (U : UniData)
    (text pat : Bytes) (ms : MatchStateUTF8) (s p ep : Nat) : MRes :=
  match max_expand_count U text pat ms p ep (ms.src_end + 1) s with
  | Except.error err => Except.error err
  | Except.ok m => max_expand_back rec text s ep (m + 1) ms m

/-- Function `min_expandUTF8 (ms, s, p, ep)`, a `for (;;)` loop in which `s`
grows at every iteration up to `src_end`. -/
def min_expand_loop (rec : MatchStateUTF8 → Nat → Nat → MRes) (U : UniData)
    (text pat : Bytes) (p ep : Nat) : Nat → MatchStateUTF8 → Nat → MRes
  | 0, _, _ => Except.error PatErr.outOfFuel
  | n + 1, ms, s =>
    match rec ms s (ep + 1) with
    | Except.error err => Except.error err
    | Except.ok (some r, ms1) => Except.ok (some r, ms1)
    | Except.ok (none, ms1) =>
      match singlematchUTF8 U text pat ms1 s p ep with
      | Except.error err => Except.error err
      | Except.ok b =>
        if b then min_expand_loop rec U text pat p ep n ms1 (utf8_next text s ms1.src_end)
        else Except.ok (none, ms1)

/-- Function `min_expandUTF8 (ms, s, p, ep)`. -/
def min_expandUTF8 (rec : MatchStateUTF8 → Nat → Nat → MRes) (U : UniData)
    (text pat : Bytes) (ms : MatchStateUTF8) (s p ep : Nat) : MRes :=
  min_expand_loop rec U text pat p ep (ms.src_end + 2) ms s

/-- Function `start_captureUTF8 (ms, s, p, what)`. -/
def start_captureUTF8 (rec : MatchStateUTF8 → Nat → Nat → MRes)
    (ms : MatchStateUTF8) (s p : Nat) (what : Int) : MRes :=
  let level := ms.level
  if level ≥ LUA_MAXCAPTURES then Except.error PatErr.tooManyCaptures
  else
    match rec { ms with capture := ms.capture.set level ⟨s, what⟩, level := level + 1 } s p with
    | Except.error err => Except.error err
    | Except.ok (none, ms1) => Except.ok (none, { ms1 with level := ms1.level - 1 })
    | Except.ok (some r, ms1) => Except.ok (some r, ms1)

/-- Function `end_captureUTF8 (ms, s, p)`. -/
def end_captureUTF8 (rec : MatchStateUTF8 → Nat → Nat → MRes)
    (ms : MatchStateUTF8) (s p : Nat) : MRes :=
  match capture_to_closeUTF8 ms with
  | Except.error err => Except.error err
  | Except.ok l =>
    let closed : Capture := ⟨(ms.cap l).init, (s : Int) - ((ms.cap l).init : Int)⟩
    match rec { ms with capture := ms.capture.set l closed } s p with
    | Except.error err => Except.error err
    | Except.ok (none, ms1) =>
      let reopened : Capture := ⟨(ms1.cap l).init, CAP_UNFINISHED⟩
      Except.ok (none, { ms1 with capture := ms1.capture.set l reopened })
    | Except.ok (some r, ms1) => Except.ok (some r, ms1)

/-- Function `match_captureUTF8 (ms, s, l)`; `size_t` is taken as 64 bits
wide, and `memcmp` compares the two byte ranges of the text. -/
def match_captureUTF8 (text : Bytes) (ms : MatchStateUTF8) (s l : Nat) :
    Except PatErr (Option Nat) :=
  match check_captureUTF8 ms l with
  | Except.error err => Except.error err
  | Except.ok l1 =>
    let len : Nat := ((ms.cap l1).len % 2 ^ 64).toNat
    if (((ms.src_end : Int) - (s : Int)) % 2 ^ 64).toNat ≥ len
        ∧ slice text (ms.cap l1).init len = slice text s len then
      Except.ok (some (s + len))
    else Except.ok none

/-- The `default:`/`dflt:` case of `matchUTF8`: a single-character class and
its optional suffix.  `rec` is a recursive call of `matchUTF8` and `again` is
`goto init`. -/
def match_default (U : UniData) (text pat : Bytes)
    (rec again : MatchStateUTF8 → Nat → Nat → MRes)
    (ms : MatchStateUTF8) (s p : Nat) : MRes :=
  match classendUTF8 pat ms p with
  | Except.error err => Except.error err
  | Except.ok ep =>
    let epc := byteAt pat ep
    match singlematchUTF8 U text pat ms s p ep with
    | Except.error err => Except.error err
    | Except.ok b =>
      if ¬ b then
        if epc = 42 ∨ epc = 63 ∨ epc = 45 then again ms s (ep + 1)
        else Except.ok (none, ms)
      else
        let next_s := utf8_next text s ms.src_end
        if epc = 63 then
          let next_ep := utf8_next pat ep ms.p_end
          match rec ms next_s next_ep with
          | Except.error err => Except.error err
          | Except.ok (some r, ms1) => Except.ok (some r, ms1)
          | Except.ok (none, ms1) => again ms1 s next_ep
        else if epc = 43 then max_expandUTF8 rec U text pat ms next_s p ep
        else if epc = 42 then max_expandUTF8 rec U text pat ms s p ep
        else if epc = 45 then min_expandUTF8 rec U text pat ms s p ep
        else again ms next_s ep

/-- The `case L_ESC:` of `matchUTF8`: `%b`, `%f`, a back-reference `%0`-`%9`,
or else the default case.  `rec` is a recursive call of `matchUTF8` and
`again` is `goto init`. -/
def match_escape (U : UniData) (text pat : Bytes)
    (rec again : MatchStateUTF8 → Nat → Nat → MRes)
    (ms : MatchStateUTF8) (s p : Nat) : MRes :=
  let d := utf8_decode pat (p + 1) ms.p_end
  let p1 := p + (d.1 + 1)
  if d.2 = 98 then
    match matchbalanceUTF8 text pat ms s p1 with
    | Except.error err => Except.error err
    | Except.ok (some s1, p2) => again ms s1 p2
    | Except.ok (none, _) => Except.ok (none, ms)
  else if d.2 = 102 then
    if byteAt pat p1 ≠ 91 then Except.error PatErr.missingBracketAfterF
    else
      match classendUTF8 pat ms p1 with
      | Except.error err => Except.error err
      | Except.ok ep =>
        let previous := if s ≠ ms.src_init then
          (utf8_decode text (utf8_prev text ms.src_init s) ms.src_end).2 else 0
        let current := if s ≠ ms.src_end then
          (utf8_decode text s ms.src_end).2 else 0
        match matchbracketclassUTF8 U pat previous p1 (ep - 1) with
        | Except.error err => Except.error err
        | Except.ok before =>
          if before then Except.ok (none, ms)
          else
            match matchbracketclassUTF8 U pat current p1 (ep - 1) with
            | Except.error err => Except.error err
            | Except.ok after => if after then again ms s ep else Except.ok (none, ms)
  else if 48 ≤ d.2 ∧ d.2 ≤ 57 then
    match match_captureUTF8 text ms s d.2 with
    | Except.error err => Except.error err
    | Except.ok (some s1) => again ms s1 p1
    | Except.ok none => Except.ok (none, ms)
  else match_default U text pat rec again ms s p

/-- The body of `matchUTF8` from the label `init:` to the closing brace of
`if (p != ms->p_end)`.  The counter bounds the number of `goto init`, each of
which moves `p` forward; `rec` is a recursive call of `matchUTF8`. -/
def match_init (U : UniData) (text pat : Bytes)
    (rec : MatchStateUTF8 → Nat → Nat → MRes) :
    Nat → MatchStateUTF8 → Nat → Nat → MRes
  | 0, _, _, _ => Except.error PatErr.outOfFuel
  | n + 1, ms, s, p =>
    if p ≠ ms.p_end then
      let ch := (utf8_decode pat p ms.p_end).2
      if ch = 40 then
        if byteAt pat (p + 1) = 41 then start_captureUTF8 rec ms s (p + 2) CAP_POSITION
        else start_captureUTF8 rec ms s (p + 1) CAP_UNFINISHED
      else if ch = 41 then end_captureUTF8 rec ms s (p + 1)
      else if ch = 36 ∧ p + 1 = ms.p_end then
        Except.ok (if s = ms.src_end then some s else none, ms)
      else if ch = L_ESC then
        match_escape U text pat rec (match_init U text pat rec n) ms s p
      else match_default U text pat rec (match_init U text pat rec n) ms s p
    else Except.ok (some s, ms)

/-- The exit of `matchUTF8`: `ms->matchdepth++; return s;`. -/
def restore_depth (res : MRes) : MRes :=
  match res with
  | Except.error err => Except.error err
  | Except.ok (r, ms1) => Except.ok (r, { ms1 with matchdepth := ms1.matchdepth + 1 })

/-- Function `matchUTF8 (ms, s, p)`.  The first argument bounds the depth of
the C recursion; `ms.matchdepth + 1` always suffices, because every nested
call finds `matchdepth` one lower and raises at 0. -/
def matchUTF8 (U : UniData) (text pat : Bytes) :
    Nat → MatchStateUTF8 → Nat → Nat → MRes
  | 0, _, _, _ => Except.error PatErr.outOfFuel
  | fuel + 1, ms, s, p =>
    if ms.matchdepth = 0 then Except.error PatErr.patternTooComplex
    else
      restore_depth (match_init U text pat (matchUTF8 U text pat fuel) (ms.p_end + 1)
        { ms with matchdepth := ms.matchdepth - 1 } s p)

/-! ## Match drivers (lines 1243-1524) -/

/-- A value pushed on the Lua stack by the drivers: a string or an integer. -/
inductive LuaVal where
  | str (b : Bytes)
  | int (i : Int)
deriving DecidableEq

/-- Function `memchr (s, c, n)` on a buffer: the first offset in `[s, s+n)`
holding the byte `c`. -/
def memchr (b : Bytes) (c : Nat) : Nat → Nat → Option Nat
  | 0, _ => none
  | n + 1, s => if byteAt b s = c then some s else memchr b c n (s + 1)

/-- The `while (l1 > 0 && memchr ...)` loop of `lmemfindUTF8`; `s1` holds the
text cursor, `p` the start of the pattern, `l2` the decremented length. -/
def lmemfind_loop (text pat : Bytes) (p l2 : Nat) : Nat → Nat → Nat → Option Nat
  | 0, _, _ => none
  | k + 1, s1, l1 =>
    if l1 > 0 then
      match memchr text (byteAt pat p) l1 s1 with
      | none => none
      | some hit =>
        let init := hit + 1
        if slice text init l2 = slice pat (p + 1) l2 then some (init - 1)
        else lmemfind_loop text pat p l2 k init (l1 - (init - s1))
    else none

/-- Function `lmemfindUTF8 (s1, l1, s2, l2)`, with `s1` a cursor into the
text and `s2 = p` a cursor into the pattern. -/
def lmemfindUTF8 (text pat : Bytes) (s1 l1 p l2 : Nat) : Option Nat :=
  if l2 = 0 then some s1
  else if l2 > l1 then none
  else lmemfind_loop text pat p (l2 - 1) (l1 + 1) s1 (l1 - (l2 - 1))

/-- The loop of `get_index`. -/
def get_index_loop (text : Bytes) (p e : Nat) : Nat → Nat → Int → Nat × Int
  | 0, s, idx => (s, idx)
  | n + 1, s, idx =>
    if s < e then
      if s = p then (s, idx)
      else if s > p then (s, idx - 1)
      else get_index_loop text p e n (utf8_next text s e) (idx + 1)
    else (s, idx)

/-- Function `get_index (p, s, e, pidx)`: the returned cursor and `*pidx`. -/
def get_index (text : Bytes) (p s e : Nat) : Nat × Int :=
  get_index_loop text p e (e - s + 1) s 0

/-- Function `push_onecaptureUTF8 (ms, i, s, e)`: the value pushed. -/
def push_onecaptureUTF8 (text : Bytes) (ms : MatchStateUTF8) (i : Int) (s e : Nat) :
    Except PatErr LuaVal :=
  if i ≥ ms.level then
    if i = 0 then Except.ok (LuaVal.str (slice text s (e - s)))
    else Except.error PatErr.invalidCaptureIndex
  else
    let l := (ms.cap i.toNat).len
    if l = CAP_UNFINISHED then Except.error PatErr.unfinishedCapture
    else if l = CAP_POSITION then
      Except.ok (LuaVal.int
        ((get_index text (ms.cap i.toNat).init ms.src_init ms.src_end).2 + 1))
    else Except.ok (LuaVal.str (slice text (ms.cap i.toNat).init l.toNat))

/-- The `for (i = 0; i < nlevels; i++)` loop of `push_capturesUTF8`, with
`n` values still to push from index `i` on. -/
def push_captures_loop (text : Bytes) (ms : MatchStateUTF8) (s e : Nat) :
    Nat → Nat → Except PatErr (List LuaVal)
  | 0, _ => Except.ok []
  | n + 1, i =>
    match push_onecaptureUTF8 text ms (i : Int) s e with
    | Except.error err => Except.error err
    | Except.ok v =>
      match push_captures_loop text ms s e n (i + 1) with
      | Except.error err => Except.error err
      | Except.ok vs => Except.ok (v :: vs)

/-- Function `push_capturesUTF8 (ms, s, e)`: the values pushed, in order.
`s = none` is the `NULL` passed by `find`. -/
def push_capturesUTF8 (text : Bytes) (ms : MatchStateUTF8) (s : Option Nat) (e : Nat) :
    Except PatErr (List LuaVal) :=
  let nlevels := if ms.level = 0 ∧ s.isSome then 1 else ms.level
  push_captures_loop text ms (s.getD 0) e nlevels 0

/-- The characters of `SPECIALS`, `"^$*+?.([%-"`. -/
def SPECIALS : List Nat := [94, 36, 42, 43, 63, 46, 40, 91, 37, 45]

/-- Test `strpbrk (p, SPECIALS) != NULL` on the NUL-terminated string at `p`. -/
def strpbrk_specials (pat : Bytes) : Nat → Nat → Bool
  | 0, _ => false
  | n + 1, p =>
    if byteAt pat p = 0 then false
    else if byteAt pat p ∈ SPECIALS then true
    else strpbrk_specials pat n (p + 1)

/-- Function `strlen (p)` on the NUL-terminated string at `p`. -/
def strlen (pat : Bytes) : Nat → Nat → Nat
  | 0, _ => 0
  | n + 1, p => if byteAt pat p = 0 then 0 else strlen pat n (p + 1) + 1

/-- The loop of `nospecials`. -/
def nospecials_loop (pat : Bytes) (ep : Nat) : Nat → Nat → Bool
  | 0, _ => true
  | n + 1, p =>
    if p < ep then
      if strpbrk_specials pat (pat.length + 1) p then false
      else nospecials_loop pat ep n (p + strlen pat (pat.length + 1) p + 1)
    else true

/-- Function `nospecials (p, ep)`. -/
def nospecials (pat : Bytes) (p ep : Nat) : Bool := nospecials_loop pat ep (ep + 1) p

/-- The result of a driver: `none` is the pushed `nil` ("no match"), `some vs`
the values returned to Lua. -/
abbrev DRes := Except PatErr (Option (List LuaVal))

/-- The plain-search `do { ... } while (init < es)` loop of `find_aux`. -/
def find_plain_loop (text pat : Bytes) (es ep : Nat) : Nat → Nat → Int → DRes
  | 0, _, _ => Except.error PatErr.outOfFuel
  | n + 1, init, idx =>
    match lmemfindUTF8 text pat init (es - init) 0 ep with
    | none => Except.ok none
    | some s2 =>
      let g := get_index text s2 init es
      if g.1 = s2 then
        Except.ok (some [LuaVal.int (idx + g.2),
          LuaVal.int (idx + g.2 + (utf8_length pat 0 ep : Int) - 1)])
      else
        let init1 := utf8_next text g.1 es
        if init1 < es then find_plain_loop text pat es ep n init1 (idx + (g.2 + 1))
        else Except.ok none

/-- The pattern-search `do { ... } while (init <= es && !anchor)` loop of
`find_aux`. -/
def find_pattern_loop (U : UniData) (text pat : Bytes) (find anchor : Bool) (p : Nat) :
    Nat → MatchStateUTF8 → Nat → Int → DRes
  | 0, _, _, _ => Except.error PatErr.outOfFuel
  | n + 1, ms, init, idx =>
    match matchUTF8 U text pat (MAXCCALLS + 1) { ms with level := 0 } init p with
    | Except.error err => Except.error err
    | Except.ok (some res, ms1) =>
      if find then
        match push_capturesUTF8 text ms1 none 0 with
        | Except.error err => Except.error err
        | Except.ok caps =>
          Except.ok (some (LuaVal.int idx
            :: LuaVal.int (idx + (utf8_length text init res : Int) - 1) :: caps))
      else
        match push_capturesUTF8 text ms1 (some init) res with
        | Except.error err => Except.error err
        | Except.ok caps => Except.ok (some caps)
    | Except.ok (none, ms1) =>
      if init = ms1.src_end then Except.ok none
      else
        let init1 := utf8_next text init ms1.src_end
        if init1 ≤ ms1.src_end ∧ ¬ anchor then
          find_pattern_loop U text pat find anchor p n ms1 init1 (idx + 1)
        else Except.ok none

/-- The `MatchStateUTF8` set up by a driver for text `text` and pattern `pat`
(the capture array is uninitialised in C). -/
def initial_state (text pat : Bytes) : MatchStateUTF8 :=
  { matchdepth := MAXCCALLS, src_init := 0, src_end := text.length,
    p_end := pat.length, level := 0,
    capture := List.replicate LUA_MAXCAPTURES ⟨0, 0⟩ }

/-- Function `find_aux (L, find)` on the arguments `text`, `pat`, the optional
third argument `idx` (default 1) and the truth value `plain` of the fourth. -/
def find_aux (U : UniData) (text pat : Bytes) (idx : Int) (plain : Bool) (find : Bool) :
    DRes :=
  let es := text.length
  let ep := pat.length
  let slen := utf8_length text 0 es
  if idx > 0 ∧ idx > (slen : Int) + 1 then Except.ok none
  else
    let idx1 := if idx < 0 then idx + ((utf8_length text 0 es : Int) + 1) else idx
    let init := utf8_index text 0 es idx1
    if find ∧ (plain ∨ nospecials pat 0 ep) then
      find_plain_loop text pat es ep (es + 1) init idx1
    else
      let anchor : Bool := byteAt pat 0 = 94
      let p := if anchor then 1 else 0
      find_pattern_loop U text pat find anchor p (es + 2) (initial_state text pat) init idx1

/-- Function `Lutf8_find`. -/
def Lutf8_find (U : UniData) (text pat : Bytes) (idx : Int) (plain : Bool) : DRes :=
  find_aux U text pat idx plain true

/-- Function `Lutf8_matchUTF8`. -/
def Lutf8_matchUTF8 (U : UniData) (text pat : Bytes) (idx : Int) : DRes :=
  find_aux U text pat idx false false

/-- The `for (src = ...; src <= ms.src_end; src = utf8_next (...))` loop of
`gmatch_auxUTF8`: `none` when nothing is returned, else the new value of the
third upvalue and the values pushed. -/
def gmatch_loop (U : UniData) (text pat : Bytes) :
    Nat → MatchStateUTF8 → Nat → Except PatErr (Option (Nat × List LuaVal))
  | 0, _, _ => Except.error PatErr.outOfFuel
  | n + 1, ms, src =>
    if src ≤ ms.src_end then
      match matchUTF8 U text pat (MAXCCALLS + 1) { ms with level := 0 } src 0 with
      | Except.error err => Except.error err
      | Except.ok (some e, ms1) =>
        let newstart := if e = src then e + 1 else e
        match push_capturesUTF8 text ms1 (some src) e with
        | Except.error err => Except.error err
        | Except.ok caps => Except.ok (some (newstart, caps))
      | Except.ok (none, ms1) =>
        if src = ms1.src_end then Except.ok none
        else gmatch_loop U text pat n ms1 (utf8_next text src ms1.src_end)
    else Except.ok none

/-- Function `gmatch_auxUTF8`, the closure made by `Lutf8_gmatch`: one step of
the iterator from the byte offset `cursor` held in its third upvalue. -/
def gmatch_auxUTF8 (U : UniData) (text pat : Bytes) (cursor : Nat) :
    Except PatErr (Option (Nat × List LuaVal)) :=
  gmatch_loop U text pat (text.length + 2) (initial_state text pat) cursor

/-- Modelled from the spec: the host conversion `lua_tolstring` applied by
`luaL_addvalue` to a pushed value (not in the sources); a string is taken as
it is and an integer (a position capture) is written in decimal. -/
def luaL_addvalue (v : LuaVal) : Bytes :=
  match v with
  | LuaVal.str b => b
  | LuaVal.int i =>
    let digits := (Nat.toDigits 10 i.natAbs).map (fun c => toByte c.toNat)
    if i < 0 then toByte 45 :: digits else digits

/-- The value left on the stack by the lookup in a replacement table or by
the call of a replacement function: `nil`/`false`, a string (or number, given
by its bytes), or a value of another type. -/
inductive ReplValue where
  | falsy
  | str (b : Bytes)
  | other

/-- The third argument of `gsub`: a template string, a table or a function. -/
inductive Repl where
  | template (news : Bytes)
  | table (lookup : LuaVal → ReplValue)
  | func (call : List LuaVal → ReplValue)

/-- The `while (news < new_end)` loop of `add_sUTF8`; `b` is the buffer
accumulated so far and `np` the cursor into the template `news`. -/
def add_s_loop (U : UniData) (text news : Bytes) (ms : MatchStateUTF8) (s e : Nat) :
    Nat → Nat → Bytes → Except PatErr Bytes
  | 0, _, _ => Except.error PatErr.outOfFuel
  | n + 1, np, b =>
    if np < news.length then
      let d := utf8_decode news np news.length
      let np1 := np + d.1
      if d.2 ≠ L_ESC then add_s_loop U text news ms s e n np1 (b ++ utf8_encode d.2)
      else
        let d2 := utf8_decode news np1 news.length
        let np2 := np1 + d2.1
        if ¬ utf8_isdigit U d2.2 then
          if d2.2 ≠ L_ESC then Except.error PatErr.invalidUseOfEsc
          else add_s_loop U text news ms s e n np2 (b ++ utf8_encode d2.2)
        else if d2.2 = 48 then
          add_s_loop U text news ms s e n np2 (b ++ slice text s (e - s))
        else
          match push_onecaptureUTF8 text ms ((d2.2 : Int) - 49) s e with
          | Except.error err => Except.error err
          | Except.ok v => add_s_loop U text news ms s e n np2 (b ++ luaL_addvalue v)
    else Except.ok b

/-- Function `add_sUTF8 (ms, b, s, e)`: the buffer after the call. -/
def add_sUTF8 (U : UniData) (text news : Bytes) (ms : MatchStateUTF8) (b : Bytes)
    (s e : Nat) : Except PatErr Bytes :=
  add_s_loop U text news ms s e (news.length + 1) 0 b

/-- The end of `add_valueUTF8` for a table or function replacement. -/
def add_value_result (text : Bytes) (b : Bytes) (s e : Nat) (v : ReplValue) :
    Except PatErr Bytes :=
  match v with
  | ReplValue.falsy => Except.ok (b ++ slice text s (e - s))
  | ReplValue.str r => Except.ok (b ++ r)
  | ReplValue.other => Except.error PatErr.invalidReplacementValue

/-- Function `add_valueUTF8 (ms, b, s, e, tr)`: the buffer after the call. -/
def add_valueUTF8 (U : UniData) (text : Bytes) (repl : Repl) (ms : MatchStateUTF8)
    (b : Bytes) (s e : Nat) : Except PatErr Bytes :=
  match repl with
  | Repl.func call =>
    match push_capturesUTF8 text ms (some s) e with
    | Except.error err => Except.error err
    | Except.ok caps => add_value_result text b s e (call caps)
  | Repl.table lookup =>
    match push_onecaptureUTF8 text ms 0 s e with
    | Except.error err => Except.error err
    | Except.ok v => add_value_result text b s e (lookup v)
  | Repl.template news => add_sUTF8 U text news ms b s e

/-- The `while (n < max_s)` loop of `Lutf8_gsub` followed by the final
`luaL_addlstring (&b, s, es-s)`: the rebuilt text and the count `n`. -/
def gsub_loop (U : UniData) (text pat : Bytes) (repl : Repl) (anchor : Bool)
    (p : Nat) (max_s : Int) :
    Nat → MatchStateUTF8 → Nat → Int → Bytes → Except PatErr (Bytes × Int)
  | 0, _, _, _, _ => Except.error PatErr.outOfFuel
  | k + 1, ms, s, n, b =>
    let es := ms.src_end
    if n < max_s then
      match matchUTF8 U text pat (MAXCCALLS + 1) { ms with level := 0 } s p with
      | Except.error err => Except.error err
      | Except.ok (some e, ms1) =>
        match add_valueUTF8 U text repl ms1 b s e with
        | Except.error err => Except.error err
        | Except.ok b1 =>
          if e > s then
            if anchor then Except.ok (b1 ++ slice text e (es - e), n + 1)
            else gsub_loop U text pat repl anchor p max_s k ms1 e (n + 1) b1
          else if s < es then
            let d := utf8_decode text s es
            let b2 := b1 ++ utf8_encode d.2
            if anchor then Except.ok (b2 ++ slice text (s + d.1) (es - (s + d.1)), n + 1)
            else gsub_loop U text pat repl anchor p max_s k ms1 (s + d.1) (n + 1) b2
          else Except.ok (b1 ++ slice text s (es - s), n + 1)
      | Except.ok (none, ms1) =>
        if s < es then
          let d := utf8_decode text s es
          let b2 := b ++ utf8_encode d.2
          if anchor then Except.ok (b2 ++ slice text (s + d.1) (es - (s + d.1)), n)
          else gsub_loop U text pat repl anchor p max_s k ms1 (s + d.1) n b2
        else Except.ok (b ++ slice text s (es - s), n)
    else Except.ok (b ++ slice text s (es - s), n)

/-- Function `Lutf8_gsub` on the arguments `text`, `pat`, `repl` and the
optional fourth argument `max_s` (default: byte length of the text plus 1):
the rebuilt text and the number of substitutions. -/
def Lutf8_gsub (U : UniData) (text pat : Bytes) (repl : Repl) (max_s : Option Int) :
    Except PatErr (Bytes × Int) :=
  let max : Int := max_s.getD ((text.length : Int) + 1)
  let anchor : Bool := byteAt pat 0 = 94
  let p := if anchor then 1 else 0
  gsub_loop U text pat repl anchor p max (text.length + 2) (initial_state text pat) 0 0 []

/-! ## Data used to evaluate the drivers on concrete inputs -/

/-- An instance of the tables of `unidata.h` restricted to ASCII: letters
`A-Z a-z`, digits `0-9` (0x30..0x39), the usual punctuation, space and
control characters, and the ASCII case mappings. -/
def ascii_tables : UniData :=
  { alpha_table := [⟨0x41, 0x5A, 1⟩, ⟨0x61, 0x7A, 1⟩],
    lower_table := [⟨0x61, 0x7A, 1⟩],
    upper_table := [⟨0x41, 0x5A, 1⟩],
    cntrl_table := [⟨0, 0x1F, 1⟩, ⟨0x7F, 0x7F, 1⟩],
    digit_table := [⟨0x30, 0x39, 1⟩],
    xdigit_table := [⟨0x30, 0x39, 1⟩, ⟨0x41, 0x46, 1⟩, ⟨0x61, 0x66, 1⟩],
    punct_table := [⟨0x21, 0x2F, 1⟩, ⟨0x3A, 0x40, 1⟩, ⟨0x5B, 0x60, 1⟩, ⟨0x7B, 0x7E, 1⟩],
    space_table := [⟨0x09, 0x0D, 1⟩, ⟨0x20, 0x20, 1⟩],
    graph_table := [⟨0x21, 0x7E, 1⟩],
    compose_table := [],
    alnum_extend_table := [⟨0x30, 0x39, 1⟩],
    doublewidth_table := [],
    ambiwidth_table := [],
    unprintable_table := [⟨0, 0x1F, 1⟩, ⟨0x7F, 0x7F, 1⟩],
    tolower_table := [⟨0x41, 0x5A, 1, 32⟩],
    toupper_table := [⟨0x61, 0x7A, 1, -32⟩],
    totitle_table := [⟨0x61, 0x7A, 1, -32⟩],
    tofold_table := [⟨0x41, 0x5A, 1, 32⟩] }

/-! ## Predicates used to state the properties of the matcher -/

/-- The fields of the match state that a call of the matcher leaves as it
found them: the depth budget and the bounds of text and pattern. -/
def SameFrame (ms ms1 : MatchStateUTF8) : Prop :=
  ms1.matchdepth = ms.matchdepth ∧ ms1.src_init = ms.src_init ∧
  ms1.src_end = ms.src_end ∧ ms1.p_end = ms.p_end

/-- The capture level and every capture slot below it are the same in `ms1`
as in `ms`. -/
def CapturesKept (ms ms1 : MatchStateUTF8) : Prop :=
  ms1.level = ms.level ∧ ms1.capture.length = ms.capture.length ∧
  ∀ i, i < ms.level → ms1.cap i = ms.cap i

/-- The captures recorded in `ms` are consistent with a match attempt that
started at cursor `s0` and has reached cursor `s`: at most 32 slots are in
use; every slot was opened between `s0` and `s`; a slot is unfinished, a
position capture, or closed with a length `≥ 0` ending at or before `s`; and
the slots are in the order in which they were opened. -/
def CapInv (s0 : Nat) (ms : MatchStateUTF8) (s : Nat) : Prop :=
  s0 ≤ s ∧ ms.level ≤ LUA_MAXCAPTURES ∧ ms.capture.length = LUA_MAXCAPTURES ∧
  (∀ i, i < ms.level →
    s0 ≤ (ms.cap i).init ∧ (ms.cap i).init ≤ s ∧
    ((ms.cap i).len = CAP_UNFINISHED ∨ (ms.cap i).len = CAP_POSITION ∨
      (0 ≤ (ms.cap i).len ∧ ((ms.cap i).init : Int) + (ms.cap i).len ≤ (s : Int)))) ∧
  (∀ i j, i ≤ j → j < ms.level → (ms.cap i).init ≤ (ms.cap j).init)

/-- What a result `res` of a matcher function called in state `ms` at cursor
`s` satisfies when it is not an error: the frame is kept; on `NULL` the
captures are as before the call; on success the cursor did not move
backwards and the captures stay consistent. -/
def ResOk (s0 : Nat) (ms : MatchStateUTF8) (s : Nat) (res : MRes) : Prop :=
  ∀ r ms1, res = Except.ok (r, ms1) →
    SameFrame ms ms1 ∧ (r = none → CapturesKept ms ms1) ∧
    (∀ e, r = some e → CapInv s0 ms s → s ≤ e ∧ CapInv s0 ms1 e)

/-- Predicate `ResOk` for every call of a matcher function `f`. -/
def MatcherOk (s0 : Nat) (f : MatchStateUTF8 → Nat → Nat → MRes) : Prop :=
  ∀ ms s p, ResOk s0 ms s (f ms s p)

/-- The property of claim C5 for the values `vals` returned by `find`
(`find = true`) or `match` (`find = false`) on the pattern path: they come
from a call of `matchUTF8`, in a state with no capture recorded, that
succeeded at cursor `start` with end cursor `e` and left the state `ms`;
`caps` are the values pushed for the captures; at most 32 slots are in use;
every slot `i < ms.level` is a position capture or is closed with a length
`≥ 0`, its bytes `[init, init + len]` lie inside `[start, e]`, and its value
is the `i`-th value pushed; and the slots are in the order in which the
groups were opened (`init` is non-decreasing). -/
def SuccessfulMatchCaptures (U : UniData) (text pat : Bytes) (find : Bool)
    (vals : List LuaVal) : Prop :=
  ∃ (ms0 ms : MatchStateUTF8) (start e p : Nat) (caps : List LuaVal),
    matchUTF8 U text pat (MAXCCALLS + 1) { ms0 with level := 0 } start p
      = Except.ok (some e, ms) ∧
    push_capturesUTF8 text ms (if find then none else some start) (if find then 0 else e)
      = Except.ok caps ∧
    (∃ a : Int, vals = (if find then
      LuaVal.int a :: LuaVal.int (a + (utf8_length text start e : Int) - 1) :: caps
      else caps)) ∧
    start ≤ e ∧ ms.level ≤ LUA_MAXCAPTURES ∧
    (∀ i, i < ms.level →
      ((ms.cap i).len = CAP_POSITION ∨
        (0 ≤ (ms.cap i).len ∧ ((ms.cap i).init : Int) + (ms.cap i).len ≤ (e : Int))) ∧
      start ≤ (ms.cap i).init ∧ (ms.cap i).init ≤ e ∧
      ∃ v, caps[i]? = some v ∧
        push_onecaptureUTF8 text ms (i : Int) (if find then 0 else start)
          (if find then 0 else e) = Except.ok v) ∧
    (∀ i j, i ≤ j → j < ms.level → (ms.cap i).init ≤ (ms.cap j).init)

/-- One attempt of the matcher at cursor s from pattern offset p, in the state a driver sets up
for the text and the pattern, with no capture recorded. The drivers run a later attempt in the
state left by the failed attempts before it, with its level reset to 0; the result and the
captures pushed are the same (theorems matchUTF8_sim and push_captures_agree below). -/
def attempt (U : UniData) (text pat : Bytes) (p s : Nat) : MRes :=
  matchUTF8 U text pat (MAXCCALLS + 1) (initial_state text pat) s p

/-- The position reached from `cursor` by `k` steps of `utf8_next` in the
whole text, the positions tried in turn by `gmatch_auxUTF8`. -/
def gmatch_position (text : Bytes) (cursor k : Nat) : Nat :=
  (fun x => utf8_next text x text.length)^[k] cursor

/-- One yield of the iterator of `gmatch` started with the stored byte offset
`cursor`: the attempts of the matcher at the positions tried before `src`
fail, the attempt at `src` succeeds with end cursor `e`, the values `vals` are
those pushed for this match, and `c1` is the offset stored for the next step. -/
def GmatchYield (U : UniData) (text pat : Bytes) (cursor src e c1 : Nat)
    (vals : List LuaVal) : Prop :=
  ∃ (k : Nat) (ms1 : MatchStateUTF8),
    src = gmatch_position text cursor k ∧
    (∀ j, j < k → ∃ mb : MatchStateUTF8,
      attempt U text pat 0 (gmatch_position text cursor j) = Except.ok (none, mb)) ∧
    attempt U text pat 0 src = Except.ok (some e, ms1) ∧
    push_capturesUTF8 text ms1 (some src) e = Except.ok vals ∧
    c1 = (if e = src then e + 1 else e) ∧
    cursor ≤ src ∧ src ≤ text.length ∧ src ≤ e ∧ e ≤ c1 ∧ cursor < c1

/-- A run of the iterator of `gmatch`: successive calls of the closure, each
started with the offset stored by the previous one, all of them yielding. -/
def GmatchRun (U : UniData) (text pat : Bytes) : Nat → List (Nat × List LuaVal) → Prop
  | _, [] => True
  | cursor, (c1, vals) :: rest =>
    gmatch_auxUTF8 U text pat cursor = Except.ok (some (c1, vals)) ∧
    GmatchRun U text pat c1 rest

/-- The pattern made of `n` consecutive empty groups `()`. -/
def empty_groups (n : Nat) : Bytes := (List.replicate n [40, 41]).flatten

/-- The pattern made of `n` copies of `a?`. -/
def optional_as (n : Nat) : Bytes := (List.replicate n [97, 63]).flatten

/-- The text made of `n` letters `a`. -/
def letters_a (n : Nat) : Bytes := List.replicate n 97

/-- The pattern `(abc`, with an unbalanced group. -/
def unbalanced_abc : Bytes := [40, 97, 98, 99]

/-- The cursor `init` at which `find_aux` starts its search, for the third
argument `idx` (not greater than the length of the text plus 1). -/
def find_init (text : Bytes) (idx : Int) : Nat :=
  utf8_index text 0 text.length
    (if idx < 0 then idx + ((utf8_length text 0 text.length : Int) + 1) else idx)

/-- Number of bytes of the canonical encoding by the magnitude of the codepoint, in the words of
the specification: 1 below 0x80, 2 below 0x800, 3 below 0x10000, 4 below 0x200000, 5 below
0x4000000, 6 otherwise. -/
def encoded_size (c : Nat) : Nat :=
  if c < 0x80 then 1 else if c < 0x800 then 2 else if c < 0x10000 then 3
  else if c < 0x200000 then 4 else if c < 0x4000000 then 5 else 6

/-- Value of the payload bits of a sequence of n bytes: the bits of the lead byte after its n
leading 1-bits and the 0-bit, followed by the low six bits of every following byte. -/
def payload (n : Nat) (lead : Byte) (rest : List Byte) : Nat :=
  rest.foldl (fun acc b => acc * 64 + b.val % 64) (lead.val % 2 ^ (7 - n))

/-- A range table as find_in_range expects it: every entry is a range first..last with a step of
at least 1, and the entries are ascending and do not overlap. -/
def RangeTableOk (t : List range_table) : Prop :=
  (∀ r ∈ t, r.first ≤ r.last ∧ 1 ≤ r.step) ∧
  ∀ i j ri rj, i < j → t.get? i = some ri → t.get? j = some rj → ri.last < rj.first

/-- Membership in a range table, in the words of the specification: some entry has
first <= cp <= last and cp lies on the stride of the entry. -/
def InRangeTable (t : List range_table) (cp : Nat) : Prop :=
  ∃ r ∈ t, r.first ≤ cp ∧ cp ≤ r.last ∧ (cp - r.first) % r.step = 0

/-- Indices at which the binary search of find_in_range reads the table, in order: the loop of
find_in_range_loop, recording every mid. -/
def find_in_range_probes (t : List range_table) (ch : Nat) : Nat → Nat → Nat → List Nat
  | 0, _, _ => []
  | n + 1, begin, en =>
    if begin < en then
      let mid := (begin + en) / 2
      match t.get? mid with
      | none => [mid]
      | some r =>
        if r.last < ch then mid :: find_in_range_probes t ch n (mid + 1) en
        else if r.first > ch then mid :: find_in_range_probes t ch n begin mid
        else [mid]
    else []

/-- A three-entry table used to evaluate find_in_range: 10..20 step 2, 30..30, 40..49 step 3. -/
def sample_table : List range_table := [⟨10, 20, 2⟩, ⟨30, 30, 1⟩, ⟨40, 49, 3⟩]

/-- Cursor reached from s by k applications of utf8_next with end bound e. -/
def utf8_next_iter (b : Bytes) (e : Nat) (k s : Nat) : Nat := (fun x => utf8_next b x e)^[k] s

/-- The matcher, run from pattern offset p in a state of the search over text and pat with no
capture recorded, succeeds at cursor s with end cursor e and final state ms1. -/
def MatcherSucceedsAt (U : UniData) (text pat : Bytes) (p s e : Nat) (ms1 : MatchStateUTF8) :
    Prop :=
  ∃ ma : MatchStateUTF8, SameFrame (initial_state text pat) ma ∧
    matchUTF8 U text pat (MAXCCALLS + 1) { ma with level := 0 } s p = Except.ok (some e, ms1)

/-- Pattern offset at which find_aux starts the matcher: 1 after a leading anchor, else 0. -/
def pattern_start (pat : Bytes) : Nat := if byteAt pat 0 = 94 then 1 else 0

/-- The start ordinal of find_aux after the adjustment of a negative third argument. -/
def find_ordinal (text : Bytes) (idx : Int) : Int :=
  if idx < 0 then idx + ((utf8_length text 0 text.length : Int) + 1) else idx

/-- What a result of a matcher function started at cursor s says about termination: it is not
the marker of an exhausted counter, and (when the end bound E of the text is at or beyond the
end of the buffer and s is not beyond E) a returned cursor is not beyond E. -/
def Finishes (text : Bytes) (E s : Nat) (res : MRes) : Prop :=
  res ≠ Except.error PatErr.outOfFuel ∧
  (text.length ≤ E → s ≤ E → ∀ e ms1, res = Except.ok (some e, ms1) → e ≤ E)

/-- The fields of a match state that the termination argument depends on: the remaining depth
budget, the end of the pattern and the end of the text. -/
def StateOf (D PE E : Nat) (ms : MatchStateUTF8) : Prop :=
  ms.matchdepth = D ∧ ms.p_end = PE ∧ ms.src_end = E

/-- Predicate Finishes for every call of the matcher function f in a state with depth budget D,
at a pattern offset from lo to the end PE of the pattern. -/
def MatcherFinishes (text : Bytes) (D PE E lo : Nat)
    (f : MatchStateUTF8 → Nat → Nat → MRes) : Prop :=
  ∀ ms s p, StateOf D PE E ms → lo ≤ p → p ≤ PE → Finishes text E s (f ms s p)

/-- Two matcher functions give the same result in every state with depth budget D. -/
def AgreeAt (D : Nat) (f g : MatchStateUTF8 → Nat → Nat → MRes) : Prop :=
  ∀ ms s p, ms.matchdepth = D → f ms s p = g ms s p

/-- A match state of a search of the pattern "(a)(b)c" in the text "abd" in which the first
group is already closed over the byte at offset 0. -/
def state_one_closed : MatchStateUTF8 :=
  { matchdepth := MAXCCALLS, src_init := 0, src_end := 3, p_end := 7, level := 1,
    capture := (List.replicate LUA_MAXCAPTURES ⟨0, 0⟩).set 0 ⟨0, 1⟩ }

/-- A conversion table as convert_char expects it: every entry is a range first..last with a
step of at least 1, and the entries are ascending and do not overlap. -/
def ConvTableOk (t : List conv_table) : Prop :=
  (∀ r ∈ t, r.first ≤ r.last ∧ 1 ≤ r.step) ∧
  ∀ i j ri rj, i < j → t.get? i = some ri → t.get? j = some rj → ri.last < rj.first

/-- The value of ch + offset in the arithmetic of the type unsigned. -/
def add_offset (ch : Nat) (offset : Int) : Nat := (((ch : Int) + offset) % 2 ^ 32).toNat

/-- A two-entry conversion table used to evaluate convert_char: A..Z to lower case, and the
even codepoints of 0x100..0x12E to the next codepoint. -/
def sample_conv_table : List conv_table := [⟨0x41, 0x5A, 1, 32⟩, ⟨0x100, 0x12E, 2, 1⟩]

/-- Tables in which the codepoints 0x3099 and 0x309A belong both to the double-width table and
to the composing table, and the ambiguous-width table shares 0x300 with the composing table. -/
def overlapping_width_tables : UniData :=
  { ascii_tables with
    doublewidth_table := [⟨0x3099, 0x30FF, 1⟩],
    ambiwidth_table := [⟨0x300, 0x300, 1⟩],
    compose_table := [⟨0x300, 0x36F, 1⟩, ⟨0x3099, 0x309A, 1⟩],
    unprintable_table := [⟨0, 0x1F, 1⟩] }

/-- Tables in which the codepoint 0x20 belongs both to the space table and to the composing
table. -/
def overlapping_space_tables : UniData :=
  { ascii_tables with
    space_table := [⟨0x20, 0x20, 1⟩],
    compose_table := [⟨0x20, 0x20, 1⟩] }

/-- The value of previous in the frontier case of matchUTF8: 0 at the start of the text, else
the codepoint decoded at utf8_prev (src_init, s). -/
def frontier_previous (text : Bytes) (ms : MatchStateUTF8) (s : Nat) : Nat :=
  if s ≠ ms.src_init then (utf8_decode text (utf8_prev text ms.src_init s) ms.src_end).2 else 0

/-- The value of current in the frontier case of matchUTF8: 0 at the end of the text, else the
codepoint decoded at s. -/
def frontier_current (text : Bytes) (ms : MatchStateUTF8) (s : Nat) : Nat :=
  if s ≠ ms.src_end then (utf8_decode text s ms.src_end).2 else 0

/-- Codepoint of the k-th character from cursor s, counting from 0: the character decoded at the
cursor reached from s by k applications of next. -/
def char_at (text : Bytes) (e s k : Nat) : Nat :=
  (utf8_decode text (utf8_next_iter text e k s) e).2

/-- Number of characters equal to x minus number of characters equal to y among the first k
characters from cursor s. -/
def balance (text : Bytes) (e x y s : Nat) : Nat → Int
  | 0 => 0
  | k + 1 => balance text e x y s k
      + ((if char_at text e s k = x then 1 else 0) - (if char_at text e s k = y then 1 else 0))

/-- The k characters from cursor s form a balanced string for the delimiters x and y, in the
words of the specification: they all lie before the end bound e, the first is x, they hold
equally many x and y, and every proper non-empty prefix holds more x than y. -/
def BalancedAt (text : Bytes) (e x y s k : Nat) : Prop :=
  0 < k ∧ utf8_next_iter text e (k - 1) s < e ∧ char_at text e s 0 = x
    ∧ balance text e x y s k = 0 ∧ ∀ j, 0 < j → j < k → 0 < balance text e x y s j

/-- The characters a, b, c stand at cursor s of the text: the three characters decoded from s
on start before the end of the text and are the codepoints 97, 98 and 99. -/
def abc_at (text : Bytes) (s : Nat) : Prop :=
  utf8_next_iter text text.length 2 s < text.length
    ∧ char_at text text.length s 0 = 97 ∧ char_at text text.length s 1 = 98
    ∧ char_at text text.length s 2 = 99

/-- The pattern ends with a '$' that the matcher reads as the end anchor: the last byte is '$'
(36); no character that ends directly before that byte decodes to the escape character '%'; and
that byte is not the second delimiter of a balanced item, that is, no escaped 'b' followed by
one character ends directly before it. -/
def EndAnchored (pat : Bytes) : Prop :=
  byteAt pat (pat.length - 1) = 36
  ∧ (∀ q, q < pat.length - 1 → q + (utf8_decode pat q pat.length).1 = pat.length - 1 →
      (utf8_decode pat q pat.length).2 ≠ L_ESC)
  ∧ (∀ q, q < pat.length - 1 → (utf8_decode pat q pat.length).2 = L_ESC →
      (utf8_decode pat (q + 1) pat.length).2 = 98 →
      q + ((utf8_decode pat (q + 1) pat.length).1 + 1)
        + (utf8_decode pat (q + ((utf8_decode pat (q + 1) pat.length).1 + 1)) pat.length).1
        ≠ pat.length - 1)

/-- A result of a matcher function that, when it is a match, ends at the cursor E. -/
def EndsAt (E : Nat) (res : MRes) : Prop :=
  ∀ e ms1, res = Except.ok (some e, ms1) → e = E

/-- Predicate EndsAt for every call of the matcher function f at a pattern offset up to T, in a
state whose pattern ends at PE and whose text ends at E. -/
def AnchoredMatcher (PE E T : Nat) (f : MatchStateUTF8 → Nat → Nat → MRes) : Prop :=
  ∀ ms s p, ms.p_end = PE → ms.src_end = E → p ≤ T → EndsAt E (f ms s p)

/-- A result of a matcher function that is not the error "pattern too complex". -/
def WithinBudget (res : MRes) : Prop := res ≠ Except.error PatErr.patternTooComplex

/-- Predicate WithinBudget for every call of the matcher function f in a state with depth
budget D, at a pattern offset from lo to the end PE of the pattern. -/
def MatcherWithinBudget (D PE lo : Nat) (f : MatchStateUTF8 → Nat → Nat → MRes) : Prop :=
  ∀ ms s p, ms.matchdepth = D → ms.p_end = PE → lo ≤ p → p ≤ PE → WithinBudget (f ms s p)

/-- Two match states that the matcher cannot tell apart: the same frame, the same capture level,
capture arrays of the same length and the same content in every slot below the level. -/
def StateAgree (ms ms' : MatchStateUTF8) : Prop := SameFrame ms ms' ∧ CapturesKept ms ms'

/-- Two results of a matcher function that agree: the same error, or the same returned cursor
(or no match) with states that agree. -/
def ResAgree (res res' : MRes) : Prop :=
  match res, res' with
  | Except.error e, Except.error e' => e = e'
  | Except.ok (r, m), Except.ok (r', m') => r = r' ∧ StateAgree m m'
  | _, _ => False

/-- A matcher function that gives agreeing results on agreeing states. -/
def MatcherSim (f : MatchStateUTF8 → Nat → Nat → MRes) : Prop :=
  ∀ ms ms' s p, StateAgree ms ms' → ResAgree (f ms s p) (f ms' s p)

/-- The j-th codepoint boundary at or after the cursor at which find_aux starts its search for
the start ordinal idx: j applications of next to that cursor, in the whole text. -/
def find_boundary (text : Bytes) (idx : Int) (j : Nat) : Nat :=
  utf8_next_iter text text.length j (find_init text idx)

/-! # Properties -/

/-! ## Bit-level facts -/

theorem land_mod_two_pow (x m k : Nat) (hm : m < 2 ^ k) : x &&& m = (x % 2 ^ k) &&& m := by
  apply Nat.eq_of_testBit_eq
  intro i
  simp only [Nat.testBit_and, Nat.testBit_mod_two_pow]
  by_cases h : i < k
  · simp [h]
  · have : m.testBit i = false :=
      Nat.testBit_lt_two_pow (lt_of_lt_of_le hm (Nat.pow_le_pow_right (by decide) (by omega)))
    simp [this]

theorem shl_or (q r k : Nat) (hr : r < 2 ^ k) : (q <<< k) ||| r = q * 2 ^ k + r := by
  rw [Nat.shiftLeft_eq, Nat.mul_comm, ← Nat.mul_add_lt_is_or hr]

theorem land_3F (x : Nat) : x &&& 0x3F = x % 64 := Nat.and_pow_two_sub_one_eq_mod x 6

theorem cont_byte (x : Nat) : ((x ||| 0x80) &&& 0xBF) = 0x80 + x % 64 := by
  rw [Nat.and_distrib_right, land_mod_two_pow x 0xBF 8 (by decide)]
  have h : ∀ y : Fin 256, ((y.val &&& 0xBF) ||| (0x80 &&& 0xBF)) = 0x80 + y.val % 64 := by decide!
  have := h ⟨x % 2 ^ 8, Nat.mod_lt _ (by decide)⟩
  simp only at this
  rw [this]
  omega

theorem cont_byte2 (x : Nat) : (0x80 ||| (x &&& 0x3F)) = 0x80 + x % 64 := by
  rw [land_3F]
  have h : ∀ y : Fin 64, (0x80 ||| y.val) = 0x80 + y.val := by decide!
  exact h ⟨x % 64, Nat.mod_lt _ (by decide)⟩

theorem lead2 (q : Nat) (h : q < 32) : (q ||| 0xC0) = 0xC0 + q := by
  have h' : ∀ y : Fin 32, (y.val ||| 0xC0) = 0xC0 + y.val := by decide!
  exact h' ⟨q, h⟩

theorem lead3 (q : Nat) (h : q < 16) : (q ||| 0xE0) = 0xE0 + q := by
  have h' : ∀ y : Fin 16, (y.val ||| 0xE0) = 0xE0 + y.val := by decide!
  exact h' ⟨q, h⟩

theorem utf8_encode_one (c : Nat) (h : c < 0x80) : utf8_encode c = [toByte c] := by
  simp [utf8_encode, h]

theorem utf8_encode_two (c : Nat) (h1 : 0x80 ≤ c) (h2 : c ≤ 0x7FF) :
    utf8_encode c = [toByte (0xC0 + c / 64), toByte (0x80 + c % 64)] := by
  have hq : c / 64 < 32 := by omega
  simp only [utf8_encode, show ¬ c < 0x80 by omega, h2, if_true, if_false, cont_byte,
    Nat.shiftRight_eq_div_pow]
  rw [show c / 2 ^ 6 = c / 64 by norm_num, lead2 _ hq]

theorem utf8_encode_three (c : Nat) (h1 : 0x800 ≤ c) (h2 : c ≤ 0xFFFF) :
    utf8_encode c = [toByte (0xE0 + c / 4096), toByte (0x80 + c / 64 % 64),
      toByte (0x80 + c % 64)] := by
  have hq : c / 4096 < 16 := by omega
  simp only [utf8_encode, show ¬ c < 0x80 by omega, show ¬ c ≤ 0x7FF by omega, h2,
    if_true, if_false, cont_byte, Nat.shiftRight_eq_div_pow]
  rw [show c / 2 ^ 12 = c / 4096 by norm_num, show c / 2 ^ 6 = c / 64 by norm_num,
    lead3 _ hq]

theorem utf8_encode_four (c : Nat) (h1 : 0x10000 ≤ c) (h2 : c ≤ 0x1FFFFF) :
    utf8_encode c = [toByte (0xF0 + c / 262144), toByte (0x80 + c / 4096 % 64),
      toByte (0x80 + c / 64 % 64), toByte (0x80 + c % 64)] := by
  have hq : c / 262144 < 8 := by omega
  have e1 : c >>> 6 = c / 64 := by rw [Nat.shiftRight_eq_div_pow]
  have e2 : (c / 64) >>> 6 = c / 4096 := by rw [Nat.shiftRight_eq_div_pow]; omega
  have e3 : (c / 4096) >>> 6 = c / 262144 := by rw [Nat.shiftRight_eq_div_pow]; omega
  have l : ∀ y : Fin 8, ((((0xFFFFFFFF - (0x3F >>> 1 >>> 1 >>> 1)) <<< 1) % 2 ^ 32) ||| y.val) % 256
      = 0xF0 + y.val := by decide!
  have l' := l ⟨c / 262144, hq⟩
  simp only at l'
  simp only [utf8_encode, show ¬ c < 0x80 by omega, show ¬ c ≤ 0x7FF by omega,
    show ¬ c ≤ 0xFFFF by omega, if_false, utf8_encode_loop, cont_byte2, e1, e2, e3]
  rw [if_pos (by norm_num; omega), if_pos (by norm_num; omega), if_neg (by norm_num; omega)]
  congr 1
  apply Fin.ext
  simp only [toByte]
  rw [l']
  omega

theorem byteAt_append_right (pre l : Bytes) (i : Nat) :
    byteAt (pre ++ l) (pre.length + i) = byteAt l i := by
  simp [byteAt, List.getElem?_append_right]

theorem byteAt_append_len (pre l : Bytes) : byteAt (pre ++ l) pre.length = byteAt l 0 := by
  simpa using byteAt_append_right pre l 0

@[simp] theorem byteAt_cons_zero (x : Byte) (l : Bytes) : byteAt (x :: l) 0 = x.val := by
  simp [byteAt]

@[simp] theorem byteAt_cons_succ (x : Byte) (l : Bytes) (i : Nat) :
    byteAt (x :: l) (i + 1) = byteAt l i := by
  simp [byteAt]

theorem toByte_val (x : Nat) (h : x < 256) : (toByte x).val = x := by
  simp [toByte]; omega

theorem is_cont (r : Nat) (h : r < 64) : (0x80 + r) &&& 0xC0 = 0x80 := by
  have h' : ∀ y : Fin 64, (0x80 + y.val) &&& 0xC0 = 0x80 := by decide!
  exact h' ⟨r, h⟩

theorem cont_low (r : Nat) (h : r < 64) : (0x80 + r) &&& 0x3F = r := by
  rw [land_3F]; omega

theorem lead2_low (q : Nat) (h : q < 32) : (0xC0 + q) &&& 0x1F = q := by
  have h' : ∀ y : Fin 32, (0xC0 + y.val) &&& 0x1F = y.val := by decide!
  exact h' ⟨q, h⟩

theorem lead3_low (q : Nat) (h : q < 16) : (0xE0 + q) &&& 0x0F = q := by
  have h' : ∀ y : Fin 16, (0xE0 + y.val) &&& 0x0F = y.val := by decide!
  exact h' ⟨q, h⟩

theorem utf8_decode_two (pre post : Bytes) (q r : Nat) (hq : q < 32) (hr : r < 64) :
    utf8_decode (pre ++ toByte (0xC0 + q) :: toByte (0x80 + r) :: post) pre.length
      (pre.length + 2) = (2, q * 64 + r) := by
  have h0 : (toByte (0xC0 + q)).val = 0xC0 + q := toByte_val _ (by omega)
  have h1 : (toByte (0x80 + r)).val = 0x80 + r := toByte_val _ (by omega)
  simp only [utf8_decode, byteAt_append_len, byteAt_append_right, byteAt_cons_zero,
    byteAt_cons_succ, h0, h1, is_cont r hr, cont_low r hr, lead2_low q hq]
  rw [if_neg (by omega), if_neg (by omega), if_pos (by omega), if_neg (by omega),
    shl_or q r 6 (by omega)]
  norm_num

theorem utf8_decode_three (pre post : Bytes) (q r1 r2 : Nat) (hq : q < 16) (h1 : r1 < 64)
    (h2 : r2 < 64) :
    utf8_decode (pre ++ toByte (0xE0 + q) :: toByte (0x80 + r1) :: toByte (0x80 + r2) :: post)
      pre.length (pre.length + 3) = (3, q * 4096 + r1 * 64 + r2) := by
  have e0 : (toByte (0xE0 + q)).val = 0xE0 + q := toByte_val _ (by omega)
  have e1 : (toByte (0x80 + r1)).val = 0x80 + r1 := toByte_val _ (by omega)
  have e2 : (toByte (0x80 + r2)).val = 0x80 + r2 := toByte_val _ (by omega)
  simp only [utf8_decode, byteAt_append_len, byteAt_append_right, byteAt_cons_zero,
    byteAt_cons_succ, e0, e1, e2, is_cont _ h1, is_cont _ h2, cont_low _ h1, cont_low _ h2,
    lead3_low q hq]
  rw [if_neg (by omega), if_neg (by omega), if_neg (by omega), if_pos (by omega),
    if_neg (by omega)]
  have a : (q <<< 12) ||| (r1 <<< 6) = (q * 64 + r1) <<< 6 := by
    rw [Nat.shiftLeft_eq r1, shl_or q (r1 * 2 ^ 6) 12 (by omega), Nat.shiftLeft_eq]
    ring
  rw [a, shl_or _ r2 6 (by omega)]
  congr 1
  ring

theorem utf8_decode_four (pre post : Bytes) (q r1 r2 r3 : Nat) (hq : q < 8) (h1 : r1 < 64)
    (h2 : r2 < 64) (h3 : r3 < 64) :
    utf8_decode (pre ++ toByte (0xF0 + q) :: toByte (0x80 + r1) :: toByte (0x80 + r2)
        :: toByte (0x80 + r3) :: post)
      pre.length (pre.length + 4) = (4, q * 262144 + r1 * 4096 + r2 * 64 + r3) := by
  have e0 : (toByte (0xF0 + q)).val = 0xF0 + q := toByte_val _ (by omega)
  have e1 : (toByte (0x80 + r1)).val = 0x80 + r1 := toByte_val _ (by omega)
  have e2 : (toByte (0x80 + r2)).val = 0x80 + r2 := toByte_val _ (by omega)
  have e3 : (toByte (0x80 + r3)).val = 0x80 + r3 := toByte_val _ (by omega)
  have l : ∀ y : Fin 8, ((0xF0 + y.val) &&& 0x40 ≠ 0) ∧
      ((((0xF0 + y.val) <<< 1) % 2 ^ 32) &&& 0x40 ≠ 0) ∧
      ((((((0xF0 + y.val) <<< 1) % 2 ^ 32) <<< 1) % 2 ^ 32) &&& 0x40 ≠ 0) ∧
      ((((((((0xF0 + y.val) <<< 1) % 2 ^ 32) <<< 1) % 2 ^ 32) <<< 1) % 2 ^ 32) &&& 0x40 = 0) ∧
      (((((((((0xF0 + y.val) <<< 1) % 2 ^ 32) <<< 1) % 2 ^ 32) <<< 1) % 2 ^ 32) &&& 0x7F)
        <<< (3 * 5)) % 2 ^ 32 = y.val * 262144 := by decide!
  obtain ⟨l0, l1, l2, l3, l4⟩ := l ⟨q, hq⟩
  simp only at l0 l1 l2 l3 l4
  simp only [utf8_decode, utf8_decode_loop, byteAt_append_len, byteAt_append_right,
    byteAt_cons_zero, byteAt_cons_succ, e0, e1, e2, e3, is_cont _ h1, is_cont _ h2,
    is_cont _ h3, cont_low _ h1, cont_low _ h2, cont_low _ h3]
  rw [if_neg (by omega), if_neg (by omega), if_neg (by omega), if_neg (by omega)]
  simp only [l0, l1, l2, l3, l4, ne_eq, not_true_eq_false, not_false_eq_true, if_true, if_false,
    Nat.zero_shiftLeft, Nat.zero_mod, Nat.zero_or, Nat.zero_add]
  rw [if_neg (by omega)]
  have a1 : r1 <<< 6 % 2 ^ 32 = r1 * 64 := by rw [Nat.shiftLeft_eq]; omega
  have a2 : (r1 * 64 ||| r2) = r1 * 64 + r2 := by
    have := shl_or r1 r2 6 (by omega)
    rw [Nat.shiftLeft_eq] at this
    simpa using this
  have a3 : (r1 * 64 + r2) <<< 6 % 2 ^ 32 = (r1 * 64 + r2) * 64 := by
    rw [Nat.shiftLeft_eq]; omega
  have a4 : ((r1 * 64 + r2) * 64 ||| r3) = (r1 * 64 + r2) * 64 + r3 := by
    have := shl_or (r1 * 64 + r2) r3 6 (by omega)
    rw [Nat.shiftLeft_eq] at this
    simpa using this
  have a5 : ((r1 * 64 + r2) * 64 + r3 ||| q * 262144)
      = q * 262144 + ((r1 * 64 + r2) * 64 + r3) := by
    have := shl_or q ((r1 * 64 + r2) * 64 + r3) 18 (by omega)
    rw [Nat.shiftLeft_eq] at this
    rw [Nat.or_comm]
    simpa using this
  rw [a1, a2, a3, a4, a5, Prod.mk.injEq]
  exact ⟨by norm_num, by ring⟩

theorem utf8_decode_one (pre post : Bytes) (c : Nat) (h : c < 0x80) :
    utf8_decode (pre ++ toByte c :: post) pre.length (pre.length + 1) = (1, c) := by
  have e0 : (toByte c).val = c := toByte_val _ (by omega)
  simp only [utf8_decode, byteAt_append_len, byteAt_cons_zero, e0]
  rw [if_neg (by omega), if_pos (by omega)]

theorem utf8_decode_encode (pre post : Bytes) (c : Nat) (hc : c ≤ 0x10FFFF) :
    utf8_decode (pre ++ utf8_encode c ++ post) pre.length
      (pre.length + (utf8_encode c).length) = ((utf8_encode c).length, c) := by
  rw [List.append_assoc]
  by_cases h1 : c < 0x80
  · rw [utf8_encode_one c h1]
    exact utf8_decode_one pre post c h1
  by_cases h2 : c ≤ 0x7FF
  · rw [utf8_encode_two c (by omega) h2]
    have := utf8_decode_two pre post (c / 64) (c % 64) (by omega) (by omega)
    simp only [List.cons_append, List.nil_append, List.length_cons, List.length_nil]
    rw [this]
    congr 1
    omega
  by_cases h3 : c ≤ 0xFFFF
  · rw [utf8_encode_three c (by omega) h3]
    have := utf8_decode_three pre post (c / 4096) (c / 64 % 64) (c % 64) (by omega) (by omega)
      (by omega)
    simp only [List.cons_append, List.nil_append, List.length_cons, List.length_nil]
    rw [this]
    congr 1
    omega
  · rw [utf8_encode_four c (by omega) (by omega)]
    have := utf8_decode_four pre post (c / 262144) (c / 4096 % 64) (c / 64 % 64) (c % 64)
      (by omega) (by omega) (by omega) (by omega)
    simp only [List.cons_append, List.nil_append, List.length_cons, List.length_nil]
    rw [this]
    congr 1
    omega

/-! ## Codec, plain search and substitution claims -/

/-- C1: for every codepoint `c` in 0..0x10FFFF that is not a surrogate, the
bytes written by `utf8_encode c`, placed anywhere in a buffer, are decoded by
the lenient `utf8_decode` (with `e = s + encoded length`) to the codepoint `c`
with a consumed-byte count equal to the encoded length. -/
theorem C1_encode_decode_roundtrip (pre post : Bytes) (c : Nat) (hc : c ≤ 0x10FFFF)
    (_hs : ¬ (0xD800 ≤ c ∧ c ≤ 0xDFFF)) :
    utf8_decode (pre ++ utf8_encode c ++ post) pre.length
      (pre.length + (utf8_encode c).length) = ((utf8_encode c).length, c) :=
  utf8_decode_encode pre post c hc

/-- C1 at the codepoint U+20AC, encoded as `E2 82 AC`, between other bytes. -/
theorem C1_encode_decode_roundtrip_witness :
    (0x20AC ≤ 0x10FFFF ∧ ¬ (0xD800 ≤ 0x20AC ∧ 0x20AC ≤ 0xDFFF)) ∧
    utf8_encode 0x20AC = [0xE2, 0x82, 0xAC] ∧
    utf8_decode ([0x41] ++ utf8_encode 0x20AC ++ [0x42]) ([0x41] : Bytes).length
      (([0x41] : Bytes).length + (utf8_encode 0x20AC).length)
      = ((utf8_encode 0x20AC).length, 0x20AC) :=
  ⟨by decide, by decide,
    C1_encode_decode_roundtrip [0x41] [0x42] 0x20AC (by decide) (by decide)⟩

/-- C2, evaluated at a failing input: on the bytes `F0 80 41` the second
expected continuation byte `41` is not of the form `10xxxxxx`; `utf8_decode`
reports 1 byte consumed but the pseudo-codepoint `0x1E0`, the lead byte
shifted left once by the loop, and not the value `0xF0` of the byte at the
cursor.  The two- and three-byte paths do return the unmodified byte. -/
theorem C2_fallback_returns_shifted_lead :
    utf8_decode [0xF0, 0x80, 0x41] 0 3 = (1, 0x1E0) ∧
    byteAt [0xF0, 0x80, 0x41] 0 = 0xF0 ∧
    utf8_decode [0xE2, 0x82, 0x41] 0 3 = (1, 0xE2) ∧
    utf8_decode [0xC3, 0x41] 0 2 = (1, 0xC3) := by
  decide

/-- C3, evaluated at a failing input.  Text `C2 80 41 80` has its codepoint
boundaries at byte offsets 0, 2 and 3 (ordinals 1, 2, 3); the pattern byte
`80` occurs at offset 1 (inside the first character) and at offset 3, so the
first boundary-aligned occurrence is at ordinal 3, and the claim asks for
`(3, 3)`.  After the misaligned hit `find_aux` resumes one character too far
with an ordinal one too small, and plain `find` returns `(2, 2)`.  On text
`C2 80 80` the aligned occurrence at ordinal 2 is skipped and `nil` is
returned.  On the well-formed example of the spec (text "xxabcxx", pattern
"abc") the result is `(3, 5)`. -/
theorem C3_plain_find_after_misaligned_hit (U : UniData) :
    (utf8_index [0xC2, 0x80, 0x41, 0x80] 0 4 1 = 0 ∧
     utf8_index [0xC2, 0x80, 0x41, 0x80] 0 4 2 = 2 ∧
     utf8_index [0xC2, 0x80, 0x41, 0x80] 0 4 3 = 3) ∧
    (slice [0xC2, 0x80, 0x41, 0x80] 0 1 ≠ [0x80] ∧
     slice [0xC2, 0x80, 0x41, 0x80] 2 1 ≠ [0x80] ∧
     slice [0xC2, 0x80, 0x41, 0x80] 3 1 = [0x80]) ∧
    Lutf8_find U [0xC2, 0x80, 0x41, 0x80] [0x80] 1 true
      = Except.ok (some [LuaVal.int 2, LuaVal.int 2]) ∧
    (utf8_index [0xC2, 0x80, 0x80] 0 3 2 = 2 ∧ slice [0xC2, 0x80, 0x80] 2 1 = [0x80]) ∧
    Lutf8_find U [0xC2, 0x80, 0x80] [0x80] 1 true = Except.ok none ∧
    Lutf8_find U [120, 120, 97, 98, 99, 120, 120] [97, 98, 99] 1 true
      = Except.ok (some [LuaVal.int 3, LuaVal.int 5]) :=
  ⟨by decide, by decide, rfl, by decide, rfl, rfl⟩

/-- C4, evaluated at failing inputs.  On text "abc" (bytes 97 98 99) with
pattern "." the start argument 0 makes the match begin at byte offset 0, the
first character (ordinal 1), yet `find` returns the pair `(0, 0)`; with start
-10, beyond the length of the text, it returns `(-6, -6)`: the start
argument is pushed as the start ordinal without being clamped to 1.  The
plain path returns `(0, 0)` as well. -/
theorem C4_find_start_ordinal_not_clamped (U : UniData) :
    utf8_index [97, 98, 99] 0 3 0 = 0 ∧
    Lutf8_find U [97, 98, 99] [46] 0 false
      = Except.ok (some [LuaVal.int 0, LuaVal.int 0]) ∧
    Lutf8_find U [97, 98, 99] [46] (-10) false
      = Except.ok (some [LuaVal.int (-6), LuaVal.int (-6)]) ∧
    Lutf8_find U [97, 98, 99] [97] 0 true
      = Except.ok (some [LuaVal.int 0, LuaVal.int 0]) :=
  ⟨by decide, rfl, rfl, rfl⟩

/-- C6 as stated fails: with text "hello world", pattern "o", template "0"
and the fourth argument -1, the loop `while (n < max_s)` of `Lutf8_gsub` is
not entered; the text comes back unchanged with the count 0. -/
theorem C6_gsub_max_minus_one_counterexample :
    Lutf8_gsub ascii_tables [104, 101, 108, 108, 111, 32, 119, 111, 114, 108, 100] [111]
      (Repl.template [48]) (some (-1))
      = Except.ok ([104, 101, 108, 108, 111, 32, 119, 111, 114, 108, 100], 0) ∧
    ¬ (Lutf8_gsub ascii_tables [104, 101, 108, 108, 111, 32, 119, 111, 114, 108, 100] [111]
      (Repl.template [48]) (some (-1))
      = Except.ok ([104, 101, 108, 108, 48, 32, 119, 48, 114, 108, 100], 2)) := by
  have h : Lutf8_gsub ascii_tables [104, 101, 108, 108, 111, 32, 119, 111, 114, 108, 100]
      [111] (Repl.template [48]) (some (-1))
      = Except.ok ([104, 101, 108, 108, 111, 32, 119, 111, 114, 108, 100], 0) := rfl
  refine ⟨h, ?_⟩
  rw [h]
  intro h2
  injection h2 with h3
  injection h3 with h4 h5
  exact absurd h5 (by decide)

/-- C6 as amended: `Lutf8_gsub` applied to text "hello world", pattern "o" and
template "0" with the fourth argument omitted (it defaults to the byte length
of the text plus 1), or with the fourth argument 2, returns the rebuilt text
"hell0 w0rld" and the count 2, whatever the Unicode tables. -/
theorem C6_gsub_hello_world (U : UniData) :
    Lutf8_gsub U [104, 101, 108, 108, 111, 32, 119, 111, 114, 108, 100] [111]
      (Repl.template [48]) none
      = Except.ok ([104, 101, 108, 108, 48, 32, 119, 48, 114, 108, 100], 2) ∧
    Lutf8_gsub U [104, 101, 108, 108, 111, 32, 119, 111, 114, 108, 100] [111]
      (Repl.template [48]) (some 2)
      = Except.ok ([104, 101, 108, 108, 48, 32, 119, 48, 114, 108, 100], 2) :=
  ⟨rfl, rfl⟩

/-! ## The capture invariant of the matcher -/

theorem utf8_next_ge (b : Bytes) (s e : Nat) : s ≤ utf8_next b s e := by
  simp [utf8_next]

theorem utf8_prev_loop_ge (b : Bytes) (s : Nat) (n look : Nat) :
    s ≤ utf8_prev_loop b s n look := by
  induction n generalizing look with
  | zero => simp [utf8_prev_loop]
  | succ n ih =>
    simp only [utf8_prev_loop]
    split
    · split
      · assumption
      · split
        · exact Nat.le_refl _
        · exact ih _
    · exact Nat.le_refl _

theorem utf8_prev_ge (b : Bytes) (s e : Nat) : s ≤ utf8_prev b s e := by
  unfold utf8_prev
  split
  · exact Nat.le_refl _
  · exact utf8_prev_loop_ge b s e (e - 1)

theorem matchbracketclass_error (U : UniData) (pat : Bytes) (c p ec : Nat) (err : PatErr)
    (h : matchbracketclassUTF8 U pat c p ec = Except.error err) :
    err = PatErr.assertionFailed := by
  unfold matchbracketclassUTF8 at h
  split at h
  · injection h with h
    exact h.symm
  · split at h
    · cases h
    · cases h

theorem matchbracketclass_ok (U : UniData) (pat : Bytes) (c p ec : Nat)
    (h : byteAt pat p = 91) :
    matchbracketclassUTF8 U pat c p ec = Except.ok
      (if byteAt pat (p + 1) = 94 then matchbracket_loop U pat c ec false (ec + 1) (p + 2)
        else matchbracket_loop U pat c ec true (ec + 1) (p + 1)) := by
  unfold matchbracketclassUTF8
  rw [if_neg (not_not.mpr h)]
  split
  · rfl
  · rfl

theorem singlematch_error (U : UniData) (text pat : Bytes) (ms : MatchStateUTF8)
    (s p ep : Nat) (err : PatErr)
    (h : singlematchUTF8 U text pat ms s p ep = Except.error err) :
    err = PatErr.assertionFailed := by
  unfold singlematchUTF8 at h
  split at h
  · cases h
  · simp only at h
    split at h
    · cases h
    · split at h
      · cases h
      · split at h
        · exact matchbracketclass_error U pat _ _ _ err h
        · cases h

theorem singlematch_lt (U : UniData) (text pat : Bytes) (ms : MatchStateUTF8) (s p ep : Nat)
    (h : singlematchUTF8 U text pat ms s p ep = Except.ok true) : s < ms.src_end := by
  unfold singlematchUTF8 at h
  split at h
  · cases h
  · omega

theorem max_expand_count_error (U : UniData) (text pat : Bytes) (ms : MatchStateUTF8)
    (p ep : Nat) (err : PatErr) :
    ∀ n m, max_expand_count U text pat ms p ep n m = Except.error err →
      err = PatErr.assertionFailed := by
  intro n
  induction n with
  | zero => intro m h; cases h
  | succ n ih =>
    intro m h
    rw [max_expand_count] at h
    split at h
    · rename_i e heq
      injection h with h
      subst h
      exact singlematch_error U text pat ms m p ep _ heq
    · split at h
      · exact ih _ h
      · cases h

theorem max_expand_count_ge (U : UniData) (text pat : Bytes) (ms : MatchStateUTF8)
    (p ep n m r : Nat) (h : max_expand_count U text pat ms p ep n m = Except.ok r) :
    m ≤ r := by
  induction n generalizing m with
  | zero =>
    simp only [max_expand_count] at h
    injection h with h
    omega
  | succ n ih =>
    rw [max_expand_count] at h
    split at h
    · cases h
    · split at h
      · exact Nat.le_trans (utf8_next_ge _ _ _) (ih _ h)
      · injection h with h
        omega

theorem matchbalance_loop_ge (text : Bytes) (src_end b e n s cont r : Nat)
    (h : matchbalance_loop text src_end b e n s cont = some r) : s ≤ r := by
  induction n generalizing s cont with
  | zero => simp [matchbalance_loop] at h
  | succ n ih =>
    simp only [matchbalance_loop] at h
    split at h
    · split at h
      · split at h
        · simp at h; omega
        · have := ih _ _ h; omega
      · split at h
        · have := ih _ _ h; omega
        · have := ih _ _ h; omega
    · simp at h

theorem capture_to_close_loop_spec (ms : MatchStateUTF8) (n l : Nat)
    (h : capture_to_close_loop ms n = Except.ok l) :
    l < n ∧ (ms.cap l).len = CAP_UNFINISHED := by
  induction n with
  | zero => simp [capture_to_close_loop] at h
  | succ n ih =>
    simp only [capture_to_close_loop] at h
    split at h
    · simp at h; subst h; exact ⟨Nat.lt_succ_self _, by assumption⟩
    · have := ih h; exact ⟨Nat.lt_succ_of_lt this.1, this.2⟩

theorem cap_set (ms : MatchStateUTF8) (l i : Nat) (c : Capture) (cs : List Capture)
    (h : cs = ms.capture.set l c) (ms1 : MatchStateUTF8) (h1 : ms1.capture = cs) :
    ms1.cap i = if i = l ∧ l < ms.capture.length then c else ms.cap i := by
  subst h
  simp only [MatchStateUTF8.cap, h1, List.getD_eq_getElem?_getD, List.getElem?_set]
  by_cases hil : l = i
  · subst hil
    by_cases hl : l < ms.capture.length
    · simp [hl]
    · simp [hl]
      rw [List.getElem?_eq_none (by omega)]
      rfl
  · have : ¬ i = l := fun h => hil h.symm
    simp [hil, this]


theorem SameFrame_refl (ms : MatchStateUTF8) : SameFrame ms ms := ⟨rfl, rfl, rfl, rfl⟩

theorem SameFrame_trans {a b c : MatchStateUTF8} (h1 : SameFrame a b) (h2 : SameFrame b c) :
    SameFrame a c :=
  ⟨h2.1.trans h1.1, h2.2.1.trans h1.2.1, h2.2.2.1.trans h1.2.2.1, h2.2.2.2.trans h1.2.2.2⟩

theorem CapturesKept_refl (ms : MatchStateUTF8) : CapturesKept ms ms :=
  ⟨rfl, rfl, fun _ _ => rfl⟩

theorem CapturesKept_trans {a b c : MatchStateUTF8} (h1 : CapturesKept a b)
    (h2 : CapturesKept b c) : CapturesKept a c :=
  ⟨h2.1.trans h1.1, h2.2.1.trans h1.2.1,
    fun i hi => (h2.2.2 i (by rw [h1.1]; exact hi)).trans (h1.2.2 i hi)⟩

theorem CapInv_mono {s0 s s1 : Nat} {ms : MatchStateUTF8} (h : CapInv s0 ms s) (hs : s ≤ s1) :
    CapInv s0 ms s1 := by
  obtain ⟨h0, h1, h2, h3, h4⟩ := h
  refine ⟨Nat.le_trans h0 hs, h1, h2, ?_, h4⟩
  intro i hi
  obtain ⟨a, b, c⟩ := h3 i hi
  refine ⟨a, Nat.le_trans b hs, ?_⟩
  rcases c with c | c | c
  · exact Or.inl c
  · exact Or.inr (Or.inl c)
  · exact Or.inr (Or.inr ⟨c.1, by have := c.2; omega⟩)

theorem CapInv_of_kept {s0 s : Nat} {ms ms1 : MatchStateUTF8} (h : CapInv s0 ms s)
    (hk : CapturesKept ms ms1) : CapInv s0 ms1 s := by
  obtain ⟨h0, h1, h2, h3, h4⟩ := h
  obtain ⟨k1, k2, k3⟩ := hk
  refine ⟨h0, by rw [k1]; exact h1, by rw [k2]; exact h2, ?_, ?_⟩
  · intro i hi
    rw [k1] at hi
    rw [k3 i hi]
    exact h3 i hi
  · intro i j hij hj
    rw [k1] at hj
    rw [k3 i (by omega), k3 j hj]
    exact h4 i j hij hj

/-- A result is fine for `ms` at `s` when it is fine for a state `ms1` with the same
captures, at a cursor `s1` not before `s`. -/
theorem ResOk_of_kept {s0 s s1 : Nat} {ms ms1 : MatchStateUTF8} {res : MRes}
    (hf : SameFrame ms ms1) (hk : CapturesKept ms ms1) (hs : s ≤ s1)
    (h : ResOk s0 ms1 s1 res) : ResOk s0 ms s res := by
  intro r ms2 hres
  obtain ⟨a, b, c⟩ := h r ms2 hres
  refine ⟨SameFrame_trans hf a, fun hr => CapturesKept_trans hk (b hr), ?_⟩
  intro e he hinv
  obtain ⟨c1, c2⟩ := c e he (CapInv_of_kept (CapInv_mono hinv hs) hk)
  exact ⟨Nat.le_trans hs c1, c2⟩

theorem ResOk_mono {s0 s s1 : Nat} {ms : MatchStateUTF8} {res : MRes} (hs : s ≤ s1)
    (h : ResOk s0 ms s1 res) : ResOk s0 ms s res :=
  ResOk_of_kept (SameFrame_refl ms) (CapturesKept_refl ms) hs h

theorem ResOk_error {s0 s : Nat} {ms : MatchStateUTF8} (err : PatErr) :
    ResOk s0 ms s (Except.error err) := by
  intro r ms1 h
  cases h

theorem ResOk_fail {s0 s : Nat} {ms : MatchStateUTF8} :
    ResOk s0 ms s (Except.ok (none, ms)) := by
  intro r ms1 h
  injection h with h
  injection h with h1 h2
  subst h1 h2
  exact ⟨SameFrame_refl _, fun _ => CapturesKept_refl _, fun e he => by cases he⟩

theorem ResOk_found {s0 s e : Nat} {ms : MatchStateUTF8} (h : s ≤ e) :
    ResOk s0 ms s (Except.ok (some e, ms)) := by
  intro r ms1 hres
  injection hres with hres
  injection hres with h1 h2
  subst h1 h2
  refine ⟨SameFrame_refl _, fun hr => (by cases hr), ?_⟩
  intro e1 he hinv
  injection he with he
  subst he
  exact ⟨h, CapInv_mono hinv h⟩

theorem start_capture_ok {s0 : Nat} {rec : MatchStateUTF8 → Nat → Nat → MRes}
    (hrec : MatcherOk s0 rec) (ms : MatchStateUTF8) (s p : Nat) (what : Int)
    (hw : what = CAP_UNFINISHED ∨ what = CAP_POSITION) :
    ResOk s0 ms s (start_captureUTF8 rec ms s p what) := by
  intro r ms2 hres
  unfold start_captureUTF8 at hres
  simp only at hres
  split at hres
  · cases hres
  · rename_i hlev
    have hcap : ∀ (m : MatchStateUTF8) (i : Nat),
        m.capture = ms.capture.set ms.level ⟨s, what⟩ → i < ms.level → m.cap i = ms.cap i := by
      intro m i hm hi
      rw [cap_set ms ms.level i ⟨s, what⟩ _ rfl m hm, if_neg (by omega)]
    split at hres
    · cases hres
    · rename_i ms1 heq
      injection hres with hres
      injection hres with h1 h2
      subst h1 h2
      obtain ⟨a, b, _⟩ := hrec _ _ _ _ _ heq
      obtain ⟨b1, b2, b3⟩ := b rfl
      refine ⟨a, fun _ => ⟨?_, ?_, ?_⟩, fun e he => (by cases he)⟩
      · show ms1.level - 1 = ms.level
        rw [b1]; simp
      · show ms1.capture.length = ms.capture.length
        rw [b2]; simp
      · intro i hi
        show ms1.cap i = ms.cap i
        rw [b3 i (by show i < ms.level + 1; omega)]
        exact hcap _ i rfl hi
    · rename_i e1 ms1 heq
      injection hres with hres
      injection hres with h1 h2
      subst h1 h2
      obtain ⟨a, _, c⟩ := hrec _ _ _ _ _ heq
      refine ⟨a, fun hr => (by cases hr), ?_⟩
      intro e he hinv
      injection he with he
      subst he
      apply c e1 rfl
      obtain ⟨i0, i1, i2, i3, i4⟩ := hinv
      have hlen : ms.level < ms.capture.length := by
        rw [i2]; simp only [LUA_MAXCAPTURES] at hlev ⊢; omega
      have hnew : ∀ (m : MatchStateUTF8),
          m.capture = ms.capture.set ms.level ⟨s, what⟩ → m.cap ms.level = ⟨s, what⟩ := by
        intro m hm
        rw [cap_set ms ms.level ms.level ⟨s, what⟩ _ rfl m hm, if_pos ⟨rfl, hlen⟩]
      refine ⟨i0, ?_, ?_, ?_, ?_⟩
      · show ms.level + 1 ≤ LUA_MAXCAPTURES
        omega
      · show (ms.capture.set ms.level ⟨s, what⟩).length = LUA_MAXCAPTURES
        simp [i2]
      · intro i hi
        have hi' : i < ms.level + 1 := hi
        by_cases hil : i < ms.level
        · rw [hcap _ i rfl hil]; exact i3 i hil
        · have : i = ms.level := by omega
          subst this
          rw [hnew _ rfl]
          refine ⟨i0, Nat.le_refl _, ?_⟩
          rcases hw with hw | hw
          · exact Or.inl hw
          · exact Or.inr (Or.inl hw)
      · intro i j hij hj
        have hj' : j < ms.level + 1 := hj
        by_cases hjl : j < ms.level
        · rw [hcap _ i rfl (by omega), hcap _ j rfl hjl]; exact i4 i j hij hjl
        · have : j = ms.level := by omega
          subst this
          rw [hnew _ rfl]
          by_cases hil : i < ms.level
          · rw [hcap _ i rfl hil]; exact (i3 i hil).2.1
          · have : i = ms.level := by omega
            subst this
            rw [hnew _ rfl]

theorem cap_len_ne_zero_lt (ms : MatchStateUTF8) (l : Nat) (h : (ms.cap l).len ≠ 0) :
    l < ms.capture.length := by
  by_contra hl
  apply h
  simp only [MatchStateUTF8.cap, List.getD_eq_getElem?_getD]
  rw [List.getElem?_eq_none (by omega)]
  rfl

theorem end_capture_ok {s0 : Nat} {rec : MatchStateUTF8 → Nat → Nat → MRes}
    (hrec : MatcherOk s0 rec) (ms : MatchStateUTF8) (s p : Nat) :
    ResOk s0 ms s (end_captureUTF8 rec ms s p) := by
  intro r ms2 hres
  unfold end_captureUTF8 at hres
  split at hres
  · cases hres
  · rename_i l hl
    obtain ⟨hl1, hl2⟩ := capture_to_close_loop_spec ms ms.level l hl
    have hlen : l < ms.capture.length :=
      cap_len_ne_zero_lt ms l (by rw [hl2]; decide)
    simp only at hres
    have hcap : ∀ (m : MatchStateUTF8) (c : Capture) (i : Nat),
        m.capture = ms.capture.set l c → m.cap i = if i = l then c else ms.cap i := by
      intro m c i hm
      rw [cap_set ms l i c _ rfl m hm]
      by_cases h : i = l
      · simp [h, hlen]
      · simp [h]
    split at hres
    · cases hres
    · rename_i ms1 heq
      injection hres with hres
      injection hres with h1 h2
      subst h1 h2
      obtain ⟨a, b, _⟩ := hrec _ _ _ _ _ heq
      obtain ⟨b1, b2, b3⟩ := b rfl
      have hl' : l < ms1.capture.length := by rw [b2]; simpa using hlen
      refine ⟨a, fun _ => ⟨b1, ?_, ?_⟩, fun e he => (by cases he)⟩
      · show (ms1.capture.set l _).length = ms.capture.length
        rw [List.length_set, b2]; simp
      · intro i hi
        rw [cap_set ms1 l i _ _ rfl _ rfl]
        by_cases h : i = l
        · subst h
          rw [if_pos ⟨rfl, hl'⟩, b3 i hi, hcap _ _ i rfl, if_pos rfl]
          show (⟨(ms.cap i).init, CAP_UNFINISHED⟩ : Capture) = ms.cap i
          rw [← hl2]
        · rw [if_neg (fun hh => h hh.1), b3 i hi, hcap _ _ i rfl, if_neg h]
    · rename_i e1 ms1 heq
      injection hres with hres
      injection hres with h1 h2
      subst h1 h2
      obtain ⟨a, _, c⟩ := hrec _ _ _ _ _ heq
      refine ⟨a, fun hr => (by cases hr), ?_⟩
      intro e he hinv
      injection he with he
      subst he
      apply c e1 rfl
      obtain ⟨i0, i1, i2, i3, i4⟩ := hinv
      refine ⟨i0, i1, ?_, ?_, ?_⟩
      · show (ms.capture.set l _).length = LUA_MAXCAPTURES
        rw [List.length_set, i2]
      · intro i hi
        have hi' : i < ms.level := hi
        rw [hcap _ _ i rfl]
        by_cases h : i = l
        · subst h
          rw [if_pos rfl]
          obtain ⟨x, y, _⟩ := i3 i hi'
          refine ⟨x, y, Or.inr (Or.inr ⟨?_, ?_⟩)⟩
          · show (0 : Int) ≤ (s : Int) - ((ms.cap i).init : Int)
            omega
          · show ((ms.cap i).init : Int) + ((s : Int) - ((ms.cap i).init : Int)) ≤ (s : Int)
            omega
        · rw [if_neg h]; exact i3 i hi'
      · intro i j hij hj
        have hj' : j < ms.level := hj
        have e1 : ∀ k, k < ms.level →
            (if k = l then (⟨(ms.cap l).init, (s : Int) - ((ms.cap l).init : Int)⟩ : Capture)
              else ms.cap k).init = (ms.cap k).init := by
          intro k _
          by_cases h : k = l
          · subst h; simp
          · simp [h]
        rw [hcap _ _ i rfl, hcap _ _ j rfl, e1 i (by omega), e1 j hj']
        exact i4 i j hij hj'

theorem match_capture_ge (text : Bytes) (ms : MatchStateUTF8) (s l e : Nat)
    (h : match_captureUTF8 text ms s l = Except.ok (some e)) : s ≤ e := by
  unfold match_captureUTF8 at h
  split at h
  · cases h
  · simp only at h
    split at h
    · injection h with h
      injection h with h
      omega
    · cases h

theorem ResOk_of_failed {s0 s : Nat} {ms ms1 : MatchStateUTF8}
    {res : MRes} (h : ResOk s0 ms s res) (heq : res = Except.ok (none, ms1)) :
    SameFrame ms ms1 ∧ CapturesKept ms ms1 := by
  obtain ⟨a, b, _⟩ := h _ _ heq
  exact ⟨a, b rfl⟩

theorem ResOk_kept_result {s0 s : Nat} {ms ms1 : MatchStateUTF8}
    (hf : SameFrame ms ms1) (hk : CapturesKept ms ms1) :
    ResOk s0 ms s (Except.ok (none, ms1)) :=
  ResOk_of_kept hf hk (Nat.le_refl s) ResOk_fail

theorem ResOk_of_found {s0 s e : Nat} {ms ms1 : MatchStateUTF8}
    {res : MRes} (h : ResOk s0 ms s res) (heq : res = Except.ok (some e, ms1)) :
    ResOk s0 ms s (Except.ok (some e, ms1)) := by
  rw [← heq]; exact h

theorem ResOk_ite {s0 s : Nat} {ms : MatchStateUTF8} {c : Prop} [Decidable c] {a b : MRes}
    (ha : ResOk s0 ms s a) (hb : ResOk s0 ms s b) : ResOk s0 ms s (if c then a else b) := by
  split
  · exact ha
  · exact hb

theorem max_expand_back_ok {s0 : Nat} {rec : MatchStateUTF8 → Nat → Nat → MRes}
    (hrec : MatcherOk s0 rec) (text : Bytes) (s ep n : Nat) (ms : MatchStateUTF8) (m : Nat) :
    ResOk s0 ms s (max_expand_back rec text s ep n ms m) := by
  induction n generalizing ms m with
  | zero => exact ResOk_error _
  | succ n ih =>
    simp only [max_expand_back]
    split
    · rename_i hsm
      have h1 : ResOk s0 ms s (rec ms m (ep + 1)) := ResOk_mono hsm (hrec ms m (ep + 1))
      split
      · exact ResOk_error _
      · rename_i r ms1 heq
        exact ResOk_of_found h1 heq
      · rename_i ms1 heq
        obtain ⟨hf, hk⟩ := ResOk_of_failed h1 heq
        split
        · exact ResOk_kept_result hf hk
        · exact ResOk_of_kept hf hk (Nat.le_refl s) (ih ms1 _)
    · exact ResOk_fail

theorem max_expand_ok {s0 : Nat} {rec : MatchStateUTF8 → Nat → Nat → MRes}
    (hrec : MatcherOk s0 rec) (U : UniData) (text pat : Bytes) (ms : MatchStateUTF8)
    (s p ep : Nat) : ResOk s0 ms s (max_expandUTF8 rec U text pat ms s p ep) := by
  unfold max_expandUTF8
  split
  · exact ResOk_error _
  · exact max_expand_back_ok hrec text s ep _ ms _

theorem min_expand_loop_ok {s0 : Nat} {rec : MatchStateUTF8 → Nat → Nat → MRes}
    (hrec : MatcherOk s0 rec) (U : UniData) (text pat : Bytes) (p ep n : Nat)
    (ms : MatchStateUTF8) (s : Nat) :
    ResOk s0 ms s (min_expand_loop rec U text pat p ep n ms s) := by
  induction n generalizing ms s with
  | zero => exact ResOk_error _
  | succ n ih =>
    simp only [min_expand_loop]
    have h1 : ResOk s0 ms s (rec ms s (ep + 1)) := hrec ms s (ep + 1)
    split
    · exact ResOk_error _
    · rename_i r ms1 heq
      exact ResOk_of_found h1 heq
    · rename_i ms1 heq
      obtain ⟨hf, hk⟩ := ResOk_of_failed h1 heq
      split
      · exact ResOk_error _
      · split
        · exact ResOk_of_kept hf hk (utf8_next_ge _ _ _) (ih ms1 _)
        · exact ResOk_kept_result hf hk

theorem min_expand_ok {s0 : Nat} {rec : MatchStateUTF8 → Nat → Nat → MRes}
    (hrec : MatcherOk s0 rec) (U : UniData) (text pat : Bytes) (ms : MatchStateUTF8)
    (s p ep : Nat) : ResOk s0 ms s (min_expandUTF8 rec U text pat ms s p ep) := by
  unfold min_expandUTF8
  exact min_expand_loop_ok hrec U text pat p ep _ ms s

theorem match_default_ok {s0 : Nat} {rec again : MatchStateUTF8 → Nat → Nat → MRes}
    (hrec : MatcherOk s0 rec) (hagain : MatcherOk s0 again) (U : UniData)
    (text pat : Bytes) (ms : MatchStateUTF8) (s p : Nat) :
    ResOk s0 ms s (match_default U text pat rec again ms s p) := by
  unfold match_default
  split
  · exact ResOk_error _
  · rename_i ep _
    simp only
    split
    · exact ResOk_error _
    · split
      · split
        · exact hagain ms s (ep + 1)
        · exact ResOk_fail
      · split
        · have h1 : ResOk s0 ms s (rec ms (utf8_next text s ms.src_end)
              (utf8_next pat ep ms.p_end)) :=
            ResOk_mono (utf8_next_ge _ _ _) (hrec _ _ _)
          split
          · exact ResOk_error _
          · rename_i r ms1 heq
            exact ResOk_of_found h1 heq
          · rename_i ms1 heq
            obtain ⟨hf, hk⟩ := ResOk_of_failed h1 heq
            exact ResOk_of_kept hf hk (Nat.le_refl s) (hagain ms1 s _)
        · split
          · exact ResOk_mono (utf8_next_ge _ _ _) (max_expand_ok hrec U text pat ms _ p ep)
          · split
            · exact max_expand_ok hrec U text pat ms s p ep
            · split
              · exact min_expand_ok hrec U text pat ms s p ep
              · exact ResOk_mono (utf8_next_ge _ _ _) (hagain ms _ ep)

theorem matchbalance_ge (text pat : Bytes) (ms : MatchStateUTF8) (s p s1 p2 : Nat)
    (heq : matchbalanceUTF8 text pat ms s p = Except.ok (some s1, p2)) : s ≤ s1 := by
  unfold matchbalanceUTF8 at heq
  simp only at heq
  split at heq
  · cases heq
  · split at heq
    · cases heq
    · injection heq with heq
      injection heq with h1 h2
      have := matchbalance_loop_ge _ _ _ _ _ _ _ _ h1
      omega

theorem match_escape_ok {s0 : Nat} {rec again : MatchStateUTF8 → Nat → Nat → MRes}
    (hrec : MatcherOk s0 rec) (hagain : MatcherOk s0 again) (U : UniData)
    (text pat : Bytes) (ms : MatchStateUTF8) (s p : Nat) :
    ResOk s0 ms s (match_escape U text pat rec again ms s p) := by
  unfold match_escape
  simp only
  split
  · split
    · exact ResOk_error _
    · rename_i s1 p2 heq
      exact ResOk_mono (matchbalance_ge _ _ _ _ _ _ _ heq) (hagain ms s1 p2)
    · exact ResOk_fail
  · split
    · split
      · exact ResOk_error _
      · split
        · exact ResOk_error _
        · split
          · exact ResOk_error _
          · split
            · exact ResOk_fail
            · split
              · exact ResOk_error _
              · exact ResOk_ite (hagain ms s _) ResOk_fail
    · split
      · split
        · exact ResOk_error _
        · rename_i s1 heq
          exact ResOk_mono (match_capture_ge _ _ _ _ _ heq) (hagain ms s1 _)
        · exact ResOk_fail
      · exact match_default_ok hrec hagain U text pat ms s p

theorem match_init_ok {s0 : Nat} {rec : MatchStateUTF8 → Nat → Nat → MRes}
    (hrec : MatcherOk s0 rec) (U : UniData) (text pat : Bytes) (n : Nat) :
    MatcherOk s0 (match_init U text pat rec n) := by
  induction n with
  | zero => intro ms s p; exact ResOk_error _
  | succ n ih =>
    intro ms s p
    rw [match_init]
    split
    · simp only
      split
      · split
        · exact start_capture_ok hrec ms s _ _ (Or.inr rfl)
        · exact start_capture_ok hrec ms s _ _ (Or.inl rfl)
      · split
        · exact end_capture_ok hrec ms s _
        · split
          · split
            · exact ResOk_found (Nat.le_refl s)
            · exact ResOk_fail
          · split
            · exact match_escape_ok hrec ih U text pat ms s p
            · exact match_default_ok hrec ih U text pat ms s p
    · exact ResOk_found (Nat.le_refl s)

theorem matchUTF8_ok (s0 : Nat) (U : UniData) (text pat : Bytes) (fuel : Nat) :
    MatcherOk s0 (matchUTF8 U text pat fuel) := by
  induction fuel with
  | zero => intro ms s p; exact ResOk_error _
  | succ fuel ih =>
    intro ms s p
    simp only [matchUTF8]
    split
    · exact ResOk_error _
    · rename_i hd
      have h1 := match_init_ok ih U text pat (ms.p_end + 1)
        { ms with matchdepth := ms.matchdepth - 1 } s p
      unfold restore_depth
      split
      · exact ResOk_error _
      · rename_i r ms1 heq
        intro r2 ms2 hres
        injection hres with hres
        injection hres with e1 e2
        subst e1 e2
        obtain ⟨a, b, c⟩ := h1 _ _ heq
        refine ⟨⟨?_, a.2.1, a.2.2.1, a.2.2.2⟩, ?_, ?_⟩
        · show ms1.matchdepth + 1 = ms.matchdepth
          have : ms1.matchdepth = ms.matchdepth - 1 := a.1
          omega
        · intro hr
          exact b hr
        · intro e he hinv
          exact c e he hinv

theorem push_captures_loop_spec (text : Bytes) (ms : MatchStateUTF8) (s e n i : Nat)
    (vals : List LuaVal) (h : push_captures_loop text ms s e n i = Except.ok vals) :
    vals.length = n ∧ ∀ k, k < n → ∃ v, vals[k]? = some v ∧
      push_onecaptureUTF8 text ms ((i + k : Nat) : Int) s e = Except.ok v := by
  induction n generalizing i vals with
  | zero =>
    simp only [push_captures_loop] at h
    injection h with h
    subst h
    exact ⟨rfl, fun k hk => absurd hk (Nat.not_lt_zero k)⟩
  | succ n ih =>
    simp only [push_captures_loop] at h
    split at h
    · cases h
    · rename_i v hv
      split at h
      · cases h
      · rename_i vs hvs
        injection h with h
        subst h
        obtain ⟨h1, h2⟩ := ih (i + 1) vs hvs
        refine ⟨by simp [h1], ?_⟩
        intro k hk
        cases k with
        | zero => exact ⟨v, by simp, by simpa using hv⟩
        | succ k =>
          obtain ⟨w, hw1, hw2⟩ := h2 k (by omega)
          refine ⟨w, by simpa using hw1, ?_⟩
          rw [show i + (k + 1) = i + 1 + k by omega]
          exact hw2

theorem push_onecapture_finished (text : Bytes) (ms : MatchStateUTF8) (i s e : Nat) (v : LuaVal)
    (hi : i < ms.level) (h : push_onecaptureUTF8 text ms (i : Int) s e = Except.ok v) :
    (ms.cap i).len ≠ CAP_UNFINISHED := by
  unfold push_onecaptureUTF8 at h
  rw [if_neg (by omega)] at h
  simp only [Int.toNat_ofNat] at h
  intro hu
  rw [if_pos hu] at h
  cases h

theorem find_pattern_loop_some (U : UniData) (text pat : Bytes) (find anchor : Bool) (p n : Nat)
    (ms : MatchStateUTF8) (init : Nat) (idx : Int) (vals : List LuaVal)
    (hlen : ms.capture.length = LUA_MAXCAPTURES)
    (h : find_pattern_loop U text pat find anchor p n ms init idx = Except.ok (some vals)) :
    ∃ (ms0 ms1 : MatchStateUTF8) (start e : Nat) (a : Int) (caps : List LuaVal),
      ms0.capture.length = LUA_MAXCAPTURES ∧
      matchUTF8 U text pat (MAXCCALLS + 1) { ms0 with level := 0 } start p
        = Except.ok (some e, ms1) ∧
      push_capturesUTF8 text ms1 (if find then none else some start) (if find then 0 else e)
        = Except.ok caps ∧
      vals = (if find then
        LuaVal.int a :: LuaVal.int (a + (utf8_length text start e : Int) - 1) :: caps
        else caps) := by
  induction n generalizing ms init idx with
  | zero => simp [find_pattern_loop] at h
  | succ n ih =>
    simp only [find_pattern_loop] at h
    split at h
    · cases h
    · rename_i res ms1 heq
      refine ⟨ms, ms1, init, res, idx, ?_⟩
      cases find with
      | true =>
        simp only [if_true] at h
        split at h
        · cases h
        · rename_i caps hc
          injection h with h
          injection h with h
          exact ⟨caps, hlen, heq, by simpa using hc, by simp [← h]⟩
      | false =>
        simp only [Bool.false_eq_true, if_false] at h
        split at h
        · cases h
        · rename_i caps hc
          injection h with h
          injection h with h
          subst h
          exact ⟨caps, hlen, heq, by simpa using hc, by simp⟩
    · rename_i ms1 heq
      split at h
      · cases h
      · split at h
        · have hk := (matchUTF8_ok init U text pat (MAXCCALLS + 1) _ _ _ _ _ heq).2.1 rfl
          exact ih ms1 _ _ (by rw [hk.2.1]; exact hlen) h
        · cases h

theorem CapInv_initial (ms : MatchStateUTF8) (s : Nat)
    (hlen : ms.capture.length = LUA_MAXCAPTURES) : CapInv s { ms with level := 0 } s :=
  ⟨Nat.le_refl s, Nat.zero_le _, hlen, fun _ hi => absurd hi (Nat.not_lt_zero _),
    fun _ _ _ hj => absurd hj (Nat.not_lt_zero _)⟩

/-- C5: when `match`, or `find` on a pattern with special characters, returns
values (the match succeeded and every capture could be pushed), the values
come from a successful call of the matcher whose whole-match span is
`[start, e]` and at most 32 capture slots are in use; every slot below the
level is a position capture or is closed with a length `≥ 0` and lies inside
`[start, e]`; the slots are reported in order and in the order in which their
groups were opened (`init` is non-decreasing). -/
theorem C5_captures_of_successful_match (U : UniData) (text pat : Bytes) (idx : Int)
    (find : Bool) (vals : List LuaVal)
    (hpath : find = true → nospecials pat 0 pat.length = false)
    (h : find_aux U text pat idx false find = Except.ok (some vals)) :
    SuccessfulMatchCaptures U text pat find vals := by
  unfold find_aux at h
  simp only at h
  split at h
  · cases h
  · have hnp : ¬ (find = true ∧ (false = true ∨ nospecials pat 0 pat.length = true)) := by
      rintro ⟨hf, hn | hn⟩
      · cases hn
      · rw [hpath hf] at hn; cases hn
    rw [if_neg hnp] at h
    obtain ⟨ms0, ms, start, e, a, caps, hlen, hm, hp, hv⟩ :=
      find_pattern_loop_some U text pat find _ _ _ _ _ _ vals
        (by simp [initial_state]) h
    obtain ⟨hse, hinv⟩ := (matchUTF8_ok start U text pat (MAXCCALLS + 1) _ _ _ _ _ hm).2.2 e rfl
      (CapInv_initial ms0 start hlen)
    obtain ⟨_, i1, _, i3, i4⟩ := hinv
    refine ⟨ms0, ms, start, e, _, caps, hm, hp, ⟨a, hv⟩, hse, i1, ?_, i4⟩
    intro i hi
    obtain ⟨x, y, z⟩ := i3 i hi
    have hpush : ∃ v, caps[i]? = some v ∧
        push_onecaptureUTF8 text ms (i : Int) (if find then 0 else start)
          (if find then 0 else e) = Except.ok v := by
      unfold push_capturesUTF8 at hp
      simp only at hp
      have hl0 : ms.level ≠ 0 := by omega
      cases find
      · simp only [Bool.false_eq_true, if_false, Option.isSome_some, and_true, if_neg hl0,
          Option.getD_some] at hp ⊢
        obtain ⟨_, h2⟩ := push_captures_loop_spec _ _ _ _ _ _ _ hp
        obtain ⟨v, hv1, hv2⟩ := h2 i hi
        exact ⟨v, hv1, by simpa using hv2⟩
      · simp only [if_true, Option.isSome_none, Bool.false_eq_true, and_false, if_false,
          Option.getD_none] at hp ⊢
        obtain ⟨_, h2⟩ := push_captures_loop_spec _ _ _ _ _ _ _ hp
        obtain ⟨v, hv1, hv2⟩ := h2 i hi
        exact ⟨v, hv1, by simpa using hv2⟩
    have hfin : (ms.cap i).len ≠ CAP_UNFINISHED := by
      obtain ⟨v, _, hv2⟩ := hpush
      exact push_onecapture_finished text ms i _ _ v hi hv2
    refine ⟨?_, x, y, hpush⟩
    rcases z with z | z | z
    · exact absurd z hfin
    · exact Or.inl z
    · exact Or.inr z

/-- C5 on the example of the spec: text "12-34", pattern "(%d+)-(%d+)", with
0x30..0x39 the digits: `match` returns the captures "12" and "34", `find` the
span `(1, 5)` followed by them. -/
theorem C5_captures_of_successful_match_witness :
    (true = true → nospecials [40, 37, 100, 43, 41, 45, 40, 37, 100, 43, 41] 0
      ([40, 37, 100, 43, 41, 45, 40, 37, 100, 43, 41] : Bytes).length = false) ∧
    find_aux ascii_tables [49, 50, 45, 51, 52] [40, 37, 100, 43, 41, 45, 40, 37, 100, 43, 41] 1
      false true = Except.ok (some [LuaVal.int 1, LuaVal.int 5, LuaVal.str [49, 50],
        LuaVal.str [51, 52]]) ∧
    Lutf8_matchUTF8 ascii_tables [49, 50, 45, 51, 52]
      [40, 37, 100, 43, 41, 45, 40, 37, 100, 43, 41] 1
      = Except.ok (some [LuaVal.str [49, 50], LuaVal.str [51, 52]]) ∧
    SuccessfulMatchCaptures ascii_tables [49, 50, 45, 51, 52]
      [40, 37, 100, 43, 41, 45, 40, 37, 100, 43, 41] true
      [LuaVal.int 1, LuaVal.int 5, LuaVal.str [49, 50], LuaVal.str [51, 52]] :=
  ⟨fun _ => rfl, rfl, rfl,
    C5_captures_of_successful_match ascii_tables [49, 50, 45, 51, 52]
      [40, 37, 100, 43, 41, 45, 40, 37, 100, 43, 41] 1 true _ (fun _ => rfl) rfl⟩

theorem gmatch_position_succ (text : Bytes) (cursor k : Nat) :
    gmatch_position text (utf8_next text cursor text.length) k
      = gmatch_position text cursor (k + 1) := by
  simp [gmatch_position, Function.iterate_succ_apply]

theorem gmatch_position_ge (text : Bytes) (cursor k : Nat) :
    cursor ≤ gmatch_position text cursor k := by
  induction k generalizing cursor with
  | zero => simp [gmatch_position]
  | succ k ih =>
    rw [← gmatch_position_succ]
    exact Nat.le_trans (utf8_next_ge _ _ _) (ih _)

theorem utf8_decode_low (b : Bytes) (s e : Nat) (h : s < e) (hb : byteAt b s < 0xC0) :
    utf8_decode b s e = (1, byteAt b s) := by
  unfold utf8_decode
  rw [if_neg (by omega)]
  simp only
  rw [if_pos hb]

theorem byteAt_flatten_pair (x y : Byte) (n i : Nat) :
    byteAt (List.replicate n [x, y]).flatten i
      = if i < 2 * n then (if i % 2 = 0 then x.val else y.val) else 0 := by
  induction n generalizing i with
  | zero => simp [byteAt]
  | succ n ih =>
    rw [List.replicate_succ, List.flatten_cons]
    match i with
    | 0 => simp [byteAt]
    | 1 =>
      have : (1 : Nat) < 2 * (n + 1) := by omega
      simp [byteAt, this]
    | i + 2 =>
      have : byteAt ([x, y] ++ (List.replicate n [x, y]).flatten) (i + 2)
          = byteAt (List.replicate n [x, y]).flatten i := by
        simp [byteAt]
      rw [this, ih]
      have h2 : (i + 2) % 2 = i % 2 := by omega
      rw [h2]
      by_cases h : i < 2 * n
      · rw [if_pos h, if_pos (show i + 2 < 2 * (n + 1) by omega)]
      · rw [if_neg h, if_neg (show ¬ i + 2 < 2 * (n + 1) by omega)]

theorem length_flatten_pair (x y : Byte) (n : Nat) :
    (List.replicate n [x, y]).flatten.length = 2 * n := by
  induction n with
  | zero => rfl
  | succ n ih => rw [List.replicate_succ, List.flatten_cons, List.length_append, ih]; simp; omega

theorem byteAt_replicate (x : Byte) (n i : Nat) :
    byteAt (List.replicate n x) i = if i < n then x.val else 0 := by
  simp only [byteAt, List.get?_eq_getElem?, List.getElem?_replicate]
  by_cases h : i < n
  · simp [h]
  · simp [h]

/-- One step of `match_init` at an empty group `()`. -/
theorem match_init_position_capture (U : UniData) (text pat : Bytes)
    (rec : MatchStateUTF8 → Nat → Nat → MRes) (n : Nat) (ms : MatchStateUTF8) (s p : Nat)
    (hp : p < ms.p_end) (h0 : byteAt pat p = 40) (h1 : byteAt pat (p + 1) = 41) :
    match_init U text pat rec (n + 1) ms s p
      = start_captureUTF8 rec ms s (p + 2) CAP_POSITION := by
  rw [match_init, if_pos (by omega)]
  simp only [utf8_decode_low pat p ms.p_end hp (by rw [h0]; decide), h0, h1, if_true]

theorem matchUTF8_unfold (U : UniData) (text pat : Bytes) (fuel : Nat) (ms : MatchStateUTF8)
    (s p : Nat) (hd : ms.matchdepth ≠ 0) :
    matchUTF8 U text pat (fuel + 1) ms s p =
      restore_depth (match_init U text pat (matchUTF8 U text pat fuel) (ms.p_end + 1)
          { ms with matchdepth := ms.matchdepth - 1 } s p) := by
  rw [matchUTF8, if_neg hd]

theorem matchUTF8_at_end (U : UniData) (text pat : Bytes) (fuel : Nat) (ms : MatchStateUTF8)
    (s : Nat) (hd : ms.matchdepth ≠ 0) :
    matchUTF8 U text pat (fuel + 1) ms s ms.p_end = Except.ok (some s, ms) := by
  rw [matchUTF8_unfold U text pat fuel ms s _ hd, match_init]
  simp only [ne_eq, not_true_eq_false, if_false, restore_depth]
  congr 2
  obtain ⟨d, a, b, c, l, cs⟩ := ms
  simp only at hd ⊢
  congr 1
  omega

theorem match_empty_groups (U : UniData) (text : Bytes) (n : Nat) :
    ∀ (m k fuel : Nat) (ms : MatchStateUTF8) (s : Nat),
      k + m = n → ms.p_end = 2 * n → ms.capture.length = 32 → ms.level ≤ 32 →
      m < ms.matchdepth → ms.matchdepth < fuel →
      (ms.level + m ≤ 32 → ∃ ms1,
        matchUTF8 U text (empty_groups n) fuel ms s (2 * k) = Except.ok (some s, ms1) ∧
        ms1.level = ms.level + m ∧
        (∀ i, ms.level ≤ i → i < ms.level + m → ms1.cap i = ⟨s, CAP_POSITION⟩) ∧
        (∀ i, i < ms.level → ms1.cap i = ms.cap i) ∧
        ms1.src_init = ms.src_init ∧ ms1.src_end = ms.src_end) ∧
      (32 < ms.level + m →
        matchUTF8 U text (empty_groups n) fuel ms s (2 * k)
          = Except.error PatErr.tooManyCaptures) := by
  intro m
  induction m with
  | zero =>
    intro k fuel ms s hk hp hlen hlv hd hf
    obtain ⟨f, rfl⟩ : ∃ f, fuel = f + 1 := ⟨fuel - 1, by omega⟩
    have hkp : 2 * k = ms.p_end := by omega
    refine ⟨fun _ => ⟨ms, ?_, rfl, fun i h1 h2 => absurd h2 (by omega), fun _ _ => rfl, rfl, rfl⟩,
      fun h => absurd h (by omega)⟩
    rw [hkp]
    exact matchUTF8_at_end U text _ f ms s (by omega)
  | succ m ih =>
    intro k fuel ms s hk hp hlen hlv hd hf
    obtain ⟨f, rfl⟩ : ∃ f, fuel = f + 1 := ⟨fuel - 1, by omega⟩
    have hb0 : byteAt (empty_groups n) (2 * k) = 40 := by
      rw [empty_groups, byteAt_flatten_pair, if_pos (by omega), if_pos (by omega)]; rfl
    have hb1 : byteAt (empty_groups n) (2 * k + 1) = 41 := by
      rw [empty_groups, byteAt_flatten_pair, if_pos (by omega), if_neg (by omega)]; rfl
    rw [matchUTF8_unfold U text _ f ms s _ (by omega),
      match_init_position_capture U text _ _ _ _ s (2 * k) (by show 2 * k < ms.p_end; omega)
        hb0 hb1]
    unfold start_captureUTF8
    simp only
    by_cases hfull : ms.level ≥ LUA_MAXCAPTURES
    · rw [if_pos hfull]
      simp only [LUA_MAXCAPTURES] at hfull
      exact ⟨fun h => absurd h (by omega), fun _ => rfl⟩
    · rw [if_neg hfull]
      simp only [LUA_MAXCAPTURES, ge_iff_le, not_le] at hfull
      have hih := ih (k + 1) f
        { matchdepth := ms.matchdepth - 1, src_init := ms.src_init, src_end := ms.src_end,
          p_end := ms.p_end, level := ms.level + 1,
          capture := ms.capture.set ms.level ⟨s, CAP_POSITION⟩ } s (by omega) hp
        (by simp [hlen]) (by show ms.level + 1 ≤ 32; omega)
        (by show m < ms.matchdepth - 1; omega) (by show ms.matchdepth - 1 < f; omega)
      rw [show 2 * (k + 1) = 2 * k + 2 by omega] at hih
      constructor
      · intro hle
        obtain ⟨ms1, e1, e2, e3, e4, e5, e6⟩ := hih.1 (by show ms.level + 1 + m ≤ 32; omega)
        rw [e1]
        refine ⟨_, rfl, ?_, ?_, ?_, e5, e6⟩
        · show ms1.level = ms.level + (m + 1)
          rw [e2]; show ms.level + 1 + m = _; omega
        · intro i h1 h2
          show ms1.cap i = _
          by_cases hi : i = ms.level
          · subst hi
            rw [e4 _ (by show ms.level < ms.level + 1; omega)]
            rw [cap_set ms ms.level ms.level ⟨s, CAP_POSITION⟩ _ rfl _ rfl,
              if_pos ⟨rfl, by omega⟩]
          · exact e3 i (by show ms.level + 1 ≤ i; omega) (by show i < ms.level + 1 + m; omega)
        · intro i hi
          show ms1.cap i = _
          rw [e4 i (by show i < ms.level + 1; omega),
            cap_set ms ms.level i ⟨s, CAP_POSITION⟩ _ rfl _ rfl, if_neg (by omega)]
      · intro hgt
        rw [hih.2 (by show 32 < ms.level + 1 + m; omega)]
        rfl

theorem utf8_index_one (text : Bytes) (e : Nat) : utf8_index text 0 e 1 = 0 := by
  unfold utf8_index
  rw [if_pos (by decide)]
  show utf8_index_fwd text e (e + 1) 0 1 = 0
  rw [utf8_index_fwd, if_neg (fun h => absurd h.2 (by decide))]

theorem get_index_self (text : Bytes) (p e : Nat) : get_index text p p e = (p, 0) := by
  unfold get_index
  rw [show e - p + 1 = (e - p) + 1 by rfl, get_index_loop]
  split
  · rw [if_pos rfl]
  · rfl

theorem push_captures_positions (text : Bytes) (ms : MatchStateUTF8) (s e n i : Nat)
    (h : ∀ j, i ≤ j → j < i + n → j < ms.level ∧ ms.cap j = ⟨ms.src_init, CAP_POSITION⟩) :
    push_captures_loop text ms s e n i = Except.ok (List.replicate n (LuaVal.int 1)) := by
  induction n generalizing i with
  | zero => rfl
  | succ n ih =>
    obtain ⟨h1, h2⟩ := h i (Nat.le_refl i) (by omega)
    have hp : push_onecaptureUTF8 text ms (i : Int) s e = Except.ok (LuaVal.int 1) := by
      unfold push_onecaptureUTF8
      rw [if_neg (by omega)]
      simp only [Int.toNat_ofNat, h2]
      rw [if_neg (by decide), get_index_self]
      rfl
    rw [push_captures_loop, hp]
    simp only
    rw [ih (i + 1) (fun j hj1 hj2 => h j (by omega) (by omega))]
    rfl

theorem find_aux_pattern_from_start (U : UniData) (text pat : Bytes) (find : Bool)
    (hns : find = true → nospecials pat 0 pat.length = false) (ha : byteAt pat 0 ≠ 94) :
    find_aux U text pat 1 false find
      = find_pattern_loop U text pat find false 0 (text.length + 2) (initial_state text pat) 0 1 := by
  unfold find_aux
  simp only
  have hnp : ¬ (find = true ∧ (false = true ∨ nospecials pat 0 pat.length = true)) := by
    rintro ⟨hf, hn | hn⟩
    · cases hn
    · rw [hns hf] at hn; cases hn
  rw [if_neg (fun h => absurd h.2 (by omega)), if_neg hnp]
  have h1 : (if (1 : Int) < 0 then 1 + ((utf8_length text 0 text.length : Int) + 1) else 1) = 1 :=
    if_neg (by decide)
  rw [h1, utf8_index_one]
  simp [ha]

theorem find_empty_groups_33 (U : UniData) (text : Bytes) (find : Bool) :
    find_aux U text (empty_groups 33) 1 false find = Except.error PatErr.tooManyCaptures := by
  rw [find_aux_pattern_from_start U text _ find (fun _ => by decide) (by decide),
    find_pattern_loop]
  have h := (match_empty_groups U text 33 33 0 (MAXCCALLS + 1)
    { initial_state text (empty_groups 33) with level := 0 } 0 rfl rfl rfl
    (by show 0 ≤ 32; decide) (by show 33 < 200; decide) (by show 200 < 200 + 1; decide)).2
    (by show 32 < 0 + 33; decide)
  rw [show 2 * 0 = 0 by rfl] at h
  rw [h]

theorem find_empty_groups_32 (U : UniData) (text : Bytes) (find : Bool) :
    find_aux U text (empty_groups 32) 1 false find
      = Except.ok (some (if find then
          LuaVal.int 1 :: LuaVal.int 0 :: List.replicate 32 (LuaVal.int 1)
          else List.replicate 32 (LuaVal.int 1))) := by
  rw [find_aux_pattern_from_start U text _ find (fun _ => by decide) (by decide),
    find_pattern_loop]
  obtain ⟨ms1, e1, e2, e3, _, e5, _⟩ := (match_empty_groups U text 32 32 0 (MAXCCALLS + 1)
    { initial_state text (empty_groups 32) with level := 0 } 0 rfl rfl rfl
    (by show 0 ≤ 32; decide) (by show 32 < 200; decide) (by show 200 < 200 + 1; decide)).1
    (by show 0 + 32 ≤ 32; decide)
  rw [show 2 * 0 = 0 by rfl] at e1
  rw [e1]
  have hl : ms1.level = 32 := e2
  have hs : ms1.src_init = 0 := e5
  have hpush : ∀ s e, push_captures_loop text ms1 s e 32 0
      = Except.ok (List.replicate 32 (LuaVal.int 1)) := by
    intro s e
    apply push_captures_positions
    intro j hj1 hj2
    refine ⟨by omega, ?_⟩
    rw [e3 j (Nat.zero_le _) (by show j < 0 + 32; omega), hs]
  cases find
  · simp only [Bool.false_eq_true, if_false, push_capturesUTF8, hl, Option.isSome_some,
      and_true, OfNat.ofNat_ne_zero, Option.getD_some, hpush]
  · simp only [if_true, push_capturesUTF8, hl, Option.isSome_none, Bool.false_eq_true,
      and_false, if_false, Option.getD_none, hpush]
    rfl

/-- C9: the capture count never exceeds 32. (1) Every call of `matchUTF8` made
in a state whose captures are consistent (`CapInv`, which holds for the state
set up by every driver and is handed on to every nested call) returns a state
with `level ≤ 32`. (2) `start_captureUTF8`, the only function that raises the
level, raises "too many captures" when 32 captures are recorded, before it
writes a slot or calls the matcher. (3) For every text, `find` and `match`
with the pattern made of 33 empty groups `()` raise that error, and with the
pattern made of 32 of them they succeed with 32 position captures (all at
ordinal 1, `find` returning the empty span `(1, 0)` before them). -/
theorem C9_capture_limit (U : UniData) (text : Bytes) :
    (∀ (pat : Bytes) (fuel s0 : Nat) (ms : MatchStateUTF8) (s p : Nat) (r : Option Nat)
        (ms1 : MatchStateUTF8),
      CapInv s0 ms s → matchUTF8 U text pat fuel ms s p = Except.ok (r, ms1) →
      ms1.level ≤ LUA_MAXCAPTURES) ∧
    (∀ (rec : MatchStateUTF8 → Nat → Nat → MRes) (ms : MatchStateUTF8) (s p : Nat)
        (what : Int),
      ms.level ≥ LUA_MAXCAPTURES →
      start_captureUTF8 rec ms s p what = Except.error PatErr.tooManyCaptures) ∧
    (∀ find : Bool,
      find_aux U text (empty_groups 33) 1 false find
        = Except.error PatErr.tooManyCaptures) ∧
    (∀ find : Bool,
      find_aux U text (empty_groups 32) 1 false find
        = Except.ok (some (if find then
            LuaVal.int 1 :: LuaVal.int 0 :: List.replicate 32 (LuaVal.int 1)
            else List.replicate 32 (LuaVal.int 1)))) := by
  refine ⟨?_, ?_, find_empty_groups_33 U text, find_empty_groups_32 U text⟩
  · intro pat fuel s0 ms s p r ms1 hinv h
    obtain ⟨_, b, c⟩ := matchUTF8_ok s0 U text pat fuel ms s p r ms1 h
    cases r with
    | none => rw [(b rfl).1]; exact hinv.2.1
    | some e => exact (c e rfl hinv).2.2.1
  · intro rec ms s p what h
    unfold start_captureUTF8
    simp only
    rw [if_pos h]

/-- C9 at concrete inputs: the state of a driver for text "abc" and pattern
"()b()" is consistent, the matcher started at byte offset 1 succeeds with two
captures; and `start_captureUTF8` refuses a 33rd capture. -/
theorem C9_capture_limit_witness :
    CapInv 1 { initial_state [97, 98, 99] [40, 41, 98, 40, 41] with level := 0 } 1 ∧
    (∃ ms1, matchUTF8 ascii_tables [97, 98, 99] [40, 41, 98, 40, 41] (MAXCCALLS + 1)
        { initial_state [97, 98, 99] [40, 41, 98, 40, 41] with level := 0 } 1 0
        = Except.ok (some 2, ms1) ∧ ms1.level = 2 ∧ ms1.level ≤ LUA_MAXCAPTURES) ∧
    ({ initial_state [] [] with level := 32 } : MatchStateUTF8).level ≥ LUA_MAXCAPTURES ∧
    start_captureUTF8 (fun m _ _ => Except.ok (none, m))
      { initial_state [] [] with level := 32 } 0 0 CAP_POSITION
      = Except.error PatErr.tooManyCaptures :=
  ⟨CapInv_initial (initial_state [97, 98, 99] [40, 41, 98, 40, 41]) 1 rfl,
    ⟨_, rfl, rfl, (C9_capture_limit ascii_tables [97, 98, 99]).1 [40, 41, 98, 40, 41]
      (MAXCCALLS + 1) 1 _ 1 0 (some 2) _
      (CapInv_initial (initial_state [97, 98, 99] [40, 41, 98, 40, 41]) 1 rfl) rfl⟩,
    by decide,
    (C9_capture_limit ascii_tables []).2.1 _ _ 0 0 CAP_POSITION (by decide)⟩

/-- One step of `match_init` at an item `a?` of the pattern when the text has
the letter `a` at the cursor: the recursive call on the rest, and `goto init`
if it fails. -/
theorem match_init_optional_a (U : UniData) (text pat : Bytes)
    (rec : MatchStateUTF8 → Nat → Nat → MRes) (n : Nat) (ms : MatchStateUTF8) (s p : Nat)
    (hp : p + 1 < ms.p_end) (h0 : byteAt pat p = 97) (h1 : byteAt pat (p + 1) = 63)
    (hs : s < ms.src_end) (ht : byteAt text s = 97) :
    match_init U text pat rec (n + 1) ms s p =
      (match rec ms (s + 1) (p + 2) with
       | Except.error err => Except.error err
       | Except.ok (some r, ms1) => Except.ok (some r, ms1)
       | Except.ok (none, ms1) => match_init U text pat rec n ms1 s (p + 2)) := by
  have hd : utf8_decode pat p ms.p_end = (1, 97) := by
    rw [utf8_decode_low pat p ms.p_end (by omega) (by rw [h0]; decide), h0]
  have hd1 : utf8_decode pat (p + 1) ms.p_end = (1, 63) := by
    rw [utf8_decode_low pat (p + 1) ms.p_end hp (by rw [h1]; decide), h1]
  have hdt : utf8_decode text s ms.src_end = (1, 97) := by
    rw [utf8_decode_low text s ms.src_end hs (by rw [ht]; decide), ht]
  have hce : classendUTF8 pat ms p = Except.ok (p + 1) := by
    unfold classendUTF8
    simp only [hd]
    rw [if_neg (by decide), if_neg (by decide)]
  have hsm : singlematchUTF8 U text pat ms s p (p + 1) = Except.ok true := by
    unfold singlematchUTF8
    rw [if_neg (by omega)]
    simp only [hd, hdt]
    rw [if_neg (by decide), if_neg (by decide), if_neg (by decide)]
    rfl
  rw [match_init, if_pos (by omega)]
  simp only [hd]
  rw [if_neg (by decide), if_neg (by decide), if_neg (fun h => absurd h.1 (by decide)),
    if_neg (by decide)]
  unfold match_default
  simp only [hce, hsm, h1, utf8_next, hd1, hdt]
  simp only [not_true_eq_false, if_false, if_true]
  try rfl

theorem byteAt_optional_as_even (n k : Nat) (h : k < n) :
    byteAt (optional_as n) (2 * k) = 97 := by
  rw [optional_as, byteAt_flatten_pair, if_pos (by omega), if_pos (by omega)]; rfl

theorem byteAt_optional_as_odd (n k : Nat) (h : k < n) :
    byteAt (optional_as n) (2 * k + 1) = 63 := by
  rw [optional_as, byteAt_flatten_pair, if_pos (by omega), if_neg (by omega)]; rfl

theorem byteAt_letters_a (n k : Nat) (h : k < n) : byteAt (letters_a n) k = 97 := by
  rw [letters_a, byteAt_replicate, if_pos h]; rfl

theorem match_optional_as (U : UniData) (n : Nat) :
    ∀ (m k fuel : Nat) (ms : MatchStateUTF8),
      k + m = n → ms.p_end = 2 * n → ms.src_end = n → ms.matchdepth < fuel →
      (m < ms.matchdepth →
        matchUTF8 U (letters_a n) (optional_as n) fuel ms k (2 * k)
          = Except.ok (some n, ms)) ∧
      (ms.matchdepth ≤ m →
        matchUTF8 U (letters_a n) (optional_as n) fuel ms k (2 * k)
          = Except.error PatErr.patternTooComplex) := by
  intro m
  induction m with
  | zero =>
    intro k fuel ms hk hp hs hf
    obtain ⟨f, rfl⟩ : ∃ f, fuel = f + 1 := ⟨fuel - 1, by omega⟩
    have hkn : k = n := by omega
    subst hkn
    constructor
    · intro hd
      rw [← hp]
      exact matchUTF8_at_end U _ _ f ms k (by omega)
    · intro hd
      rw [matchUTF8, if_pos (by omega)]
  | succ m ih =>
    intro k fuel ms hk hp hs hf
    obtain ⟨f, rfl⟩ : ∃ f, fuel = f + 1 := ⟨fuel - 1, by omega⟩
    by_cases hd0 : ms.matchdepth = 0
    · exact ⟨fun h => absurd h (by omega), fun _ => by rw [matchUTF8, if_pos hd0]⟩
    · have hih := ih (k + 1) f { ms with matchdepth := ms.matchdepth - 1 } (by omega) hp hs
        (by show ms.matchdepth - 1 < f; omega)
      rw [show 2 * (k + 1) = 2 * k + 2 by omega] at hih
      rw [matchUTF8_unfold U _ _ f ms k _ hd0,
        match_init_optional_a U _ _ _ _ _ k (2 * k) (by show 2 * k + 1 < ms.p_end; omega)
          (byteAt_optional_as_even n k (by omega)) (byteAt_optional_as_odd n k (by omega))
          (by show k < ms.src_end; omega) (byteAt_letters_a n k (by omega))]
      constructor
      · intro hd
        rw [hih.1 (by show m < ms.matchdepth - 1; omega)]
        simp only [restore_depth]
        congr 2
        obtain ⟨d, a, b, c, l, cs⟩ := ms
        simp only at hd0 ⊢
        congr 1
        omega
      · intro hd
        rw [hih.2 (by show ms.matchdepth - 1 ≤ m; omega)]
        rfl

theorem length_optional_as (n : Nat) : (optional_as n).length = 2 * n :=
  length_flatten_pair _ _ n

theorem length_letters_a (n : Nat) : (letters_a n).length = n := by
  simp [letters_a]

theorem utf8_length_loop_letters_a (n : Nat) :
    ∀ (cnt s i : Nat), s + cnt = n →
      utf8_length_loop (letters_a n) n cnt s i = i + cnt := by
  intro cnt
  induction cnt with
  | zero => intro s i _; rfl
  | succ cnt ih =>
    intro s i h
    rw [utf8_length_loop, if_pos (by omega)]
    simp only [byteAt_letters_a n s (by omega)]
    rw [if_pos (by decide), ih (s + 1) (i + 1) (by omega)]
    omega

theorem utf8_length_letters_a (n : Nat) : utf8_length (letters_a n) 0 n = n := by
  unfold utf8_length
  rw [utf8_length_loop_letters_a n (n - 0) 0 0 (by omega)]
  omega

theorem nospecials_optional_as (n : Nat) (h : 1 ≤ n) :
    nospecials (optional_as n) 0 (optional_as n).length = false := by
  have h0 := byteAt_optional_as_even n 0 (by omega)
  have h1 := byteAt_optional_as_odd n 0 (by omega)
  rw [show 2 * 0 = 0 by rfl] at h0
  rw [show 2 * 0 + 1 = 1 by rfl] at h1
  unfold nospecials
  rw [nospecials_loop, if_pos (by rw [length_optional_as]; omega)]
  have : strpbrk_specials (optional_as n) ((optional_as n).length + 1) 0 = true := by
    rw [length_optional_as, show 2 * n + 1 = (2 * n - 1) + 1 + 1 by omega]
    rw [strpbrk_specials, h0, if_neg (by decide), if_neg (by decide), strpbrk_specials,
      show 0 + 1 = 1 by rfl, h1, if_neg (by decide), if_pos (by decide)]
  rw [this]
  rfl

theorem slice_all (text : Bytes) : slice text 0 (text.length - 0) = text := by
  simp [slice]

theorem push_captures_whole (text : Bytes) (ms : MatchStateUTF8) (s e : Nat)
    (h : ms.level = 0) :
    push_capturesUTF8 text ms (some s) e = Except.ok [LuaVal.str (slice text s (e - s))] := by
  unfold push_capturesUTF8
  simp only [h, Option.isSome_some, and_self, if_true, Option.getD_some, push_captures_loop,
    push_onecaptureUTF8]
  rw [if_pos (by rfl), if_pos (by rfl)]

theorem push_captures_nothing (text : Bytes) (ms : MatchStateUTF8) (e : Nat)
    (h : ms.level = 0) : push_capturesUTF8 text ms none e = Except.ok [] := by
  unfold push_capturesUTF8
  simp only [h, Option.isSome_none, Bool.false_eq_true, and_false, if_false, push_captures_loop]

/-- C10: with the default budget `MAXCCALLS = 200`, for every `n ≥ 200`
matching the pattern made of `n` copies of `a?` against the text made of `n`
letters `a` raises "pattern too complex" (in `match` and in `find`), and for
every `n < 200` the match succeeds on the whole text: `match` returns the
`n` letters and `find` the span `(1, n)` (for `n = 0`, the empty span
`(1, 0)` of the empty text). -/
theorem C10_recursion_budget (U : UniData) (n : Nat) :
    (MAXCCALLS ≤ n →
      Lutf8_matchUTF8 U (letters_a n) (optional_as n) 1
        = Except.error PatErr.patternTooComplex ∧
      Lutf8_find U (letters_a n) (optional_as n) 1 false
        = Except.error PatErr.patternTooComplex) ∧
    (n < MAXCCALLS →
      Lutf8_matchUTF8 U (letters_a n) (optional_as n) 1
        = Except.ok (some [LuaVal.str (letters_a n)]) ∧
      Lutf8_find U (letters_a n) (optional_as n) 1 false
        = Except.ok (some [LuaVal.int 1, LuaVal.int n])) := by
  have ha : byteAt (optional_as n) 0 ≠ 94 := by
    rw [optional_as, byteAt_flatten_pair]
    split
    · rw [if_pos rfl]; decide
    · decide
  have hm := match_optional_as U n n 0 (MAXCCALLS + 1)
    { initial_state (letters_a n) (optional_as n) with level := 0 } (by omega)
    (length_optional_as n) (length_letters_a n) (by show 200 < 200 + 1; decide)
  rw [show 2 * 0 = 0 by rfl] at hm
  constructor
  · intro hn
    have he := hm.2 hn
    constructor
    · rw [Lutf8_matchUTF8, find_aux_pattern_from_start U _ _ false (fun h => by cases h) ha,
        find_pattern_loop, he]
    · rw [Lutf8_find, find_aux_pattern_from_start U _ _ true
          (fun _ => nospecials_optional_as n (by simp only [MAXCCALLS] at hn; omega)) ha,
        find_pattern_loop, he]
  · intro hn
    have he := hm.1 hn
    constructor
    · rw [Lutf8_matchUTF8, find_aux_pattern_from_start U _ _ false (fun h => by cases h) ha,
        find_pattern_loop, he]
      simp only [Bool.false_eq_true, if_false]
      rw [push_captures_whole _ _ _ _ rfl]
      simp only
      have := slice_all (letters_a n)
      rw [length_letters_a] at this
      rw [this]
    · by_cases h1 : 1 ≤ n
      · rw [Lutf8_find, find_aux_pattern_from_start U _ _ true
            (fun _ => nospecials_optional_as n h1) ha,
          find_pattern_loop, he]
        simp only [if_true]
        rw [push_captures_nothing _ _ _ rfl]
        simp only [utf8_length_letters_a]
        rw [show (1 : Int) + (n : Int) - 1 = (n : Int) by omega]
      · have h0 : n = 0 := by omega
        subst h0
        rfl

/-- C10 at `n = 200` (error) and `n = 3` (success). -/
theorem C10_recursion_budget_witness :
    (MAXCCALLS ≤ 200 ∧
      Lutf8_matchUTF8 ascii_tables (letters_a 200) (optional_as 200) 1
        = Except.error PatErr.patternTooComplex ∧
      Lutf8_find ascii_tables (letters_a 200) (optional_as 200) 1 false
        = Except.error PatErr.patternTooComplex) ∧
    (3 < MAXCCALLS ∧
      Lutf8_matchUTF8 ascii_tables (letters_a 3) (optional_as 3) 1
        = Except.ok (some [LuaVal.str (letters_a 3)]) ∧
      Lutf8_find ascii_tables (letters_a 3) (optional_as 3) 1 false
        = Except.ok (some [LuaVal.int 1, LuaVal.int 3])) :=
  ⟨⟨by decide, (C10_recursion_budget ascii_tables 200).1 (by decide)⟩,
    ⟨by decide, (C10_recursion_budget ascii_tables 3).2 (by decide)⟩⟩

/-- One step of `match_init` at a single-character item without suffix: an
ordinary character (or `.`), not followed by `*`, `+`, `-` or `?`. -/
theorem match_init_single (U : UniData) (text pat : Bytes)
    (rec : MatchStateUTF8 → Nat → Nat → MRes) (n : Nat) (ms : MatchStateUTF8) (s p : Nat)
    (hp : p < ms.p_end) (hlow : byteAt pat p < 0xC0)
    (h40 : byteAt pat p ≠ 40) (h41 : byteAt pat p ≠ 41) (h36 : byteAt pat p ≠ 36)
    (h37 : byteAt pat p ≠ 37) (h91 : byteAt pat p ≠ 91)
    (h42 : byteAt pat (p + 1) ≠ 42) (h43 : byteAt pat (p + 1) ≠ 43)
    (h45 : byteAt pat (p + 1) ≠ 45) (h63 : byteAt pat (p + 1) ≠ 63) :
    match_init U text pat rec (n + 1) ms s p =
      match singlematchUTF8 U text pat ms s p (p + 1) with
      | Except.error err => Except.error err
      | Except.ok b =>
        if b then match_init U text pat rec n ms (utf8_next text s ms.src_end) (p + 1)
        else Except.ok (none, ms) := by
  have hd : utf8_decode pat p ms.p_end = (1, byteAt pat p) := utf8_decode_low pat p _ hp hlow
  have hce : classendUTF8 pat ms p = Except.ok (p + 1) := by
    unfold classendUTF8
    simp only [hd]
    rw [if_neg (by simpa [L_ESC] using h37), if_neg h91]
  rw [match_init, if_pos (by omega)]
  simp only [hd]
  rw [if_neg h40, if_neg h41, if_neg (fun h => h36 h.1), if_neg (by simpa [L_ESC] using h37)]
  unfold match_default
  simp only [hce]
  cases hsm : singlematchUTF8 U text pat ms s p (p + 1) with
  | error err => rfl
  | ok b =>
    cases b with
    | true =>
      simp only [not_true_eq_false, if_false, if_true]
      rw [if_neg h63, if_neg h43, if_neg h42, if_neg h45]
    | false =>
      simp only [not_false_eq_true, if_true, if_false, Bool.false_eq_true]
      rw [if_neg (by
        rintro (h | h | h)
        · exact h42 h
        · exact h63 h
        · exact h45 h)]

/-- One step of `match_init` at a `(` that opens a group. -/
theorem match_init_open_capture (U : UniData) (text pat : Bytes)
    (rec : MatchStateUTF8 → Nat → Nat → MRes) (n : Nat) (ms : MatchStateUTF8) (s p : Nat)
    (hp : p < ms.p_end) (h0 : byteAt pat p = 40) (h1 : byteAt pat (p + 1) ≠ 41) :
    match_init U text pat rec (n + 1) ms s p
      = start_captureUTF8 rec ms s (p + 1) CAP_UNFINISHED := by
  rw [match_init, if_pos (by omega)]
  simp only [utf8_decode_low pat p ms.p_end hp (by rw [h0]; decide), h0, if_true]
  rw [if_neg h1]

theorem match_init_at_end (U : UniData) (text pat : Bytes)
    (rec : MatchStateUTF8 → Nat → Nat → MRes) (n : Nat) (ms : MatchStateUTF8) (s : Nat) :
    match_init U text pat rec (n + 1) ms s ms.p_end = Except.ok (some s, ms) := by
  rw [match_init, if_neg (by simp)]

theorem restore_depth_pred (r : Option Nat) (ms : MatchStateUTF8) (h : ms.matchdepth ≠ 0) :
    restore_depth (Except.ok (r, { ms with matchdepth := ms.matchdepth - 1 }))
      = Except.ok (r, ms) := by
  simp only [restore_depth]
  congr 2
  obtain ⟨d, a, b, c, l, cs⟩ := ms
  simp only at h ⊢
  congr 1
  omega

theorem byteAt_ne_zero_lt (b : Bytes) (i : Nat) (h : byteAt b i ≠ 0) : i < b.length := by
  by_contra hc
  apply h
  simp only [byteAt, List.get?_eq_getElem?]
  rw [List.getElem?_eq_none (by omega)]

theorem singlematch_literal (U : UniData) (text pat : Bytes) (ms : MatchStateUTF8)
    (s p ep c : Nat) (hs : s < ms.src_end) (hp : p < ms.p_end) (ht : byteAt text s = c)
    (hpc : byteAt pat p = c) (hlow : c < 0xC0) (h46 : c ≠ 46) (h37 : c ≠ 37) (h91 : c ≠ 91) :
    singlematchUTF8 U text pat ms s p ep = Except.ok true := by
  unfold singlematchUTF8
  rw [if_neg (by omega)]
  simp only [utf8_decode_low text s _ hs (by rw [ht]; exact hlow),
    utf8_decode_low pat p _ hp (by rw [hpc]; exact hlow), ht, hpc]
  rw [if_neg h46, if_neg (by simpa [L_ESC] using h37), if_neg h91]
  simp

theorem utf8_next_low (b : Bytes) (s e : Nat) (h : s < e) (hb : byteAt b s < 0xC0) :
    utf8_next b s e = s + 1 := by
  unfold utf8_next
  rw [utf8_decode_low b s e h hb]

theorem singlematch_literal_eq (U : UniData) (text pat : Bytes) (ms : MatchStateUTF8)
    (s p ep c : Nat) (hp : p < ms.p_end) (hpc : byteAt pat p = c) (hlow : c < 0xC0)
    (h46 : c ≠ 46) (h37 : c ≠ 37) (h91 : c ≠ 91) :
    singlematchUTF8 U text pat ms s p ep
      = Except.ok (decide (s < ms.src_end ∧ (utf8_decode text s ms.src_end).2 = c)) := by
  unfold singlematchUTF8
  by_cases hs : s ≥ ms.src_end
  · rw [if_pos hs]
    congr 1
    symm
    rw [decide_eq_false_iff_not]
    intro h
    omega
  · rw [if_neg hs]
    simp only [utf8_decode_low pat p _ hp (by rw [hpc]; exact hlow), hpc]
    rw [if_neg h46, if_neg (by simpa [L_ESC] using h37), if_neg h91]
    congr 1
    by_cases hc : (utf8_decode text s ms.src_end).2 = c
    · rw [decide_eq_true ⟨by omega, hc⟩, hc]
      simp
    · rw [decide_eq_false (fun h => hc h.2)]
      simp only [beq_eq_false_iff_ne, ne_eq]
      exact fun h => hc h.symm

theorem abc_at_iff (text : Bytes) (s : Nat) :
    abc_at text s ↔
      (s < text.length ∧ (utf8_decode text s text.length).2 = 97)
      ∧ (utf8_next text s text.length < text.length
        ∧ (utf8_decode text (utf8_next text s text.length) text.length).2 = 98)
      ∧ (utf8_next text (utf8_next text s text.length) text.length < text.length
        ∧ (utf8_decode text (utf8_next text (utf8_next text s text.length) text.length)
            text.length).2 = 99) := by
  have g1 := utf8_next_ge text s text.length
  have g2 := utf8_next_ge text (utf8_next text s text.length) text.length
  constructor
  · rintro ⟨hlt, c0, c1, c2⟩
    have hlt2 : utf8_next text (utf8_next text s text.length) text.length < text.length := hlt
    exact ⟨⟨by omega, c0⟩, ⟨by omega, c1⟩, ⟨hlt2, c2⟩⟩
  · rintro ⟨⟨_, c0⟩, ⟨_, c1⟩, ⟨hlt, c2⟩⟩
    exact ⟨hlt, c0, c1, c2⟩

/-- The body of the matcher on the rest `abc` of the pattern `(abc`: no error, the state is not
changed, and the match succeeds, with the cursor after the third character, exactly when the
characters a, b, c stand at the cursor. -/
theorem match_init_abc (U : UniData) (text : Bytes)
    (rec : MatchStateUTF8 → Nat → Nat → MRes) (n : Nat) (ms : MatchStateUTF8) (s : Nat)
    (hp : ms.p_end = 4) (he : ms.src_end = text.length) :
    ∃ r, match_init U text unbalanced_abc rec (n + 1 + 1 + 1 + 1) ms s 1 = Except.ok (r, ms)
      ∧ (abc_at text s → r = some (utf8_next_iter text text.length 3 s))
      ∧ (¬ abc_at text s → r = none) := by
  rw [match_init_single U text unbalanced_abc rec _ ms s 1 (by omega) (by decide) (by decide)
      (by decide) (by decide) (by decide) (by decide) (by decide) (by decide) (by decide)
      (by decide),
    singlematch_literal_eq U text unbalanced_abc ms s 1 (1 + 1) 97 (by omega) (by decide)
      (by decide) (by decide) (by decide) (by decide), he]
  by_cases h1 : s < text.length ∧ (utf8_decode text s text.length).2 = 97
  · rw [decide_eq_true h1]
    simp only [if_true]
    rw [match_init_single U text unbalanced_abc rec _ ms _ (1 + 1) (by omega) (by decide)
        (by decide) (by decide) (by decide) (by decide) (by decide) (by decide) (by decide)
        (by decide) (by decide),
      singlematch_literal_eq U text unbalanced_abc ms _ (1 + 1) (1 + 1 + 1) 98 (by omega)
        (by decide) (by decide) (by decide) (by decide) (by decide), he]
    by_cases h2 : utf8_next text s text.length < text.length
        ∧ (utf8_decode text (utf8_next text s text.length) text.length).2 = 98
    · rw [decide_eq_true h2]
      simp only [if_true]
      rw [match_init_single U text unbalanced_abc rec _ ms _ (1 + 1 + 1) (by omega)
          (by decide) (by decide) (by decide) (by decide) (by decide) (by decide) (by decide)
          (by decide) (by decide) (by decide),
        singlematch_literal_eq U text unbalanced_abc ms _ (1 + 1 + 1) (1 + 1 + 1 + 1) 99
          (by omega) (by decide) (by decide) (by decide) (by decide) (by decide), he]
      by_cases h3 : utf8_next text (utf8_next text s text.length) text.length < text.length
          ∧ (utf8_decode text (utf8_next text (utf8_next text s text.length) text.length)
              text.length).2 = 99
      · rw [decide_eq_true h3]
        simp only [if_true]
        have h4 : (1 + 1 + 1 + 1 : Nat) = ms.p_end := by omega
        rw [h4, match_init_at_end]
        exact ⟨_, rfl, fun _ => rfl,
          fun hn => absurd ((abc_at_iff text s).2 ⟨h1, h2, h3⟩) hn⟩
      · rw [decide_eq_false h3]
        simp only [Bool.false_eq_true, if_false]
        exact ⟨none, rfl, fun ha => absurd ((abc_at_iff text s).1 ha).2.2 h3, fun _ => rfl⟩
    · rw [decide_eq_false h2]
      simp only [Bool.false_eq_true, if_false]
      exact ⟨none, rfl, fun ha => absurd ((abc_at_iff text s).1 ha).2.1 h2, fun _ => rfl⟩
  · rw [decide_eq_false h1]
    simp only [Bool.false_eq_true, if_false]
    exact ⟨none, rfl, fun ha => absurd ((abc_at_iff text s).1 ha).1 h1, fun _ => rfl⟩

/-- The matcher on the rest `abc` of the pattern `(abc`: no error, the state is not changed,
and the match succeeds exactly when the characters a, b, c stand at the cursor. -/
theorem match_unbalanced_abc_rest (U : UniData) (text : Bytes) (fuel : Nat)
    (ms : MatchStateUTF8) (s : Nat) (hp : ms.p_end = 4) (he : ms.src_end = text.length)
    (hd : ms.matchdepth ≠ 0) :
    ∃ r, matchUTF8 U text unbalanced_abc (fuel + 1) ms s 1 = Except.ok (r, ms) ∧
      (abc_at text s → r = some (utf8_next_iter text text.length 3 s)) ∧
      (¬ abc_at text s → r = none) := by
  rw [matchUTF8_unfold _ _ _ _ _ _ _ hd]
  have hc : ms.p_end + 1 = 0 + 1 + 1 + 1 + 1 + 1 := by omega
  rw [hc]
  obtain ⟨r, hr, h1, h2⟩ := match_init_abc U text (matchUTF8 U text unbalanced_abc fuel)
    (0 + 1) { ms with matchdepth := ms.matchdepth - 1 } s hp he
  rw [hr]
  exact ⟨r, restore_depth_pred _ ms hd, h1, h2⟩

theorem match_unbalanced_abc (U : UniData) (text : Bytes) (fuel : Nat) (ms : MatchStateUTF8)
    (s : Nat) (hp : ms.p_end = 4) (he : ms.src_end = text.length) (hd : 2 ≤ ms.matchdepth)
    (hl : ms.capture.length = 32) (hlv : ms.level = 0) :
    (¬ abc_at text s ∧
      ∃ ms1, matchUTF8 U text unbalanced_abc (fuel + 2) ms s 0 = Except.ok (none, ms1)) ∨
    (abc_at text s ∧
      ∃ e ms1, matchUTF8 U text unbalanced_abc (fuel + 2) ms s 0 = Except.ok (some e, ms1) ∧
        ms1.level = 1 ∧ (ms1.cap 0).len = CAP_UNFINISHED) := by
  rw [matchUTF8_unfold _ _ _ _ _ _ _ (by omega),
    match_init_open_capture _ _ _ _ _ _ _ 0 (by show 0 < ms.p_end; omega) (by decide)
      (by decide)]
  unfold start_captureUTF8
  simp only [hlv]
  rw [if_neg (by decide)]
  obtain ⟨r, hr, hhit, hmiss⟩ := match_unbalanced_abc_rest U text fuel
    { matchdepth := ms.matchdepth - 1, src_init := ms.src_init, src_end := ms.src_end,
      p_end := ms.p_end, level := 0 + 1,
      capture := ms.capture.set 0 ⟨s, CAP_UNFINISHED⟩ } s hp he
    (by show ms.matchdepth - 1 ≠ 0; omega)
  rw [hr]
  by_cases ha : abc_at text s
  · rw [hhit ha]
    refine Or.inr ⟨ha, _, _, rfl, rfl, ?_⟩
    show (MatchStateUTF8.cap _ 0).len = CAP_UNFINISHED
    rw [cap_set ms 0 0 ⟨s, CAP_UNFINISHED⟩ _ rfl _ rfl, if_pos ⟨rfl, by omega⟩]
  · rw [hmiss ha]
    exact Or.inl ⟨ha, _, rfl⟩

theorem utf8_decode_pos (b : Bytes) (s e : Nat) (h : s < e) : 1 ≤ (utf8_decode b s e).1 := by
  unfold utf8_decode
  rw [if_neg (by omega)]
  simp only
  split
  · exact Nat.le_refl 1
  · split
    · split
      · exact Nat.le_refl 1
      · show 1 ≤ 2
        decide
    · split
      · split
        · exact Nat.le_refl 1
        · show 1 ≤ 3
          decide
      · split
        · exact Nat.le_refl 1
        · split
          · exact Nat.le_refl 1
          · exact Nat.le_add_left 1 _

theorem utf8_next_gt (b : Bytes) (s e : Nat) (h : s < e) : s < utf8_next b s e := by
  have := utf8_decode_pos b s e h
  unfold utf8_next
  omega

theorem utf8_next_stay (b : Bytes) (s e : Nat) (h : e ≤ s) : utf8_next b s e = s := by
  unfold utf8_next utf8_decode
  rw [if_pos h]
  rfl

theorem push_captures_unfinished (text : Bytes) (ms : MatchStateUTF8) (s : Option Nat) (e : Nat)
    (hl : ms.level = 1) (hu : (ms.cap 0).len = CAP_UNFINISHED) :
    push_capturesUTF8 text ms s e = Except.error PatErr.unfinishedCapture := by
  unfold push_capturesUTF8
  simp only [hl, OfNat.ofNat_ne_zero, false_and, if_false, push_captures_loop,
    push_onecaptureUTF8]
  rw [if_neg (by decide)]
  simp only [Int.toNat_ofNat, hu, if_true]

theorem find_aux_unbalanced (U : UniData) (text : Bytes) (idx : Int) (find : Bool)
    (h : ¬ (idx > 0 ∧ idx > (utf8_length text 0 text.length : Int) + 1)) :
    find_aux U text unbalanced_abc idx false find
      = find_pattern_loop U text unbalanced_abc find false 0 (text.length + 2)
          (initial_state text unbalanced_abc) (find_init text idx)
          (if idx < 0 then idx + ((utf8_length text 0 text.length : Int) + 1) else idx) := by
  unfold find_aux
  simp only
  rw [if_neg h, if_neg (by
    rintro ⟨_, hn | hn⟩
    · cases hn
    · exact absurd hn (by decide))]
  rfl

/-- C8 as stated fails: on text "xyz" both `find` and `match` with the
pattern `(abc` return "no match", and so does `find` started after the end of
the text "abc". -/
theorem C8_unbalanced_group_counterexample :
    Lutf8_find ascii_tables [120, 121, 122] unbalanced_abc 1 false = Except.ok none ∧
    Lutf8_matchUTF8 ascii_tables [120, 121, 122] unbalanced_abc 1 = Except.ok none ∧
    Lutf8_find ascii_tables [97, 98, 99] unbalanced_abc 5 false = Except.ok none ∧
    ¬ (Lutf8_find ascii_tables [120, 121, 122] unbalanced_abc 1 false
        = Except.error PatErr.unfinishedCapture) := by
  have h : Lutf8_find ascii_tables [120, 121, 122] unbalanced_abc 1 false = Except.ok none :=
    rfl
  refine ⟨h, rfl, rfl, ?_⟩
  rw [h]
  intro hc
  cases hc

/-! ## Copy-through, zero-length advance and the end bound of decode -/

/-- C12: substitution with the pattern "x", which matches nowhere in the one-byte text 80, does
not return the text byte-identical (the matcher fails at both offsets 0 and 1): the byte is
decoded and re-encoded, and comes back as the two bytes C2 80 (count 0). With the cap 0 the same text is copied raw, and an
overlong C1 81 comes back as the single byte 41. -/
theorem C12_gsub_reencodes_unmatched_bytes (U : UniData) :
    Lutf8_gsub U [toByte 0x80] [toByte 120] (Repl.template [toByte 121]) none
        = Except.ok ([toByte 0xC2, toByte 0x80], 0)
      ∧ (∃ ms1, matchUTF8 U [toByte 0x80] [toByte 120] (MAXCCALLS + 1)
            (initial_state [toByte 0x80] [toByte 120]) 0 0 = Except.ok (none, ms1))
      ∧ (∃ ms1, matchUTF8 U [toByte 0x80] [toByte 120] (MAXCCALLS + 1)
            (initial_state [toByte 0x80] [toByte 120]) 1 0 = Except.ok (none, ms1))
      ∧ Lutf8_gsub U [toByte 0x80] [toByte 120] (Repl.template [toByte 121]) (some 0)
        = Except.ok ([toByte 0x80], 0)
      ∧ Lutf8_gsub U [toByte 0xC1, toByte 0x81] [toByte 120] (Repl.template [toByte 121]) none
        = Except.ok ([toByte 0x41], 0) := by
  exact ⟨rfl, ⟨_, rfl⟩, ⟨_, rfl⟩, rfl, rfl⟩

/-- C14: on the two-byte text C3 A9 (one character) and the empty pattern, the first step of the
iteration matches the empty string at byte offset 0 and stores the cursor 1, the offset of the
continuation byte, not 2, the next codepoint boundary; the following steps yield at offsets 1
and 2, three results for a text of one character. -/
theorem C14_gmatch_empty_match_advances_one_byte (U : UniData) :
    gmatch_auxUTF8 U [toByte 0xC3, toByte 0xA9] [] 0 = Except.ok (some (1, [LuaVal.str []]))
      ∧ utf8_next [toByte 0xC3, toByte 0xA9] 0 2 = 2
      ∧ (utf8_decode [toByte 0xC3, toByte 0xA9] 0 2).1 = 2
      ∧ gmatch_auxUTF8 U [toByte 0xC3, toByte 0xA9] [] 1 = Except.ok (some (2, [LuaVal.str []]))
      ∧ gmatch_auxUTF8 U [toByte 0xC3, toByte 0xA9] [] 2 = Except.ok (some (3, [LuaVal.str []]))
      ∧ gmatch_auxUTF8 U [toByte 0xC3, toByte 0xA9] [] 3 = Except.ok none := by
  refine ⟨rfl, rfl, rfl, rfl, rfl, rfl⟩

/-- C18: on the buffer F0 90 80 80 with cursor 0 and end bound 1 (or 2, or 3) the decoder
consumes 4 bytes, more than end - cursor: the general path for leads F0 and above reads the
continuation bytes without comparing against the end bound. The two- and three-byte paths do
compare and fall back to one byte on C3 A9 and E2 82 AC cut short. -/
theorem C18_decode_general_path_ignores_end :
    utf8_decode [toByte 0xF0, toByte 0x90, toByte 0x80, toByte 0x80] 0 1 = (4, 0x10000)
      ∧ utf8_decode [toByte 0xF0, toByte 0x90, toByte 0x80, toByte 0x80] 0 2 = (4, 0x10000)
      ∧ utf8_decode [toByte 0xF0, toByte 0x90, toByte 0x80, toByte 0x80] 0 3 = (4, 0x10000)
      ∧ utf8_decode [toByte 0xF8, toByte 0x88, toByte 0x80, toByte 0x80, toByte 0x80] 0 2
          = (5, 0x200000)
      ∧ utf8_decode [toByte 0xFC, toByte 0x84, toByte 0x80, toByte 0x80, toByte 0x80, toByte 0x80]
          0 2 = (6, 0x4000000)
      ∧ utf8_decode [toByte 0xC3, toByte 0xA9] 0 1 = (1, 0xC3)
      ∧ utf8_decode [toByte 0xE2, toByte 0x82, toByte 0xAC] 0 2 = (1, 0xE2)
      ∧ utf8_length [toByte 0xF0, toByte 0x90, toByte 0x80, toByte 0x80] 0 1 = 1 := by
  refine ⟨rfl, rfl, rfl, rfl, rfl, rfl, rfl, rfl⟩

/-! ## Canonical encoding -/

theorem utf8_encode_five (c : Nat) (h1 : 0x200000 ≤ c) (h2 : c ≤ 0x3FFFFFF) :
    utf8_encode c = [toByte (0xF8 + c / 16777216), toByte (0x80 + c / 262144 % 64),
      toByte (0x80 + c / 4096 % 64), toByte (0x80 + c / 64 % 64), toByte (0x80 + c % 64)] := by
  have hq : c / 16777216 < 4 := by omega
  have e1 : c >>> 6 = c / 64 := by rw [Nat.shiftRight_eq_div_pow]
  have e2 : (c / 64) >>> 6 = c / 4096 := by rw [Nat.shiftRight_eq_div_pow]; omega
  have e3 : (c / 4096) >>> 6 = c / 262144 := by rw [Nat.shiftRight_eq_div_pow]; omega
  have e4 : (c / 262144) >>> 6 = c / 16777216 := by rw [Nat.shiftRight_eq_div_pow]; omega
  have l : ∀ y : Fin 4,
      ((((0xFFFFFFFF - (0x3F >>> 1 >>> 1 >>> 1 >>> 1)) <<< 1) % 2 ^ 32) ||| y.val) % 256
        = 0xF8 + y.val := by decide!
  have l' := l ⟨c / 16777216, hq⟩
  simp only at l'
  simp only [utf8_encode, show ¬ c < 0x80 by omega, show ¬ c ≤ 0x7FF by omega,
    show ¬ c ≤ 0xFFFF by omega, if_false, utf8_encode_loop, cont_byte2, e1, e2, e3, e4]
  rw [if_pos (by norm_num; omega), if_pos (by norm_num; omega), if_pos (by norm_num; omega),
    if_neg (by norm_num; omega)]
  congr 1
  apply Fin.ext
  simp only [toByte]
  rw [l']
  omega

theorem utf8_encode_six (c : Nat) (h1 : 0x4000000 ≤ c) (h2 : c ≤ 0x7FFFFFFF) :
    utf8_encode c = [toByte (0xFC + c / 1073741824), toByte (0x80 + c / 16777216 % 64),
      toByte (0x80 + c / 262144 % 64), toByte (0x80 + c / 4096 % 64),
      toByte (0x80 + c / 64 % 64), toByte (0x80 + c % 64)] := by
  have hq : c / 1073741824 < 2 := by omega
  have e1 : c >>> 6 = c / 64 := by rw [Nat.shiftRight_eq_div_pow]
  have e2 : (c / 64) >>> 6 = c / 4096 := by rw [Nat.shiftRight_eq_div_pow]; omega
  have e3 : (c / 4096) >>> 6 = c / 262144 := by rw [Nat.shiftRight_eq_div_pow]; omega
  have e4 : (c / 262144) >>> 6 = c / 16777216 := by rw [Nat.shiftRight_eq_div_pow]; omega
  have e5 : (c / 16777216) >>> 6 = c / 1073741824 := by rw [Nat.shiftRight_eq_div_pow]; omega
  have l : ∀ y : Fin 2,
      ((((0xFFFFFFFF - (0x3F >>> 1 >>> 1 >>> 1 >>> 1 >>> 1)) <<< 1) % 2 ^ 32) ||| y.val) % 256
        = 0xFC + y.val := by decide!
  have l' := l ⟨c / 1073741824, hq⟩
  simp only at l'
  simp only [utf8_encode, show ¬ c < 0x80 by omega, show ¬ c ≤ 0x7FF by omega,
    show ¬ c ≤ 0xFFFF by omega, if_false, utf8_encode_loop, cont_byte2, e1, e2, e3, e4, e5]
  rw [if_pos (by norm_num; omega), if_pos (by norm_num; omega), if_pos (by norm_num; omega),
    if_pos (by norm_num; omega), if_neg (by norm_num; omega)]
  congr 1
  apply Fin.ext
  simp only [toByte]
  rw [l']
  omega

/-- C19: for every codepoint c up to 0x7FFFFFFF the encoder produces exactly the number of bytes
given by the magnitude of c (1 below 0x80, 2 below 0x800, 3 below 0x10000, 4 below 0x200000,
5 below 0x4000000, 6 otherwise); a one-byte encoding is the byte c itself, and for n >= 2 bytes
the first byte has exactly n leading 1-bits followed by a 0-bit, every following byte has the
form 10xxxxxx, and the payload bits concatenated give c. -/
theorem C19_canonical_encoding (c : Nat) (hc : c ≤ 0x7FFFFFFF) :
    (utf8_encode c).length = encoded_size c
      ∧ (encoded_size c = 1 → utf8_encode c = [toByte c] ∧ (toByte c).val = c)
      ∧ (2 ≤ encoded_size c → ∃ lead rest, utf8_encode c = lead :: rest
          ∧ lead.val / 2 ^ (7 - encoded_size c) = 2 ^ (encoded_size c + 1) - 2
          ∧ (∀ b ∈ rest, b.val / 64 = 2)
          ∧ payload (encoded_size c) lead rest = c) := by
  by_cases h1 : c < 0x80
  · have hs : encoded_size c = 1 := by simp [encoded_size, h1]
    rw [hs, utf8_encode_one c h1]
    exact ⟨rfl, fun _ => ⟨rfl, toByte_val c (by omega)⟩, fun h => by omega⟩
  by_cases h2 : c < 0x800
  · have hs : encoded_size c = 2 := by simp [encoded_size, h1, h2]
    rw [hs, utf8_encode_two c (by omega) (by omega)]
    refine ⟨rfl, fun h => by omega, fun _ => ⟨_, _, rfl, ?_, ?_, ?_⟩⟩
    · rw [toByte_val _ (by omega)]; norm_num; omega
    · intro b hb
      simp only [List.mem_cons, List.mem_singleton, List.not_mem_nil, or_false] at hb
      subst hb
      rw [toByte_val _ (by omega)]; omega
    · simp only [payload, List.foldl]
      rw [toByte_val _ (by omega), toByte_val _ (by omega)]; norm_num; omega
  by_cases h3 : c < 0x10000
  · have hs : encoded_size c = 3 := by simp [encoded_size, h1, h2, h3]
    rw [hs, utf8_encode_three c (by omega) (by omega)]
    refine ⟨rfl, fun h => by omega, fun _ => ⟨_, _, rfl, ?_, ?_, ?_⟩⟩
    · rw [toByte_val _ (by omega)]; norm_num; omega
    · intro b hb
      simp only [List.mem_cons, List.mem_singleton, List.not_mem_nil, or_false] at hb
      rcases hb with hb | hb <;> subst hb <;> rw [toByte_val _ (by omega)] <;> omega
    · simp only [payload, List.foldl]
      rw [toByte_val _ (by omega), toByte_val _ (by omega), toByte_val _ (by omega)]
      norm_num; omega
  by_cases h4 : c < 0x200000
  · have hs : encoded_size c = 4 := by simp [encoded_size, h1, h2, h3, h4]
    rw [hs, utf8_encode_four c (by omega) (by omega)]
    refine ⟨rfl, fun h => by omega, fun _ => ⟨_, _, rfl, ?_, ?_, ?_⟩⟩
    · rw [toByte_val _ (by omega)]; norm_num; omega
    · intro b hb
      simp only [List.mem_cons, List.mem_singleton, List.not_mem_nil, or_false] at hb
      rcases hb with hb | hb | hb <;> subst hb <;> rw [toByte_val _ (by omega)] <;> omega
    · simp only [payload, List.foldl]
      rw [toByte_val _ (by omega), toByte_val _ (by omega), toByte_val _ (by omega),
        toByte_val _ (by omega)]
      norm_num; omega
  by_cases h5 : c < 0x4000000
  · have hs : encoded_size c = 5 := by simp [encoded_size, h1, h2, h3, h4, h5]
    rw [hs, utf8_encode_five c (by omega) (by omega)]
    refine ⟨rfl, fun h => by omega, fun _ => ⟨_, _, rfl, ?_, ?_, ?_⟩⟩
    · rw [toByte_val _ (by omega)]; norm_num; omega
    · intro b hb
      simp only [List.mem_cons, List.mem_singleton, List.not_mem_nil, or_false] at hb
      rcases hb with hb | hb | hb | hb <;> subst hb <;> rw [toByte_val _ (by omega)] <;> omega
    · simp only [payload, List.foldl]
      rw [toByte_val _ (by omega), toByte_val _ (by omega), toByte_val _ (by omega),
        toByte_val _ (by omega), toByte_val _ (by omega)]
      norm_num; omega
  · have hs : encoded_size c = 6 := by simp [encoded_size, h1, h2, h3, h4, h5]
    rw [hs, utf8_encode_six c (by omega) (by omega)]
    refine ⟨rfl, fun h => by omega, fun _ => ⟨_, _, rfl, ?_, ?_, ?_⟩⟩
    · rw [toByte_val _ (by omega)]; norm_num; omega
    · intro b hb
      simp only [List.mem_cons, List.mem_singleton, List.not_mem_nil, or_false] at hb
      rcases hb with hb | hb | hb | hb | hb <;> subst hb <;> rw [toByte_val _ (by omega)] <;>
        omega
    · simp only [payload, List.foldl]
      rw [toByte_val _ (by omega), toByte_val _ (by omega), toByte_val _ (by omega),
        toByte_val _ (by omega), toByte_val _ (by omega), toByte_val _ (by omega)]
      norm_num; omega

/-- C19 at the codepoint U+20AC, encoded in three bytes. -/
theorem C19_canonical_encoding_witness :
    0x20AC ≤ 0x7FFFFFFF ∧ (utf8_encode 0x20AC).length = encoded_size 0x20AC
      ∧ (encoded_size 0x20AC = 1 → utf8_encode 0x20AC = [toByte 0x20AC]
          ∧ (toByte 0x20AC).val = 0x20AC)
      ∧ (2 ≤ encoded_size 0x20AC → ∃ lead rest, utf8_encode 0x20AC = lead :: rest
          ∧ lead.val / 2 ^ (7 - encoded_size 0x20AC) = 2 ^ (encoded_size 0x20AC + 1) - 2
          ∧ (∀ b ∈ rest, b.val / 64 = 2)
          ∧ payload (encoded_size 0x20AC) lead rest = 0x20AC) :=
  ⟨by decide, C19_canonical_encoding 0x20AC (by decide)⟩

/-! ## Binary search in the range tables -/

theorem find_in_range_loop_spec (t : List range_table) (cp : Nat) (ht : RangeTableOk t) :
    ∀ n begin en, en ≤ t.length → en - begin < n →
      (∀ i r, t.get? i = some r → i < begin → r.last < cp) →
      (∀ i r, t.get? i = some r → en ≤ i → cp < r.first) →
      (find_in_range_loop t cp n begin en = true ↔ InRangeTable t cp) := by
  intro n
  induction n with
  | zero => intro begin en _ h; omega
  | succ n ih =>
    intro begin en hen hn hlo hhi
    rw [find_in_range_loop]
    by_cases hb : begin < en
    · rw [if_pos hb]
      have hmid : (begin + en) / 2 < t.length := by omega
      obtain ⟨r, hr⟩ : ∃ r, t.get? ((begin + en) / 2) = some r :=
        ⟨t.get ⟨_, hmid⟩, List.get?_eq_get hmid⟩
      simp only [hr]
      have hrm : r ∈ t := List.get?_mem hr
      have hfl := (ht.1 r hrm).1
      by_cases h1 : r.last < cp
      · rw [if_pos h1]
        apply ih _ _ hen (by omega) _ hhi
        intro i ri hi hlt
        by_cases hi2 : i < (begin + en) / 2
        · have := ht.2 i _ ri r hi2 hi hr
          omega
        · have : i = (begin + en) / 2 := by omega
          subst this
          rw [hr] at hi
          cases hi
          exact h1
      · rw [if_neg h1]
        by_cases h2 : r.first > cp
        · rw [if_pos h2]
          apply ih _ _ (by omega) (by omega) hlo
          intro i ri hi hge
          by_cases hi2 : (begin + en) / 2 < i
          · have := ht.2 _ i r ri hi2 hr hi
            omega
          · have : i = (begin + en) / 2 := by omega
            subst this
            rw [hr] at hi
            cases hi
            exact h2
        · rw [if_neg h2]
          simp only [beq_iff_eq]
          constructor
          · intro h
            exact ⟨r, hrm, by omega, by omega, h⟩
          · rintro ⟨q, hq, hq1, hq2, hq3⟩
            obtain ⟨i, hi⟩ := List.get?_of_mem hq
            rcases Nat.lt_trichotomy i ((begin + en) / 2) with hlt | heq | hgt
            · have := ht.2 i _ q r hlt hi hr
              omega
            · subst heq
              rw [hr] at hi
              cases hi
              exact hq3
            · have := ht.2 _ i r q hgt hr hi
              omega
    · rw [if_neg hb]
      constructor
      · intro h; cases h
      · rintro ⟨q, hq, hq1, hq2, _⟩
        obtain ⟨i, hi⟩ := List.get?_of_mem hq
        by_cases hi2 : i < begin
        · have := hlo i q hi hi2
          omega
        · have := hhi i q hi (by omega)
          omega

theorem find_in_range_probes_lt (t : List range_table) (cp : Nat) :
    ∀ n begin en, en ≤ t.length →
      ∀ i ∈ find_in_range_probes t cp n begin en, begin ≤ i ∧ i < en := by
  intro n
  induction n with
  | zero => intro begin en _ i hi; simp [find_in_range_probes] at hi
  | succ n ih =>
    intro begin en hen i hi
    rw [find_in_range_probes] at hi
    by_cases hb : begin < en
    · rw [if_pos hb] at hi
      have hmid : (begin + en) / 2 < t.length := by omega
      obtain ⟨r, hr⟩ : ∃ r, t.get? ((begin + en) / 2) = some r :=
        ⟨t.get ⟨_, hmid⟩, List.get?_eq_get hmid⟩
      simp only [hr] at hi
      split at hi
      · rcases List.mem_cons.1 hi with h | h
        · omega
        · have := ih _ _ hen i h
          omega
      · split at hi
        · rcases List.mem_cons.1 hi with h | h
          · omega
          · have := ih _ _ (by omega) i h
            omega
        · simp only [List.mem_singleton] at hi
          omega
    · rw [if_neg hb] at hi
      simp at hi

/-- C20: on a table whose entries are ascending, non-overlapping ranges with steps of at least 1,
find_in_range answers true exactly when some entry has first <= cp <= last and
(cp - first) mod step = 0; the answer is the same for every larger bound on the number of
iterations (the search ends by itself), and every index at which the table is read lies inside
the table. -/
theorem C20_find_in_range_membership (t : List range_table) (cp : Nat) (ht : RangeTableOk t) :
    (find_in_range t cp = true ↔ InRangeTable t cp)
      ∧ (∀ n, t.length < n → find_in_range_loop t cp n 0 t.length = find_in_range t cp)
      ∧ (∀ n, ∀ i ∈ find_in_range_probes t cp n 0 t.length, i < t.length) := by
  have h := fun n (hn : t.length < n) =>
    find_in_range_loop_spec t cp ht n 0 t.length (le_refl _) (by omega)
      (fun i r _ hi => by omega)
      (fun i r hr hi => by
        have := List.get?_eq_some.1 hr
        obtain ⟨hlt, _⟩ := this
        omega)
  refine ⟨h _ (by omega), ?_, ?_⟩
  · intro n hn
    have h1 := h n hn
    have h2 := h (t.length + 1) (by omega)
    rw [find_in_range]
    rw [Bool.eq_iff_iff]
    exact h1.trans h2.symm
  · intro n i hi
    exact (find_in_range_probes_lt t cp n 0 t.length (le_refl _) i hi).2

/-- C20 on the sample table: 14 and 46 are members, 15 (off the stride) and 25 (in a gap) are
not. -/
theorem C20_find_in_range_membership_witness :
    RangeTableOk sample_table
      ∧ ((find_in_range sample_table 46 = true ↔ InRangeTable sample_table 46)
        ∧ (∀ n, sample_table.length < n →
            find_in_range_loop sample_table 46 n 0 sample_table.length
              = find_in_range sample_table 46)
        ∧ (∀ n, ∀ i ∈ find_in_range_probes sample_table 46 n 0 sample_table.length,
            i < sample_table.length))
      ∧ find_in_range sample_table 46 = true ∧ find_in_range sample_table 14 = true
      ∧ find_in_range sample_table 15 = false ∧ find_in_range sample_table 25 = false :=
  have hok : RangeTableOk sample_table := by
    constructor
    · intro r hr
      simp only [sample_table, List.mem_cons, List.mem_singleton, List.not_mem_nil, or_false] at hr
      rcases hr with h | h | h <;> subst h <;> decide
    · intro i j ri rj hij hi hj
      have hj3 : j < 3 := (List.get?_eq_some.1 hj).1
      interval_cases j <;> interval_cases i <;> simp [sample_table] at hi hj <;>
        subst hi <;> subst hj <;> decide
  ⟨hok, C20_find_in_range_membership sample_table 46 hok, by decide, by decide, by decide,
    by decide⟩

/-! ## Codepoint boundaries: decode stays inside the buffer, length and index -/

theorem utf8_decode_loop_inside (b : Bytes) (s : Nat) :
    ∀ k count0 res ch count r c, utf8_decode_loop b s k count0 res ch = Sum.inr (count, r, c) →
      count0 ≤ count ∧ (count0 < count → s + count < b.length) := by
  intro k
  induction k with
  | zero =>
    intro count0 res ch count r c h
    simp only [utf8_decode_loop, Sum.inr.injEq, Prod.mk.injEq] at h
    omega
  | succ k ih =>
    intro count0 res ch count r c h
    rw [utf8_decode_loop] at h
    split at h
    · simp only at h
      split at h
      · cases h
      · rename_i hcc
        have hlt : s + (count0 + 1) < b.length := by
          apply byteAt_ne_zero_lt
          intro h0
          rw [h0] at hcc
          exact hcc (by decide)
        have := ih _ _ _ _ _ _ h
        refine ⟨by omega, fun _ => ?_⟩
        by_cases hc : count0 + 1 < count
        · exact this.2 hc
        · have : count = count0 + 1 := by omega
          subst this
          exact hlt
    · simp only [Sum.inr.injEq, Prod.mk.injEq] at h
      omega

/-- With the end bound at (or beyond) the end of the buffer the decoder never consumes bytes
beyond the end bound: a continuation byte is not 0, so it lies inside the buffer. -/
theorem utf8_decode_le (b : Bytes) (s e : Nat) (he : b.length ≤ e) (h : s < e) :
    s + (utf8_decode b s e).1 ≤ e := by
  unfold utf8_decode
  rw [if_neg (by omega)]
  simp only
  split
  · show s + 1 ≤ e; omega
  · split
    · split
      · show s + 1 ≤ e; omega
      · rename_i hh
        show s + 2 ≤ e
        omega
    · split
      · split
        · show s + 1 ≤ e; omega
        · rename_i hh
          show s + 3 ≤ e
          omega
      · split
        · show s + 1 ≤ e; omega
        · rename_i count res ch1 hl
          split
          · show s + 1 ≤ e; omega
          · have := utf8_decode_loop_inside b s _ _ _ _ _ _ _ hl
            show s + (count + 1) ≤ e
            omega

theorem utf8_next_le (b : Bytes) (s e : Nat) (he : b.length ≤ e) (h : s ≤ e) :
    utf8_next b s e ≤ e := by
  by_cases hs : s < e
  · exact utf8_decode_le b s e he hs
  · rw [utf8_next_stay b s e (by omega)]; exact h

/-- A nearer end bound that still contains the decoded character does not change the result. -/
theorem utf8_decode_end (b : Bytes) (s e1 e2 : Nat) (h : s < e1) (he : e1 ≤ e2)
    (hin : s + (utf8_decode b s e2).1 ≤ e1) : utf8_decode b s e1 = utf8_decode b s e2 := by
  unfold utf8_decode at hin ⊢
  rw [if_neg (show ¬ s ≥ e2 by omega)] at hin
  rw [if_neg (show ¬ s ≥ e1 by omega), if_neg (show ¬ s ≥ e2 by omega)]
  simp only at hin ⊢
  by_cases hb1 : byteAt b s < 0xC0
  · simp only [hb1, if_true]
  simp only [hb1, if_false] at hin ⊢
  by_cases hb2 : byteAt b s < 0xE0
  · simp only [hb2, if_true] at hin ⊢
    by_cases h2 : s + 1 ≥ e2 ∨ (byteAt b (s + 1) &&& 0xC0) ≠ 0x80
    · rw [if_pos h2]
      rw [if_pos (by rcases h2 with h2 | h2; exact Or.inl (by omega); exact Or.inr h2)]
    · rw [if_neg h2] at hin ⊢
      have : s + 2 ≤ e1 := hin
      rw [if_neg (by
        intro hc
        rcases hc with hc | hc
        · omega
        · exact h2 (Or.inr hc))]
  simp only [hb2, if_false] at hin ⊢
  by_cases hb3 : byteAt b s < 0xF0
  · simp only [hb3, if_true] at hin ⊢
    by_cases h2 : s + 2 ≥ e2 ∨ (byteAt b (s + 1) &&& 0xC0) ≠ 0x80
          ∨ (byteAt b (s + 2) &&& 0xC0) ≠ 0x80
    · rw [if_pos h2]
      rw [if_pos (by rcases h2 with h2 | h2; exact Or.inl (by omega); exact Or.inr h2)]
    · rw [if_neg h2] at hin ⊢
      have : s + 3 ≤ e1 := hin
      rw [if_neg (by
        intro hc
        rcases hc with hc | hc
        · omega
        · exact h2 (Or.inr hc))]
  simp only [hb3, if_false]

theorem utf8_next_end (b : Bytes) (s e1 e2 : Nat) (h : s < e1) (he : e1 ≤ e2)
    (hin : utf8_next b s e2 ≤ e1) : utf8_next b s e1 = utf8_next b s e2 := by
  unfold utf8_next at hin ⊢
  rw [utf8_decode_end b s e1 e2 h he hin]

theorem utf8_length_loop_shift (b : Bytes) (e : Nat) :
    ∀ n m s i j, e - s ≤ n → e - s ≤ m →
      utf8_length_loop b e n s i + j = utf8_length_loop b e m s j + i := by
  intro n
  induction n with
  | zero =>
    intro m s i j hn hm
    cases m with
    | zero => simp only [utf8_length_loop]; omega
    | succ m => rw [utf8_length_loop, utf8_length_loop, if_neg (by omega)]; omega
  | succ n ih =>
    intro m s i j hn hm
    by_cases hs : s < e
    · cases m with
      | zero => omega
      | succ m =>
        rw [utf8_length_loop, utf8_length_loop, if_pos hs, if_pos hs]
        simp only
        have hgt : s < (if byteAt b s < 0xC0 then s + 1 else utf8_next b s e) := by
          split
          · omega
          · exact utf8_next_gt b s e hs
        generalize (if byteAt b s < 0xC0 then s + 1 else utf8_next b s e) = s1 at hgt ⊢
        have := ih m s1 (i + 1) (j + 1) (by omega) (by omega)
        omega
    · rw [utf8_length_loop, if_neg hs]
      cases m with
      | zero => simp only [utf8_length_loop]; omega
      | succ m => rw [utf8_length_loop, if_neg hs]; omega

theorem utf8_length_done (b : Bytes) (s e : Nat) (h : e ≤ s) : utf8_length b s e = 0 := by
  unfold utf8_length
  rw [show e - s = 0 by omega]
  rfl

theorem utf8_length_step (b : Bytes) (s e : Nat) (h : s < e) :
    utf8_length b s e = 1 + utf8_length b (utf8_next b s e) e := by
  have hstep : (if byteAt b s < 0xC0 then s + 1 else utf8_next b s e) = utf8_next b s e := by
    split
    · rename_i hb
      rw [utf8_next_low b s e h hb]
    · rfl
  have hgt := utf8_next_gt b s e h
  unfold utf8_length
  obtain ⟨n, hn⟩ : ∃ n, e - s = n + 1 := ⟨e - s - 1, by omega⟩
  rw [hn, utf8_length_loop, if_pos h]
  simp only
  rw [hstep]
  have := utf8_length_loop_shift b e n (e - utf8_next b s e) (utf8_next b s e) (0 + 1) 0
    (by omega) (by omega)
  omega

theorem utf8_next_iter_succ (b : Bytes) (e k s : Nat) :
    utf8_next_iter b e (k + 1) s = utf8_next_iter b e k (utf8_next b s e) := by
  simp [utf8_next_iter, Function.iterate_succ_apply]

theorem utf8_next_iter_ge (b : Bytes) (e k s : Nat) : s ≤ utf8_next_iter b e k s := by
  induction k generalizing s with
  | zero => simp [utf8_next_iter]
  | succ k ih =>
    rw [utf8_next_iter_succ]
    exact Nat.le_trans (utf8_next_ge _ _ _) (ih _)

theorem utf8_next_iter_le (b : Bytes) (e k s : Nat) (he : b.length ≤ e) (h : s ≤ e) :
    utf8_next_iter b e k s ≤ e := by
  induction k generalizing s with
  | zero => simpa [utf8_next_iter] using h
  | succ k ih =>
    rw [utf8_next_iter_succ]
    exact ih _ (utf8_next_le b s e he h)

theorem utf8_next_iter_stay (b : Bytes) (e k s : Nat) (h : e ≤ s) :
    utf8_next_iter b e k s = s := by
  induction k with
  | zero => simp [utf8_next_iter]
  | succ k ih => rw [utf8_next_iter_succ, utf8_next_stay b s e h, ih]

/-- Length is additive at every boundary reached from s by repeated next. -/
theorem utf8_length_split (b : Bytes) (e : Nat) (he : b.length ≤ e) :
    ∀ j s, s ≤ e →
      utf8_length b s e = utf8_length b s (utf8_next_iter b e j s)
        + utf8_length b (utf8_next_iter b e j s) e := by
  intro j
  induction j with
  | zero =>
    intro s _
    simp only [utf8_next_iter, Function.iterate_zero, id_eq]
    rw [utf8_length_done b s s (le_refl _)]
    omega
  | succ j ih =>
    intro s hs
    rw [utf8_next_iter_succ]
    by_cases hlt : s < e
    · have h1 := utf8_next_gt b s e hlt
      have h2 := utf8_next_le b s e he hs
      have h3 := utf8_next_iter_ge b e j (utf8_next b s e)
      have h4 := utf8_next_iter_le b e j (utf8_next b s e) he h2
      have hk : s < utf8_next_iter b e j (utf8_next b s e) := by omega
      rw [utf8_length_step b s e hlt, utf8_length_step b s _ hk,
        utf8_next_end b s _ e hk h4 h3, ih _ h2]
      omega
    · rw [utf8_next_stay b s e (by omega)]
      exact ih s hs

theorem utf8_index_fwd_eq (b : Bytes) (e : Nat) :
    ∀ cnt s (idx : Int), 1 ≤ idx → e - s < cnt →
      utf8_index_fwd b e cnt s idx = utf8_next_iter b e (idx - 1).toNat s := by
  intro cnt
  induction cnt with
  | zero => intro s idx _ h; omega
  | succ cnt ih =>
    intro s idx hidx hcnt
    rw [utf8_index_fwd]
    by_cases hc : s < e ∧ idx - 1 > 0
    · rw [if_pos hc]
      have hgt := utf8_next_gt b s e hc.1
      rw [ih _ _ (by omega) (by omega)]
      have : (idx - 1).toNat = (idx - 1 - 1).toNat + 1 := by omega
      rw [this, utf8_next_iter_succ]
    · rw [if_neg hc]
      by_cases hs : s < e
      · have : idx = 1 := by omega
        subst this
        rfl
      · rw [utf8_next_iter_stay b e _ s (by omega)]

theorem utf8_next_iter_at_length (b : Bytes) (e : Nat) (he : b.length ≤ e) :
    ∀ m s, s ≤ e → utf8_length b s e ≤ m → utf8_next_iter b e m s = e := by
  intro m
  induction m with
  | zero =>
    intro s hs hl
    by_cases hlt : s < e
    · rw [utf8_length_step b s e hlt] at hl
      omega
    · simp only [utf8_next_iter, Function.iterate_zero, id_eq]
      omega
  | succ m ih =>
    intro s hs hl
    rw [utf8_next_iter_succ]
    by_cases hlt : s < e
    · rw [utf8_length_step b s e hlt] at hl
      exact ih _ (utf8_next_le b s e he hs) (by omega)
    · rw [utf8_next_stay b s e (by omega)]
      have : s = e := by omega
      subst this
      exact utf8_next_iter_stay b s m s (le_refl _)

theorem utf8_next_iter_before_length (b : Bytes) (e : Nat) :
    ∀ m s, m < utf8_length b s e → utf8_next_iter b e m s < e := by
  intro m
  induction m with
  | zero =>
    intro s hl
    simp only [utf8_next_iter, Function.iterate_zero, id_eq]
    by_contra hc
    rw [utf8_length_done b s e (by omega)] at hl
    omega
  | succ m ih =>
    intro s hl
    rw [utf8_next_iter_succ]
    by_cases hlt : s < e
    · rw [utf8_length_step b s e hlt] at hl
      exact ih _ (by omega)
    · rw [utf8_length_done b s e (by omega)] at hl
      omega

/-- C17: on every text, for an ordinal n with 1 <= n <= utf8_length(text) the cursor returned by
utf8_index is the cursor reached by applying next n - 1 times from the start, and it lies
before the end; the ordinal 0 yields the start; an ordinal greater than the length yields the
end of the text. -/
theorem C17_index_is_iterated_next (text : Bytes) :
    (∀ n : Nat, 1 ≤ n → n ≤ utf8_length text 0 text.length →
        utf8_index text 0 text.length n = utf8_next_iter text text.length (n - 1) 0
          ∧ utf8_index text 0 text.length n < text.length)
      ∧ utf8_index text 0 text.length 0 = 0
      ∧ (∀ n : Nat, utf8_length text 0 text.length < n →
          utf8_index text 0 text.length n = text.length) := by
  have hfwd : ∀ n : Nat, 1 ≤ n →
      utf8_index text 0 text.length n = utf8_next_iter text text.length (n - 1) 0 := by
    intro n hn
    unfold utf8_index
    rw [if_pos (by omega)]
    rw [utf8_index_fwd_eq text text.length _ 0 n (by omega) (by omega)]
    congr 1
    omega
  refine ⟨fun n h1 h2 => ?_, ?_, fun n h => ?_⟩
  · rw [hfwd n h1]
    exact ⟨rfl, utf8_next_iter_before_length text text.length (n - 1) 0 (by omega)⟩
  · unfold utf8_index
    rw [if_pos (by omega), utf8_index_fwd]
    rw [if_neg (by omega)]
  · rw [hfwd n (by omega)]
    exact utf8_next_iter_at_length text text.length (le_refl _) (n - 1) 0 (Nat.zero_le _)
      (by omega)

/-- C17 on the text "a", U+20AC, "b" (bytes 61 E2 82 AC 62, three characters): ordinal 2 is
byte offset 1, ordinal 3 is byte offset 4, ordinal 4 and above is the end. -/
theorem C17_index_is_iterated_next_witness :
    utf8_length [0x61, 0xE2, 0x82, 0xAC, 0x62] 0 5 = 3
      ∧ utf8_index [0x61, 0xE2, 0x82, 0xAC, 0x62] 0 5 3 = 4
      ∧ utf8_next_iter [0x61, 0xE2, 0x82, 0xAC, 0x62] 5 2 0 = 4
      ∧ utf8_index [0x61, 0xE2, 0x82, 0xAC, 0x62] 0 5 7 = 5
      ∧ (utf8_index [0x61, 0xE2, 0x82, 0xAC, 0x62] 0
            ([0x61, 0xE2, 0x82, 0xAC, 0x62] : Bytes).length (3 : Nat)
          = utf8_next_iter [0x61, 0xE2, 0x82, 0xAC, 0x62]
            ([0x61, 0xE2, 0x82, 0xAC, 0x62] : Bytes).length (3 - 1) 0
          ∧ utf8_index [0x61, 0xE2, 0x82, 0xAC, 0x62] 0
            ([0x61, 0xE2, 0x82, 0xAC, 0x62] : Bytes).length (3 : Nat)
            < ([0x61, 0xE2, 0x82, 0xAC, 0x62] : Bytes).length)
      ∧ utf8_index [0x61, 0xE2, 0x82, 0xAC, 0x62] 0
          ([0x61, 0xE2, 0x82, 0xAC, 0x62] : Bytes).length (7 : Nat)
        = ([0x61, 0xE2, 0x82, 0xAC, 0x62] : Bytes).length :=
  ⟨by decide, by decide, by decide, by decide,
    (C17_index_is_iterated_next [0x61, 0xE2, 0x82, 0xAC, 0x62]).1 3 (by decide) (by decide),
    (C17_index_is_iterated_next [0x61, 0xE2, 0x82, 0xAC, 0x62]).2.2 7 (by decide)⟩

/-! ## Leftmost-first search of find and match -/

theorem utf8_prev_loop_le (b : Bytes) (s M : Nat) (hs : s ≤ M) :
    ∀ n look, look ≤ M → utf8_prev_loop b s n look ≤ M := by
  intro n
  induction n with
  | zero => intro look _; simpa [utf8_prev_loop] using hs
  | succ n ih =>
    intro look hl
    rw [utf8_prev_loop]
    simp only
    split
    · split
      · exact hl
      · split
        · exact hs
        · exact ih _ (by omega)
    · exact hs

theorem utf8_prev_le (b : Bytes) (s e : Nat) (hs : s ≤ e) : utf8_prev b s e ≤ e := by
  unfold utf8_prev
  split
  · exact hs
  · exact utf8_prev_loop_le b s e hs _ _ (by omega)

theorem utf8_index_bwd_le (b : Bytes) (s : Nat) :
    ∀ n e (idx : Int), s ≤ e → utf8_index_bwd b s n e idx ≤ e := by
  intro n
  induction n with
  | zero => intro e idx _; simp [utf8_index_bwd]
  | succ n ih =>
    intro e idx hs
    rw [utf8_index_bwd]
    split
    · exact Nat.le_trans (ih _ _ (utf8_prev_ge b s e)) (utf8_prev_le b s e hs)
    · exact Nat.le_refl e

theorem utf8_index_le (b : Bytes) (i : Int) : utf8_index b 0 b.length i ≤ b.length := by
  unfold utf8_index
  split
  · by_cases h1 : 1 ≤ i
    · rw [utf8_index_fwd_eq b b.length _ 0 _ h1 (by omega)]
      exact utf8_next_iter_le b b.length _ 0 (le_refl _) (Nat.zero_le _)
    · rw [utf8_index_fwd, if_neg (by omega)]
      exact Nat.zero_le _
  · exact utf8_index_bwd_le b 0 _ _ _ (Nat.zero_le _)

theorem find_init_le (text : Bytes) (idx : Int) : find_init text idx ≤ text.length :=
  utf8_index_le text _

theorem find_aux_pattern_path (U : UniData) (text pat : Bytes) (idx : Int) (plain find : Bool)
    (hstart : ¬ (idx > 0 ∧ idx > (utf8_length text 0 text.length : Int) + 1))
    (hpath : ¬ (find = true ∧ (plain = true ∨ nospecials pat 0 pat.length = true))) :
    find_aux U text pat idx plain find
      = find_pattern_loop U text pat find (decide (byteAt pat 0 = 94)) (pattern_start pat)
          (text.length + 2) (initial_state text pat) (find_init text idx)
          (find_ordinal text idx) := by
  unfold find_aux
  simp only
  rw [if_neg hstart, if_neg hpath]
  unfold pattern_start find_init find_ordinal
  by_cases ha : byteAt pat 0 = 94 <;> simp [ha]

/-! ## Termination of the matcher -/

theorem Finishes_error {text : Bytes} {E s : Nat} {err : PatErr} (h : err ≠ PatErr.outOfFuel) :
    Finishes text E s (Except.error err) :=
  ⟨fun hc => h (by injection hc), fun _ _ _ _ hc => (by cases hc)⟩

theorem Finishes_fail {text : Bytes} {E s : Nat} {ms : MatchStateUTF8} :
    Finishes text E s (Except.ok (none, ms)) :=
  ⟨fun hc => (by cases hc), fun _ _ _ _ hc => (by cases hc)⟩

theorem Finishes_found {text : Bytes} {E s e : Nat} {ms : MatchStateUTF8}
    (h : text.length ≤ E → s ≤ E → e ≤ E) : Finishes text E s (Except.ok (some e, ms)) :=
  by
  refine ⟨fun hc => (by cases hc), fun h1 h2 _ _ hc => ?_⟩
  injection hc with hc
  injection hc with hc _
  injection hc with hc
  subst hc
  exact h h1 h2

theorem Finishes_mono {text : Bytes} {E s s1 : Nat} {res : MRes}
    (h : Finishes text E s1 res) (hs : text.length ≤ E → s ≤ E → s1 ≤ E) :
    Finishes text E s res :=
  ⟨h.1, fun h1 h2 => h.2 h1 (hs h1 h2)⟩

theorem Finishes_ite {text : Bytes} {E s : Nat} {c : Prop} [Decidable c] {a b : MRes}
    (ha : Finishes text E s a) (hb : Finishes text E s b) :
    Finishes text E s (if c then a else b) := by
  split
  · exact ha
  · exact hb

theorem StateOf_frame {D PE E : Nat} {ms ms1 : MatchStateUTF8} (h : StateOf D PE E ms)
    (hf : SameFrame ms ms1) : StateOf D PE E ms1 :=
  ⟨hf.1.trans h.1, hf.2.2.2.trans h.2.1, hf.2.2.1.trans h.2.2⟩

theorem utf8_prev_lt (b : Bytes) (s e : Nat) (h : s < e) : utf8_prev b s e < e := by
  unfold utf8_prev
  rw [if_neg (by omega)]
  have := utf8_prev_loop_le b s (e - 1) (by omega) e (e - 1) (le_refl _)
  omega

theorem classend_loop_fin (pat : Bytes) (PE : Nat) (hpat : pat.length ≤ PE) :
    ∀ n p, p ≤ PE → PE - p < n →
      classend_loop pat PE n p ≠ Except.error PatErr.outOfFuel ∧
      ∀ r, classend_loop pat PE n p = Except.ok r → p < r ∧ r ≤ PE := by
  intro n
  induction n with
  | zero => intro p _ h; omega
  | succ n ih =>
    intro p hp hn
    rw [classend_loop]
    split
    · exact ⟨fun hc => (by cases hc), fun r hc => (by cases hc)⟩
    · rename_i hne
      simp only
      have hp2 : p < (if byteAt pat p = L_ESC ∧ p + 1 < PE then p + 1 + 1 else p + 1) ∧
          (if byteAt pat p = L_ESC ∧ p + 1 < PE then p + 1 + 1 else p + 1) ≤ PE := by
        split
        · rename_i h; omega
        · omega
      generalize (if byteAt pat p = L_ESC ∧ p + 1 < PE then p + 1 + 1 else p + 1) = p2 at hp2 ⊢
      split
      · have := ih p2 hp2.2 (by omega)
        exact ⟨this.1, fun r hr => by have := this.2 r hr; omega⟩
      · rename_i h93
        have hlt : p2 < pat.length := by
          apply byteAt_ne_zero_lt
          intro h0
          apply h93
          rw [h0]
          decide
        refine ⟨fun hc => (by cases hc), fun r hr => ?_⟩
        injection hr with hr
        omega

theorem classend_fin (pat : Bytes) (ms : MatchStateUTF8) (p : Nat)
    (hpat : pat.length ≤ ms.p_end) (hp : p < ms.p_end) :
    classendUTF8 pat ms p ≠ Except.error PatErr.outOfFuel ∧
    ∀ ep, classendUTF8 pat ms p = Except.ok ep → p < ep ∧ ep ≤ ms.p_end := by
  have h1 := utf8_decode_pos pat p ms.p_end hp
  have h2 := utf8_decode_le pat p ms.p_end hpat hp
  unfold classendUTF8
  simp only
  split
  · split
    · exact ⟨fun hc => (by cases hc), fun r hc => (by cases hc)⟩
    · rename_i hne
      refine ⟨fun hc => (by cases hc), fun r hr => ?_⟩
      injection hr with hr
      have h3 := utf8_next_gt pat (p + (utf8_decode pat p ms.p_end).1) ms.p_end (by omega)
      have h4 := utf8_next_le pat (p + (utf8_decode pat p ms.p_end).1) ms.p_end hpat h2
      omega
  · split
    · have hp2 : p < (if byteAt pat (p + (utf8_decode pat p ms.p_end).1) = 94
            then p + (utf8_decode pat p ms.p_end).1 + 1 else p + (utf8_decode pat p ms.p_end).1) ∧
          (if byteAt pat (p + (utf8_decode pat p ms.p_end).1) = 94
            then p + (utf8_decode pat p ms.p_end).1 + 1 else p + (utf8_decode pat p ms.p_end).1)
            ≤ ms.p_end := by
        split
        · rename_i h94
          have : p + (utf8_decode pat p ms.p_end).1 < pat.length := by
            apply byteAt_ne_zero_lt
            rw [h94]
            decide
          omega
        · omega
      generalize (if byteAt pat (p + (utf8_decode pat p ms.p_end).1) = 94
            then p + (utf8_decode pat p ms.p_end).1 + 1 else p + (utf8_decode pat p ms.p_end).1)
          = p2 at hp2 ⊢
      have := classend_loop_fin pat ms.p_end hpat (ms.p_end + 1) p2 hp2.2 (by omega)
      exact ⟨this.1, fun r hr => by have := this.2 r hr; omega⟩
    · refine ⟨fun hc => (by cases hc), fun r hr => ?_⟩
      injection hr with hr
      omega

theorem max_expand_count_le (U : UniData) (text pat : Bytes) (ms : MatchStateUTF8)
    (p ep : Nat) (htext : text.length ≤ ms.src_end) :
    ∀ n m r, m ≤ ms.src_end → max_expand_count U text pat ms p ep n m = Except.ok r →
      r ≤ ms.src_end := by
  intro n
  induction n with
  | zero =>
    intro m r hm h
    simp only [max_expand_count] at h
    injection h with h
    omega
  | succ n ih =>
    intro m r hm h
    rw [max_expand_count] at h
    split at h
    · cases h
    · split at h
      · exact ih _ r (utf8_next_le text m ms.src_end htext hm) h
      · injection h with h
        omega

theorem matchbalance_loop_le (text : Bytes) (E b e : Nat) (htext : text.length ≤ E) :
    ∀ n s cont r, s ≤ E → matchbalance_loop text E b e n s cont = some r → r ≤ E := by
  intro n
  induction n with
  | zero => intro s cont r _ h; simp [matchbalance_loop] at h
  | succ n ih =>
    intro s cont r hs h
    simp only [matchbalance_loop] at h
    split at h
    · rename_i hlt
      have hle := utf8_decode_le text s E htext hlt
      split at h
      · split at h
        · injection h with h
          omega
        · exact ih _ _ _ hle h
      · split at h
        · exact ih _ _ _ hle h
        · exact ih _ _ _ hle h
    · cases h

theorem utf8_decode_done (b : Bytes) (s e : Nat) (h : e ≤ s) : utf8_decode b s e = (0, 0) := by
  unfold utf8_decode
  rw [if_pos h]

theorem Finishes_of_eq {text : Bytes} {E s : Nat} {res res1 : MRes}
    (h : Finishes text E s res) (heq : res = res1) : Finishes text E s res1 := heq ▸ h

theorem max_expand_back_fin {text : Bytes} {D PE E : Nat}
    {rec : MatchStateUTF8 → Nat → Nat → MRes} (hok : MatcherOk 0 rec)
    (hrec : MatcherFinishes text D PE E 0 rec) (s ep : Nat) (hep : ep + 1 ≤ PE) :
    ∀ n ms m, StateOf D PE E ms → m - s < n →
      Finishes text E m (max_expand_back rec text s ep n ms m) := by
  intro n
  induction n with
  | zero => intro ms m _ h; omega
  | succ n ih =>
    intro ms m hst hn
    simp only [max_expand_back]
    split
    · rename_i hsm
      have h1 := hrec ms m (ep + 1) hst (Nat.zero_le _) hep
      split
      · rename_i err heq
        exact Finishes_of_eq h1 heq
      · rename_i r ms1 heq
        exact Finishes_of_eq h1 heq
      · rename_i ms1 heq
        have hf := (hok ms m (ep + 1) none ms1 heq).1
        split
        · exact Finishes_fail
        · rename_i hne
          have hlt := utf8_prev_lt text s m (by omega)
          have hge := utf8_prev_ge text s m
          exact Finishes_mono (ih ms1 _ (StateOf_frame hst hf) (by omega))
            (fun _ h => by omega)
    · exact Finishes_fail

theorem max_expand_fin {text : Bytes} {D PE E : Nat}
    {rec : MatchStateUTF8 → Nat → Nat → MRes} (hok : MatcherOk 0 rec)
    (hrec : MatcherFinishes text D PE E 0 rec) (U : UniData) (pat : Bytes)
    (ms : MatchStateUTF8) (s p ep : Nat) (hst : StateOf D PE E ms) (hep : ep + 1 ≤ PE) :
    Finishes text E s (max_expandUTF8 rec U text pat ms s p ep) := by
  unfold max_expandUTF8
  split
  · rename_i err heq
    refine Finishes_error ?_
    intro hc
    subst hc
    exact absurd (max_expand_count_error U text pat ms p ep _ _ _ heq) (by decide)
  · rename_i m heq
    refine Finishes_mono (max_expand_back_fin hok hrec s ep hep _ ms _ hst (by omega)) ?_
    intro ht hs
    have hE := hst.2.2
    have := max_expand_count_le U text pat ms p ep (by omega) (ms.src_end + 1) s m (by omega)
      heq
    omega

theorem min_expand_loop_fin {text : Bytes} {D PE E : Nat}
    {rec : MatchStateUTF8 → Nat → Nat → MRes} (hok : MatcherOk 0 rec)
    (hrec : MatcherFinishes text D PE E 0 rec) (U : UniData) (pat : Bytes) (p ep : Nat)
    (hep : ep + 1 ≤ PE) :
    ∀ n ms s, StateOf D PE E ms → E + 1 - s < n →
      Finishes text E s (min_expand_loop rec U text pat p ep n ms s) := by
  intro n
  induction n with
  | zero => intro ms s _ h; omega
  | succ n ih =>
    intro ms s hst hn
    simp only [min_expand_loop]
    have h1 := hrec ms s (ep + 1) hst (Nat.zero_le _) hep
    split
    · rename_i err heq
      exact Finishes_of_eq h1 heq
    · rename_i r ms1 heq
      exact Finishes_of_eq h1 heq
    · rename_i ms1 heq
      have hf := (hok ms s (ep + 1) none ms1 heq).1
      have hst1 := StateOf_frame hst hf
      split
      · rename_i err heq1
        refine Finishes_error ?_
        intro hc
        subst hc
        exact absurd (singlematch_error U text pat ms1 s p ep _ heq1) (by decide)
      · rename_i b heq1
        split
        · rename_i hb
          have hlt := singlematch_lt U text pat ms1 s p ep (hb ▸ heq1)
          rw [hst1.2.2] at hlt ⊢
          have hgt := utf8_next_gt text s E hlt
          refine Finishes_mono (ih ms1 _ hst1 (by omega)) ?_
          intro ht hs
          exact utf8_next_le text s E ht hs
        · exact Finishes_fail

theorem min_expand_fin {text : Bytes} {D PE E : Nat}
    {rec : MatchStateUTF8 → Nat → Nat → MRes} (hok : MatcherOk 0 rec)
    (hrec : MatcherFinishes text D PE E 0 rec) (U : UniData) (pat : Bytes)
    (ms : MatchStateUTF8) (s p ep : Nat) (hst : StateOf D PE E ms) (hep : ep + 1 ≤ PE) :
    Finishes text E s (min_expandUTF8 rec U text pat ms s p ep) := by
  unfold min_expandUTF8
  exact min_expand_loop_fin hok hrec U pat p ep hep _ ms s hst (by rw [hst.2.2]; omega)

theorem start_capture_fin {text : Bytes} {D PE E : Nat}
    {rec : MatchStateUTF8 → Nat → Nat → MRes} (hrec : MatcherFinishes text D PE E 0 rec)
    (ms : MatchStateUTF8) (s p : Nat) (what : Int) (hst : StateOf D PE E ms) (hp : p ≤ PE) :
    Finishes text E s (start_captureUTF8 rec ms s p what) := by
  unfold start_captureUTF8
  simp only
  split
  · exact Finishes_error (by decide)
  · split
    · rename_i err heq
      exact Finishes_of_eq (hrec _ s p (by exact ⟨hst.1, hst.2.1, hst.2.2⟩) (Nat.zero_le _) hp) heq
    · exact Finishes_fail
    · rename_i r ms1 heq
      exact Finishes_of_eq (hrec _ s p (by exact ⟨hst.1, hst.2.1, hst.2.2⟩) (Nat.zero_le _) hp) heq

theorem capture_to_close_loop_err (ms : MatchStateUTF8) :
    ∀ l, capture_to_close_loop ms l ≠ Except.error PatErr.outOfFuel := by
  intro l
  induction l with
  | zero => intro h; cases h
  | succ l ih =>
    rw [capture_to_close_loop]
    split
    · intro h; cases h
    · exact ih

theorem end_capture_fin {text : Bytes} {D PE E : Nat}
    {rec : MatchStateUTF8 → Nat → Nat → MRes} (hrec : MatcherFinishes text D PE E 0 rec)
    (ms : MatchStateUTF8) (s p : Nat) (hst : StateOf D PE E ms) (hp : p ≤ PE) :
    Finishes text E s (end_captureUTF8 rec ms s p) := by
  unfold end_captureUTF8
  split
  · rename_i err heq
    refine Finishes_error ?_
    intro hc
    subst hc
    exact capture_to_close_loop_err ms ms.level heq
  · rename_i l heq
    simp only
    split
    · rename_i err heq
      exact Finishes_of_eq (hrec _ s p (by exact ⟨hst.1, hst.2.1, hst.2.2⟩) (Nat.zero_le _) hp) heq
    · exact Finishes_fail
    · rename_i r ms1 heq
      exact Finishes_of_eq (hrec _ s p (by exact ⟨hst.1, hst.2.1, hst.2.2⟩) (Nat.zero_le _) hp) heq

theorem match_capture_fin (text : Bytes) (ms : MatchStateUTF8) (s l : Nat) :
    match_captureUTF8 text ms s l ≠ Except.error PatErr.outOfFuel ∧
    (s ≤ ms.src_end → ∀ e, match_captureUTF8 text ms s l = Except.ok (some e) →
      e ≤ ms.src_end) := by
  unfold match_captureUTF8
  split
  · rename_i err heq
    refine ⟨?_, fun _ e h => (by cases h)⟩
    intro hc
    injection hc with hc
    subst hc
    unfold check_captureUTF8 at heq
    simp only at heq
    split at heq <;> cases heq
  · simp only
    split
    · rename_i hc
      refine ⟨fun h => (by cases h), fun hs e h => ?_⟩
      injection h with h
      injection h with h
      have h1 := hc.1
      have h2 : (((ms.src_end : Int) - (s : Int)) % 2 ^ 64).toNat ≤ ms.src_end - s := by
        omega
      omega
    · exact ⟨fun h => (by cases h), fun _ e h => (by cases h)⟩

theorem matchbalance_fin (text pat : Bytes) (ms : MatchStateUTF8) (s p : Nat)
    (hpat : pat.length ≤ ms.p_end) :
    matchbalanceUTF8 text pat ms s p ≠ Except.error PatErr.outOfFuel ∧
    ∀ s1 p2, matchbalanceUTF8 text pat ms s p = Except.ok (some s1, p2) →
      (p < p2 ∧ p2 ≤ ms.p_end) ∧ (text.length ≤ ms.src_end → s ≤ ms.src_end → s1 ≤ ms.src_end) := by
  unfold matchbalanceUTF8
  simp only
  split
  · exact ⟨fun h => (by cases h), fun _ _ h => (by cases h)⟩
  · rename_i hlt
    have hd2a := utf8_decode_pos pat (p + (utf8_decode pat p ms.p_end).1) ms.p_end (by omega)
    have hd2b := utf8_decode_le pat (p + (utf8_decode pat p ms.p_end).1) ms.p_end hpat (by omega)
    split
    · exact ⟨fun h => (by cases h), fun _ _ h => (by cases h)⟩
    · refine ⟨fun h => (by cases h), fun s1 p2 h => ?_⟩
      injection h with h
      injection h with h1 h2
      refine ⟨by omega, fun ht hs => ?_⟩
      refine matchbalance_loop_le text ms.src_end _ _ ht _ _ _ _ ?_ h1
      by_cases hse : s < ms.src_end
      · exact utf8_decode_le text s ms.src_end ht hse
      · rw [utf8_decode_done text s ms.src_end (by omega)]
        exact hs

theorem match_default_fin {text : Bytes} {D PE E : Nat}
    {rec again : MatchStateUTF8 → Nat → Nat → MRes} (hok : MatcherOk 0 rec)
    (hrec : MatcherFinishes text D PE E 0 rec) (U : UniData) (pat : Bytes)
    (hpat : pat.length ≤ PE) (ms : MatchStateUTF8) (s p : Nat) (hst : StateOf D PE E ms)
    (hp : p < PE) (hagain : MatcherFinishes text D PE E (p + 1) again) :
    Finishes text E s (match_default U text pat rec again ms s p) := by
  have hPE := hst.2.1
  have hE := hst.2.2
  have hcl := classend_fin pat ms p (by omega) (by omega)
  unfold match_default
  split
  · rename_i err heq
    refine Finishes_error ?_
    intro hc
    subst hc
    exact hcl.1 heq
  · rename_i ep heq
    have hep := hcl.2 ep heq
    simp only
    have hnz : byteAt pat ep ≠ 0 → ep + 1 ≤ PE := by
      intro h
      have := byteAt_ne_zero_lt pat ep h
      omega
    split
    · rename_i err heq1
      refine Finishes_error ?_
      intro hc
      subst hc
      exact absurd (singlematch_error U text pat ms s p ep _ heq1) (by decide)
    · rename_i b heq1
      split
      · split
        · rename_i hsuf
          exact hagain ms s (ep + 1) hst (by omega) (hnz (by omega))
        · exact Finishes_fail
      · rename_i hsm
        have hb : b = true := by simpa using hsm
        have hlt := singlematch_lt U text pat ms s p ep (hb ▸ heq1)
        have hnext : text.length ≤ E → s ≤ E → utf8_next text s ms.src_end ≤ E := by
          intro ht hs
          rw [hE]
          exact utf8_next_le text s E ht hs
        split
        · rename_i h63
          have hep1 := hnz (by omega)
          have hn1 := utf8_next_gt pat ep ms.p_end (by omega)
          have hn2 := utf8_next_le pat ep ms.p_end (by omega) (by omega)
          have h1 := hrec ms (utf8_next text s ms.src_end) (utf8_next pat ep ms.p_end) hst
            (Nat.zero_le _) (by omega)
          split
          · rename_i err heq2
            exact Finishes_mono (Finishes_of_eq h1 heq2) hnext
          · rename_i r ms1 heq2
            exact Finishes_mono (Finishes_of_eq h1 heq2) hnext
          · rename_i ms1 heq2
            have hf := (hok _ _ _ none ms1 heq2).1
            exact hagain ms1 s _ (StateOf_frame hst hf) (by omega) (by omega)
        · split
          · rename_i h43
            exact Finishes_mono (max_expand_fin hok hrec U pat ms _ p ep hst (hnz (by omega)))
              hnext
          · split
            · rename_i h42
              exact max_expand_fin hok hrec U pat ms s p ep hst (hnz (by omega))
            · split
              · rename_i h45
                exact min_expand_fin hok hrec U pat ms s p ep hst (hnz (by omega))
              · exact Finishes_mono (hagain ms _ ep hst (by omega) (by omega)) hnext

theorem match_escape_fin {text : Bytes} {D PE E : Nat}
    {rec again : MatchStateUTF8 → Nat → Nat → MRes} (hok : MatcherOk 0 rec)
    (hrec : MatcherFinishes text D PE E 0 rec) (U : UniData) (pat : Bytes)
    (hpat : pat.length ≤ PE) (ms : MatchStateUTF8) (s p : Nat) (hst : StateOf D PE E ms)
    (hp : p < PE) (hagain : MatcherFinishes text D PE E (p + 1) again) :
    Finishes text E s (match_escape U text pat rec again ms s p) := by
  have hPE := hst.2.1
  have hE := hst.2.2
  have hd : (utf8_decode pat (p + 1) ms.p_end).2 ≠ 0 →
      p + ((utf8_decode pat (p + 1) ms.p_end).1 + 1) ≤ PE := by
    intro h
    by_cases hlt : p + 1 < ms.p_end
    · have := utf8_decode_le pat (p + 1) ms.p_end (by omega) hlt
      omega
    · rw [utf8_decode_done pat (p + 1) ms.p_end (by omega)] at h
      exact absurd rfl h
  unfold match_escape
  simp only
  split
  · rename_i h98
    have hp1 := hd (by omega)
    have hmb := matchbalance_fin text pat ms s (p + ((utf8_decode pat (p + 1) ms.p_end).1 + 1))
      (by omega)
    split
    · rename_i err heq
      refine Finishes_error ?_
      intro hc
      subst hc
      exact hmb.1 heq
    · rename_i s1 p2 heq
      have := hmb.2 s1 p2 heq
      exact Finishes_mono (hagain ms s1 p2 hst (by omega) (by omega))
        (fun ht hs => by have := this.2 (by omega) (by omega); omega)
    · exact Finishes_fail
  · split
    · rename_i h102
      have hp1 := hd (by omega)
      split
      · exact Finishes_error (by decide)
      · rename_i h91
        have hlt : p + ((utf8_decode pat (p + 1) ms.p_end).1 + 1) < pat.length := by
          apply byteAt_ne_zero_lt
          intro h0
          apply h91
          rw [h0]
          decide
        have hcl := classend_fin pat ms (p + ((utf8_decode pat (p + 1) ms.p_end).1 + 1))
          (by omega) (by omega)
        split
        · rename_i err heq
          refine Finishes_error ?_
          intro hc
          subst hc
          exact hcl.1 heq
        · rename_i ep heq
          have hep := hcl.2 ep heq
          split
          · rename_i err heq1
            refine Finishes_error ?_
            intro hc
            subst hc
            exact absurd (matchbracketclass_error U pat _ _ _ _ heq1) (by decide)
          · split
            · exact Finishes_fail
            · split
              · rename_i err heq1
                refine Finishes_error ?_
                intro hc
                subst hc
                exact absurd (matchbracketclass_error U pat _ _ _ _ heq1) (by decide)
              · exact Finishes_ite (hagain ms s ep hst (by omega) (by omega)) Finishes_fail
    · split
      · rename_i hdig
        have hp1 := hd (by omega)
        have hmc := match_capture_fin text ms s (utf8_decode pat (p + 1) ms.p_end).2
        split
        · rename_i err heq
          refine Finishes_error ?_
          intro hc
          subst hc
          exact hmc.1 heq
        · rename_i s1 heq
          exact Finishes_mono (hagain ms s1 _ hst (by omega) (by omega))
            (fun _ hs => by have := hmc.2 (by omega) s1 heq; omega)
        · exact Finishes_fail
      · exact match_default_fin hok hrec U pat hpat ms s p hst hp hagain

theorem match_init_fin {text : Bytes} {D PE E : Nat}
    {rec : MatchStateUTF8 → Nat → Nat → MRes} (hok : MatcherOk 0 rec)
    (hrec : MatcherFinishes text D PE E 0 rec) (U : UniData) (pat : Bytes)
    (hpat : pat.length ≤ PE) :
    ∀ n ms s p, StateOf D PE E ms → p ≤ PE → PE - p < n →
      Finishes text E s (match_init U text pat rec n ms s p) := by
  intro n
  induction n with
  | zero => intro ms s p _ _ h; omega
  | succ n ih =>
    intro ms s p hst hp hn
    have hPE := hst.2.1
    have hE := hst.2.2
    have hagain : MatcherFinishes text D PE E (p + 1) (match_init U text pat rec n) :=
      fun ms1 s1 p1 hst1 hlo hhi => ih ms1 s1 p1 hst1 hhi (by omega)
    rw [match_init]
    split
    · rename_i hne
      have hlt : p < PE := by omega
      simp only
      split
      · split
        · rename_i h41
          have := byteAt_ne_zero_lt pat (p + 1) (by rw [h41]; decide)
          exact start_capture_fin hrec ms s _ _ hst (by omega)
        · exact start_capture_fin hrec ms s _ _ hst (by omega)
      · split
        · exact end_capture_fin hrec ms s _ hst (by omega)
        · split
          · split
            · exact Finishes_found (fun _ h => h)
            · exact Finishes_fail
          · split
            · exact match_escape_fin hok hrec U pat hpat ms s p hst hlt hagain
            · exact match_default_fin hok hrec U pat hpat ms s p hst hlt hagain
    · exact Finishes_found (fun _ h => h)

theorem Finishes_restore {text : Bytes} {E s : Nat} {res : MRes} (h : Finishes text E s res) :
    Finishes text E s (restore_depth res) := by
  unfold restore_depth
  split
  · exact h
  · rename_i r ms1
    cases r with
    | none => exact Finishes_fail
    | some e => exact Finishes_found (fun ht hs => h.2 ht hs e ms1 rfl)

/-- With more fuel than the remaining depth budget the matcher never exhausts a counter of the
embedding, and a returned cursor stays inside the text. -/
theorem matchUTF8_fin (U : UniData) (text pat : Bytes) :
    ∀ fuel ms s p, ms.matchdepth < fuel → pat.length ≤ ms.p_end → p ≤ ms.p_end →
      Finishes text ms.src_end s (matchUTF8 U text pat fuel ms s p) := by
  intro fuel
  induction fuel with
  | zero => intro ms s p h; omega
  | succ fuel ih =>
    intro ms s p hd hpat hp
    simp only [matchUTF8]
    split
    · exact Finishes_error (by decide)
    · rename_i hne
      have hrec : MatcherFinishes text (ms.matchdepth - 1) ms.p_end ms.src_end 0
          (matchUTF8 U text pat fuel) := by
        intro ms1 s1 p1 hst1 _ hp1
        have := ih ms1 s1 p1 (by rw [hst1.1]; omega) (by rw [hst1.2.1]; exact hpat)
          (by rw [hst1.2.1]; exact hp1)
        rw [hst1.2.2] at this
        exact this
      exact Finishes_restore (match_init_fin (matchUTF8_ok 0 U text pat fuel) hrec U pat hpat
        (ms.p_end + 1) _ s p ⟨rfl, rfl, rfl⟩ hp (by omega))

theorem max_expand_count_stable (U : UniData) (text pat : Bytes) (ms : MatchStateUTF8)
    (p ep : Nat) :
    ∀ n k m, ms.src_end - m < n → ms.src_end - m < k →
      max_expand_count U text pat ms p ep n m = max_expand_count U text pat ms p ep k m := by
  intro n
  induction n with
  | zero => intro k m h; omega
  | succ n ih =>
    intro k m hn hk
    cases k with
    | zero => omega
    | succ k =>
      simp only [max_expand_count]
      split
      · rfl
      · rename_i b heq
        split
        · rename_i hb
          have hlt := singlematch_lt U text pat ms m p ep (hb ▸ heq)
          have hgt := utf8_next_gt text m ms.src_end hlt
          exact ih k _ (by omega) (by omega)
        · rfl

theorem matchbalance_loop_stable (text : Bytes) (E b e : Nat) :
    ∀ n k s cont, E - s < n → E - s < k →
      matchbalance_loop text E b e n s cont = matchbalance_loop text E b e k s cont := by
  intro n
  induction n with
  | zero => intro k s cont h; omega
  | succ n ih =>
    intro k s cont hn hk
    cases k with
    | zero => omega
    | succ k =>
      simp only [matchbalance_loop]
      split
      · rename_i hlt
        have hpos := utf8_decode_pos text s E hlt
        split
        · split
          · rfl
          · exact ih k _ _ (by omega) (by omega)
        · split
          · exact ih k _ _ (by omega) (by omega)
          · exact ih k _ _ (by omega) (by omega)
      · rfl

theorem matchbracket_loop_stable (U : UniData) (pat : Bytes) (c ec : Nat) (sig : Bool) :
    ∀ n k p, ec - p < n → ec - p < k →
      matchbracket_loop U pat c ec sig n p = matchbracket_loop U pat c ec sig k p := by
  intro n
  induction n with
  | zero => intro k p h; omega
  | succ n ih =>
    intro k p hn hk
    cases k with
    | zero => omega
    | succ k =>
      simp only [matchbracket_loop]
      split
      · rename_i hlt
        have hpos := utf8_decode_pos pat p ec hlt
        split
        · split
          · rfl
          · exact ih k _ (by omega) (by omega)
        · split
          · split
            · rfl
            · exact ih k _ (by omega) (by omega)
          · split
            · rfl
            · exact ih k _ (by omega) (by omega)
      · rfl

theorem max_expand_back_agree {D : Nat} {rec1 rec2 : MatchStateUTF8 → Nat → Nat → MRes}
    (hok : MatcherOk 0 rec2) (hag : AgreeAt D rec1 rec2) (text : Bytes) (s ep : Nat) :
    ∀ n ms m, ms.matchdepth = D →
      max_expand_back rec1 text s ep n ms m = max_expand_back rec2 text s ep n ms m := by
  intro n
  induction n with
  | zero => intro ms m _; rfl
  | succ n ih =>
    intro ms m hD
    simp only [max_expand_back]
    rw [hag ms m (ep + 1) hD]
    by_cases hsm : s ≤ m
    · simp only [hsm, if_true]
      cases hres : rec2 ms m (ep + 1) with
      | error err => rfl
      | ok v =>
        obtain ⟨r, ms1⟩ := v
        cases r with
        | some r => rfl
        | none =>
          have hf := (hok ms m (ep + 1) none ms1 hres).1
          simp only
          by_cases hne : s = m
          · simp only [hne, if_true]
          · simp only [hne, if_false]
            exact ih ms1 _ (hf.1.trans hD)
    · simp only [hsm, if_false]

theorem min_expand_loop_agree {D : Nat} {rec1 rec2 : MatchStateUTF8 → Nat → Nat → MRes}
    (hok : MatcherOk 0 rec2) (hag : AgreeAt D rec1 rec2) (U : UniData) (text pat : Bytes)
    (p ep : Nat) :
    ∀ n ms s, ms.matchdepth = D →
      min_expand_loop rec1 U text pat p ep n ms s = min_expand_loop rec2 U text pat p ep n ms s := by
  intro n
  induction n with
  | zero => intro ms s _; rfl
  | succ n ih =>
    intro ms s hD
    simp only [min_expand_loop]
    rw [hag ms s (ep + 1) hD]
    cases hres : rec2 ms s (ep + 1) with
    | error err => rfl
    | ok v =>
      obtain ⟨r, ms1⟩ := v
      cases r with
      | some r => rfl
      | none =>
        have hf := (hok ms s (ep + 1) none ms1 hres).1
        simp only
        rw [ih ms1 _ (hf.1.trans hD)]

theorem start_capture_agree {D : Nat} {rec1 rec2 : MatchStateUTF8 → Nat → Nat → MRes}
    (hag : AgreeAt D rec1 rec2) (ms : MatchStateUTF8) (s p : Nat) (what : Int)
    (hD : ms.matchdepth = D) :
    start_captureUTF8 rec1 ms s p what = start_captureUTF8 rec2 ms s p what := by
  unfold start_captureUTF8
  simp only
  rw [hag _ s p (by exact hD)]

theorem end_capture_agree {D : Nat} {rec1 rec2 : MatchStateUTF8 → Nat → Nat → MRes}
    (hag : AgreeAt D rec1 rec2) (ms : MatchStateUTF8) (s p : Nat) (hD : ms.matchdepth = D) :
    end_captureUTF8 rec1 ms s p = end_captureUTF8 rec2 ms s p := by
  unfold end_captureUTF8
  cases capture_to_closeUTF8 ms with
  | error err => rfl
  | ok l =>
    simp only
    rw [hag _ s p (by exact hD)]

theorem match_default_agree {D : Nat} {rec1 rec2 again1 again2 : MatchStateUTF8 → Nat → Nat → MRes}
    (hok : MatcherOk 0 rec2) (hag : AgreeAt D rec1 rec2) (hagain : AgreeAt D again1 again2)
    (U : UniData) (text pat : Bytes) (ms : MatchStateUTF8) (s p : Nat) (hD : ms.matchdepth = D) :
    match_default U text pat rec1 again1 ms s p = match_default U text pat rec2 again2 ms s p := by
  unfold match_default
  cases classendUTF8 pat ms p with
  | error err => rfl
  | ok ep =>
    simp only
    rw [hagain ms s (ep + 1) hD, hagain ms (utf8_next text s ms.src_end) ep hD,
      hag ms (utf8_next text s ms.src_end) (utf8_next pat ep ms.p_end) hD]
    have hmax : ∀ s1, max_expandUTF8 rec1 U text pat ms s1 p ep
        = max_expandUTF8 rec2 U text pat ms s1 p ep := by
      intro s1
      unfold max_expandUTF8
      cases max_expand_count U text pat ms p ep (ms.src_end + 1) s1 with
      | error err => rfl
      | ok m => exact max_expand_back_agree hok hag text s1 ep _ ms _ hD
    have hmin : min_expandUTF8 rec1 U text pat ms s p ep
        = min_expandUTF8 rec2 U text pat ms s p ep := by
      unfold min_expandUTF8
      exact min_expand_loop_agree hok hag U text pat p ep _ ms s hD
    rw [hmax, hmax, hmin]
    cases hres : rec2 ms (utf8_next text s ms.src_end) (utf8_next pat ep ms.p_end) with
    | error err => rfl
    | ok v =>
      obtain ⟨r, ms1⟩ := v
      cases r with
      | some r => rfl
      | none =>
        have hf := (hok _ _ _ none ms1 hres).1
        simp only
        rw [hagain ms1 s _ (hf.1.trans hD)]

theorem match_escape_agree {D : Nat} {rec1 rec2 again1 again2 : MatchStateUTF8 → Nat → Nat → MRes}
    (hok : MatcherOk 0 rec2) (hag : AgreeAt D rec1 rec2) (hagain : AgreeAt D again1 again2)
    (U : UniData) (text pat : Bytes) (ms : MatchStateUTF8) (s p : Nat) (hD : ms.matchdepth = D) :
    match_escape U text pat rec1 again1 ms s p = match_escape U text pat rec2 again2 ms s p := by
  unfold match_escape
  simp only
  rw [match_default_agree hok hag hagain U text pat ms s p hD]
  have h : ∀ s1 p1, again1 ms s1 p1 = again2 ms s1 p1 := fun s1 p1 => hagain ms s1 p1 hD
  simp only [h]

theorem match_init_agree {D : Nat} {rec1 rec2 : MatchStateUTF8 → Nat → Nat → MRes}
    (hok : MatcherOk 0 rec2) (hag : AgreeAt D rec1 rec2) (U : UniData) (text pat : Bytes) :
    ∀ n, AgreeAt D (match_init U text pat rec1 n) (match_init U text pat rec2 n) := by
  intro n
  induction n with
  | zero => intro ms s p _; rfl
  | succ n ih =>
    intro ms s p hD
    rw [match_init, match_init]
    rw [match_escape_agree hok hag ih U text pat ms s p hD,
      match_default_agree hok hag ih U text pat ms s p hD,
      start_capture_agree hag ms s (p + 2) CAP_POSITION hD,
      start_capture_agree hag ms s (p + 1) CAP_UNFINISHED hD,
      end_capture_agree hag ms s (p + 1) hD]

/-- The result of the matcher does not depend on the fuel, as long as the fuel exceeds the
remaining depth budget. -/
theorem matchUTF8_fuel (U : UniData) (text pat : Bytes) :
    ∀ f1 f2 ms s p, ms.matchdepth < f1 → ms.matchdepth < f2 →
      matchUTF8 U text pat f1 ms s p = matchUTF8 U text pat f2 ms s p := by
  intro f1
  induction f1 with
  | zero => intro f2 ms s p h; omega
  | succ f1 ih =>
    intro f2 ms s p h1 h2
    cases f2 with
    | zero => omega
    | succ f2 =>
      simp only [matchUTF8]
      split
      · rfl
      · rename_i hne
        have hag : AgreeAt (ms.matchdepth - 1) (matchUTF8 U text pat f1)
            (matchUTF8 U text pat f2) :=
          fun ms1 s1 p1 hD => ih f2 ms1 s1 p1 (by omega) (by omega)
        rw [match_init_agree (matchUTF8_ok 0 U text pat f2) hag U text pat (ms.p_end + 1) _ s p
          rfl]

/-- Totality of the matcher: for every text, pattern, start cursor and match state whose pattern
end is at (or beyond) the end of the pattern buffer, with the pattern cursor not beyond the
pattern end, the matcher finishes with a matched end cursor, with no match, or with an error
that is not the marker of an exhausted counter: a fatal pattern error, or the failed assertion
of matchbracketclassUTF8. No counter of the embedding is ever exhausted: fuel for one activation
more than the remaining depth budget suffices (the nesting of matchUTF8 never exceeds the
budget, 200 in the drivers, by more than the activation that raises), every larger fuel gives
the same result, a call with depth budget 0 raises "pattern too complex" at once, and the
bounded loops of max_expandUTF8, matchbalanceUTF8 and matchbracketclassUTF8 give the same value
for every larger bound. -/
theorem matcher_terminates (U : UniData) (text pat : Bytes) (ms : MatchStateUTF8)
    (s p fuel : Nat) (hpat : pat.length ≤ ms.p_end) (hp : p ≤ ms.p_end)
    (hfuel : ms.matchdepth < fuel) :
    ((∃ e ms1, matchUTF8 U text pat fuel ms s p = Except.ok (some e, ms1))
        ∨ (∃ ms1, matchUTF8 U text pat fuel ms s p = Except.ok (none, ms1))
        ∨ (∃ err, err ≠ PatErr.outOfFuel ∧ matchUTF8 U text pat fuel ms s p = Except.error err))
      ∧ matchUTF8 U text pat fuel ms s p = matchUTF8 U text pat (ms.matchdepth + 1) ms s p
      ∧ (ms.matchdepth = 0 →
          matchUTF8 U text pat fuel ms s p = Except.error PatErr.patternTooComplex)
      ∧ (∀ n q ep m, ms.src_end - m < n →
          max_expand_count U text pat ms q ep n m
            = max_expand_count U text pat ms q ep (ms.src_end + 1) m)
      ∧ (∀ n b e s1 cont, ms.src_end - s1 < n →
          matchbalance_loop text ms.src_end b e n s1 cont
            = matchbalance_loop text ms.src_end b e (ms.src_end + 1) s1 cont)
      ∧ (∀ n c ec sig q, ec - q < n →
          matchbracket_loop U pat c ec sig n q = matchbracket_loop U pat c ec sig (ec + 1) q) := by
  refine ⟨?_, matchUTF8_fuel U text pat fuel _ ms s p hfuel (by omega), ?_,
    fun n q ep m h => max_expand_count_stable U text pat ms q ep n _ m h (by omega),
    fun n b e s1 cont h => matchbalance_loop_stable text ms.src_end b e n _ s1 cont h (by omega),
    fun n c ec sig q h => matchbracket_loop_stable U pat c ec sig n _ q h (by omega)⟩
  · have h := (matchUTF8_fin U text pat fuel ms s p hfuel hpat hp).1
    cases hres : matchUTF8 U text pat fuel ms s p with
    | error err =>
      refine Or.inr (Or.inr ⟨err, ?_, rfl⟩)
      intro hc
      rw [hres, hc] at h
      exact h rfl
    | ok v =>
      obtain ⟨r, ms1⟩ := v
      cases r with
      | none => exact Or.inr (Or.inl ⟨ms1, rfl⟩)
      | some e => exact Or.inl ⟨e, ms1, rfl⟩
  · intro h0
    cases fuel with
    | zero => omega
    | succ fuel => simp [matchUTF8, h0]

/-- Totality on the text "aab", the pattern "(a*)b" and the state set up by the drivers, with the
fuel the drivers use: the matcher returns the end cursor 3. -/
theorem matcher_terminates_example :
    ([40, 97, 42, 41, 98] : Bytes).length ≤ (initial_state [97, 97, 98] [40, 97, 42, 41, 98]).p_end
      ∧ (initial_state [97, 97, 98] [40, 97, 42, 41, 98]).matchdepth < MAXCCALLS + 1
      ∧ (∃ ms1, matchUTF8 ascii_tables [97, 97, 98] [40, 97, 42, 41, 98] (MAXCCALLS + 1)
          (initial_state [97, 97, 98] [40, 97, 42, 41, 98]) 0 0 = Except.ok (some 3, ms1))
      ∧ ((∃ e ms1, matchUTF8 ascii_tables [97, 97, 98] [40, 97, 42, 41, 98] (MAXCCALLS + 1)
            (initial_state [97, 97, 98] [40, 97, 42, 41, 98]) 0 0 = Except.ok (some e, ms1))
        ∨ (∃ ms1, matchUTF8 ascii_tables [97, 97, 98] [40, 97, 42, 41, 98] (MAXCCALLS + 1)
            (initial_state [97, 97, 98] [40, 97, 42, 41, 98]) 0 0 = Except.ok (none, ms1))
        ∨ (∃ err, err ≠ PatErr.outOfFuel ∧
            matchUTF8 ascii_tables [97, 97, 98] [40, 97, 42, 41, 98] (MAXCCALLS + 1)
              (initial_state [97, 97, 98] [40, 97, 42, 41, 98]) 0 0 = Except.error err)) :=
  ⟨by decide, by decide, ⟨_, rfl⟩,
    (matcher_terminates ascii_tables [97, 97, 98] [40, 97, 42, 41, 98]
      (initial_state [97, 97, 98] [40, 97, 42, 41, 98]) 0 0 (MAXCCALLS + 1)
      (by decide) (by decide) (by decide)).1⟩

/-! ## The cap on the number of substitutions -/

theorem byteAt_drop (b : Bytes) (k i : Nat) : byteAt (b.drop k) i = byteAt b (k + i) := by
  simp [byteAt, List.getElem?_drop]

theorem byteAt_take (b : Bytes) (k i : Nat) :
    byteAt (b.take k) i = if i < k then byteAt b i else 0 := by
  unfold byteAt
  by_cases h : i < k
  · simp [List.getElem?_take, h]
  · simp [List.getElem?_take, h]

theorem utf8_decode_loop_drop (b : Bytes) (k s : Nat) :
    ∀ n count res ch, utf8_decode_loop (b.drop k) s n count res ch
      = utf8_decode_loop b (k + s) n count res ch := by
  intro n
  induction n with
  | zero => intro count res ch; rfl
  | succ n ih =>
    intro count res ch
    simp only [utf8_decode_loop, byteAt_drop, Nat.add_assoc, ih]

theorem utf8_decode_drop (b : Bytes) (k s e : Nat) :
    utf8_decode (b.drop k) s e = utf8_decode b (k + s) (k + e) := by
  unfold utf8_decode
  simp only [byteAt_drop, utf8_decode_loop_drop, Nat.add_assoc, ge_iff_le,
    Nat.add_le_add_iff_left]

theorem utf8_next_drop (b : Bytes) (k s e : Nat) :
    k + utf8_next (b.drop k) s e = utf8_next b (k + s) (k + e) := by
  unfold utf8_next
  rw [utf8_decode_drop]
  omega

theorem utf8_length_loop_drop (b : Bytes) (k e : Nat) :
    ∀ n s i, utf8_length_loop (b.drop k) e n s i = utf8_length_loop b (k + e) n (k + s) i := by
  intro n
  induction n with
  | zero => intro s i; rfl
  | succ n ih =>
    intro s i
    simp only [utf8_length_loop, byteAt_drop, Nat.add_lt_add_iff_left]
    split
    · rw [ih]
      congr 1
      split
      · omega
      · exact utf8_next_drop b k s e
    · rfl

theorem utf8_length_drop (b : Bytes) (k : Nat) (hk : k ≤ b.length) :
    utf8_length (b.drop k) 0 (b.drop k).length = utf8_length b k b.length := by
  unfold utf8_length
  rw [utf8_length_loop_drop]
  simp only [List.length_drop, Nat.sub_zero, Nat.add_zero]
  rw [show k + (b.length - k) = b.length by omega]

theorem utf8_decode_loop_take (b : Bytes) (k s : Nat) :
    ∀ n count res ch,
      utf8_decode_loop (b.take k) s n count res ch = utf8_decode_loop b s n count res ch
      ∨ ((∃ c, utf8_decode_loop (b.take k) s n count res ch = Sum.inl c) ∧
        ((∃ c, utf8_decode_loop b s n count res ch = Sum.inl c) ∨
          ∃ c r h, utf8_decode_loop b s n count res ch = Sum.inr (c, r, h) ∧ k ≤ s + c)) := by
  intro n
  induction n with
  | zero => intro count res ch; exact Or.inl rfl
  | succ n ih =>
    intro count res ch
    simp only [utf8_decode_loop]
    by_cases hbit : ch &&& 0x40 ≠ 0
    · simp only [if_pos hbit]
      by_cases hj : s + (count + 1) < k
      · rw [byteAt_take, if_pos hj]
        by_cases hc : byteAt b (s + (count + 1)) &&& 0xC0 ≠ 0x80
        · simp only [if_pos hc]
          exact Or.inl trivial
        · simp only [if_neg hc]
          exact ih _ _ _
      · rw [byteAt_take, if_neg hj]
        rw [if_pos (show (0 : Nat) &&& 0xC0 ≠ 0x80 by decide)]
        refine Or.inr ⟨⟨ch, rfl⟩, ?_⟩
        by_cases hc : byteAt b (s + (count + 1)) &&& 0xC0 ≠ 0x80
        · simp only [if_pos hc]
          exact Or.inl ⟨ch, rfl⟩
        · simp only [if_neg hc]
          cases hres : utf8_decode_loop b s n (count + 1)
              (((res <<< 6) % 2 ^ 32) ||| (byteAt b (s + (count + 1)) &&& 0x3F))
              ((ch <<< 1) % 2 ^ 32) with
          | inl c => exact Or.inl ⟨c, rfl⟩
          | inr v =>
            obtain ⟨c, r, h⟩ := v
            have := (utf8_decode_loop_inside b s _ _ _ _ _ _ _ hres).1
            exact Or.inr ⟨c, r, h, rfl, by omega⟩
    · simp only [if_neg hbit]
      exact Or.inl trivial

/-- Cutting the buffer at an end bound that contains the decoded character does not change the
number of bytes consumed. -/
theorem utf8_decode_take (b : Bytes) (k s : Nat) (hs : s < k)
    (hin : s + (utf8_decode b s k).1 ≤ k) :
    (utf8_decode (b.take k) s k).1 = (utf8_decode b s k).1 := by
  unfold utf8_decode at hin ⊢
  rw [if_neg (show ¬ s ≥ k by omega)] at hin ⊢
  rw [if_neg (show ¬ s ≥ k by omega)]
  simp only at hin ⊢
  rw [byteAt_take b k s, if_pos hs]
  by_cases hb1 : byteAt b s < 0xC0
  · simp only [hb1, if_true]
  simp only [hb1, if_false] at hin ⊢
  by_cases hb2 : byteAt b s < 0xE0
  · simp only [hb2, if_true] at hin ⊢
    by_cases h1 : s + 1 < k
    · rw [byteAt_take b k (s + 1), if_pos h1]
    · rw [if_pos (Or.inl (by omega)), if_pos (Or.inl (by omega))]
  simp only [hb2, if_false] at hin ⊢
  by_cases hb3 : byteAt b s < 0xF0
  · simp only [hb3, if_true] at hin ⊢
    by_cases h2 : s + 2 < k
    · rw [byteAt_take b k (s + 1), if_pos (show s + 1 < k by omega), byteAt_take b k (s + 2),
        if_pos h2]
    · rw [if_pos (Or.inl (by omega)), if_pos (Or.inl (by omega))]
  simp only [hb3, if_false] at hin ⊢
  rcases utf8_decode_loop_take b k s 8 0 0 (byteAt b s) with heq | ⟨⟨c, hc⟩, hb⟩
  · rw [heq]
  · rw [hc]
    rcases hb with ⟨c2, hc2⟩ | ⟨c2, r, h, hc2, hk⟩
    · rw [hc2]
    · rw [hc2] at hin ⊢
      simp only at hin ⊢
      by_cases h5 : c2 > 5
      · rw [if_pos h5]
      · rw [if_neg h5] at hin
        simp only at hin
        omega

theorem utf8_next_iter_end (b : Bytes) (e k : Nat) (hk : k ≤ e) :
    ∀ j s, utf8_next_iter b e j s = k → utf8_next_iter b k j s = k := by
  intro j
  induction j with
  | zero => intro s h; exact h
  | succ j ih =>
    intro s h
    rw [utf8_next_iter_succ] at h ⊢
    have h1 := utf8_next_iter_ge b e j (utf8_next b s e)
    have h2 := utf8_next_ge b s e
    by_cases hs : s < k
    · rw [utf8_next_end b s k e hs hk (by omega)]
      exact ih _ h
    · have hsk : s = k := by omega
      subst hsk
      rw [utf8_next_stay b s s (le_refl _)]
      exact utf8_next_iter_stay b s j s (le_refl _)

theorem utf8_length_take (b : Bytes) (k : Nat) :
    ∀ j s, utf8_next_iter b k j s = k → utf8_length (b.take k) s k = utf8_length b s k := by
  intro j
  induction j with
  | zero =>
    intro s h
    have hs : s = k := h
    subst hs
    rw [utf8_length_done _ s s (le_refl _), utf8_length_done _ s s (le_refl _)]
  | succ j ih =>
    intro s h
    rw [utf8_next_iter_succ] at h
    by_cases hs : s < k
    · have h1 := utf8_next_iter_ge b k j (utf8_next b s k)
      have h3 : utf8_next b s k ≤ k := by omega
      have hnext : utf8_next (b.take k) s k = utf8_next b s k := by
        unfold utf8_next at h3 ⊢
        rw [utf8_decode_take b k s hs h3]
      rw [utf8_length_step _ s k hs, utf8_length_step _ s k hs, hnext, ih _ h]
    · rw [utf8_length_done _ s k (by omega), utf8_length_done _ s k (by omega)]

/-- C16: for every buffer t and every split point k that is a codepoint boundary of t (reached
from the start by j applications of next), k lies inside t and the length of t is the length of
the part before k plus the length of the part from k on, the parts taken as ranges of t and
also taken as buffers of their own. -/
theorem C16_length_additive (t : Bytes) (j : Nat) :
    utf8_next_iter t t.length j 0 ≤ t.length
      ∧ utf8_length t 0 t.length
        = utf8_length t 0 (utf8_next_iter t t.length j 0)
          + utf8_length t (utf8_next_iter t t.length j 0) t.length
      ∧ utf8_length t 0 t.length
        = utf8_length (t.take (utf8_next_iter t t.length j 0)) 0
            (t.take (utf8_next_iter t t.length j 0)).length
          + utf8_length (t.drop (utf8_next_iter t t.length j 0)) 0
            (t.drop (utf8_next_iter t t.length j 0)).length := by
  have hk := utf8_next_iter_le t t.length j 0 (le_refl _) (Nat.zero_le _)
  have hsplit := utf8_length_split t t.length (le_refl _) j 0 (Nat.zero_le _)
  refine ⟨hk, hsplit, ?_⟩
  rw [utf8_length_drop t _ hk, List.length_take, Nat.min_eq_left hk,
    utf8_length_take t _ j 0 (utf8_next_iter_end t t.length _ hk j 0 rfl)]
  exact hsplit

/-- C16 on the text "a", U+20AC, "b": the boundary after two characters is byte offset 4, and
3 = 2 + 1. -/
theorem C16_length_additive_witness :
    utf8_next_iter [0x61, 0xE2, 0x82, 0xAC, 0x62] 5 2 0 = 4
      ∧ utf8_length [0x61, 0xE2, 0x82, 0xAC, 0x62] 0 5 = 3
      ∧ utf8_length [0x61, 0xE2, 0x82, 0xAC, 0x62] 0 4 = 2
      ∧ utf8_length [0x61, 0xE2, 0x82, 0xAC, 0x62] 4 5 = 1
      ∧ utf8_length [0x61, 0xE2, 0x82, 0xAC] 0 4 = 2
      ∧ utf8_length [0x62] 0 1 = 1
      ∧ utf8_length [0x61, 0xE2, 0x82, 0xAC, 0x62] 0 ([0x61, 0xE2, 0x82, 0xAC, 0x62] : Bytes).length
        = utf8_length [0x61, 0xE2, 0x82, 0xAC, 0x62] 0
            (utf8_next_iter [0x61, 0xE2, 0x82, 0xAC, 0x62]
              ([0x61, 0xE2, 0x82, 0xAC, 0x62] : Bytes).length 2 0)
          + utf8_length [0x61, 0xE2, 0x82, 0xAC, 0x62]
            (utf8_next_iter [0x61, 0xE2, 0x82, 0xAC, 0x62]
              ([0x61, 0xE2, 0x82, 0xAC, 0x62] : Bytes).length 2 0)
            ([0x61, 0xE2, 0x82, 0xAC, 0x62] : Bytes).length :=
  ⟨by decide, by decide, by decide, by decide, by decide, by decide,
    (C16_length_additive [0x61, 0xE2, 0x82, 0xAC, 0x62] 2).2.1⟩

/-! ## Captures after a failed match, back-references -/

/-- C24: for every match state, text cursor and pattern cursor, if matchUTF8 returns the no-match
value, then the capture level and every capture slot below that level (start offset and
length or UNFINISHED or POSITION marker) are exactly as they were when the call was entered;
the size of the capture array, the depth budget and the bounds of text and pattern are as
before too. -/
theorem C24_failure_keeps_captures (U : UniData) (text pat : Bytes) (fuel : Nat)
    (ms ms1 : MatchStateUTF8) (s p : Nat)
    (h : matchUTF8 U text pat fuel ms s p = Except.ok (none, ms1)) :
    ms1.level = ms.level ∧ (∀ i, i < ms.level → ms1.cap i = ms.cap i)
      ∧ ms1.capture.length = ms.capture.length ∧ SameFrame ms ms1 := by
  obtain ⟨hf, hk, _⟩ := matchUTF8_ok 0 U text pat fuel ms s p none ms1 h
  obtain ⟨h1, h2, h3⟩ := hk rfl
  exact ⟨h1, h3, h2, hf⟩

/-- C24 on the text "abd" and the pattern "(a)(b)c", entered at the second group with the first
group closed: the second group is opened and closed, the literal c fails, and the state comes
back with level 1 and the first group as it was. -/
theorem C24_failure_keeps_captures_witness :
    ∃ ms1, matchUTF8 ascii_tables [97, 98, 100] [40, 97, 41, 40, 98, 41, 99] (MAXCCALLS + 1)
        state_one_closed 1 3 = Except.ok (none, ms1)
      ∧ ms1.level = 1 ∧ ms1.cap 0 = ⟨0, 1⟩
      ∧ (ms1.level = state_one_closed.level
        ∧ (∀ i, i < state_one_closed.level → ms1.cap i = state_one_closed.cap i)
        ∧ ms1.capture.length = state_one_closed.capture.length
        ∧ SameFrame state_one_closed ms1) :=
  ⟨_, rfl, rfl, rfl,
    C24_failure_keeps_captures ascii_tables [97, 98, 100] [40, 97, 41, 40, 98, 41, 99]
      (MAXCCALLS + 1) state_one_closed _ 1 3 rfl⟩

/-! ## Conversion tables and derived predicates -/

theorem convert_char_loop_spec (t : List conv_table) (cp : Nat) (ht : ConvTableOk t) :
    ∀ n begin en, en ≤ t.length → en - begin < n →
      (∀ i r, t.get? i = some r → i < begin → r.last < cp) →
      (∀ i r, t.get? i = some r → en ≤ i → cp < r.first) →
      (∀ r ∈ t, r.first ≤ cp → cp ≤ r.last →
        convert_char_loop t cp n begin en
          = if (cp - r.first) % r.step = 0 then add_offset cp r.offset else cp) ∧
      ((∀ r ∈ t, ¬ (r.first ≤ cp ∧ cp ≤ r.last)) → convert_char_loop t cp n begin en = cp) := by
  intro n
  induction n with
  | zero => intro begin en _ h; omega
  | succ n ih =>
    intro begin en hen hn hlo hhi
    rw [convert_char_loop]
    by_cases hb : begin < en
    · rw [if_pos hb]
      have hmid : (begin + en) / 2 < t.length := by omega
      obtain ⟨r, hr⟩ : ∃ r, t.get? ((begin + en) / 2) = some r :=
        ⟨t.get ⟨_, hmid⟩, List.get?_eq_get hmid⟩
      simp only [hr]
      have hrm : r ∈ t := List.get?_mem hr
      have hfl := (ht.1 r hrm).1
      by_cases h1 : r.last < cp
      · rw [if_pos h1]
        apply ih _ _ hen (by omega) _ hhi
        intro i ri hi hlt
        by_cases hi2 : i < (begin + en) / 2
        · have := ht.2 i _ ri r hi2 hi hr
          omega
        · have : i = (begin + en) / 2 := by omega
          subst this
          rw [hr] at hi
          cases hi
          exact h1
      · rw [if_neg h1]
        by_cases h2 : r.first > cp
        · rw [if_pos h2]
          apply ih _ _ (by omega) (by omega) hlo
          intro i ri hi hge
          by_cases hi2 : (begin + en) / 2 < i
          · have := ht.2 _ i r ri hi2 hr hi
            omega
          · have : i = (begin + en) / 2 := by omega
            subst this
            rw [hr] at hi
            cases hi
            exact h2
        · rw [if_neg h2]
          simp only [beq_iff_eq]
          constructor
          · intro q hq hq1 hq2
            obtain ⟨i, hi⟩ := List.get?_of_mem hq
            rcases Nat.lt_trichotomy i ((begin + en) / 2) with hlt | heq | hgt
            · have := ht.2 i _ q r hlt hi hr
              omega
            · subst heq
              rw [hr] at hi
              cases hi
              rfl
            · have := ht.2 _ i r q hgt hr hi
              omega
          · intro hno
            exact absurd ⟨by omega, by omega⟩ (hno r hrm)
    · rw [if_neg hb]
      constructor
      · intro q hq hq1 hq2
        obtain ⟨i, hi⟩ := List.get?_of_mem hq
        by_cases hi2 : i < begin
        · have := hlo i q hi hi2
          omega
        · have := hhi i q hi (by omega)
          omega
      · intro _
        rfl

theorem conv_entry_unique (t : List conv_table) (cp : Nat) (ht : ConvTableOk t)
    (r q : conv_table) (hr : r ∈ t) (hq : q ∈ t) (hr1 : r.first ≤ cp) (hr2 : cp ≤ r.last)
    (hq1 : q.first ≤ cp) (hq2 : cp ≤ q.last) : q = r := by
  obtain ⟨i, hi⟩ := List.get?_of_mem hr
  obtain ⟨j, hj⟩ := List.get?_of_mem hq
  rcases Nat.lt_trichotomy i j with hlt | heq | hgt
  · have := ht.2 i j r q hlt hi hj
    omega
  · subst heq
    rw [hi] at hj
    cases hj
    rfl
  · have := ht.2 j i q r hgt hj hi
    omega

theorem add_offset_exact (ch : Nat) (offset : Int) (h0 : 0 ≤ (ch : Int) + offset)
    (h1 : (ch : Int) + offset < 2 ^ 32) : (add_offset ch offset : Int) = (ch : Int) + offset := by
  unfold add_offset
  omega

/-- C21: for every conversion table that is ascending and non-overlapping with every step at
least 1, and every codepoint cp: an entry with first <= cp <= last is the only such entry; when
(cp - first) mod step = 0 for it, convert_char returns cp + offset in the arithmetic of the type
unsigned (exactly cp + offset when that lies in 0 .. 2^32 - 1); when the stride test of that
entry fails, and when no entry contains cp, convert_char returns cp unchanged. The answer is the
same for every larger bound on the number of iterations of the search. -/
theorem C21_convert_char_by_table (t : List conv_table) (cp : Nat) (ht : ConvTableOk t) :
    (∀ r ∈ t, r.first ≤ cp → cp ≤ r.last →
        (∀ q ∈ t, q.first ≤ cp → cp ≤ q.last → q = r)
        ∧ ((cp - r.first) % r.step = 0 →
            convert_char t cp = add_offset cp r.offset
            ∧ (0 ≤ (cp : Int) + r.offset → (cp : Int) + r.offset < 2 ^ 32 →
              (convert_char t cp : Int) = (cp : Int) + r.offset))
        ∧ ((cp - r.first) % r.step ≠ 0 → convert_char t cp = cp))
      ∧ ((∀ r ∈ t, ¬ (r.first ≤ cp ∧ cp ≤ r.last)) → convert_char t cp = cp)
      ∧ (∀ n, t.length < n → convert_char_loop t cp n 0 t.length = convert_char t cp) := by
  have h := fun n (hn : t.length < n) =>
    convert_char_loop_spec t cp ht n 0 t.length (le_refl _) (by omega)
      (fun i r _ hi => by omega)
      (fun i r hr hi => by
        have := List.get?_eq_some.1 hr
        obtain ⟨hlt, _⟩ := this
        omega)
  have h0 := h (t.length + 1) (by omega)
  refine ⟨fun r hr h1 h2 => ⟨fun q hq hq1 hq2 =>
    conv_entry_unique t cp ht r q hr hq h1 h2 hq1 hq2, fun hs => ?_, fun hs => ?_⟩,
    fun hno => h0.2 hno, fun n hn => ?_⟩
  · have he : convert_char t cp = add_offset cp r.offset := by
      unfold convert_char
      rw [h0.1 r hr h1 h2, if_pos hs]
    exact ⟨he, fun ha hb => by rw [he]; exact add_offset_exact cp r.offset ha hb⟩
  · unfold convert_char
    rw [h0.1 r hr h1 h2, if_neg hs]
  · unfold convert_char
    by_cases hex : ∃ r ∈ t, r.first ≤ cp ∧ cp ≤ r.last
    · obtain ⟨r, hr, h1, h2⟩ := hex
      rw [(h n hn).1 r hr h1 h2, h0.1 r hr h1 h2]
    · have hno : ∀ r ∈ t, ¬ (r.first ≤ cp ∧ cp ≤ r.last) := fun r hr hc => hex ⟨r, hr, hc⟩
      rw [(h n hn).2 hno, h0.2 hno]

theorem sample_conv_table_ok : ConvTableOk sample_conv_table := by
  constructor
  · intro r hr
    simp only [sample_conv_table, List.mem_cons, List.mem_singleton, List.not_mem_nil,
      or_false] at hr
    rcases hr with h | h <;> subst h <;> decide
  · intro i j ri rj hij hi hj
    have hj3 : j < 2 := (List.get?_eq_some.1 hj).1
    have hj1 : j = 1 := by omega
    have hi0 : i = 0 := by omega
    subst hj1 hi0
    simp only [sample_conv_table, List.get?_cons_zero, List.get?_cons_succ,
      Option.some.injEq] at hi hj
    subst hi hj
    decide

/-- C21 on the sample table: 0x41 goes to 0x61, 0x102 (on the stride) to 0x103, 0x101 (off the
stride) and 0x30 (in no entry) stay. -/
theorem C21_convert_char_by_table_witness :
    ConvTableOk sample_conv_table
      ∧ convert_char sample_conv_table 0x41 = 0x61
      ∧ convert_char sample_conv_table 0x102 = 0x103
      ∧ convert_char sample_conv_table 0x101 = 0x101
      ∧ convert_char sample_conv_table 0x30 = 0x30
      ∧ ((0x102 - (⟨0x100, 0x12E, 2, 1⟩ : conv_table).first)
            % (⟨0x100, 0x12E, 2, 1⟩ : conv_table).step = 0 →
          convert_char sample_conv_table 0x102
            = add_offset 0x102 (⟨0x100, 0x12E, 2, 1⟩ : conv_table).offset
          ∧ (0 ≤ ((0x102 : Nat) : Int) + (⟨0x100, 0x12E, 2, 1⟩ : conv_table).offset →
            ((0x102 : Nat) : Int) + (⟨0x100, 0x12E, 2, 1⟩ : conv_table).offset < 2 ^ 32 →
            (convert_char sample_conv_table 0x102 : Int)
              = ((0x102 : Nat) : Int) + (⟨0x100, 0x12E, 2, 1⟩ : conv_table).offset)) :=
  ⟨sample_conv_table_ok, by decide, by decide, by decide, by decide,
    ((C21_convert_char_by_table sample_conv_table 0x102 sample_conv_table_ok).1
      ⟨0x100, 0x12E, 2, 1⟩ (by simp [sample_conv_table]) (by decide) (by decide)).2.1⟩

theorem find_in_range_iff (t : List range_table) (cp : Nat) (ht : RangeTableOk t) :
    find_in_range t cp = true ↔ InRangeTable t cp :=
  find_in_range_loop_spec t cp ht (t.length + 1) 0 t.length (le_refl _) (by omega)
    (fun i r _ hi => by omega)
    (fun i r hr hi => by
      have := List.get?_eq_some.1 hr
      obtain ⟨hlt, _⟩ := this
      omega)

theorem find_in_range_false_iff (t : List range_table) (cp : Nat) (ht : RangeTableOk t) :
    find_in_range t cp = false ↔ ¬ InRangeTable t cp := by
  rw [← find_in_range_iff t cp ht]
  simp

theorem RangeTableOk_nil : RangeTableOk [] :=
  ⟨fun r hr => (by cases hr), fun i j ri rj _ hi _ => (by simp at hi)⟩

theorem RangeTableOk_single (r : range_table) (h1 : r.first ≤ r.last) (h2 : 1 ≤ r.step) :
    RangeTableOk [r] := by
  constructor
  · intro q hq
    simp only [List.mem_singleton] at hq
    subst hq
    exact ⟨h1, h2⟩
  · intro i j ri rj hij hi hj
    have : j < 1 := (List.get?_eq_some.1 hj).1
    omega

theorem RangeTableOk_pair (r q : range_table) (h1 : r.first ≤ r.last) (h2 : 1 ≤ r.step)
    (h3 : q.first ≤ q.last) (h4 : 1 ≤ q.step) (h5 : r.last < q.first) : RangeTableOk [r, q] := by
  constructor
  · intro x hx
    simp only [List.mem_cons, List.mem_singleton, List.not_mem_nil, or_false] at hx
    rcases hx with h | h
    · subst h; exact ⟨h1, h2⟩
    · subst h; exact ⟨h3, h4⟩
  · intro i j ri rj hij hi hj
    have hj3 : j < 2 := (List.get?_eq_some.1 hj).1
    have hj1 : j = 1 := by omega
    have hi0 : i = 0 := by omega
    subst hj1 hi0
    simp only [List.get?_cons_zero, List.get?_cons_succ, Option.some.injEq] at hi hj
    subst hi hj
    exact h5

theorem overlapping_width_tables_ok :
    RangeTableOk overlapping_width_tables.doublewidth_table
      ∧ RangeTableOk overlapping_width_tables.ambiwidth_table
      ∧ RangeTableOk overlapping_width_tables.compose_table
      ∧ RangeTableOk overlapping_width_tables.unprintable_table :=
  ⟨RangeTableOk_single _ (by decide) (by decide), RangeTableOk_single _ (by decide) (by decide),
    RangeTableOk_pair _ _ (by decide) (by decide) (by decide) (by decide) (by decide),
    RangeTableOk_single _ (by decide) (by decide)⟩

/-- C22 as stated fails when the sorted tables overlap: with 0x3099 in both the double-width
and the composing table the width is 2, not 0, whatever the flag; with 0x300 in both the
ambiguous-width and the composing table and ambiguousIsSingle set the width is 1, not 0. -/
theorem C22_width_of_overlapping_tables_counterexample :
    (RangeTableOk overlapping_width_tables.doublewidth_table
        ∧ RangeTableOk overlapping_width_tables.ambiwidth_table
        ∧ RangeTableOk overlapping_width_tables.compose_table
        ∧ RangeTableOk overlapping_width_tables.unprintable_table)
      ∧ InRangeTable overlapping_width_tables.compose_table 0x3099
      ∧ InRangeTable overlapping_width_tables.doublewidth_table 0x3099
      ∧ utf8_width overlapping_width_tables 0x3099 false = 2
      ∧ utf8_width overlapping_width_tables 0x3099 true = 2
      ∧ InRangeTable overlapping_width_tables.compose_table 0x300
      ∧ InRangeTable overlapping_width_tables.ambiwidth_table 0x300
      ∧ ¬ InRangeTable overlapping_width_tables.doublewidth_table 0x300
      ∧ utf8_width overlapping_width_tables 0x300 true = 1 :=
  ⟨overlapping_width_tables_ok,
    (find_in_range_iff _ _ overlapping_width_tables_ok.2.2.1).1 (by decide),
    (find_in_range_iff _ _ overlapping_width_tables_ok.1).1 (by decide),
    by decide, by decide,
    (find_in_range_iff _ _ overlapping_width_tables_ok.2.2.1).1 (by decide),
    (find_in_range_iff _ _ overlapping_width_tables_ok.2.1).1 (by decide),
    (find_in_range_false_iff _ _ overlapping_width_tables_ok.1).1 (by decide),
    by decide⟩

/-- C22 as amended: for every codepoint cp, every flag ambiguousIsSingle and every choice of
sorted width tables, utf8_width returns a value in 0, 1, 2, determined in this order: 2 if cp is
in the double-width table; otherwise, if cp is in the ambiguous-width table, 1 when
ambiguousIsSingle is set and 2 when it is not; otherwise 0 if cp is in the composing table or
in the unprintable table; otherwise 1. Where no codepoint of the composing or unprintable table
is in the double-width or ambiguous-width table, this is the rule of the claim: 0 whenever cp is
composing or unprintable, 2 whenever cp is double-width or ambiguous with the flag not set, and
1 otherwise. -/
theorem C22_width_by_priority (U : UniData) (cp : Nat) (single : Bool)
    (hd : RangeTableOk U.doublewidth_table) (ha : RangeTableOk U.ambiwidth_table)
    (hc : RangeTableOk U.compose_table) (hu : RangeTableOk U.unprintable_table) :
    utf8_width U cp single ≤ 2
      ∧ (InRangeTable U.doublewidth_table cp → utf8_width U cp single = 2)
      ∧ (¬ InRangeTable U.doublewidth_table cp → InRangeTable U.ambiwidth_table cp →
          utf8_width U cp single = if single then 1 else 2)
      ∧ (¬ InRangeTable U.doublewidth_table cp → ¬ InRangeTable U.ambiwidth_table cp →
          (InRangeTable U.compose_table cp ∨ InRangeTable U.unprintable_table cp) →
          utf8_width U cp single = 0)
      ∧ (¬ InRangeTable U.doublewidth_table cp → ¬ InRangeTable U.ambiwidth_table cp →
          ¬ InRangeTable U.compose_table cp → ¬ InRangeTable U.unprintable_table cp →
          utf8_width U cp single = 1)
      ∧ ((InRangeTable U.compose_table cp ∨ InRangeTable U.unprintable_table cp →
            ¬ InRangeTable U.doublewidth_table cp ∧ ¬ InRangeTable U.ambiwidth_table cp) →
          ((InRangeTable U.compose_table cp ∨ InRangeTable U.unprintable_table cp) →
            utf8_width U cp single = 0)
          ∧ ((InRangeTable U.doublewidth_table cp
              ∨ (InRangeTable U.ambiwidth_table cp ∧ single = false)) →
            utf8_width U cp single = 2)
          ∧ (¬ (InRangeTable U.compose_table cp ∨ InRangeTable U.unprintable_table cp) →
            ¬ (InRangeTable U.doublewidth_table cp
              ∨ (InRangeTable U.ambiwidth_table cp ∧ single = false)) →
            utf8_width U cp single = 1)) := by
  have e1 := find_in_range_iff U.doublewidth_table cp hd
  have e2 := find_in_range_iff U.ambiwidth_table cp ha
  have e3 := find_in_range_iff U.compose_table cp hc
  have e4 := find_in_range_iff U.unprintable_table cp hu
  rw [← e1, ← e2, ← e3, ← e4]
  unfold utf8_width
  cases find_in_range U.doublewidth_table cp <;> cases find_in_range U.ambiwidth_table cp <;>
    cases find_in_range U.compose_table cp <;> cases find_in_range U.unprintable_table cp <;>
    cases single <;> simp

/-- C22 on tables with a double-width entry: 0x30A0 is double-width only and has width 2,
0x41 is in no table and has width 1, 0x10 is unprintable only and has width 0. -/
theorem C22_width_by_priority_witness :
    utf8_width overlapping_width_tables 0x30A0 false = 2
      ∧ utf8_width overlapping_width_tables 0x41 false = 1
      ∧ utf8_width overlapping_width_tables 0x10 false = 0
      ∧ InRangeTable overlapping_width_tables.doublewidth_table 0x30A0
      ∧ utf8_width overlapping_width_tables 0x30A0 false ≤ 2 :=
  ⟨by decide, by decide, by decide,
    (find_in_range_iff _ _ overlapping_width_tables_ok.1).1 (by decide),
    (C22_width_by_priority overlapping_width_tables 0x30A0 false overlapping_width_tables_ok.1
      overlapping_width_tables_ok.2.1 overlapping_width_tables_ok.2.2.1
      overlapping_width_tables_ok.2.2.2).1⟩

theorem overlapping_space_tables_ok :
    RangeTableOk overlapping_space_tables.space_table
      ∧ RangeTableOk overlapping_space_tables.graph_table
      ∧ RangeTableOk overlapping_space_tables.compose_table :=
  ⟨RangeTableOk_single _ (by decide) (by decide), RangeTableOk_single _ (by decide) (by decide),
    RangeTableOk_single _ (by decide) (by decide)⟩

/-- C23 as stated fails when the sorted space and composing tables overlap: with 0x20 in both,
utf8_isgraph answers false although 0x20 is in the composing table. -/
theorem C23_isgraph_of_overlapping_tables_counterexample :
    (RangeTableOk overlapping_space_tables.space_table
        ∧ RangeTableOk overlapping_space_tables.graph_table
        ∧ RangeTableOk overlapping_space_tables.compose_table)
      ∧ InRangeTable overlapping_space_tables.compose_table 0x20
      ∧ InRangeTable overlapping_space_tables.space_table 0x20
      ∧ utf8_isgraph overlapping_space_tables 0x20 = false
      ∧ ¬ (utf8_isgraph overlapping_space_tables 0x20 = true ↔
          (InRangeTable overlapping_space_tables.graph_table 0x20
              ∧ ¬ InRangeTable overlapping_space_tables.space_table 0x20)
            ∨ InRangeTable overlapping_space_tables.compose_table 0x20) := by
  have hc : InRangeTable overlapping_space_tables.compose_table 0x20 :=
    (find_in_range_iff _ _ overlapping_space_tables_ok.2.2).1 (by decide)
  have hs : InRangeTable overlapping_space_tables.space_table 0x20 :=
    (find_in_range_iff _ _ overlapping_space_tables_ok.1).1 (by decide)
  have hg : utf8_isgraph overlapping_space_tables 0x20 = false := by decide
  refine ⟨overlapping_space_tables_ok, hc, hs, hg, fun h => ?_⟩
  have := h.2 (Or.inr hc)
  rw [hg] at this
  cases this

/-- C23 as amended: for every codepoint cp and every choice of sorted space, graph and
composing tables, utf8_isgraph(cp) is true if and only if cp is not in the space table and cp
is in the graph table or in the composing table. Where cp is not in both the space table and
the composing table, this is the rule of the claim: cp is in the graph table and not in the
space table, or cp is in the composing table. -/
theorem C23_isgraph_by_tables (U : UniData) (cp : Nat)
    (hs : RangeTableOk U.space_table) (hg : RangeTableOk U.graph_table)
    (hc : RangeTableOk U.compose_table) :
    (utf8_isgraph U cp = true ↔
        ¬ InRangeTable U.space_table cp
          ∧ (InRangeTable U.graph_table cp ∨ InRangeTable U.compose_table cp))
      ∧ (¬ (InRangeTable U.space_table cp ∧ InRangeTable U.compose_table cp) →
          (utf8_isgraph U cp = true ↔
            (InRangeTable U.graph_table cp ∧ ¬ InRangeTable U.space_table cp)
              ∨ InRangeTable U.compose_table cp)) := by
  have e1 := find_in_range_iff U.space_table cp hs
  have e2 := find_in_range_iff U.graph_table cp hg
  have e3 := find_in_range_iff U.compose_table cp hc
  rw [← e1, ← e2, ← e3]
  unfold utf8_isgraph
  cases find_in_range U.space_table cp <;> cases find_in_range U.graph_table cp <;>
    cases find_in_range U.compose_table cp <;> simp

theorem ascii_tables_graph_ok :
    RangeTableOk ascii_tables.space_table ∧ RangeTableOk ascii_tables.graph_table
      ∧ RangeTableOk ascii_tables.compose_table :=
  ⟨RangeTableOk_pair _ _ (by decide) (by decide) (by decide) (by decide) (by decide),
    RangeTableOk_single _ (by decide) (by decide), RangeTableOk_nil⟩

/-- C23 on the ASCII tables: the letter A is graphic, the space 0x20 is not. -/
theorem C23_isgraph_by_tables_witness :
    utf8_isgraph ascii_tables 0x41 = true
      ∧ utf8_isgraph ascii_tables 0x20 = false
      ∧ (utf8_isgraph ascii_tables 0x41 = true ↔
          ¬ InRangeTable ascii_tables.space_table 0x41
            ∧ (InRangeTable ascii_tables.graph_table 0x41
              ∨ InRangeTable ascii_tables.compose_table 0x41)) :=
  ⟨by decide, by decide,
    (C23_isgraph_by_tables ascii_tables 0x41 ascii_tables_graph_ok.1 ascii_tables_graph_ok.2.1
      ascii_tables_graph_ok.2.2).1⟩

/-! ## Back-references -/

theorem match_capture_zero (text : Bytes) (ms : MatchStateUTF8) (s : Nat) :
    match_captureUTF8 text ms s 48 = Except.error (PatErr.invalidCaptureIndexArg 0) := by
  simp [match_captureUTF8, check_captureUTF8]

theorem match_capture_invalid (text : Bytes) (ms : MatchStateUTF8) (s k : Nat) (hk : 1 ≤ k)
    (h : ms.level < k ∨ (ms.cap (k - 1)).len = CAP_UNFINISHED) :
    match_captureUTF8 text ms s (48 + k) = Except.error (PatErr.invalidCaptureIndexArg k) := by
  unfold match_captureUTF8 check_captureUTF8
  simp only
  have e1 : ((48 + k : Nat) : Int) - 49 = ((k - 1 : Nat) : Int) := by omega
  rw [e1]
  rw [if_pos (by
    rcases h with h | h
    · exact Or.inr (Or.inl (by omega))
    · exact Or.inr (Or.inr (by simpa using h)))]
  simp only
  congr 2
  omega

/-- A back-reference to a closed capture succeeds exactly when the bytes left in the text are
at least as many as the captured bytes and equal them; the cursor then moves past them. -/
theorem match_capture_closed (text : Bytes) (ms : MatchStateUTF8) (s k : Nat) (hk : 1 ≤ k)
    (hl : k ≤ ms.level) (h0 : 0 ≤ (ms.cap (k - 1)).len) (h1 : (ms.cap (k - 1)).len < 2 ^ 64)
    (hs : s ≤ ms.src_end) (he : ms.src_end < 2 ^ 64) :
    match_captureUTF8 text ms s (48 + k)
      = if (ms.cap (k - 1)).len.toNat ≤ ms.src_end - s
            ∧ slice text (ms.cap (k - 1)).init (ms.cap (k - 1)).len.toNat
              = slice text s (ms.cap (k - 1)).len.toNat
        then Except.ok (some (s + (ms.cap (k - 1)).len.toNat)) else Except.ok none := by
  unfold match_captureUTF8 check_captureUTF8
  simp only
  have e1 : ((48 + k : Nat) : Int) - 49 = ((k - 1 : Nat) : Int) := by omega
  rw [e1]
  have hne : (ms.cap (k - 1)).len ≠ CAP_UNFINISHED := by
    intro hc
    rw [hc] at h0
    exact absurd h0 (by decide)
  rw [if_neg (by
    rintro (h | h | h)
    · omega
    · omega
    · exact hne (by simpa using h))]
  simp only [Int.toNat_ofNat]
  have e2 : ((ms.cap (k - 1)).len % 2 ^ 64).toNat = (ms.cap (k - 1)).len.toNat := by omega
  have e3 : (((ms.src_end : Int) - (s : Int)) % 2 ^ 64).toNat = ms.src_end - s := by omega
  rw [e2, e3]

/-- A back-reference to a position capture never succeeds: the marker CAP_POSITION, taken as a
size_t, is a length that no text has. -/
theorem match_capture_position (text : Bytes) (ms : MatchStateUTF8) (s k : Nat) (hk : 1 ≤ k)
    (hl : k ≤ ms.level) (hpos : (ms.cap (k - 1)).len = CAP_POSITION)
    (hs : s ≤ ms.src_end) (he : ms.src_end < 2 ^ 64 - 2) :
    match_captureUTF8 text ms s (48 + k) = Except.ok none := by
  unfold match_captureUTF8 check_captureUTF8
  simp only
  have e1 : ((48 + k : Nat) : Int) - 49 = ((k - 1 : Nat) : Int) := by omega
  rw [e1]
  rw [if_neg (by
    rintro (h | h | h)
    · omega
    · omega
    · simp only [Int.toNat_ofNat] at h
      rw [hpos] at h
      exact absurd h (by decide))]
  simp only [Int.toNat_ofNat]
  rw [hpos]
  have e2 : ((CAP_POSITION : Int) % 2 ^ 64).toNat = 2 ^ 64 - 2 := by decide
  rw [e2]
  rw [if_neg (by
    rintro ⟨h, _⟩
    have : (((ms.src_end : Int) - (s : Int)) % 2 ^ 64).toNat ≤ ms.src_end - s := by omega
    omega)]

/-- C25: on the text "a" the pattern "()%1", a position capture followed by a back-reference to
it, matches nowhere, for match and for find, although the position capture alone matches at
ordinal 1: the back-reference to the position capture fails instead of matching zero bytes.
The other cases are as claimed: "(a)%1" matches "aa", %1 inside the open group and %2 with one
group raise "invalid capture index", and so does %0. -/
theorem C25_backreference_to_position_capture (U : UniData) :
    Lutf8_matchUTF8 U [97] [40, 41, 37, 49] 1 = Except.ok none
      ∧ Lutf8_find U [97] [40, 41, 37, 49] 1 false = Except.ok none
      ∧ Lutf8_matchUTF8 U [97] [40, 41] 1 = Except.ok (some [LuaVal.int 1])
      ∧ Lutf8_matchUTF8 U [97, 97] [40, 97, 41, 37, 49] 1
        = Except.ok (some [LuaVal.str [97]])
      ∧ Lutf8_find U [97, 97] [40, 97, 41, 37, 49] 1 false
        = Except.ok (some [LuaVal.int 1, LuaVal.int 2, LuaVal.str [97]])
      ∧ Lutf8_matchUTF8 U [97, 97] [40, 97, 37, 49, 41] 1
        = Except.error (PatErr.invalidCaptureIndexArg 1)
      ∧ Lutf8_matchUTF8 U [97, 97] [40, 97, 41, 37, 50] 1
        = Except.error (PatErr.invalidCaptureIndexArg 2)
      ∧ Lutf8_matchUTF8 U [97, 97] [37, 48] 1
        = Except.error (PatErr.invalidCaptureIndexArg 0) :=
  ⟨rfl, rfl, rfl, rfl, rfl, rfl, rfl, rfl⟩

/-! ## Greedy repetition on malformed text, literal search against the matcher -/

/-- C28: on the two-byte text 41 80 (the letter A, then a lone continuation byte, two characters
for next) the pattern ".*" followed by the remainder 80 fails at cursor 0, although the run of
"." from 0 has the cursors 0, 1, 2 and the remainder matches at cursor 1: after the failure at
cursor 2 the back-off utf8_prev(0, 2) skips the lone continuation byte and returns 0, so the
candidate 1 is never tried. The anchored pattern "^.*" 80 finds nothing where "^." 80 matches,
and find reports the later match (2, 2). -/
theorem C28_greedy_backoff_skips_candidate (U : UniData) :
    (∃ ms1, matchUTF8 U [0x41, 0x80] [46, 42, 0x80] (MAXCCALLS + 1)
        (initial_state [0x41, 0x80] [46, 42, 0x80]) 0 0 = Except.ok (none, ms1))
      ∧ singlematchUTF8 U [0x41, 0x80] [46, 42, 0x80]
          (initial_state [0x41, 0x80] [46, 42, 0x80]) 0 0 1 = Except.ok true
      ∧ singlematchUTF8 U [0x41, 0x80] [46, 42, 0x80]
          (initial_state [0x41, 0x80] [46, 42, 0x80]) 1 0 1 = Except.ok true
      ∧ singlematchUTF8 U [0x41, 0x80] [46, 42, 0x80]
          (initial_state [0x41, 0x80] [46, 42, 0x80]) 2 0 1 = Except.ok false
      ∧ utf8_next [0x41, 0x80] 0 2 = 1 ∧ utf8_next [0x41, 0x80] 1 2 = 2
      ∧ (∃ ms1, matchUTF8 U [0x41, 0x80] [46, 42, 0x80] (MAXCCALLS + 1)
          (initial_state [0x41, 0x80] [46, 42, 0x80]) 1 2 = Except.ok (some 2, ms1))
      ∧ utf8_prev [0x41, 0x80] 0 2 = 0
      ∧ Lutf8_matchUTF8 U [0x41, 0x80] [94, 46, 42, 0x80] 1 = Except.ok none
      ∧ Lutf8_matchUTF8 U [0x41, 0x80] [94, 46, 0x80] 1
        = Except.ok (some [LuaVal.str [0x41, 0x80]])
      ∧ Lutf8_find U [0x41, 0x80] [46, 42, 0x80] 1 false
        = Except.ok (some [LuaVal.int 2, LuaVal.int 2]) :=
  ⟨⟨_, rfl⟩, rfl, rfl, rfl, rfl, rfl, ⟨_, rfl⟩, rfl, rfl, rfl, rfl⟩

/-- C30: the pattern ")" contains none of the characters of SPECIALS, so find searches the
text "a)b" for the byte and returns (2, 2), while match runs the matcher, for which ")" closes a
capture, and raises "invalid pattern capture". Further, on the text "abc" and the literal
pattern "a" with the start position 0, find returns the ordinals (0, 0), which span no
character, where match returns the string "a" (with the start position -10 and the pattern "b":
(-5, -5) against "b"); and on the text C2 A9 (the character U+00A9) with the pattern A9 (a lone
continuation byte) find reports no match where match returns the whole character. With the
start position 1 and the pattern "b" the two agree on "abc". -/
theorem C30_literal_find_against_match (U : UniData) :
    nospecials [41] 0 1 = true
      ∧ Lutf8_find U [97, 41, 98] [41] 1 false
        = Except.ok (some [LuaVal.int 2, LuaVal.int 2])
      ∧ Lutf8_matchUTF8 U [97, 41, 98] [41] 1 = Except.error PatErr.invalidPatternCapture
      ∧ nospecials [97] 0 1 = true
      ∧ Lutf8_find U [97, 98, 99] [97] 0 false
        = Except.ok (some [LuaVal.int 0, LuaVal.int 0])
      ∧ Lutf8_matchUTF8 U [97, 98, 99] [97] 0 = Except.ok (some [LuaVal.str [97]])
      ∧ Lutf8_find U [97, 98, 99] [98] (-10) false
        = Except.ok (some [LuaVal.int (-5), LuaVal.int (-5)])
      ∧ Lutf8_matchUTF8 U [97, 98, 99] [98] (-10) = Except.ok (some [LuaVal.str [98]])
      ∧ nospecials [0xA9] 0 1 = true
      ∧ Lutf8_find U [0xC2, 0xA9] [0xA9] 1 false = Except.ok none
      ∧ Lutf8_matchUTF8 U [0xC2, 0xA9] [0xA9] 1 = Except.ok (some [LuaVal.str [0xC2, 0xA9]])
      ∧ Lutf8_find U [97, 98, 99] [98] 1 false
        = Except.ok (some [LuaVal.int 2, LuaVal.int 2])
      ∧ Lutf8_matchUTF8 U [97, 98, 99] [98] 1 = Except.ok (some [LuaVal.str [98]]) :=
  ⟨rfl, rfl, rfl, rfl, rfl, rfl, rfl, rfl, rfl, rfl, rfl, rfl, rfl⟩

/-! ## Frontier assertion -/

/-- C26: on the two-byte text 41 80 (the letter A, then a lone continuation byte, which next
takes as a character of its own) the pattern "%f[^A]" matches at cursor 2, the end of the text,
a codepoint boundary: the codepoint at the cursor counts as 0, which is in the set, and the
code takes as previous codepoint the one decoded at utf8_prev(0, 2) = 0, the letter A, which is
not in the set. The character immediately before cursor 2 is the pseudo-codepoint 0x80 decoded
at cursor 1, which is in the set, so by the claim the frontier does not match there. -/
theorem C26_frontier_previous_on_malformed_text (U : UniData) :
    (∃ ms1, matchUTF8 U [0x41, 0x80] [37, 102, 91, 94, 65, 93] (MAXCCALLS + 1)
        (initial_state [0x41, 0x80] [37, 102, 91, 94, 65, 93]) 2 0 = Except.ok (some 2, ms1))
      ∧ Lutf8_find U [0x41, 0x80] [37, 102, 91, 94, 65, 93] 3 false
        = Except.ok (some [LuaVal.int 3, LuaVal.int 2])
      ∧ utf8_next [0x41, 0x80] 0 2 = 1 ∧ utf8_next [0x41, 0x80] 1 2 = 2
      ∧ utf8_decode [0x41, 0x80] 1 2 = (1, 0x80)
      ∧ utf8_prev [0x41, 0x80] 0 2 = 0
      ∧ utf8_decode [0x41, 0x80] 0 2 = (1, 0x41)
      ∧ matchbracketclassUTF8 U [37, 102, 91, 94, 65, 93] 0x80 2 5 = Except.ok true
      ∧ matchbracketclassUTF8 U [37, 102, 91, 94, 65, 93] 0x41 2 5 = Except.ok false
      ∧ matchbracketclassUTF8 U [37, 102, 91, 94, 65, 93] 0 2 5 = Except.ok true
      ∧ classendUTF8 [37, 102, 91, 94, 65, 93]
          (initial_state [0x41, 0x80] [37, 102, 91, 94, 65, 93]) 2 = Except.ok 6 :=
  ⟨⟨_, rfl⟩, rfl, rfl, rfl, rfl, rfl, rfl, rfl, rfl, rfl, rfl⟩

theorem byteAt_lt (b : Bytes) (i : Nat) : byteAt b i < 256 := by
  unfold byteAt
  split
  · rename_i x _
    exact x.isLt
  · decide

theorem cont_range (x : Nat) (h : x < 256) : x &&& 0xC0 = 0x80 ↔ (0x80 ≤ x ∧ x < 0xC0) := by
  have h' : ∀ y : Fin 256, y.val &&& 0xC0 = 0x80 ↔ (0x80 ≤ y.val ∧ y.val < 0xC0) := by decide!
  exact h' ⟨x, h⟩

theorem utf8_decode_loop_cont (b : Bytes) (s : Nat) :
    ∀ k count0 res ch count r c, utf8_decode_loop b s k count0 res ch = Sum.inr (count, r, c) →
      ∀ j, count0 < j → j ≤ count → byteAt b (s + j) &&& 0xC0 = 0x80 := by
  intro k
  induction k with
  | zero =>
    intro count0 res ch count r c h j h1 h2
    simp only [utf8_decode_loop, Sum.inr.injEq, Prod.mk.injEq] at h
    omega
  | succ k ih =>
    intro count0 res ch count r c h j h1 h2
    rw [utf8_decode_loop] at h
    split at h
    · simp only at h
      split at h
      · cases h
      · rename_i hcc
        by_cases hj : j = count0 + 1
        · subst hj
          exact not_not.1 hcc
        · exact ih _ _ _ _ _ _ h j (by omega) h2
    · simp only [Sum.inr.injEq, Prod.mk.injEq] at h
      omega

/-- Every byte consumed by the decoder after the first is a continuation byte. -/
theorem utf8_decode_cont (b : Bytes) (s e : Nat) :
    ∀ j, 0 < j → j < (utf8_decode b s e).1 → byteAt b (s + j) &&& 0xC0 = 0x80 := by
  intro j h0
  unfold utf8_decode
  split
  · intro h; exact absurd h (by simp)
  · simp only
    split
    · intro h; simp only at h; omega
    · split
      · split
        · intro h; simp only at h; omega
        · rename_i hc
          intro h
          simp only at h
          have : j = 1 := by omega
          subst this
          by_contra hn
          exact hc (Or.inr hn)
      · split
        · split
          · intro h; simp only at h; omega
          · rename_i hc
            intro h
            simp only at h
            have hj : j = 1 ∨ j = 2 := by omega
            by_contra hn
            rcases hj with hj | hj
            · subst hj
              exact hc (Or.inr (Or.inl hn))
            · subst hj
              exact hc (Or.inr (Or.inr hn))
        · split
          · intro h; simp only at h; omega
          · rename_i count res ch1 hl
            split
            · intro h; simp only at h; omega
            · intro h
              simp only at h
              exact utf8_decode_loop_cont b s _ _ _ _ _ _ _ hl j h0 (by omega)

theorem utf8_prev_loop_back (b : Bytes) (s0 s : Nat) (hs0 : s0 ≤ s)
    (hlead : byteAt b s < 0x80 ∨ byteAt b s ≥ 0xC0) :
    ∀ k n, k < n → (∀ j, 0 < j → j ≤ k → byteAt b (s + j) &&& 0xC0 = 0x80) →
      utf8_prev_loop b s0 n (s + k) = s := by
  intro k
  induction k with
  | zero =>
    intro n hn _
    obtain ⟨m, rfl⟩ : ∃ m, n = m + 1 := ⟨n - 1, by omega⟩
    rw [utf8_prev_loop, if_pos (by omega)]
    simp only [Nat.add_zero]
    rw [if_pos hlead]
  | succ k ih =>
    intro n hn hc
    obtain ⟨m, rfl⟩ : ∃ m, n = m + 1 := ⟨n - 1, by omega⟩
    rw [utf8_prev_loop, if_pos (by omega)]
    simp only
    have h1 := (cont_range _ (byteAt_lt b (s + (k + 1)))).1 (hc (k + 1) (by omega) (le_refl _))
    rw [if_neg (by omega), if_neg (by omega)]
    have : s + (k + 1) - 1 = s + k := by omega
    rw [this]
    exact ih m (by omega) (fun j h0 hj => hc j h0 (by omega))

/-- Stepping back from the cursor after a character that starts with a non-continuation byte
gives the start of that character. -/
theorem utf8_prev_next (b : Bytes) (s0 s e : Nat) (hs0 : s0 ≤ s) (hs : s < e)
    (hlead : byteAt b s < 0x80 ∨ byteAt b s ≥ 0xC0) :
    utf8_prev b s0 (utf8_next b s e) = s := by
  have hpos := utf8_decode_pos b s e hs
  have hcont := utf8_decode_cont b s e
  unfold utf8_next
  unfold utf8_prev
  rw [if_neg (by omega)]
  have : s + (utf8_decode b s e).1 - 1 = s + ((utf8_decode b s e).1 - 1) := by omega
  rw [this]
  exact utf8_prev_loop_back b s0 s hs0 hlead _ _ (by omega)
    (fun j h0 hj => hcont j h0 (by omega))

theorem frontier_cases (b1 b2 : Bool) (x y : MRes) :
    (match (Except.ok b1 : Except PatErr Bool) with
      | Except.error err => Except.error err
      | Except.ok before =>
        if before then y
        else
          match (Except.ok b2 : Except PatErr Bool) with
          | Except.error err => Except.error err
          | Except.ok after => if after then x else y)
      = (match (Except.ok b1 : Except PatErr Bool), (Except.ok b2 : Except PatErr Bool) with
        | Except.ok false, Except.ok true => x
        | _, _ => y) := by
  cases b1 <;> cases b2 <;> rfl

theorem match_escape_frontier (U : UniData) (text pat : Bytes)
    (rec again : MatchStateUTF8 → Nat → Nat → MRes) (ms : MatchStateUTF8) (s ep : Nat)
    (hp : 1 < ms.p_end) (h1 : byteAt pat 1 = 102) (h2 : byteAt pat 2 = 91)
    (hend : classendUTF8 pat ms 2 = Except.ok ep) :
    match_escape U text pat rec again ms s 0
      = match matchbracketclassUTF8 U pat (frontier_previous text ms s) 2 (ep - 1),
            matchbracketclassUTF8 U pat (frontier_current text ms s) 2 (ep - 1) with
        | Except.ok false, Except.ok true => again ms s ep
        | _, _ => Except.ok (none, ms) := by
  have hd1 : utf8_decode pat (0 + 1) ms.p_end = (1, 102) := by
    rw [utf8_decode_low pat (0 + 1) _ (by omega) (by rw [h1]; decide), h1]
  have hend1 : classendUTF8 pat ms (0 + (1 + 1)) = Except.ok ep := hend
  have h2' : byteAt pat (0 + (1 + 1)) = 91 := h2
  unfold match_escape
  simp only
  rw [hd1]
  simp only
  split
  · rename_i h
    exact absurd h (by decide)
  · split
    · split
      · rename_i h
        exact absurd h2' h
      · rw [hend1]
        simp only
        unfold frontier_previous frontier_current
        rw [matchbracketclass_ok U pat _ (0 + (1 + 1)) (ep - 1) h2',
          matchbracketclass_ok U pat _ (0 + (1 + 1)) (ep - 1) h2']
        exact frontier_cases _ _ _ _
    · rename_i h
      exact absurd trivial h

/-- The frontier item followed by the end of the pattern: the matcher succeeds, with the cursor
unchanged, exactly when the set does not contain previous and contains current. -/
theorem frontier_match (U : UniData) (text pat : Bytes) (fuel : Nat) (ms : MatchStateUTF8)
    (s : Nat) (hd : ms.matchdepth ≠ 0) (hp : 2 < ms.p_end) (h0 : byteAt pat 0 = 37)
    (h1 : byteAt pat 1 = 102) (h2 : byteAt pat 2 = 91)
    (hend : classendUTF8 pat ms 2 = Except.ok ms.p_end) :
    matchUTF8 U text pat (fuel + 1) ms s 0
      = Except.ok
        (match matchbracketclassUTF8 U pat (frontier_previous text ms s) 2 (ms.p_end - 1),
            matchbracketclassUTF8 U pat (frontier_current text ms s) 2 (ms.p_end - 1) with
          | Except.ok false, Except.ok true => some s
          | _, _ => none, ms) := by
  have hd0 : utf8_decode pat 0 ms.p_end = (1, 37) := by
    rw [utf8_decode_low pat 0 _ (by omega) (by rw [h0]; decide), h0]
  have hesc := match_escape_frontier U text pat (matchUTF8 U text pat fuel)
    (match_init U text pat (matchUTF8 U text pat fuel) ms.p_end)
    { ms with matchdepth := ms.matchdepth - 1 } s ms.p_end (by show 1 < ms.p_end; omega) h1 h2
    hend
  have hpe : ms.p_end = (ms.p_end - 1) + 1 := by omega
  have hm := match_init_at_end U text pat (matchUTF8 U text pat fuel) (ms.p_end - 1)
    { ms with matchdepth := ms.matchdepth - 1 } s
  rw [← hpe] at hm
  have hinit : match_init U text pat (matchUTF8 U text pat fuel) (ms.p_end + 1)
      { ms with matchdepth := ms.matchdepth - 1 } s 0
      = match_escape U text pat (matchUTF8 U text pat fuel)
          (match_init U text pat (matchUTF8 U text pat fuel) ms.p_end)
          { ms with matchdepth := ms.matchdepth - 1 } s 0 := by
    rw [match_init]
    rw [if_pos (by show 0 ≠ ms.p_end; omega)]
    simp only
    have hd0' : utf8_decode pat 0
        ({ ms with matchdepth := ms.matchdepth - 1 } : MatchStateUTF8).p_end = (1, 37) := hd0
    rw [hd0']
    simp only
    split
    · rename_i h
      exact absurd h (by decide)
    · split
      · rename_i h
        exact absurd h (by decide)
      · split
        · rename_i h
          exact absurd h.1 (by decide)
        · split
          · rfl
          · rename_i h
            exact absurd rfl h
  rw [matchUTF8_unfold U text pat fuel ms s 0 hd, hinit, hesc]
  have hprev : frontier_previous text { ms with matchdepth := ms.matchdepth - 1 } s
      = frontier_previous text ms s := rfl
  have hcur : frontier_current text { ms with matchdepth := ms.matchdepth - 1 } s
      = frontier_current text ms s := rfl
  rw [hprev, hcur, matchbracketclass_ok U pat _ 2 _ h2, matchbracketclass_ok U pat _ 2 _ h2]
  generalize (if byteAt pat (2 + 1) = 94 then
      matchbracket_loop U pat (frontier_previous text ms s) (ms.p_end - 1) false
        (ms.p_end - 1 + 1) (2 + 2)
    else matchbracket_loop U pat (frontier_previous text ms s) (ms.p_end - 1) true
        (ms.p_end - 1 + 1) (2 + 1)) = b1
  generalize (if byteAt pat (2 + 1) = 94 then
      matchbracket_loop U pat (frontier_current text ms s) (ms.p_end - 1) false
        (ms.p_end - 1 + 1) (2 + 2)
    else matchbracket_loop U pat (frontier_current text ms s) (ms.p_end - 1) true
        (ms.p_end - 1 + 1) (2 + 1)) = b2
  cases b1 <;> cases b2
  · exact restore_depth_pred _ ms hd
  · show restore_depth (match_init U text pat (matchUTF8 U text pat fuel) ms.p_end
        { ms with matchdepth := ms.matchdepth - 1 } s ms.p_end) = _
    rw [hm]
    exact restore_depth_pred _ ms hd
  · exact restore_depth_pred _ ms hd
  · exact restore_depth_pred _ ms hd

/-! ## Balanced match -/

theorem utf8_next_iter_step (b : Bytes) (e k s : Nat) :
    utf8_next_iter b e (k + 1) s = utf8_next b (utf8_next_iter b e k s) e := by
  simp [utf8_next_iter, Function.iterate_succ_apply']

theorem utf8_next_iter_mono (b : Bytes) (e s : Nat) :
    ∀ j k, j ≤ k → utf8_next_iter b e j s ≤ utf8_next_iter b e k s := by
  intro j k h
  induction k with
  | zero =>
    have : j = 0 := by omega
    subst this
    exact le_refl _
  | succ k ih =>
    by_cases hj : j = k + 1
    · subst hj; exact le_refl _
    · rw [utf8_next_iter_step]
      exact Nat.le_trans (ih (by omega)) (utf8_next_ge _ _ _)

theorem matchbalance_loop_spec (text : Bytes) (e x y s : Nat) (hxy : x ≠ y) :
    ∀ n j (cont : Nat), e - utf8_next_iter text e j s < n →
      (cont : Int) = balance text e x y s j → 0 < cont →
      ∀ r, matchbalance_loop text e x y n (utf8_next_iter text e j s) cont = some r ↔
        ∃ k, j < k ∧ utf8_next_iter text e (k - 1) s < e ∧ balance text e x y s k = 0
          ∧ (∀ i, j ≤ i → i < k → 0 < balance text e x y s i)
          ∧ r = utf8_next_iter text e k s := by
  intro n
  induction n with
  | zero => intro j cont h; omega
  | succ n ih =>
    intro j cont hn hb hc r
    rw [matchbalance_loop]
    by_cases hlt : utf8_next_iter text e j s < e
    · rw [if_pos hlt]
      simp only
      have hstep : utf8_next_iter text e j s + (utf8_decode text (utf8_next_iter text e j s) e).1
          = utf8_next_iter text e (j + 1) s := by
        rw [utf8_next_iter_step]
        rfl
      rw [hstep]
      have hgt : utf8_next_iter text e j s < utf8_next_iter text e (j + 1) s := by
        rw [utf8_next_iter_step]
        exact utf8_next_gt _ _ _ hlt
      have hbal : balance text e x y s (j + 1) = balance text e x y s j
          + ((if char_at text e s j = x then 1 else 0)
            - (if char_at text e s j = y then 1 else 0)) := rfl
      have hch : (utf8_decode text (utf8_next_iter text e j s) e).2 = char_at text e s j := rfl
      rw [hch]
      -- the recursive call with the new count
      have hrec : ∀ (cont1 : Nat), (cont1 : Int) = balance text e x y s (j + 1) → 0 < cont1 →
          (matchbalance_loop text e x y n (utf8_next_iter text e (j + 1) s) cont1 = some r ↔
            ∃ k, j < k ∧ utf8_next_iter text e (k - 1) s < e ∧ balance text e x y s k = 0
              ∧ (∀ i, j ≤ i → i < k → 0 < balance text e x y s i)
              ∧ r = utf8_next_iter text e k s) := by
        intro cont1 hb1 hc1
        rw [ih (j + 1) cont1 (by omega) hb1 hc1 r]
        constructor
        · rintro ⟨k, hk, h1, h2, h3, h4⟩
          refine ⟨k, by omega, h1, h2, fun i hi hik => ?_, h4⟩
          by_cases hij : i = j
          · subst hij; omega
          · exact h3 i (by omega) hik
        · rintro ⟨k, hk, h1, h2, h3, h4⟩
          have hk1 : k ≠ j + 1 := by
            intro hkj
            subst hkj
            omega
          exact ⟨k, by omega, h1, h2, fun i hi hik => h3 i (by omega) hik, h4⟩
      by_cases hy : char_at text e s j = y
      · have hx : char_at text e s j ≠ x := fun h => hxy (h.symm.trans hy)
        rw [if_pos hy]
        rw [if_neg hx, if_pos hy] at hbal
        by_cases h0 : cont - 1 = 0
        · rw [if_pos h0]
          constructor
          · intro h
            injection h with h
            refine ⟨j + 1, by omega, by simpa using hlt, by omega, fun i hi hik => ?_, h.symm⟩
            have : i = j := by omega
            subst this
            omega
          · rintro ⟨k, hk, h1, h2, h3, h4⟩
            by_cases hk1 : k = j + 1
            · subst hk1; rw [h4]
            · have := h3 (j + 1) (by omega) (by omega)
              omega
        · rw [if_neg h0]
          exact hrec (cont - 1) (by omega) (by omega)
      · rw [if_neg hy]
        rw [if_neg hy] at hbal
        by_cases hx : char_at text e s j = x
        · rw [if_pos hx]
          rw [if_pos hx] at hbal
          exact hrec (cont + 1) (by push_cast; omega) (by omega)
        · rw [if_neg hx]
          rw [if_neg hx] at hbal
          exact hrec cont (by omega) hc
    · rw [if_neg hlt]
      constructor
      · intro h; cases h
      · rintro ⟨k, hk, h1, _⟩
        have := utf8_next_iter_mono text e s j (k - 1) (by omega)
        omega

theorem balance_one (text : Bytes) (e x y s : Nat) (hxy : x ≠ y)
    (h0 : char_at text e s 0 = x) : balance text e x y s 1 = 1 := by
  have hy : char_at text e s 0 ≠ y := fun h => hxy (h0.symm.trans h)
  simp [balance, h0, hxy]

theorem balance_step_ge (text : Bytes) (e x y s k : Nat) :
    balance text e x y s k - 1 ≤ balance text e x y s (k + 1) := by
  rw [balance]
  by_cases hx : char_at text e s k = x <;> by_cases hy : char_at text e s k = y <;>
    simp only [hx, hy, if_true, if_false] <;> omega

theorem balance_first_zero (text : Bytes) (e x y s : Nat) (hxy : x ≠ y)
    (h0 : char_at text e s 0 = x) :
    ∀ k, 0 < k → balance text e x y s k = 0 →
      ∃ m, 0 < m ∧ m ≤ k ∧ balance text e x y s m = 0
        ∧ ∀ j, 0 < j → j < m → 0 < balance text e x y s j := by
  intro k
  induction k using Nat.strong_induction_on with
  | _ k ih =>
    intro hk hz
    by_cases hall : ∀ j, 0 < j → j < k → 0 < balance text e x y s j
    · exact ⟨k, hk, le_refl _, hz, hall⟩
    · -- some earlier prefix is not positive: the first such one has balance zero
      have hex : ∃ j, 0 < j ∧ j < k ∧ balance text e x y s j ≤ 0 := by
        by_contra hne
        apply hall
        intro j hj hjk
        by_contra hle
        exact hne ⟨j, hj, hjk, by omega⟩
      obtain ⟨j, hj, hjk, hle⟩ := hex
      have hpos : ∀ i, 0 < i → i ≤ j → (∀ l, 0 < l → l < i → 0 < balance text e x y s l) →
          0 ≤ balance text e x y s i := by
        intro i hi _ hl
        by_cases hi1 : i = 1
        · subst hi1
          rw [balance_one text e x y s hxy h0]
          omega
        · have h1 := hl (i - 1) (by omega) (by omega)
          have h2 := balance_step_ge text e x y s (i - 1)
          have h3 : i - 1 + 1 = i := by omega
          rw [h3] at h2
          omega
      -- least non-positive prefix
      have hleast : ∃ m, 0 < m ∧ m ≤ j ∧ balance text e x y s m ≤ 0
          ∧ ∀ l, 0 < l → l < m → 0 < balance text e x y s l := by
        clear ih hz hall hjk
        induction j using Nat.strong_induction_on with
        | _ j ihj =>
          by_cases hall2 : ∀ l, 0 < l → l < j → 0 < balance text e x y s l
          · exact ⟨j, hj, le_refl _, hle, hall2⟩
          · have hex2 : ∃ l, 0 < l ∧ l < j ∧ balance text e x y s l ≤ 0 := by
              by_contra hne
              apply hall2
              intro l hl hlj
              by_contra hle2
              exact hne ⟨l, hl, hlj, by omega⟩
            obtain ⟨l, hl, hlj, hle2⟩ := hex2
            obtain ⟨m, hm, hml, hmz, hmall⟩ := ihj l hlj hl hle2
              (fun i hi hil hh => hpos i hi (by omega) hh)
            exact ⟨m, hm, by omega, hmz, hmall⟩
      obtain ⟨m, hm, hmj, hmz, hmall⟩ := hleast
      have := hpos m hm hmj hmall
      exact ⟨m, hm, by omega, by omega, hmall⟩

theorem balanced_last (text : Bytes) (e x y s k : Nat) (hxy : x ≠ y)
    (h : BalancedAt text e x y s k) : 2 ≤ k ∧ char_at text e s (k - 1) = y := by
  obtain ⟨hk, _, h0, hz, hall⟩ := h
  have h1 := balance_one text e x y s hxy h0
  have hk2 : 2 ≤ k := by
    by_contra hlt
    have : k = 1 := by omega
    subst this
    omega
  refine ⟨hk2, ?_⟩
  have hp := hall (k - 1) (by omega) (by omega)
  have hs : balance text e x y s (k - 1 + 1) = balance text e x y s (k - 1)
      + ((if char_at text e s (k - 1) = x then 1 else 0)
        - (if char_at text e s (k - 1) = y then 1 else 0)) := rfl
  have h3 : k - 1 + 1 = k := by omega
  rw [h3, hz] at hs
  by_contra hy
  rw [if_neg hy] at hs
  by_cases hx : char_at text e s (k - 1) = x
  · rw [if_pos hx] at hs; omega
  · rw [if_neg hx] at hs; omega

theorem matchbalance_spec (text pat : Bytes) (ms : MatchStateUTF8) (s p x y : Nat)
    (hargs : p + (utf8_decode pat p ms.p_end).1 < ms.p_end)
    (hx : (utf8_decode pat p ms.p_end).2 = x)
    (hy : (utf8_decode pat (p + (utf8_decode pat p ms.p_end).1) ms.p_end).2 = y)
    (hxy : x ≠ y) :
    ∃ r, matchbalanceUTF8 text pat ms s p = Except.ok (r,
        p + (utf8_decode pat p ms.p_end).1
          + (utf8_decode pat (p + (utf8_decode pat p ms.p_end).1) ms.p_end).1)
      ∧ ∀ c, r = some c ↔
          ∃ k, BalancedAt text ms.src_end x y s k ∧ c = utf8_next_iter text ms.src_end k s := by
  unfold matchbalanceUTF8
  simp only
  rw [if_neg (by omega), hx, hy]
  have hch : (utf8_decode text s ms.src_end).2 = char_at text ms.src_end s 0 := rfl
  by_cases h0 : (utf8_decode text s ms.src_end).2 = x
  · rw [if_neg (by simpa using h0)]
    refine ⟨_, rfl, fun c => ?_⟩
    have hs1 : s + (utf8_decode text s ms.src_end).1 = utf8_next_iter text ms.src_end 1 s := rfl
    rw [hs1]
    have hb1 := balance_one text ms.src_end x y s hxy (hch ▸ h0)
    rw [matchbalance_loop_spec text ms.src_end x y s hxy (ms.src_end + 1) 1 1 (by omega)
      (by rw [hb1]; rfl) (by omega) c]
    constructor
    · rintro ⟨k, hk, h1, h2, h3, h4⟩
      exact ⟨k, ⟨by omega, h1, hch ▸ h0, h2, fun j hj hjk => h3 j (by omega) hjk⟩, h4⟩
    · rintro ⟨k, ⟨hk, h1, _, h2, h3⟩, h4⟩
      have hk1 : k ≠ 1 := by
        intro hk1
        subst hk1
        omega
      exact ⟨k, by omega, h1, h2, fun j hj hjk => h3 j (by omega) hjk, h4⟩
  · rw [if_pos (by simpa using h0)]
    refine ⟨none, rfl, fun c => ?_⟩
    constructor
    · intro h; cases h
    · rintro ⟨k, ⟨_, _, hc0, _⟩, _⟩
      exact absurd (hch.trans hc0) h0

/-- C27: for a balanced item with distinct delimiters x and y, matchbalanceUTF8 returns a cursor
exactly when the character at s is x and some later position has seen as many y as x; the
returned cursor is the position just after the first such y, so the matched characters start
with x, end with y, hold equally many of both, and every proper non-empty prefix holds more x
than y; when no such position lies before the end of the text the result is no match. -/
theorem C27_balanced_match (text pat : Bytes) (ms : MatchStateUTF8) (s p x y : Nat)
    (hargs : p + (utf8_decode pat p ms.p_end).1 < ms.p_end)
    (hx : (utf8_decode pat p ms.p_end).2 = x)
    (hy : (utf8_decode pat (p + (utf8_decode pat p ms.p_end).1) ms.p_end).2 = y)
    (hxy : x ≠ y) :
    ∃ r, matchbalanceUTF8 text pat ms s p = Except.ok (r,
        p + (utf8_decode pat p ms.p_end).1
          + (utf8_decode pat (p + (utf8_decode pat p ms.p_end).1) ms.p_end).1)
      ∧ (r.isSome ↔ char_at text ms.src_end s 0 = x
          ∧ ∃ k, 0 < k ∧ utf8_next_iter text ms.src_end (k - 1) s < ms.src_end
            ∧ balance text ms.src_end x y s k = 0)
      ∧ (∀ c, r = some c ↔
          ∃ k, BalancedAt text ms.src_end x y s k ∧ c = utf8_next_iter text ms.src_end k s)
      ∧ (∀ k, BalancedAt text ms.src_end x y s k →
          2 ≤ k ∧ char_at text ms.src_end s (k - 1) = y
            ∧ r = some (utf8_next_iter text ms.src_end k s)) := by
  obtain ⟨r, hr, hiff⟩ := matchbalance_spec text pat ms s p x y hargs hx hy hxy
  refine ⟨r, hr, ?_, hiff, ?_⟩
  · constructor
    · intro hsome
      obtain ⟨c, hc⟩ := Option.isSome_iff_exists.mp hsome
      obtain ⟨k, ⟨hk, h1, h0, hz, _⟩, _⟩ := (hiff c).mp hc
      exact ⟨h0, k, hk, h1, hz⟩
    · rintro ⟨h0, k, hk, h1, hz⟩
      obtain ⟨m, hm, hmk, hmz, hmall⟩ := balance_first_zero text ms.src_end x y s hxy h0 k hk hz
      have hlt : utf8_next_iter text ms.src_end (m - 1) s < ms.src_end :=
        Nat.lt_of_le_of_lt (utf8_next_iter_mono text ms.src_end s (m - 1) (k - 1) (by omega)) h1
      have := (hiff (utf8_next_iter text ms.src_end m s)).mpr
        ⟨m, ⟨hm, hlt, h0, hmz, hmall⟩, rfl⟩
      rw [this]
      rfl
  · intro k hk
    obtain ⟨h2, hl⟩ := balanced_last text ms.src_end x y s k hxy hk
    exact ⟨h2, hl, (hiff _).mpr ⟨k, hk, rfl⟩⟩

/-- The balanced item of the pattern %b() on the text (a(b)c)d, from cursor 0: the two arguments
are present and differ, and the match ends just after the seventh character. -/
theorem C27_balanced_match_witness :
    ∃ r, matchbalanceUTF8 [40, 97, 40, 98, 41, 99, 41, 100] [37, 98, 40, 41]
        (initial_state [40, 97, 40, 98, 41, 99, 41, 100] [37, 98, 40, 41]) 0 2 = Except.ok (r, 4)
      ∧ r = some 7 ∧ BalancedAt [40, 97, 40, 98, 41, 99, 41, 100] 8 40 41 0 7 := by
  obtain ⟨r, hr, _, hiff, hlast⟩ := C27_balanced_match [40, 97, 40, 98, 41, 99, 41, 100]
    [37, 98, 40, 41] (initial_state [40, 97, 40, 98, 41, 99, 41, 100] [37, 98, 40, 41]) 0 2 40 41 (by decide) (by decide) (by decide) (by decide)
  have hb : BalancedAt [40, 97, 40, 98, 41, 99, 41, 100] 8 40 41 0 7 := by
    refine ⟨by decide, by decide, by decide, by decide, ?_⟩
    intro j hj hj7
    have : j = 1 ∨ j = 2 ∨ j = 3 ∨ j = 4 ∨ j = 5 ∨ j = 6 := by omega
    rcases this with h | h | h | h | h | h <;> subst h <;> decide
  exact ⟨r, hr, (hlast 7 hb).2.2, hb⟩

/-! ## End anchor -/

theorem EndsAt_error {E : Nat} {err : PatErr} : EndsAt E (Except.error err) :=
  fun _ _ hc => (by cases hc)

theorem EndsAt_fail {E : Nat} {ms : MatchStateUTF8} : EndsAt E (Except.ok (none, ms)) :=
  fun _ _ hc => (by cases hc)

theorem EndsAt_of_eq {E : Nat} {res res1 : MRes} (h : EndsAt E res) (heq : res = res1) :
    EndsAt E res1 := heq ▸ h

theorem EndsAt_ite {E : Nat} {c : Prop} [Decidable c] {a b : MRes}
    (ha : EndsAt E a) (hb : EndsAt E b) : EndsAt E (if c then a else b) := by
  split
  · exact ha
  · exact hb

theorem EndsAt_restore {E : Nat} {res : MRes} (h : EndsAt E res) :
    EndsAt E (restore_depth res) := by
  unfold restore_depth
  split
  · exact EndsAt_error
  · rename_i r ms1
    intro e ms2 hc
    injection hc with hc
    injection hc with hc _
    exact h e ms1 (by rw [hc])

theorem anchored_last_lt (pat : Bytes) (hA : EndAnchored pat) :
    pat.length - 1 < pat.length :=
  byteAt_ne_zero_lt pat _ (by rw [hA.1]; decide)

/-- A character of an end-anchored pattern that starts before the final '$' ends at or before
it, because '$' is not a continuation byte. -/
theorem anchored_no_cross (pat : Bytes) (hA : EndAnchored pat) (e q : Nat)
    (hq : q < pat.length - 1) : q + (utf8_decode pat q e).1 ≤ pat.length - 1 := by
  by_contra hgt
  have := utf8_decode_cont pat q e (pat.length - 1 - q) (by omega) (by omega)
  rw [show q + (pat.length - 1 - q) = pat.length - 1 by omega, hA.1] at this
  exact absurd this (by decide)

theorem anchored_decode_last (pat : Bytes) (hA : EndAnchored pat) :
    utf8_decode pat (pat.length - 1) pat.length = (1, 36) := by
  rw [utf8_decode_low pat _ _ (anchored_last_lt pat hA) (by rw [hA.1]; decide), hA.1]

theorem classend_loop_last (pat : Bytes) (PE : Nat) :
    ∀ n p r, classend_loop pat PE n p = Except.ok r → 0 < r ∧ byteAt pat (r - 1) = 93 := by
  intro n
  induction n with
  | zero => intro p r h; cases h
  | succ n ih =>
    intro p r h
    rw [classend_loop] at h
    split at h
    · cases h
    · simp only at h
      generalize (if byteAt pat p = L_ESC ∧ p + 1 < PE then p + 1 + 1 else p + 1) = p2 at h
      split at h
      · exact ih _ r h
      · rename_i h93
        injection h with h
        subst h
        exact ⟨by omega, by simpa using h93⟩

theorem classend_anchor (pat : Bytes) (hA : EndAnchored pat) (ms : MatchStateUTF8) (p ep : Nat)
    (hpe : ms.p_end = pat.length) (hp : p < pat.length - 1)
    (h : classendUTF8 pat ms p = Except.ok ep) : ep ≤ pat.length - 1 := by
  have hT := anchored_last_lt pat hA
  have hnc := anchored_no_cross pat hA pat.length p hp
  unfold classendUTF8 at h
  rw [hpe] at h
  simp only at h
  split at h
  · rename_i hesc
    split at h
    · cases h
    · injection h with h
      have hne := hA.2.1 p hp
      have hlt : p + (utf8_decode pat p pat.length).1 < pat.length - 1 := by
        by_contra hge
        exact hne (by omega) hesc
      have := anchored_no_cross pat hA pat.length _ hlt
      unfold utf8_next at h
      omega
  · split at h
    · obtain ⟨h0, h93⟩ := classend_loop_last pat _ _ _ _ h
      have hlt := byteAt_ne_zero_lt pat (ep - 1) (by rw [h93]; decide)
      have hne : ep - 1 ≠ pat.length - 1 := by
        intro heq
        rw [heq, hA.1] at h93
        exact absurd h93 (by decide)
      omega
    · injection h with h
      omega

theorem max_expand_back_anch {PE E T : Nat}
    {rec : MatchStateUTF8 → Nat → Nat → MRes} (hok : MatcherOk 0 rec)
    (hrec : AnchoredMatcher PE E T rec) (text : Bytes) (s ep : Nat) (hep : ep + 1 ≤ T) :
    ∀ n ms m, ms.p_end = PE → ms.src_end = E →
      EndsAt E (max_expand_back rec text s ep n ms m) := by
  intro n
  induction n with
  | zero => intro ms m _ _; exact EndsAt_error
  | succ n ih =>
    intro ms m hpe hse
    simp only [max_expand_back]
    split
    · have h1 := hrec ms m (ep + 1) hpe hse hep
      split
      · exact EndsAt_error
      · rename_i r ms1 heq
        exact EndsAt_of_eq h1 heq
      · rename_i ms1 heq
        have hf := (hok ms m (ep + 1) none ms1 heq).1
        split
        · exact EndsAt_fail
        · exact ih ms1 _ (hf.2.2.2.trans hpe) (hf.2.2.1.trans hse)
    · exact EndsAt_fail

theorem min_expand_loop_anch {PE E T : Nat}
    {rec : MatchStateUTF8 → Nat → Nat → MRes} (hok : MatcherOk 0 rec)
    (hrec : AnchoredMatcher PE E T rec) (U : UniData) (text pat : Bytes) (p ep : Nat)
    (hep : ep + 1 ≤ T) :
    ∀ n ms s, ms.p_end = PE → ms.src_end = E →
      EndsAt E (min_expand_loop rec U text pat p ep n ms s) := by
  intro n
  induction n with
  | zero => intro ms s _ _; exact EndsAt_error
  | succ n ih =>
    intro ms s hpe hse
    simp only [min_expand_loop]
    have h1 := hrec ms s (ep + 1) hpe hse hep
    split
    · exact EndsAt_error
    · rename_i r ms1 heq
      exact EndsAt_of_eq h1 heq
    · rename_i ms1 heq
      have hf := (hok ms s (ep + 1) none ms1 heq).1
      split
      · exact EndsAt_error
      · split
        · exact ih ms1 _ (hf.2.2.2.trans hpe) (hf.2.2.1.trans hse)
        · exact EndsAt_fail

theorem start_capture_anch {PE E T : Nat}
    {rec : MatchStateUTF8 → Nat → Nat → MRes} (hrec : AnchoredMatcher PE E T rec)
    (ms : MatchStateUTF8) (s p : Nat) (what : Int) (hpe : ms.p_end = PE) (hse : ms.src_end = E)
    (hp : p ≤ T) : EndsAt E (start_captureUTF8 rec ms s p what) := by
  unfold start_captureUTF8
  simp only
  split
  · exact EndsAt_error
  · split
    · exact EndsAt_error
    · exact EndsAt_fail
    · rename_i r ms1 heq
      exact EndsAt_of_eq (hrec _ s p (by exact hpe) (by exact hse) hp) heq

theorem end_capture_anch {PE E T : Nat}
    {rec : MatchStateUTF8 → Nat → Nat → MRes} (hrec : AnchoredMatcher PE E T rec)
    (ms : MatchStateUTF8) (s p : Nat) (hpe : ms.p_end = PE) (hse : ms.src_end = E)
    (hp : p ≤ T) : EndsAt E (end_captureUTF8 rec ms s p) := by
  unfold end_captureUTF8
  split
  · exact EndsAt_error
  · simp only
    split
    · exact EndsAt_error
    · exact EndsAt_fail
    · rename_i r ms1 heq
      exact EndsAt_of_eq (hrec _ s p (by exact hpe) (by exact hse) hp) heq

theorem max_expand_anch {PE E T : Nat}
    {rec : MatchStateUTF8 → Nat → Nat → MRes} (hok : MatcherOk 0 rec)
    (hrec : AnchoredMatcher PE E T rec) (U : UniData) (text pat : Bytes)
    (ms : MatchStateUTF8) (s p ep : Nat) (hep : ep + 1 ≤ T) (hpe : ms.p_end = PE)
    (hse : ms.src_end = E) : EndsAt E (max_expandUTF8 rec U text pat ms s p ep) := by
  unfold max_expandUTF8
  split
  · exact EndsAt_error
  · exact max_expand_back_anch hok hrec text s ep hep _ ms _ hpe hse

theorem match_default_anch {E : Nat} (U : UniData) (text pat : Bytes) (hA : EndAnchored pat)
    {rec again : MatchStateUTF8 → Nat → Nat → MRes} (hok : MatcherOk 0 rec)
    (hrec : AnchoredMatcher pat.length E (pat.length - 1) rec)
    (hagain : AnchoredMatcher pat.length E (pat.length - 1) again)
    (ms : MatchStateUTF8) (s p : Nat) (hpe : ms.p_end = pat.length) (hse : ms.src_end = E)
    (hp : p < pat.length - 1) :
    EndsAt E (match_default U text pat rec again ms s p) := by
  unfold match_default
  split
  · exact EndsAt_error
  · rename_i ep heq
    have hep := classend_anchor pat hA ms p ep hpe hp heq
    simp only
    have hsuf : byteAt pat ep ≠ 36 → ep + 1 ≤ pat.length - 1 := by
      intro h
      by_contra hgt
      have : ep = pat.length - 1 := by omega
      rw [this] at h
      exact h hA.1
    split
    · exact EndsAt_error
    · split
      · split
        · rename_i hs
          exact hagain ms s (ep + 1) hpe hse (hsuf (by omega))
        · exact EndsAt_fail
      · split
        · rename_i h63
          have hep1 := hsuf (by omega)
          have hn : utf8_next pat ep ms.p_end ≤ pat.length - 1 :=
            anchored_no_cross pat hA ms.p_end ep (by omega)
          have h1 := hrec ms (utf8_next text s ms.src_end) (utf8_next pat ep ms.p_end) hpe hse
            hn
          split
          · exact EndsAt_error
          · rename_i r ms1 heq1
            exact EndsAt_of_eq h1 heq1
          · rename_i ms1 heq1
            have hf := (hok _ _ _ none ms1 heq1).1
            exact hagain ms1 s _ (hf.2.2.2.trans hpe) (hf.2.2.1.trans hse) hn
        · split
          · rename_i h43
            exact max_expand_anch hok hrec U text pat ms _ p ep (hsuf (by omega)) hpe hse
          · split
            · rename_i h42
              exact max_expand_anch hok hrec U text pat ms s p ep (hsuf (by omega)) hpe hse
            · split
              · rename_i h45
                exact min_expand_loop_anch hok hrec U text pat p ep (hsuf (by omega)) _ ms _
                  hpe hse
              · exact hagain ms _ ep hpe hse hep

theorem matchbalance_anchor (text pat : Bytes) (hA : EndAnchored pat) (ms : MatchStateUTF8)
    (s p1 s1 p2 : Nat) (hpe : ms.p_end = pat.length) (hp1 : p1 ≤ pat.length - 1)
    (hb : p1 + (utf8_decode pat p1 pat.length).1 ≠ pat.length - 1)
    (h : matchbalanceUTF8 text pat ms s p1 = Except.ok (some s1, p2)) :
    p2 ≤ pat.length - 1 := by
  have hT := anchored_last_lt pat hA
  unfold matchbalanceUTF8 at h
  rw [hpe] at h
  simp only at h
  split at h
  · cases h
  · rename_i hlt
    have hp1lt : p1 < pat.length - 1 := by
      by_contra hge
      have heq : p1 = pat.length - 1 := by omega
      rw [heq, anchored_decode_last pat hA] at hlt
      simp only at hlt
      omega
    have hx := anchored_no_cross pat hA pat.length p1 hp1lt
    have hy := anchored_no_cross pat hA pat.length (p1 + (utf8_decode pat p1 pat.length).1)
      (by omega)
    split at h
    · cases h
    · injection h with h
      injection h with _ h2
      omega

theorem match_escape_anch {E : Nat} (U : UniData) (text pat : Bytes) (hA : EndAnchored pat)
    {rec again : MatchStateUTF8 → Nat → Nat → MRes} (hok : MatcherOk 0 rec)
    (hrec : AnchoredMatcher pat.length E (pat.length - 1) rec)
    (hagain : AnchoredMatcher pat.length E (pat.length - 1) again)
    (ms : MatchStateUTF8) (s p : Nat) (hpe : ms.p_end = pat.length) (hse : ms.src_end = E)
    (hp : p < pat.length - 1) (hesc : (utf8_decode pat p pat.length).2 = L_ESC) :
    EndsAt E (match_escape U text pat rec again ms s p) := by
  have hT := anchored_last_lt pat hA
  -- the character after the escape: either the final '$' itself or one ending at or before it
  have hd : (utf8_decode pat (p + 1) pat.length).2 ≠ 36 →
      p + 1 < pat.length - 1 ∧ p + ((utf8_decode pat (p + 1) pat.length).1 + 1)
        ≤ pat.length - 1 := by
    intro h
    have hlt : p + 1 < pat.length - 1 := by
      by_contra hge
      have heq : p + 1 = pat.length - 1 := by omega
      rw [heq, anchored_decode_last pat hA] at h
      exact h rfl
    have := anchored_no_cross pat hA pat.length (p + 1) hlt
    exact ⟨hlt, by omega⟩
  unfold match_escape
  rw [hpe]
  simp only
  split
  · rename_i h98
    have hp1 := hd (by omega)
    have hb := hA.2.2 p hp hesc h98
    split
    · exact EndsAt_error
    · rename_i s1 p2 heq
      exact hagain ms s1 p2 hpe hse
        (matchbalance_anchor text pat hA ms s _ s1 p2 hpe hp1.2 hb heq)
    · exact EndsAt_fail
  · split
    · rename_i h102
      have hp1 := hd (by omega)
      split
      · exact EndsAt_error
      · rename_i h91
        have hlt : p + ((utf8_decode pat (p + 1) pat.length).1 + 1) < pat.length - 1 := by
          by_contra hge
          have heq : p + ((utf8_decode pat (p + 1) pat.length).1 + 1) = pat.length - 1 := by
            omega
          rw [heq, hA.1] at h91
          exact h91 (by decide)
        split
        · exact EndsAt_error
        · rename_i ep heq
          have hep := classend_anchor pat hA ms _ ep hpe hlt heq
          split
          · exact EndsAt_error
          · split
            · exact EndsAt_fail
            · split
              · exact EndsAt_error
              · exact EndsAt_ite (hagain ms s ep hpe hse hep) EndsAt_fail
    · split
      · rename_i hdig
        have hp1 := hd (by omega)
        split
        · exact EndsAt_error
        · rename_i s1 heq
          exact hagain ms s1 _ hpe hse hp1.2
        · exact EndsAt_fail
      · exact match_default_anch U text pat hA hok hrec hagain ms s p hpe hse hp

theorem match_init_anch {E : Nat} (U : UniData) (text pat : Bytes) (hA : EndAnchored pat)
    {rec : MatchStateUTF8 → Nat → Nat → MRes} (hok : MatcherOk 0 rec)
    (hrec : AnchoredMatcher pat.length E (pat.length - 1) rec) :
    ∀ n, AnchoredMatcher pat.length E (pat.length - 1) (match_init U text pat rec n) := by
  intro n
  induction n with
  | zero => intro ms s p _ _ _; exact EndsAt_error
  | succ n ih =>
    intro ms s p hpe hse hp
    have hT := anchored_last_lt pat hA
    rw [match_init]
    split
    · simp only
      rw [hpe, hse]
      by_cases hpT : p = pat.length - 1
      · rw [hpT, anchored_decode_last pat hA]
        simp only
        rw [if_neg (by decide), if_neg (by decide), if_pos ⟨trivial, by omega⟩]
        intro e ms1 hc
        injection hc with hc
        injection hc with hc _
        split at hc
        · rename_i hs
          injection hc with hc
          omega
        · cases hc
      · have hlt : p < pat.length - 1 := by omega
        split
        · split
          · rename_i h41
            have hne : p + 1 ≠ pat.length - 1 := by
              intro heq
              rw [heq, hA.1] at h41
              exact absurd h41 (by decide)
            exact start_capture_anch hrec ms s _ _ hpe hse (by omega)
          · exact start_capture_anch hrec ms s _ _ hpe hse (by omega)
        · split
          · exact end_capture_anch hrec ms s _ hpe hse (by omega)
          · split
            · intro e ms1 hc
              injection hc with hc
              injection hc with hc _
              split at hc
              · rename_i hs
                injection hc with hc
                omega
              · cases hc
            · split
              · rename_i hesc
                exact match_escape_anch U text pat hA hok hrec ih ms s p hpe hse hlt hesc
              · exact match_default_anch U text pat hA hok hrec ih ms s p hpe hse hlt
    · rename_i hnot
      exact absurd (by omega : p ≠ ms.p_end) hnot

/-- In an end-anchored pattern every successful call of the matcher at a pattern offset up to
the final '$' returns the end of the text. -/
theorem matchUTF8_anch (U : UniData) (text pat : Bytes) (hA : EndAnchored pat) (E : Nat) :
    ∀ fuel, AnchoredMatcher pat.length E (pat.length - 1) (matchUTF8 U text pat fuel) := by
  intro fuel
  induction fuel with
  | zero => intro ms s p _ _ _; exact EndsAt_error
  | succ fuel ih =>
    intro ms s p hpe hse hp
    simp only [matchUTF8]
    split
    · exact EndsAt_error
    · exact EndsAt_restore (match_init_anch U text pat hA (matchUTF8_ok 0 U text pat fuel) ih
        _ _ s p (by exact hpe) (by exact hse) hp)

/-- C29 as stated fails: the pattern "%bx$" ends with '$' and the byte before it is 'x', yet on
the text "x$a" (3 bytes) the matcher succeeds at cursor 0 with end cursor 2, match returns "x$"
and find returns (1, 2); and in the pattern C0 A5 24 the two bytes before '$' decode to the
escape character, so that find locates a literal '$' at (1, 1) in the text "$a". -/
theorem C29_end_anchor_counterexample :
    byteAt [37, 98, 120, 36] 3 = 36 ∧ byteAt [37, 98, 120, 36] 2 ≠ L_ESC
      ∧ (∃ ms1, matchUTF8 ascii_tables [120, 36, 97] [37, 98, 120, 36] (MAXCCALLS + 1)
          (initial_state [120, 36, 97] [37, 98, 120, 36]) 0 0 = Except.ok (some 2, ms1))
      ∧ Lutf8_matchUTF8 ascii_tables [120, 36, 97] [37, 98, 120, 36] 1
          = Except.ok (some [LuaVal.str [120, 36]])
      ∧ Lutf8_find ascii_tables [120, 36, 97] [37, 98, 120, 36] 1 false
          = Except.ok (some [LuaVal.int 1, LuaVal.int 2])
      ∧ byteAt [0xC0, 0xA5, 36] 2 = 36 ∧ byteAt [0xC0, 0xA5, 36] 1 ≠ L_ESC
      ∧ Lutf8_find ascii_tables [36, 97] [0xC0, 0xA5, 36] 1 false
          = Except.ok (some [LuaVal.int 1, LuaVal.int 1]) :=
  ⟨by decide, by decide, ⟨_, rfl⟩, rfl, rfl, by decide, by decide, rfl⟩

/-- C29 (amended): for every text and every pattern whose last byte is '$', such that no
character ending directly before that '$' decodes to the escape character '%' and that '$' is
not the second delimiter of a '%b' item, every successful run of the matcher from a pattern
offset at or before the final '$' ends exactly at the end of the text; in particular so does
every match found by the drivers, which start the matcher at the start of the pattern. -/
theorem C29_end_anchor (U : UniData) (text pat : Bytes) (hA : EndAnchored pat) :
    (∀ fuel ms s p e ms1, ms.p_end = pat.length → p ≤ pat.length - 1 →
        matchUTF8 U text pat fuel ms s p = Except.ok (some e, ms1) → e = ms.src_end)
      ∧ pattern_start pat ≤ pat.length - 1
      ∧ (∀ p s e ms1, p ≤ pat.length - 1 → MatcherSucceedsAt U text pat p s e ms1 →
          e = text.length) := by
  refine ⟨fun fuel ms s p e ms1 hpe hp h =>
    matchUTF8_anch U text pat hA ms.src_end fuel ms s p hpe rfl hp e ms1 h, ?_, ?_⟩
  · unfold pattern_start
    split
    · rename_i h94
      by_contra hgt
      have h0 : pat.length - 1 = 0 := by omega
      have h36 := hA.1
      rw [h0, h94] at h36
      exact absurd h36 (by decide)
    · omega
  · rintro p s e ms1 hp ⟨ma, hf, h⟩
    exact matchUTF8_anch U text pat hA text.length (MAXCCALLS + 1) _ s p
      (by exact hf.2.2.2.trans rfl) (by exact hf.2.2.1.trans rfl) hp e ms1 h

/-- The pattern "a%$b$" is end-anchored (its escaped '$' is followed by more of the pattern and
its last '$' is read as the anchor); on the text "xa$b" the matcher started at cursor 1 ends at
the end of the text, cursor 4. -/
theorem C29_end_anchor_witness :
    EndAnchored [97, 37, 36, 98, 36]
      ∧ (∃ ms1, matchUTF8 ascii_tables [120, 97, 36, 98] [97, 37, 36, 98, 36] (MAXCCALLS + 1)
          (initial_state [120, 97, 36, 98] [97, 37, 36, 98, 36]) 1 0
          = Except.ok (some 4, ms1))
      ∧ ∀ e ms1, matchUTF8 ascii_tables [120, 97, 36, 98] [97, 37, 36, 98, 36] (MAXCCALLS + 1)
          (initial_state [120, 97, 36, 98] [97, 37, 36, 98, 36]) 1 0
          = Except.ok (some e, ms1) → e = 4 :=
  have hA : EndAnchored [97, 37, 36, 98, 36] := ⟨by decide, by decide, by decide⟩
  ⟨hA, ⟨_, rfl⟩, fun e ms1 h =>
    (C29_end_anchor ascii_tables [120, 97, 36, 98] [97, 37, 36, 98, 36] hA).1 (MAXCCALLS + 1)
      (initial_state [120, 97, 36, 98] [97, 37, 36, 98, 36]) 1 0 e ms1 rfl (by decide) h⟩

/-! ## prev after next -/

/-- C32: for every byte buffer, start bound and cursor s with start ≤ s < e whose byte is not a
continuation byte (its two top bits are not 10), prev applied to next of s gives s back; and for
every cursor c with start < c, prev of c lies in the range from start up to but excluding c. The
first part needs no assumption on where next of s lies. -/
theorem C32_prev_undoes_next (b : Bytes) (start e : Nat) :
    (∀ s, start ≤ s → s < e → byteAt b s &&& 0xC0 ≠ 0x80 →
        utf8_prev b start (utf8_next b s e) = s)
      ∧ (∀ c, start < c → c ≤ e → start ≤ utf8_prev b start c ∧ utf8_prev b start c < c) := by
  refine ⟨fun s hs0 hs hlead => ?_,
    fun c hc _ => ⟨utf8_prev_ge b start c, utf8_prev_lt b start c hc⟩⟩
  apply utf8_prev_next b start s e hs0 hs
  have hr := cont_range (byteAt b s) (byteAt_lt b s)
  by_contra hno
  exact hlead (hr.2 (by omega))

/-- C32 on the buffer 41 E2 82 AC 42 (the letter A, the euro sign, the letter B): next of
cursor 1 is 4 and prev of 4 is 1 again; prev of cursor 3, inside the euro sign, is 1. -/
theorem C32_prev_undoes_next_witness :
    (0 ≤ 1 ∧ 1 < 5 ∧ byteAt [0x41, 0xE2, 0x82, 0xAC, 0x42] 1 &&& 0xC0 ≠ 0x80
        ∧ utf8_next [0x41, 0xE2, 0x82, 0xAC, 0x42] 1 5 = 4
        ∧ utf8_prev [0x41, 0xE2, 0x82, 0xAC, 0x42] 0 (utf8_next [0x41, 0xE2, 0x82, 0xAC, 0x42] 1 5)
          = 1)
      ∧ (0 ≤ utf8_prev [0x41, 0xE2, 0x82, 0xAC, 0x42] 0 3
        ∧ utf8_prev [0x41, 0xE2, 0x82, 0xAC, 0x42] 0 3 < 3) :=
  ⟨⟨by decide, by decide, by decide, by decide,
      (C32_prev_undoes_next [0x41, 0xE2, 0x82, 0xAC, 0x42] 0 5).1 1 (by decide) (by decide)
        (by decide)⟩,
    (C32_prev_undoes_next [0x41, 0xE2, 0x82, 0xAC, 0x42] 0 5).2 3 (by decide) (by decide)⟩

/-! ## Recursion budget of short patterns -/

theorem WithinBudget_error {err : PatErr} (h : err ≠ PatErr.patternTooComplex) :
    WithinBudget (Except.error err) :=
  fun hc => h (by injection hc)

theorem WithinBudget_ok {r : Option Nat × MatchStateUTF8} : WithinBudget (Except.ok r) :=
  fun hc => (by cases hc)

theorem WithinBudget_of_eq {res res1 : MRes} (h : WithinBudget res) (heq : res = res1) :
    WithinBudget res1 := heq ▸ h

theorem WithinBudget_ite {c : Prop} [Decidable c] {a b : MRes}
    (ha : WithinBudget a) (hb : WithinBudget b) : WithinBudget (if c then a else b) := by
  split
  · exact ha
  · exact hb

theorem WithinBudget_restore {res : MRes} (h : WithinBudget res) :
    WithinBudget (restore_depth res) := by
  unfold restore_depth
  split
  · exact h
  · exact WithinBudget_ok

theorem classend_loop_budget (pat : Bytes) (PE : Nat) :
    ∀ n p, classend_loop pat PE n p ≠ Except.error PatErr.patternTooComplex := by
  intro n
  induction n with
  | zero => intro p h; cases h
  | succ n ih =>
    intro p
    rw [classend_loop]
    split
    · intro h; cases h
    · simp only
      generalize (if byteAt pat p = L_ESC ∧ p + 1 < PE then p + 1 + 1 else p + 1) = p2
      split
      · exact ih _
      · intro h; cases h

theorem classend_budget (pat : Bytes) (ms : MatchStateUTF8) (p : Nat) :
    classendUTF8 pat ms p ≠ Except.error PatErr.patternTooComplex := by
  unfold classendUTF8
  simp only
  split
  · split
    · intro h; cases h
    · intro h; cases h
  · split
    · exact classend_loop_budget pat _ _ _
    · intro h; cases h

theorem capture_to_close_loop_budget (ms : MatchStateUTF8) :
    ∀ l, capture_to_close_loop ms l ≠ Except.error PatErr.patternTooComplex := by
  intro l
  induction l with
  | zero => intro h; cases h
  | succ l ih =>
    rw [capture_to_close_loop]
    split
    · intro h; cases h
    · exact ih

theorem match_capture_budget (text : Bytes) (ms : MatchStateUTF8) (s l : Nat) :
    match_captureUTF8 text ms s l ≠ Except.error PatErr.patternTooComplex := by
  unfold match_captureUTF8
  split
  · rename_i err heq
    intro hc
    injection hc with hc
    subst hc
    unfold check_captureUTF8 at heq
    simp only at heq
    split at heq <;> cases heq
  · simp only
    split
    · intro h; cases h
    · intro h; cases h

theorem matchbalance_budget (text pat : Bytes) (ms : MatchStateUTF8) (s p : Nat) :
    matchbalanceUTF8 text pat ms s p ≠ Except.error PatErr.patternTooComplex := by
  unfold matchbalanceUTF8
  simp only
  split
  · intro h; cases h
  · split
    · intro h; cases h
    · intro h; cases h

theorem max_expand_back_budget {D PE lo : Nat}
    {rec : MatchStateUTF8 → Nat → Nat → MRes} (hok : MatcherOk 0 rec)
    (hrec : MatcherWithinBudget D PE lo rec) (text : Bytes) (s ep : Nat)
    (hlo : lo ≤ ep + 1) (hep : ep + 1 ≤ PE) :
    ∀ n ms m, ms.matchdepth = D → ms.p_end = PE →
      WithinBudget (max_expand_back rec text s ep n ms m) := by
  intro n
  induction n with
  | zero => intro ms m _ _; exact WithinBudget_error (by decide)
  | succ n ih =>
    intro ms m hd hpe
    simp only [max_expand_back]
    split
    · have h1 := hrec ms m (ep + 1) hd hpe hlo hep
      split
      · rename_i err heq
        exact WithinBudget_of_eq h1 heq
      · exact WithinBudget_ok
      · rename_i ms1 heq
        have hf := (hok ms m (ep + 1) none ms1 heq).1
        split
        · exact WithinBudget_ok
        · exact ih ms1 _ (hf.1.trans hd) (hf.2.2.2.trans hpe)
    · exact WithinBudget_ok

theorem min_expand_loop_budget {D PE lo : Nat}
    {rec : MatchStateUTF8 → Nat → Nat → MRes} (hok : MatcherOk 0 rec)
    (hrec : MatcherWithinBudget D PE lo rec) (U : UniData) (text pat : Bytes) (p ep : Nat)
    (hlo : lo ≤ ep + 1) (hep : ep + 1 ≤ PE) :
    ∀ n ms s, ms.matchdepth = D → ms.p_end = PE →
      WithinBudget (min_expand_loop rec U text pat p ep n ms s) := by
  intro n
  induction n with
  | zero => intro ms s _ _; exact WithinBudget_error (by decide)
  | succ n ih =>
    intro ms s hd hpe
    simp only [min_expand_loop]
    have h1 := hrec ms s (ep + 1) hd hpe hlo hep
    split
    · rename_i err heq
      exact WithinBudget_of_eq h1 heq
    · exact WithinBudget_ok
    · rename_i ms1 heq
      have hf := (hok ms s (ep + 1) none ms1 heq).1
      split
      · rename_i err heq1
        refine WithinBudget_error ?_
        intro hc
        subst hc
        exact absurd (singlematch_error U text pat ms1 s p ep _ heq1) (by decide)
      · split
        · exact ih ms1 _ (hf.1.trans hd) (hf.2.2.2.trans hpe)
        · exact WithinBudget_ok

theorem start_capture_budget {D PE lo : Nat}
    {rec : MatchStateUTF8 → Nat → Nat → MRes} (hrec : MatcherWithinBudget D PE lo rec)
    (ms : MatchStateUTF8) (s p : Nat) (what : Int) (hd : ms.matchdepth = D)
    (hpe : ms.p_end = PE) (hlo : lo ≤ p) (hp : p ≤ PE) :
    WithinBudget (start_captureUTF8 rec ms s p what) := by
  unfold start_captureUTF8
  simp only
  split
  · exact WithinBudget_error (by decide)
  · split
    · rename_i err heq
      exact WithinBudget_of_eq (hrec _ s p (by exact hd) (by exact hpe) hlo hp) heq
    · exact WithinBudget_ok
    · exact WithinBudget_ok

theorem end_capture_budget {D PE lo : Nat}
    {rec : MatchStateUTF8 → Nat → Nat → MRes} (hrec : MatcherWithinBudget D PE lo rec)
    (ms : MatchStateUTF8) (s p : Nat) (hd : ms.matchdepth = D)
    (hpe : ms.p_end = PE) (hlo : lo ≤ p) (hp : p ≤ PE) :
    WithinBudget (end_captureUTF8 rec ms s p) := by
  unfold end_captureUTF8
  split
  · rename_i err heq
    refine WithinBudget_error ?_
    intro hc
    subst hc
    exact capture_to_close_loop_budget ms ms.level heq
  · simp only
    split
    · rename_i err heq
      exact WithinBudget_of_eq (hrec _ s p (by exact hd) (by exact hpe) hlo hp) heq
    · exact WithinBudget_ok
    · exact WithinBudget_ok

theorem max_expand_budget {D PE lo : Nat}
    {rec : MatchStateUTF8 → Nat → Nat → MRes} (hok : MatcherOk 0 rec)
    (hrec : MatcherWithinBudget D PE lo rec) (U : UniData) (text pat : Bytes)
    (ms : MatchStateUTF8) (s p ep : Nat) (hlo : lo ≤ ep + 1) (hep : ep + 1 ≤ PE)
    (hd : ms.matchdepth = D) (hpe : ms.p_end = PE) :
    WithinBudget (max_expandUTF8 rec U text pat ms s p ep) := by
  unfold max_expandUTF8
  split
  · rename_i err heq
    refine WithinBudget_error ?_
    intro hc
    subst hc
    exact absurd (max_expand_count_error U text pat ms p ep _ _ _ heq) (by decide)
  · exact max_expand_back_budget hok hrec text s ep hlo hep _ ms _ hd hpe

theorem match_default_budget {D PE : Nat}
    {rec again : MatchStateUTF8 → Nat → Nat → MRes} (hok : MatcherOk 0 rec)
    (U : UniData) (text pat : Bytes) (hpat : pat.length ≤ PE) (ms : MatchStateUTF8) (s p : Nat)
    (hrec : MatcherWithinBudget D PE (p + 1) rec)
    (hagain : MatcherWithinBudget D PE (p + 1) again)
    (hd : ms.matchdepth = D) (hpe : ms.p_end = PE) (hp : p < PE) :
    WithinBudget (match_default U text pat rec again ms s p) := by
  have hcl := classend_fin pat ms p (by omega) (by omega)
  unfold match_default
  split
  · rename_i err heq
    refine WithinBudget_error ?_
    intro hc
    subst hc
    exact classend_budget pat ms p heq
  · rename_i ep heq
    have hep := hcl.2 ep heq
    simp only
    have hnz : byteAt pat ep ≠ 0 → ep + 1 ≤ PE := by
      intro h
      have := byteAt_ne_zero_lt pat ep h
      omega
    split
    · rename_i err heq1
      refine WithinBudget_error ?_
      intro hc
      subst hc
      exact absurd (singlematch_error U text pat ms s p ep _ heq1) (by decide)
    · split
      · split
        · rename_i hsuf
          exact hagain ms s (ep + 1) hd hpe (by omega) (hnz (by omega))
        · exact WithinBudget_ok
      · split
        · rename_i h63
          have hep1 := hnz (by omega)
          have hn1 := utf8_next_gt pat ep ms.p_end (by omega)
          have hn2 := utf8_next_le pat ep ms.p_end (by omega) (by omega)
          have h1 := hrec ms (utf8_next text s ms.src_end) (utf8_next pat ep ms.p_end) hd hpe
            (by omega) (by omega)
          split
          · rename_i err heq2
            exact WithinBudget_of_eq h1 heq2
          · exact WithinBudget_ok
          · rename_i ms1 heq2
            have hf := (hok _ _ _ none ms1 heq2).1
            exact hagain ms1 s _ (hf.1.trans hd) (hf.2.2.2.trans hpe) (by omega) (by omega)
        · split
          · rename_i h43
            exact max_expand_budget hok hrec U text pat ms _ p ep (by omega) (hnz (by omega))
              hd hpe
          · split
            · rename_i h42
              exact max_expand_budget hok hrec U text pat ms s p ep (by omega)
                (hnz (by omega)) hd hpe
            · split
              · rename_i h45
                exact min_expand_loop_budget hok hrec U text pat p ep (by omega)
                  (hnz (by omega)) _ ms _ hd hpe
              · exact hagain ms _ ep hd hpe (by omega) (by omega)

theorem match_escape_budget {D PE : Nat}
    {rec again : MatchStateUTF8 → Nat → Nat → MRes} (hok : MatcherOk 0 rec)
    (U : UniData) (text pat : Bytes) (hpat : pat.length ≤ PE) (ms : MatchStateUTF8) (s p : Nat)
    (hrec : MatcherWithinBudget D PE (p + 1) rec)
    (hagain : MatcherWithinBudget D PE (p + 1) again)
    (hd : ms.matchdepth = D) (hpe : ms.p_end = PE) (hp : p < PE) :
    WithinBudget (match_escape U text pat rec again ms s p) := by
  have hdec : (utf8_decode pat (p + 1) ms.p_end).2 ≠ 0 →
      p + ((utf8_decode pat (p + 1) ms.p_end).1 + 1) ≤ PE := by
    intro h
    by_cases hlt : p + 1 < ms.p_end
    · have := utf8_decode_le pat (p + 1) ms.p_end (by omega) hlt
      omega
    · rw [utf8_decode_done pat (p + 1) ms.p_end (by omega)] at h
      exact absurd rfl h
  unfold match_escape
  simp only
  split
  · rename_i h98
    have hp1 := hdec (by omega)
    have hmb := matchbalance_fin text pat ms s (p + ((utf8_decode pat (p + 1) ms.p_end).1 + 1))
      (by omega)
    split
    · rename_i err heq
      refine WithinBudget_error ?_
      intro hc
      subst hc
      exact matchbalance_budget text pat ms s _ heq
    · rename_i s1 p2 heq
      have := hmb.2 s1 p2 heq
      exact hagain ms s1 p2 hd hpe (by omega) (by omega)
    · exact WithinBudget_ok
  · split
    · rename_i h102
      have hp1 := hdec (by omega)
      split
      · exact WithinBudget_error (by decide)
      · rename_i h91
        have hlt : p + ((utf8_decode pat (p + 1) ms.p_end).1 + 1) < pat.length := by
          apply byteAt_ne_zero_lt
          intro h0
          apply h91
          rw [h0]
          decide
        have hcl := classend_fin pat ms (p + ((utf8_decode pat (p + 1) ms.p_end).1 + 1))
          (by omega) (by omega)
        split
        · rename_i err heq
          refine WithinBudget_error ?_
          intro hc
          subst hc
          exact classend_budget pat ms _ heq
        · rename_i ep heq
          have hep := hcl.2 ep heq
          split
          · rename_i err heq1
            refine WithinBudget_error ?_
            intro hc
            subst hc
            exact absurd (matchbracketclass_error U pat _ _ _ _ heq1) (by decide)
          · split
            · exact WithinBudget_ok
            · split
              · rename_i err heq1
                refine WithinBudget_error ?_
                intro hc
                subst hc
                exact absurd (matchbracketclass_error U pat _ _ _ _ heq1) (by decide)
              · exact WithinBudget_ite (hagain ms s ep hd hpe (by omega) (by omega))
                  WithinBudget_ok
    · split
      · rename_i hdig
        have hp1 := hdec (by omega)
        split
        · rename_i err heq
          refine WithinBudget_error ?_
          intro hc
          subst hc
          exact match_capture_budget text ms s _ heq
        · rename_i s1 heq
          exact hagain ms s1 _ hd hpe (by omega) hp1
        · exact WithinBudget_ok
      · exact match_default_budget hok U text pat hpat ms s p hrec hagain hd hpe hp

theorem match_init_budget {D PE : Nat}
    {rec : MatchStateUTF8 → Nat → Nat → MRes} (hok : MatcherOk 0 rec)
    (U : UniData) (text pat : Bytes) (hpat : pat.length ≤ PE) (lo : Nat)
    (hrec : MatcherWithinBudget D PE (lo + 1) rec) :
    ∀ n, MatcherWithinBudget D PE lo (match_init U text pat rec n) := by
  intro n
  induction n with
  | zero => intro ms s p _ _ _ _; exact WithinBudget_error (by decide)
  | succ n ih =>
    intro ms s p hd hpe hlo hp
    have hrec1 : MatcherWithinBudget D PE (p + 1) rec :=
      fun ms1 s1 p1 h1 h2 h3 h4 => hrec ms1 s1 p1 h1 h2 (by omega) h4
    have hagain : MatcherWithinBudget D PE (p + 1) (match_init U text pat rec n) :=
      fun ms1 s1 p1 h1 h2 h3 h4 => ih ms1 s1 p1 h1 h2 (by omega) h4
    rw [match_init]
    split
    · rename_i hne
      have hlt : p < PE := by omega
      simp only
      split
      · split
        · rename_i h41
          have := byteAt_ne_zero_lt pat (p + 1) (by rw [h41]; decide)
          exact start_capture_budget hrec ms s _ _ hd hpe (by omega) (by omega)
        · exact start_capture_budget hrec ms s _ _ hd hpe (by omega) (by omega)
      · split
        · exact end_capture_budget hrec ms s _ hd hpe (by omega) (by omega)
        · split
          · exact WithinBudget_ok
          · split
            · exact match_escape_budget hok U text pat hpat ms s p hrec1 hagain hd hpe hlt
            · exact match_default_budget hok U text pat hpat ms s p hrec1 hagain hd hpe hlt
    · exact WithinBudget_ok

/-- A call of the matcher at pattern offset p in a state whose depth budget exceeds the number
of pattern bytes from p to the end never raises "pattern too complex": every nested call is at
a larger pattern offset. -/
theorem matchUTF8_budget (U : UniData) (text pat : Bytes) :
    ∀ fuel ms s p, pat.length ≤ ms.p_end → p ≤ ms.p_end → ms.p_end - p < ms.matchdepth →
      WithinBudget (matchUTF8 U text pat fuel ms s p) := by
  intro fuel
  induction fuel with
  | zero => intro ms s p _ _ _; exact WithinBudget_error (by decide)
  | succ fuel ih =>
    intro ms s p hpat hp hd
    simp only [matchUTF8]
    split
    · omega
    · have hrec : MatcherWithinBudget (ms.matchdepth - 1) ms.p_end (p + 1)
          (matchUTF8 U text pat fuel) := by
        intro ms1 s1 p1 h1 h2 h3 h4
        exact ih ms1 s1 p1 (by rw [h2]; exact hpat) (by rw [h2]; exact h4)
          (by rw [h1, h2]; omega)
      exact WithinBudget_restore (match_init_budget (matchUTF8_ok 0 U text pat fuel) U text pat
        hpat p hrec (ms.p_end + 1) _ s p rfl rfl (le_refl _) hp)

theorem push_onecapture_budget (text : Bytes) (ms : MatchStateUTF8) (i : Int) (s e : Nat) :
    push_onecaptureUTF8 text ms i s e ≠ Except.error PatErr.patternTooComplex := by
  unfold push_onecaptureUTF8
  split
  · split
    · intro h; cases h
    · intro h; cases h
  · simp only
    split
    · intro h; cases h
    · split
      · intro h; cases h
      · intro h; cases h

theorem push_captures_loop_budget (text : Bytes) (ms : MatchStateUTF8) (s e : Nat) :
    ∀ n i, push_captures_loop text ms s e n i ≠ Except.error PatErr.patternTooComplex := by
  intro n
  induction n with
  | zero => intro i h; cases h
  | succ n ih =>
    intro i
    rw [push_captures_loop]
    split
    · rename_i err heq
      intro hc
      injection hc with hc
      subst hc
      exact push_onecapture_budget text ms _ s e heq
    · split
      · rename_i err heq
        intro hc
        injection hc with hc
        subst hc
        exact ih _ heq
      · intro h; cases h

theorem push_captures_budget (text : Bytes) (ms : MatchStateUTF8) (s : Option Nat) (e : Nat) :
    push_capturesUTF8 text ms s e ≠ Except.error PatErr.patternTooComplex := by
  unfold push_capturesUTF8
  exact push_captures_loop_budget text ms _ e _ 0

theorem find_plain_loop_budget (text pat : Bytes) (es ep : Nat) :
    ∀ n init idx,
      find_plain_loop text pat es ep n init idx ≠ Except.error PatErr.patternTooComplex := by
  intro n
  induction n with
  | zero => intro init idx h; cases h
  | succ n ih =>
    intro init idx
    rw [find_plain_loop]
    split
    · intro h; cases h
    · simp only
      split
      · intro h; cases h
      · split
        · exact ih _ _
        · intro h; cases h

theorem find_pattern_loop_budget (U : UniData) (text pat : Bytes) (find anchor : Bool)
    (p : Nat) (hp : p ≤ pat.length) (hlen : pat.length - p < MAXCCALLS) :
    ∀ n ms init idx, ms.matchdepth = MAXCCALLS → ms.p_end = pat.length →
      find_pattern_loop U text pat find anchor p n ms init idx
        ≠ Except.error PatErr.patternTooComplex := by
  intro n
  induction n with
  | zero => intro ms init idx _ _ h; cases h
  | succ n ih =>
    intro ms init idx hd hpe
    have hm := matchUTF8_budget U text pat (MAXCCALLS + 1) { ms with level := 0 } init p
      (by show pat.length ≤ ms.p_end; omega) (by show p ≤ ms.p_end; omega)
      (by show ms.p_end - p < ms.matchdepth; omega)
    rw [find_pattern_loop]
    split
    · rename_i err heq
      intro hc
      injection hc with hc
      subst hc
      exact hm heq
    · split
      · split
        · rename_i err heq
          intro hc
          injection hc with hc
          subst hc
          exact push_captures_budget text _ _ _ heq
        · intro h; cases h
      · split
        · rename_i err heq
          intro hc
          injection hc with hc
          subst hc
          exact push_captures_budget text _ _ _ heq
        · intro h; cases h
    · rename_i ms1 heq
      have hf := (matchUTF8_ok 0 U text pat (MAXCCALLS + 1) _ init p none ms1 heq).1
      split
      · intro h; cases h
      · simp only
        split
        · exact ih ms1 _ _ (hf.1.trans hd) (hf.2.2.2.trans hpe)
        · intro h; cases h

theorem pattern_start_budget (pat : Bytes) (hlen : pat.length < MAXCCALLS) (anchor : Bool)
    (ha : anchor = true → byteAt pat 0 = 94) :
    (if anchor = true then 1 else 0) ≤ pat.length
      ∧ pat.length - (if anchor = true then 1 else 0) < MAXCCALLS := by
  split
  · rename_i h
    have := byteAt_ne_zero_lt pat 0 (by rw [ha h]; decide)
    omega
  · omega

theorem find_aux_budget (U : UniData) (text pat : Bytes) (hlen : pat.length < MAXCCALLS)
    (idx : Int) (plain find : Bool) :
    find_aux U text pat idx plain find ≠ Except.error PatErr.patternTooComplex := by
  unfold find_aux
  simp only
  split
  · intro h; cases h
  · split
    · exact find_plain_loop_budget text pat _ _ _ _ _
    · have hs := pattern_start_budget pat hlen (decide (byteAt pat 0 = 94)) (by simp)
      exact find_pattern_loop_budget U text pat find _ _ hs.1 hs.2 _ _ _ _ rfl rfl

theorem gmatch_loop_budget (U : UniData) (text pat : Bytes) (hlen : pat.length < MAXCCALLS) :
    ∀ n ms src, ms.matchdepth = MAXCCALLS → ms.p_end = pat.length →
      gmatch_loop U text pat n ms src ≠ Except.error PatErr.patternTooComplex := by
  intro n
  induction n with
  | zero => intro ms src _ _ h; cases h
  | succ n ih =>
    intro ms src hd hpe
    have hm := matchUTF8_budget U text pat (MAXCCALLS + 1) { ms with level := 0 } src 0
      (by show pat.length ≤ ms.p_end; omega) (Nat.zero_le _)
      (by show ms.p_end - 0 < ms.matchdepth; omega)
    rw [gmatch_loop]
    split
    · split
      · rename_i err heq
        intro hc
        injection hc with hc
        subst hc
        exact hm heq
      · simp only
        split
        · rename_i err heq
          intro hc
          injection hc with hc
          subst hc
          exact push_captures_budget text _ _ _ heq
        · intro h; cases h
      · rename_i ms1 heq
        have hf := (matchUTF8_ok 0 U text pat (MAXCCALLS + 1) _ src 0 none ms1 heq).1
        split
        · intro h; cases h
        · exact ih ms1 _ (hf.1.trans hd) (hf.2.2.2.trans hpe)
    · intro h; cases h

theorem add_s_loop_budget (U : UniData) (text news : Bytes) (ms : MatchStateUTF8) (s e : Nat) :
    ∀ n np b, add_s_loop U text news ms s e n np b
      ≠ Except.error PatErr.patternTooComplex := by
  intro n
  induction n with
  | zero => intro np b h; cases h
  | succ n ih =>
    intro np b
    rw [add_s_loop]
    split
    · simp only
      split
      · exact ih _ _
      · split
        · split
          · intro h; cases h
          · exact ih _ _
        · split
          · exact ih _ _
          · split
            · rename_i err heq
              intro hc
              injection hc with hc
              subst hc
              exact push_onecapture_budget text ms _ s e heq
            · exact ih _ _
    · intro h; cases h

theorem add_value_result_budget (text b : Bytes) (s e : Nat) (v : ReplValue) :
    add_value_result text b s e v ≠ Except.error PatErr.patternTooComplex := by
  unfold add_value_result
  split
  · intro h; cases h
  · intro h; cases h
  · intro h; cases h

theorem add_value_budget (U : UniData) (text : Bytes) (repl : Repl) (ms : MatchStateUTF8)
    (b : Bytes) (s e : Nat) :
    add_valueUTF8 U text repl ms b s e ≠ Except.error PatErr.patternTooComplex := by
  unfold add_valueUTF8
  split
  · split
    · rename_i err heq
      intro hc
      injection hc with hc
      subst hc
      exact push_captures_budget text ms _ e heq
    · exact add_value_result_budget text b s e _
  · split
    · rename_i err heq
      intro hc
      injection hc with hc
      subst hc
      exact push_onecapture_budget text ms _ s e heq
    · exact add_value_result_budget text b s e _
  · exact add_s_loop_budget U text _ ms s e _ _ _

theorem gsub_loop_budget (U : UniData) (text pat : Bytes) (repl : Repl) (anchor : Bool)
    (p : Nat) (max_s : Int) (hp : p ≤ pat.length) (hlen : pat.length - p < MAXCCALLS) :
    ∀ k ms s n b, ms.matchdepth = MAXCCALLS → ms.p_end = pat.length →
      gsub_loop U text pat repl anchor p max_s k ms s n b
        ≠ Except.error PatErr.patternTooComplex := by
  intro k
  induction k with
  | zero => intro ms s n b _ _ h; cases h
  | succ k ih =>
    intro ms s n b hd hpe
    have hm := matchUTF8_budget U text pat (MAXCCALLS + 1) { ms with level := 0 } s p
      (by show pat.length ≤ ms.p_end; omega) (by show p ≤ ms.p_end; omega)
      (by show ms.p_end - p < ms.matchdepth; omega)
    rw [gsub_loop]
    simp only
    split
    · split
      · rename_i err heq
        intro hc
        injection hc with hc
        subst hc
        exact hm heq
      · rename_i e ms1 heq
        have hf := (matchUTF8_ok 0 U text pat (MAXCCALLS + 1) _ s p (some e) ms1 heq).1
        split
        · rename_i err heq1
          intro hc
          injection hc with hc
          subst hc
          exact add_value_budget U text repl ms1 b s e heq1
        · split
          · split
            · intro h; cases h
            · exact ih ms1 _ _ _ (hf.1.trans hd) (hf.2.2.2.trans hpe)
          · split
            · split
              · intro h; cases h
              · exact ih ms1 _ _ _ (hf.1.trans hd) (hf.2.2.2.trans hpe)
            · intro h; cases h
      · rename_i ms1 heq
        have hf := (matchUTF8_ok 0 U text pat (MAXCCALLS + 1) _ s p none ms1 heq).1
        split
        · split
          · intro h; cases h
          · exact ih ms1 _ _ _ (hf.1.trans hd) (hf.2.2.2.trans hpe)
        · intro h; cases h
    · intro h; cases h

theorem gsub_budget (U : UniData) (text pat : Bytes) (hlen : pat.length < MAXCCALLS)
    (repl : Repl) (max_s : Option Int) :
    Lutf8_gsub U text pat repl max_s ≠ Except.error PatErr.patternTooComplex := by
  unfold Lutf8_gsub
  simp only
  have hs := pattern_start_budget pat hlen (decide (byteAt pat 0 = 94)) (by simp)
  exact gsub_loop_budget U text pat repl _ _ _ hs.1 hs.2 _ _ _ _ _ rfl rfl

/-- C31: for every text and every pattern of fewer than 200 bytes, find and match (find_aux),
the iterator step of iterateAll (gmatch_auxUTF8) and substitute (Lutf8_gsub) never raise
"pattern too complex". The nesting depth of the matcher is bounded by the pattern bytes left
plus one, whatever the text: a call at pattern offset p with a depth budget above the number of
bytes from p to the end of the pattern never exhausts it. And whenever a call of the matcher
returns, the depth counter has the value it had at the call, which for a top-level attempt of a
driver is the initial value 200. -/
theorem C31_short_patterns_within_budget (U : UniData) (text pat : Bytes)
    (hlen : pat.length < 200) :
    (∀ idx plain find,
        find_aux U text pat idx plain find ≠ Except.error PatErr.patternTooComplex)
      ∧ (∀ cursor, gmatch_auxUTF8 U text pat cursor ≠ Except.error PatErr.patternTooComplex)
      ∧ (∀ repl max_s,
          Lutf8_gsub U text pat repl max_s ≠ Except.error PatErr.patternTooComplex)
      ∧ (∀ fuel ms s p, ms.p_end = pat.length → p ≤ pat.length →
          pat.length - p < ms.matchdepth →
          matchUTF8 U text pat fuel ms s p ≠ Except.error PatErr.patternTooComplex)
      ∧ (∀ fuel ms s p r ms1, matchUTF8 U text pat fuel ms s p = Except.ok (r, ms1) →
          ms1.matchdepth = ms.matchdepth)
      ∧ (initial_state text pat).matchdepth = 200 := by
  refine ⟨fun idx plain find => find_aux_budget U text pat hlen idx plain find,
    fun cursor => gmatch_loop_budget U text pat hlen _ _ _ rfl rfl,
    fun repl max_s => gsub_budget U text pat hlen repl max_s,
    fun fuel ms s p hpe hp hd => matchUTF8_budget U text pat fuel ms s p (by omega) (by omega)
      (by omega),
    fun fuel ms s p r ms1 h => (matchUTF8_ok 0 U text pat fuel ms s p r ms1 h).1.1, rfl⟩

/-- C31 on the pattern "(a?)(a?)b-c" (11 bytes) and the text "aabbc": the pattern is shorter
than 200 bytes, match returns the two captures, and none of the drivers raises
"pattern too complex" on this pair. -/
theorem C31_short_patterns_within_budget_witness :
    ([40, 97, 63, 41, 40, 97, 63, 41, 98, 45, 99] : Bytes).length < 200
      ∧ Lutf8_matchUTF8 ascii_tables [97, 97, 98, 98, 99]
          [40, 97, 63, 41, 40, 97, 63, 41, 98, 45, 99] 1
        = Except.ok (some [LuaVal.str [97], LuaVal.str [97]])
      ∧ (∀ idx plain find, find_aux ascii_tables [97, 97, 98, 98, 99]
          [40, 97, 63, 41, 40, 97, 63, 41, 98, 45, 99] idx plain find
          ≠ Except.error PatErr.patternTooComplex)
      ∧ (∀ repl max_s, Lutf8_gsub ascii_tables [97, 97, 98, 98, 99]
          [40, 97, 63, 41, 40, 97, 63, 41, 98, 45, 99] repl max_s
          ≠ Except.error PatErr.patternTooComplex) :=
  ⟨by decide, rfl,
    (C31_short_patterns_within_budget ascii_tables [97, 97, 98, 98, 99]
      [40, 97, 63, 41, 40, 97, 63, 41, 98, 45, 99] (by decide)).1,
    (C31_short_patterns_within_budget ascii_tables [97, 97, 98, 98, 99]
      [40, 97, 63, 41, 40, 97, 63, 41, 98, 45, 99] (by decide)).2.2.1⟩

/-! ## The unbalanced group, exactly -/

theorem find_pattern_loop_unbalanced_exact (U : UniData) (text : Bytes) (find : Bool) :
    ∀ (n : Nat) (ms : MatchStateUTF8) (init : Nat) (idx : Int),
      ms.p_end = 4 → ms.matchdepth = MAXCCALLS → ms.capture.length = 32 →
      ms.src_end = text.length → init ≤ text.length → text.length + 1 - init < n →
      ((∃ j, abc_at text (utf8_next_iter text text.length j init)) →
        find_pattern_loop U text unbalanced_abc find false 0 n ms init idx
          = Except.error PatErr.unfinishedCapture)
      ∧ ((∀ j, ¬ abc_at text (utf8_next_iter text text.length j init)) →
        find_pattern_loop U text unbalanced_abc find false 0 n ms init idx
          = Except.ok none) := by
  intro n
  induction n with
  | zero => intro ms init idx _ _ _ _ _ h; exact absurd h (Nat.not_lt_zero _)
  | succ n ih =>
    intro ms init idx hp hd hl he hle hn
    rw [find_pattern_loop]
    rcases match_unbalanced_abc U text 199 { ms with level := 0 } init hp he
      (by show 2 ≤ ms.matchdepth; rw [hd]; decide) hl rfl with
      ⟨hno, ms1, h1⟩ | ⟨hyes, e, ms1, h1, h2, h3⟩
    · rw [show MAXCCALLS + 1 = 199 + 2 by rfl, h1]
      simp only
      obtain ⟨hf, hk⟩ := ResOk_of_failed (matchUTF8_ok init U text unbalanced_abc _ _ _ _) h1
      have he1 : ms1.src_end = text.length := by rw [hf.2.2.1]; exact he
      rw [he1]
      by_cases hend : init = text.length
      · rw [if_pos hend]
        refine ⟨fun ⟨j, hj⟩ => ?_, fun _ => rfl⟩
        rw [utf8_next_iter_stay text text.length j init (by omega)] at hj
        exact absurd hj hno
      · rw [if_neg hend]
        have hlt : init < text.length := by omega
        have hgt := utf8_next_gt text init text.length hlt
        have hle1 := utf8_next_le text init text.length (le_refl _) hle
        rw [if_pos ⟨hle1, by simp⟩]
        obtain ⟨i1, i2⟩ := ih ms1 (utf8_next text init text.length) (idx + 1)
          (by rw [hf.2.2.2]; exact hp) (by rw [hf.1]; exact hd) (by rw [hk.2.1]; exact hl) he1
          hle1 (by omega)
        refine ⟨fun ⟨j, hj⟩ => i1 ?_, fun hall => i2 (fun j => ?_)⟩
        · cases j with
          | zero => exact absurd hj hno
          | succ j =>
            rw [utf8_next_iter_succ] at hj
            exact ⟨j, hj⟩
        · have := hall (j + 1)
          rw [utf8_next_iter_succ] at this
          exact this
    · rw [show MAXCCALLS + 1 = 199 + 2 by rfl, h1]
      simp only
      refine ⟨fun _ => ?_, fun hall => absurd hyes (hall 0)⟩
      cases find
      · simp only [Bool.false_eq_true, if_false, push_captures_unfinished text ms1 _ _ h2 h3]
      · simp only [if_true, push_captures_unfinished text ms1 _ _ h2 h3]

/-- C8 (amended): for every text, start position and table data, find and match with the
pattern "(abc" never return a successful match: the result is "no match" or the fatal error
"unfinished capture". With the start ordinal not beyond the length of the text plus 1, the
error is raised exactly when the characters a, b, c stand at some codepoint boundary at or
after the start cursor (the boundaries enumerated by repeated next), and "no match" is returned
exactly when they stand at none; a start ordinal beyond the length plus 1 gives "no match". -/
theorem C8_unbalanced_group (U : UniData) (text : Bytes) (idx : Int) (find : Bool) :
    (find_aux U text unbalanced_abc idx false find = Except.ok none ∨
      find_aux U text unbalanced_abc idx false find
        = Except.error PatErr.unfinishedCapture)
    ∧ (¬ (idx > 0 ∧ idx > (utf8_length text 0 text.length : Int) + 1) →
        (find_aux U text unbalanced_abc idx false find = Except.error PatErr.unfinishedCapture
          ↔ ∃ j, abc_at text (utf8_next_iter text text.length j (find_init text idx)))
        ∧ (find_aux U text unbalanced_abc idx false find = Except.ok none
          ↔ ∀ j, ¬ abc_at text (utf8_next_iter text text.length j (find_init text idx))))
    ∧ ((idx > 0 ∧ idx > (utf8_length text 0 text.length : Int) + 1) →
        find_aux U text unbalanced_abc idx false find = Except.ok none) := by
  have hbeyond : (idx > 0 ∧ idx > (utf8_length text 0 text.length : Int) + 1) →
      find_aux U text unbalanced_abc idx false find = Except.ok none := by
    intro h
    unfold find_aux
    simp only
    rw [if_pos h]
  have hexact : ¬ (idx > 0 ∧ idx > (utf8_length text 0 text.length : Int) + 1) →
      ((∃ j, abc_at text (utf8_next_iter text text.length j (find_init text idx))) →
        find_aux U text unbalanced_abc idx false find
          = Except.error PatErr.unfinishedCapture)
      ∧ ((∀ j, ¬ abc_at text (utf8_next_iter text text.length j (find_init text idx))) →
        find_aux U text unbalanced_abc idx false find = Except.ok none) := by
    intro h
    rw [find_aux_unbalanced U text idx find h]
    exact find_pattern_loop_unbalanced_exact U text find _ _ _ _ rfl rfl rfl rfl
      (find_init_le text idx) (by omega)
  refine ⟨?_, fun h => ⟨⟨fun herr => ?_, (hexact h).1⟩, ⟨fun hnone => ?_, (hexact h).2⟩⟩,
    hbeyond⟩
  · by_cases h : idx > 0 ∧ idx > (utf8_length text 0 text.length : Int) + 1
    · exact Or.inl (hbeyond h)
    · by_cases hex : ∃ j, abc_at text (utf8_next_iter text text.length j (find_init text idx))
      · exact Or.inr ((hexact h).1 hex)
      · exact Or.inl ((hexact h).2 (fun j hj => hex ⟨j, hj⟩))
  · by_contra hex
    have := (hexact h).2 (fun j hj => hex ⟨j, hj⟩)
    rw [this] at herr
    cases herr
  · intro j hj
    have := (hexact h).1 ⟨j, hj⟩
    rw [this] at hnone
    cases hnone

/-- C8 as amended, on the text "xabc" with start 1: the characters a, b, c stand at the second
boundary, and both find and match raise "unfinished capture". -/
theorem C8_unbalanced_group_witness :
    ¬ ((1 : Int) > 0 ∧ (1 : Int)
        > (utf8_length [120, 97, 98, 99] 0 ([120, 97, 98, 99] : Bytes).length : Int) + 1)
      ∧ abc_at [120, 97, 98, 99]
          (utf8_next_iter [120, 97, 98, 99] ([120, 97, 98, 99] : Bytes).length 1
            (find_init [120, 97, 98, 99] 1))
      ∧ find_aux ascii_tables [120, 97, 98, 99] unbalanced_abc 1 false true
        = Except.error PatErr.unfinishedCapture
      ∧ find_aux ascii_tables [120, 97, 98, 99] unbalanced_abc 1 false false
        = Except.error PatErr.unfinishedCapture :=
  have ha : abc_at [120, 97, 98, 99]
      (utf8_next_iter [120, 97, 98, 99] ([120, 97, 98, 99] : Bytes).length 1
        (find_init [120, 97, 98, 99] 1)) := ⟨by decide, by decide, by decide, by decide⟩
  ⟨by decide, ha,
    ((C8_unbalanced_group ascii_tables [120, 97, 98, 99] 1 true).2.1 (by decide)).1.2 ⟨1, ha⟩,
    ((C8_unbalanced_group ascii_tables [120, 97, 98, 99] 1 false).2.1 (by decide)).1.2 ⟨1, ha⟩⟩

/-! ## The matcher does not depend on capture slots at or above the level -/

theorem StateAgree_refl (ms : MatchStateUTF8) : StateAgree ms ms :=
  ⟨SameFrame_refl ms, CapturesKept_refl ms⟩

theorem ResAgree_error (e : PatErr) : ResAgree (Except.error e) (Except.error e) := by
  show e = e
  rfl

theorem ResAgree_ok (r : Option Nat) {m m' : MatchStateUTF8} (h : StateAgree m m') :
    ResAgree (Except.ok (r, m)) (Except.ok (r, m')) :=
  ⟨rfl, h⟩

theorem ResAgree_elim {a a' : MRes} (h : ResAgree a a') :
    (∃ e, a = Except.error e ∧ a' = Except.error e)
      ∨ (∃ r m m', a = Except.ok (r, m) ∧ a' = Except.ok (r, m') ∧ StateAgree m m') := by
  cases a with
  | error e =>
    cases a' with
    | error e' =>
      have he : e = e' := h
      subst he
      exact Or.inl ⟨e, rfl, rfl⟩
    | ok v => exact False.elim h
  | ok v =>
    obtain ⟨r, m⟩ := v
    cases a' with
    | error e' => exact False.elim h
    | ok v' =>
      obtain ⟨r', m'⟩ := v'
      obtain ⟨h1, h2⟩ : r = r' ∧ StateAgree m m' := h
      subst h1
      exact Or.inr ⟨r, m, m', rfl, rfl, h2⟩

theorem cap_beyond (ms : MatchStateUTF8) (l : Nat) (h : ms.capture.length ≤ l) :
    ms.cap l = ⟨0, 0⟩ := by
  simp only [MatchStateUTF8.cap, List.getD_eq_getElem?_getD]
  rw [List.getElem?_eq_none (by omega)]
  rfl

/-- Writing slot l in two agreeing states gives agreeing states again, for every new level lv
whose slots other than l are below the old level, when the values written are the same (which
matters only if l is below lv). -/
theorem StateAgree_set {ms ms' : MatchStateUTF8} (h : StateAgree ms ms') (l : Nat)
    (c c' : Capture) (lv lv' : Nat) (hlv' : lv' = lv) (hc : l < lv → c' = c)
    (hlv : ∀ i, i < lv → i ≠ l → i < ms.level) :
    StateAgree
      { matchdepth := ms.matchdepth, src_init := ms.src_init, src_end := ms.src_end,
        p_end := ms.p_end, level := lv, capture := ms.capture.set l c }
      { matchdepth := ms'.matchdepth, src_init := ms'.src_init, src_end := ms'.src_end,
        p_end := ms'.p_end, level := lv', capture := ms'.capture.set l c' } := by
  obtain ⟨⟨f1, f2, f3, f4⟩, k1, k2, k3⟩ := h
  refine ⟨⟨f1, f2, f3, f4⟩, hlv', ?_, ?_⟩
  · show (ms'.capture.set l c').length = (ms.capture.set l c).length
    rw [List.length_set, List.length_set]
    exact k2
  · intro i hi
    have hi' : i < lv := hi
    have e1 : MatchStateUTF8.cap
        { matchdepth := ms.matchdepth, src_init := ms.src_init, src_end := ms.src_end,
          p_end := ms.p_end, level := lv, capture := ms.capture.set l c } i
        = if i = l ∧ l < ms.capture.length then c else ms.cap i := cap_set ms l i c _ rfl _ rfl
    have e2 : MatchStateUTF8.cap
        { matchdepth := ms'.matchdepth, src_init := ms'.src_init, src_end := ms'.src_end,
          p_end := ms'.p_end, level := lv', capture := ms'.capture.set l c' } i
        = if i = l ∧ l < ms'.capture.length then c' else ms'.cap i :=
      cap_set ms' l i c' _ rfl _ rfl
    rw [e1, e2, k2]
    by_cases hil : i = l
    · subst hil
      by_cases hlen : i < ms.capture.length
      · rw [if_pos ⟨rfl, hlen⟩, if_pos ⟨rfl, hlen⟩]
        exact hc hi'
      · rw [if_neg (fun hh => hlen hh.2), if_neg (fun hh => hlen hh.2),
          cap_beyond ms i (by omega), cap_beyond ms' i (by omega)]
    · rw [if_neg (fun hh => hil hh.1), if_neg (fun hh => hil hh.1)]
      exact k3 i (hlv i hi' hil)

theorem singlematch_frame (U : UniData) (text pat : Bytes) (ms ms' : MatchStateUTF8)
    (s p ep : Nat) (hs : ms'.src_end = ms.src_end) (hp : ms'.p_end = ms.p_end) :
    singlematchUTF8 U text pat ms' s p ep = singlematchUTF8 U text pat ms s p ep := by
  unfold singlematchUTF8
  rw [hs, hp]

theorem classend_frame (pat : Bytes) (ms ms' : MatchStateUTF8) (p : Nat)
    (hp : ms'.p_end = ms.p_end) : classendUTF8 pat ms' p = classendUTF8 pat ms p := by
  unfold classendUTF8
  rw [hp]

theorem matchbalance_frame (text pat : Bytes) (ms ms' : MatchStateUTF8) (s p : Nat)
    (hs : ms'.src_end = ms.src_end) (hp : ms'.p_end = ms.p_end) :
    matchbalanceUTF8 text pat ms' s p = matchbalanceUTF8 text pat ms s p := by
  unfold matchbalanceUTF8
  rw [hs, hp]

theorem max_expand_count_frame (U : UniData) (text pat : Bytes) (ms ms' : MatchStateUTF8)
    (p ep : Nat) (hs : ms'.src_end = ms.src_end) (hp : ms'.p_end = ms.p_end) :
    ∀ n m, max_expand_count U text pat ms' p ep n m = max_expand_count U text pat ms p ep n m := by
  intro n
  induction n with
  | zero => intro m; rfl
  | succ n ih =>
    intro m
    rw [max_expand_count, max_expand_count, singlematch_frame U text pat ms ms' m p ep hs hp, hs]
    cases singlematchUTF8 U text pat ms m p ep with
    | error e => rfl
    | ok b =>
      simp only
      rw [ih]

theorem check_capture_agree (ms ms' : MatchStateUTF8) (l : Nat) (h : StateAgree ms ms') :
    check_captureUTF8 ms' l = check_captureUTF8 ms l
      ∧ ∀ l1, check_captureUTF8 ms l = Except.ok l1 → l1 < ms.level := by
  constructor
  · unfold check_captureUTF8
    simp only [h.2.1]
    by_cases hr : (l : Int) - 49 < 0 ∨ (l : Int) - 49 ≥ (ms.level : Int)
    · have h1 : (l : Int) - 49 < 0 ∨ (l : Int) - 49 ≥ (ms.level : Int)
          ∨ (ms'.cap ((l : Int) - 49).toNat).len = CAP_UNFINISHED := by
        rcases hr with h1 | h1
        · exact Or.inl h1
        · exact Or.inr (Or.inl h1)
      have h2 : (l : Int) - 49 < 0 ∨ (l : Int) - 49 ≥ (ms.level : Int)
          ∨ (ms.cap ((l : Int) - 49).toNat).len = CAP_UNFINISHED := by
        rcases hr with h1 | h1
        · exact Or.inl h1
        · exact Or.inr (Or.inl h1)
      rw [if_pos h1, if_pos h2]
    · have hlt : ((l : Int) - 49).toNat < ms.level := by omega
      rw [h.2.2.2 _ hlt]
  · intro l1 hc
    unfold check_captureUTF8 at hc
    simp only at hc
    split at hc
    · cases hc
    · rename_i hn
      injection hc with hc
      subst hc
      omega

theorem match_capture_agree (text : Bytes) (ms ms' : MatchStateUTF8) (s l : Nat)
    (h : StateAgree ms ms') :
    match_captureUTF8 text ms' s l = match_captureUTF8 text ms s l := by
  obtain ⟨hcheck, hlt⟩ := check_capture_agree ms ms' l h
  unfold match_captureUTF8
  rw [hcheck]
  cases hc : check_captureUTF8 ms l with
  | error e => rfl
  | ok l1 =>
    simp only
    rw [h.2.2.2 l1 (hlt l1 hc), h.1.2.2.1]

theorem capture_to_close_loop_agree (ms ms' : MatchStateUTF8) (h : StateAgree ms ms') :
    ∀ n, n ≤ ms.level → capture_to_close_loop ms' n = capture_to_close_loop ms n := by
  intro n
  induction n with
  | zero => intro _; rfl
  | succ n ih =>
    intro hn
    rw [capture_to_close_loop, capture_to_close_loop, h.2.2.2 n (by omega), ih (by omega)]

theorem max_expand_back_sim {rec : MatchStateUTF8 → Nat → Nat → MRes} (hrec : MatcherSim rec)
    (text : Bytes) (s ep : Nat) :
    ∀ n ms ms' m, StateAgree ms ms' →
      ResAgree (max_expand_back rec text s ep n ms m) (max_expand_back rec text s ep n ms' m) := by
  intro n
  induction n with
  | zero => intro ms ms' m _; exact ResAgree_error _
  | succ n ih =>
    intro ms ms' m h
    rw [max_expand_back, max_expand_back]
    by_cases hsm : s ≤ m
    · rw [if_pos hsm, if_pos hsm]
      rcases ResAgree_elim (hrec ms ms' m (ep + 1) h) with ⟨e, h1, h2⟩ | ⟨r, m1, m1', h1, h2, hm⟩
      · rw [h1, h2]
        exact ResAgree_error e
      · rw [h1, h2]
        cases r with
        | some r => exact ResAgree_ok _ hm
        | none =>
          simp only
          by_cases hne : s = m
          · rw [if_pos hne, if_pos hne]
            exact ResAgree_ok _ hm
          · rw [if_neg hne, if_neg hne]
            exact ih m1 m1' _ hm
    · rw [if_neg hsm, if_neg hsm]
      exact ResAgree_ok _ h

theorem max_expand_sim {rec : MatchStateUTF8 → Nat → Nat → MRes} (hrec : MatcherSim rec)
    (U : UniData) (text pat : Bytes) (ms ms' : MatchStateUTF8) (s p ep : Nat)
    (h : StateAgree ms ms') :
    ResAgree (max_expandUTF8 rec U text pat ms s p ep)
      (max_expandUTF8 rec U text pat ms' s p ep) := by
  unfold max_expandUTF8
  rw [max_expand_count_frame U text pat ms ms' p ep h.1.2.2.1 h.1.2.2.2, h.1.2.2.1]
  cases max_expand_count U text pat ms p ep (ms.src_end + 1) s with
  | error e => exact ResAgree_error e
  | ok m => exact max_expand_back_sim hrec text s ep _ ms ms' m h

theorem min_expand_loop_sim {rec : MatchStateUTF8 → Nat → Nat → MRes} (hrec : MatcherSim rec)
    (U : UniData) (text pat : Bytes) (p ep : Nat) :
    ∀ n ms ms' s, StateAgree ms ms' →
      ResAgree (min_expand_loop rec U text pat p ep n ms s)
        (min_expand_loop rec U text pat p ep n ms' s) := by
  intro n
  induction n with
  | zero => intro ms ms' s _; exact ResAgree_error _
  | succ n ih =>
    intro ms ms' s h
    rw [min_expand_loop, min_expand_loop]
    rcases ResAgree_elim (hrec ms ms' s (ep + 1) h) with ⟨e, h1, h2⟩ | ⟨r, m1, m1', h1, h2, hm⟩
    · rw [h1, h2]
      exact ResAgree_error e
    · rw [h1, h2]
      cases r with
      | some r => exact ResAgree_ok _ hm
      | none =>
        simp only
        rw [singlematch_frame U text pat m1 m1' s p ep hm.1.2.2.1 hm.1.2.2.2, hm.1.2.2.1]
        cases singlematchUTF8 U text pat m1 s p ep with
        | error e => exact ResAgree_error e
        | ok b =>
          cases b
          · exact ResAgree_ok _ hm
          · exact ih m1 m1' _ hm

theorem start_capture_sim {rec : MatchStateUTF8 → Nat → Nat → MRes} (hrec : MatcherSim rec)
    (ms ms' : MatchStateUTF8) (s p : Nat) (what : Int) (h : StateAgree ms ms') :
    ResAgree (start_captureUTF8 rec ms s p what) (start_captureUTF8 rec ms' s p what) := by
  unfold start_captureUTF8
  simp only [h.2.1]
  by_cases hl : ms.level ≥ LUA_MAXCAPTURES
  · rw [if_pos hl, if_pos hl]
    exact ResAgree_error _
  · rw [if_neg hl, if_neg hl]
    have hag := StateAgree_set h ms.level ⟨s, what⟩ ⟨s, what⟩ (ms.level + 1) (ms.level + 1) rfl
      (fun _ => rfl) (fun i hi hne => by omega)
    rcases ResAgree_elim (hrec _ _ s p hag) with ⟨e, h1, h2⟩ | ⟨r, m1, m1', h1, h2, hm⟩
    · rw [h1, h2]
      exact ResAgree_error e
    · rw [h1, h2]
      cases r with
      | some r => exact ResAgree_ok _ hm
      | none =>
        refine ResAgree_ok _ ⟨hm.1, ?_, hm.2.2.1, fun i hi => hm.2.2.2 i ?_⟩
        · show m1'.level - 1 = m1.level - 1
          rw [hm.2.1]
        · have hi' : i < m1.level - 1 := hi
          omega

theorem end_capture_sim {rec : MatchStateUTF8 → Nat → Nat → MRes} (hrec : MatcherSim rec)
    (ms ms' : MatchStateUTF8) (s p : Nat) (h : StateAgree ms ms') :
    ResAgree (end_captureUTF8 rec ms s p) (end_captureUTF8 rec ms' s p) := by
  unfold end_captureUTF8
  have hclose : capture_to_closeUTF8 ms' = capture_to_closeUTF8 ms := by
    unfold capture_to_closeUTF8
    rw [h.2.1]
    exact capture_to_close_loop_agree ms ms' h ms.level (le_refl _)
  rw [hclose]
  cases hc : capture_to_closeUTF8 ms with
  | error e => exact ResAgree_error e
  | ok l =>
    simp only
    have hl : l < ms.level := (capture_to_close_loop_spec ms ms.level l hc).1
    rw [h.2.2.2 l hl]
    have hag := StateAgree_set h l
      ⟨(ms.cap l).init, (s : Int) - ((ms.cap l).init : Int)⟩
      ⟨(ms.cap l).init, (s : Int) - ((ms.cap l).init : Int)⟩ ms.level ms'.level h.2.1
      (fun _ => rfl) (fun i hi _ => hi)
    rcases ResAgree_elim (hrec _ _ s p hag) with ⟨e, h1, h2⟩ | ⟨r, m1, m1', h1, h2, hm⟩
    · rw [h1, h2]
      exact ResAgree_error e
    · rw [h1, h2]
      cases r with
      | some r => exact ResAgree_ok _ hm
      | none =>
        exact ResAgree_ok _ (StateAgree_set hm l ⟨(m1.cap l).init, CAP_UNFINISHED⟩
          ⟨(m1'.cap l).init, CAP_UNFINISHED⟩ m1.level m1'.level hm.2.1
          (fun hlt => by rw [hm.2.2.2 l hlt]) (fun i hi _ => hi))

theorem match_default_sim {rec again : MatchStateUTF8 → Nat → Nat → MRes}
    (hrec : MatcherSim rec) (hagain : MatcherSim again) (U : UniData) (text pat : Bytes)
    (ms ms' : MatchStateUTF8) (s p : Nat) (h : StateAgree ms ms') :
    ResAgree (match_default U text pat rec again ms s p)
      (match_default U text pat rec again ms' s p) := by
  unfold match_default
  rw [classend_frame pat ms ms' p h.1.2.2.2]
  cases classendUTF8 pat ms p with
  | error e => exact ResAgree_error e
  | ok ep =>
    simp only
    rw [singlematch_frame U text pat ms ms' s p ep h.1.2.2.1 h.1.2.2.2, h.1.2.2.1, h.1.2.2.2]
    cases singlematchUTF8 U text pat ms s p ep with
    | error e => exact ResAgree_error e
    | ok b =>
      cases b
      · simp only [Bool.false_eq_true, not_false_eq_true, if_true]
        by_cases hsuf : byteAt pat ep = 42 ∨ byteAt pat ep = 63 ∨ byteAt pat ep = 45
        · rw [if_pos hsuf, if_pos hsuf]
          exact hagain ms ms' s (ep + 1) h
        · rw [if_neg hsuf, if_neg hsuf]
          exact ResAgree_ok _ h
      · simp only [not_true_eq_false, if_false]
        by_cases h63 : byteAt pat ep = 63
        · rw [if_pos h63, if_pos h63]
          rcases ResAgree_elim (hrec ms ms' (utf8_next text s ms.src_end)
            (utf8_next pat ep ms.p_end) h) with ⟨e, h1, h2⟩ | ⟨r, m1, m1', h1, h2, hm⟩
          · rw [h1, h2]
            exact ResAgree_error e
          · rw [h1, h2]
            cases r with
            | some r => exact ResAgree_ok _ hm
            | none => exact hagain m1 m1' s _ hm
        · rw [if_neg h63, if_neg h63]
          by_cases h43 : byteAt pat ep = 43
          · rw [if_pos h43, if_pos h43]
            exact max_expand_sim hrec U text pat ms ms' _ p ep h
          · rw [if_neg h43, if_neg h43]
            by_cases h42 : byteAt pat ep = 42
            · rw [if_pos h42, if_pos h42]
              exact max_expand_sim hrec U text pat ms ms' s p ep h
            · rw [if_neg h42, if_neg h42]
              by_cases h45 : byteAt pat ep = 45
              · rw [if_pos h45, if_pos h45]
                unfold min_expandUTF8
                rw [h.1.2.2.1]
                exact min_expand_loop_sim hrec U text pat p ep _ ms ms' s h
              · rw [if_neg h45, if_neg h45]
                exact hagain ms ms' _ ep h

theorem match_escape_sim {rec again : MatchStateUTF8 → Nat → Nat → MRes}
    (hrec : MatcherSim rec) (hagain : MatcherSim again) (U : UniData) (text pat : Bytes)
    (ms ms' : MatchStateUTF8) (s p : Nat) (h : StateAgree ms ms') :
    ResAgree (match_escape U text pat rec again ms s p)
      (match_escape U text pat rec again ms' s p) := by
  unfold match_escape
  simp only
  rw [h.1.2.2.2]
  by_cases h98 : (utf8_decode pat (p + 1) ms.p_end).2 = 98
  · rw [if_pos h98, if_pos h98, matchbalance_frame text pat ms ms' s _ h.1.2.2.1 h.1.2.2.2]
    cases matchbalanceUTF8 text pat ms s (p + ((utf8_decode pat (p + 1) ms.p_end).1 + 1)) with
    | error e => exact ResAgree_error e
    | ok v =>
      obtain ⟨r, p2⟩ := v
      cases r with
      | some s1 => exact hagain ms ms' s1 p2 h
      | none => exact ResAgree_ok _ h
  · rw [if_neg h98, if_neg h98]
    by_cases h102 : (utf8_decode pat (p + 1) ms.p_end).2 = 102
    · rw [if_pos h102, if_pos h102]
      by_cases h91 : byteAt pat (p + ((utf8_decode pat (p + 1) ms.p_end).1 + 1)) ≠ 91
      · rw [if_pos h91, if_pos h91]
        exact ResAgree_error _
      · rw [if_neg h91, if_neg h91, classend_frame pat ms ms' _ h.1.2.2.2]
        cases classendUTF8 pat ms (p + ((utf8_decode pat (p + 1) ms.p_end).1 + 1)) with
        | error e => exact ResAgree_error e
        | ok ep =>
          simp only
          rw [h.1.2.1, h.1.2.2.1]
          cases matchbracketclassUTF8 U pat
              (if s ≠ ms.src_init then
                (utf8_decode text (utf8_prev text ms.src_init s) ms.src_end).2 else 0)
              (p + ((utf8_decode pat (p + 1) ms.p_end).1 + 1)) (ep - 1) with
          | error e => exact ResAgree_error e
          | ok b1 =>
            cases b1
            · simp only [Bool.false_eq_true, if_false]
              cases matchbracketclassUTF8 U pat
                  (if s ≠ ms.src_end then (utf8_decode text s ms.src_end).2 else 0)
                  (p + ((utf8_decode pat (p + 1) ms.p_end).1 + 1)) (ep - 1) with
              | error e => exact ResAgree_error e
              | ok b2 =>
                cases b2
                · exact ResAgree_ok _ h
                · exact hagain ms ms' s ep h
            · exact ResAgree_ok _ h
    · rw [if_neg h102, if_neg h102]
      by_cases hdig : 48 ≤ (utf8_decode pat (p + 1) ms.p_end).2
          ∧ (utf8_decode pat (p + 1) ms.p_end).2 ≤ 57
      · rw [if_pos hdig, if_pos hdig, match_capture_agree text ms ms' s _ h]
        cases match_captureUTF8 text ms s (utf8_decode pat (p + 1) ms.p_end).2 with
        | error e => exact ResAgree_error e
        | ok r =>
          cases r with
          | some s1 => exact hagain ms ms' s1 _ h
          | none => exact ResAgree_ok _ h
      · rw [if_neg hdig, if_neg hdig]
        exact match_default_sim hrec hagain U text pat ms ms' s p h

theorem match_init_sim {rec : MatchStateUTF8 → Nat → Nat → MRes} (hrec : MatcherSim rec)
    (U : UniData) (text pat : Bytes) :
    ∀ n, MatcherSim (match_init U text pat rec n) := by
  intro n
  induction n with
  | zero => intro ms ms' s p _; exact ResAgree_error _
  | succ n ih =>
    intro ms ms' s p h
    rw [match_init, match_init, h.1.2.2.2, h.1.2.2.1]
    by_cases hp : p ≠ ms.p_end
    · rw [if_pos hp, if_pos hp]
      simp only
      by_cases h40 : (utf8_decode pat p ms.p_end).2 = 40
      · rw [if_pos h40, if_pos h40]
        by_cases h41 : byteAt pat (p + 1) = 41
        · rw [if_pos h41, if_pos h41]
          exact start_capture_sim hrec ms ms' s _ _ h
        · rw [if_neg h41, if_neg h41]
          exact start_capture_sim hrec ms ms' s _ _ h
      · rw [if_neg h40, if_neg h40]
        by_cases h41 : (utf8_decode pat p ms.p_end).2 = 41
        · rw [if_pos h41, if_pos h41]
          exact end_capture_sim hrec ms ms' s _ h
        · rw [if_neg h41, if_neg h41]
          by_cases h36 : (utf8_decode pat p ms.p_end).2 = 36 ∧ p + 1 = ms.p_end
          · rw [if_pos h36, if_pos h36]
            exact ResAgree_ok _ h
          · rw [if_neg h36, if_neg h36]
            by_cases hesc : (utf8_decode pat p ms.p_end).2 = L_ESC
            · rw [if_pos hesc, if_pos hesc]
              exact match_escape_sim hrec ih U text pat ms ms' s p h
            · rw [if_neg hesc, if_neg hesc]
              exact match_default_sim hrec ih U text pat ms ms' s p h
    · rw [if_neg hp, if_neg hp]
      exact ResAgree_ok _ h

theorem ResAgree_restore {a a' : MRes} (h : ResAgree a a') :
    ResAgree (restore_depth a) (restore_depth a') := by
  rcases ResAgree_elim h with ⟨e, h1, h2⟩ | ⟨r, m1, m1', h1, h2, hm⟩
  · rw [h1, h2]
    exact ResAgree_error e
  · rw [h1, h2]
    refine ResAgree_ok r ⟨⟨?_, hm.1.2.1, hm.1.2.2.1, hm.1.2.2.2⟩, hm.2⟩
    show m1'.matchdepth + 1 = m1.matchdepth + 1
    rw [hm.1.1]

/-- The matcher gives agreeing results on agreeing states: its result does not depend on the
content of the capture slots at or above the level. -/
theorem matchUTF8_sim (U : UniData) (text pat : Bytes) :
    ∀ fuel, MatcherSim (matchUTF8 U text pat fuel) := by
  intro fuel
  induction fuel with
  | zero => intro ms ms' s p _; exact ResAgree_error _
  | succ fuel ih =>
    intro ms ms' s p h
    rw [matchUTF8, matchUTF8, h.1.1, h.1.2.2.2]
    by_cases hd : ms.matchdepth = 0
    · rw [if_pos hd, if_pos hd]
      exact ResAgree_error _
    · rw [if_neg hd, if_neg hd]
      refine ResAgree_restore (match_init_sim ih U text pat _ _ _ s p ?_)
      exact ⟨⟨rfl, h.1.2.1, h.1.2.2.1, rfl⟩, h.2⟩

theorem push_onecapture_agree (text : Bytes) (ms ms' : MatchStateUTF8) (i : Int) (s e : Nat)
    (h : StateAgree ms ms') (h0 : 0 ≤ i) :
    push_onecaptureUTF8 text ms' i s e = push_onecaptureUTF8 text ms i s e := by
  unfold push_onecaptureUTF8
  rw [h.2.1]
  by_cases hi : i ≥ (ms.level : Int)
  · rw [if_pos hi, if_pos hi]
  · rw [if_neg hi, if_neg hi]
    simp only
    rw [h.2.2.2 i.toNat (by omega), h.1.2.1, h.1.2.2.1]

theorem push_captures_loop_agree (text : Bytes) (ms ms' : MatchStateUTF8) (s e : Nat)
    (h : StateAgree ms ms') :
    ∀ n i, push_captures_loop text ms' s e n i = push_captures_loop text ms s e n i := by
  intro n
  induction n with
  | zero => intro i; rfl
  | succ n ih =>
    intro i
    rw [push_captures_loop, push_captures_loop,
      push_onecapture_agree text ms ms' _ s e h (Int.ofNat_nonneg i), ih]

theorem push_captures_agree (text : Bytes) (ms ms' : MatchStateUTF8) (s : Option Nat) (e : Nat)
    (h : StateAgree ms ms') :
    push_capturesUTF8 text ms' s e = push_capturesUTF8 text ms s e := by
  unfold push_capturesUTF8
  rw [h.2.1]
  exact push_captures_loop_agree text ms ms' _ e h _ 0

/-! ## The assertion of matchbracketclassUTF8 and the count of nested activations -/

/-- On the pattern of n items "a?" and the text of n letters a, fuel for fewer activations than
there are items left and than the depth budget allows is exhausted: the matcher nests once for
every item. -/
theorem optional_as_nesting (U : UniData) (n : Nat) :
    ∀ (fuel k : Nat) (ms : MatchStateUTF8),
      k + fuel ≤ n → fuel ≤ ms.matchdepth → ms.p_end = 2 * n → ms.src_end = n →
      matchUTF8 U (letters_a n) (optional_as n) fuel ms k (2 * k)
        = Except.error PatErr.outOfFuel := by
  intro fuel
  induction fuel with
  | zero => intro k ms _ _ _ _; rfl
  | succ f ih =>
    intro k ms hk hd hp hs
    have hih := ih (k + 1) { ms with matchdepth := ms.matchdepth - 1 } (by omega)
      (by show f ≤ ms.matchdepth - 1; omega) hp hs
    rw [show 2 * (k + 1) = 2 * k + 2 by omega] at hih
    rw [matchUTF8_unfold U _ _ f ms k _ (by omega),
      match_init_optional_a U _ _ _ _ _ k (2 * k) (by show 2 * k + 1 < ms.p_end; omega)
        (byteAt_optional_as_even n k (by omega)) (byteAt_optional_as_odd n k (by omega))
        (by show k < ms.src_end; omega) (byteAt_letters_a n k (by omega)),
      hih]
    rfl

/-- C11: the pattern C1 9B 61 5D holds the set "[a]" with its opening bracket written as the
overlong sequence C1 9B, which the lenient decoder reads as '['. The matcher takes the item for
a set and singlematchUTF8 hands matchbracketclassUTF8 the byte before the end of the decoded
character, which is 9B and not '[': the assertion of matchbracketclassUTF8 fails and the
program aborts, an outcome that is neither a match, nor no match, nor a pattern error; so do
match, the iterator of gmatch and gsub on the text "a", and find when the pattern is followed
by a special character (here "."), which sends it to the matcher. With the bracket written as the
byte 5B the same set matches, and the frontier item, which tests the byte itself, raises
"missing '['" on the overlong bracket. Further, on 200 items "a?" and 200 letters a, fuel for
200 nested activations is exhausted and the activation that raises "pattern too complex" is
the 201st. Apart from that the matcher is total: with fuel for one activation more than the
depth budget every run ends with a matched end cursor, with no match, or with an error that is
a pattern error or the failed assertion. -/
theorem C11_overlong_bracket_fails_assertion (U : UniData) :
    utf8_decode [0xC1, 0x9B, 0x61, 0x5D] 0 4 = (2, 91)
      ∧ byteAt [0xC1, 0x9B, 0x61, 0x5D] (0 + 2 - 1) = 0x9B
      ∧ classendUTF8 [0xC1, 0x9B, 0x61, 0x5D]
          (initial_state [0x61] [0xC1, 0x9B, 0x61, 0x5D]) 0 = Except.ok 4
      ∧ singlematchUTF8 U [0x61] [0xC1, 0x9B, 0x61, 0x5D]
          (initial_state [0x61] [0xC1, 0x9B, 0x61, 0x5D]) 0 0 4
        = Except.error PatErr.assertionFailed
      ∧ matchUTF8 U [0x61] [0xC1, 0x9B, 0x61, 0x5D] (MAXCCALLS + 1)
          (initial_state [0x61] [0xC1, 0x9B, 0x61, 0x5D]) 0 0
        = Except.error PatErr.assertionFailed
      ∧ Lutf8_find U [0x61] [0xC1, 0x9B, 0x61, 0x5D, 46] 1 false
        = Except.error PatErr.assertionFailed
      ∧ Lutf8_matchUTF8 U [0x61] [0xC1, 0x9B, 0x61, 0x5D] 1
        = Except.error PatErr.assertionFailed
      ∧ gmatch_auxUTF8 U [0x61] [0xC1, 0x9B, 0x61, 0x5D] 0
        = Except.error PatErr.assertionFailed
      ∧ Lutf8_gsub U [0x61] [0xC1, 0x9B, 0x61, 0x5D] (Repl.template []) none
        = Except.error PatErr.assertionFailed
      ∧ Lutf8_matchUTF8 U [0x61] [0x5B, 0x61, 0x5D] 1
        = Except.ok (some [LuaVal.str [0x61]])
      ∧ Lutf8_matchUTF8 U [0x61] [37, 102, 0xC1, 0x9B, 0x61, 0x5D] 1
        = Except.error PatErr.missingBracketAfterF
      ∧ (∀ ms : MatchStateUTF8, ms.matchdepth = 200 → ms.p_end = 400 → ms.src_end = 200 →
          matchUTF8 U (letters_a 200) (optional_as 200) 200 ms 0 0
            = Except.error PatErr.outOfFuel
          ∧ matchUTF8 U (letters_a 200) (optional_as 200) 201 ms 0 0
            = Except.error PatErr.patternTooComplex)
      ∧ (∀ (text pat : Bytes) (ms : MatchStateUTF8) (s p : Nat),
          pat.length ≤ ms.p_end → p ≤ ms.p_end →
          (∃ e ms1, matchUTF8 U text pat (ms.matchdepth + 1) ms s p = Except.ok (some e, ms1))
            ∨ (∃ ms1, matchUTF8 U text pat (ms.matchdepth + 1) ms s p = Except.ok (none, ms1))
            ∨ (∃ err, err ≠ PatErr.outOfFuel
                ∧ matchUTF8 U text pat (ms.matchdepth + 1) ms s p = Except.error err)) := by
  refine ⟨rfl, rfl, rfl, rfl, rfl, rfl, rfl, rfl, rfl, rfl, rfl, fun ms hd hp hs => ⟨?_, ?_⟩,
    fun text pat ms s p hpat hp =>
      (matcher_terminates U text pat ms s p (ms.matchdepth + 1) hpat hp (by omega)).1⟩
  · exact optional_as_nesting U 200 200 0 ms (by omega) (by omega) hp hs
  · exact (match_optional_as U 200 200 0 201 ms rfl hp hs (by omega)).2 (by omega)

/-! ## The search of the drivers, in terms of attempts of the matcher -/

theorem utf8_next_iter_at_end (b : Bytes) (e s k0 : Nat)
    (h : utf8_next_iter b e k0 s = e) : ∀ k, k0 ≤ k → utf8_next_iter b e k s = e := by
  intro k hk
  induction k with
  | zero =>
    have : k0 = 0 := by omega
    subst this
    exact h
  | succ k ih =>
    by_cases hk0 : k0 = k + 1
    · subst hk0
      exact h
    · rw [utf8_next_iter_step, ih (by omega)]
      exact utf8_next_stay b e e (le_refl _)

theorem StateAgree_initial (text pat : Bytes) (ms : MatchStateUTF8)
    (hfr : SameFrame (initial_state text pat) ms)
    (hlen : ms.capture.length = LUA_MAXCAPTURES) :
    StateAgree (initial_state text pat) { ms with level := 0 } := by
  refine ⟨⟨hfr.1, hfr.2.1, hfr.2.2.1, hfr.2.2.2⟩, rfl, ?_, fun i hi => absurd hi (Nat.not_lt_zero i)⟩
  show ms.capture.length = (initial_state text pat).capture.length
  rw [hlen]
  simp [initial_state]

/-- The pattern-search loop of find_aux, started at a cursor inside the text in a state of the
search, in terms of attempts of the matcher in the initial state: there is a first boundary k
(reached by k applications of next) at which the attempt does not fail or the search stops; the
attempts at the boundaries before it fail, and the result of the loop is the one the attempt at
k dictates. -/
theorem find_pattern_loop_attempts (U : UniData) (text pat : Bytes) (find anchor : Bool)
    (p : Nat) :
    ∀ n (ms : MatchStateUTF8) (init : Nat) (idx : Int),
      SameFrame (initial_state text pat) ms → ms.capture.length = LUA_MAXCAPTURES →
      init ≤ text.length → text.length + 1 - init < n →
      ∃ k, (anchor = true → k = 0)
        ∧ (∀ j, j < k → ∃ mb : MatchStateUTF8,
            attempt U text pat p (utf8_next_iter text text.length j init)
              = Except.ok (none, mb))
        ∧ ((∃ err, attempt U text pat p (utf8_next_iter text text.length k init)
                = Except.error err
              ∧ find_pattern_loop U text pat find anchor p n ms init idx = Except.error err)
          ∨ (∃ e ms1 err, attempt U text pat p (utf8_next_iter text text.length k init)
                = Except.ok (some e, ms1)
              ∧ push_capturesUTF8 text ms1
                  (if find then none else some (utf8_next_iter text text.length k init))
                  (if find then 0 else e) = Except.error err
              ∧ find_pattern_loop U text pat find anchor p n ms init idx = Except.error err)
          ∨ (∃ e ms1 caps, attempt U text pat p (utf8_next_iter text text.length k init)
                = Except.ok (some e, ms1)
              ∧ push_capturesUTF8 text ms1
                  (if find then none else some (utf8_next_iter text text.length k init))
                  (if find then 0 else e) = Except.ok caps
              ∧ find_pattern_loop U text pat find anchor p n ms init idx
                = Except.ok (some (if find then
                    LuaVal.int (idx + k) :: LuaVal.int (idx + k
                      + (utf8_length text (utf8_next_iter text text.length k init) e : Int) - 1)
                      :: caps
                    else caps)))
          ∨ (∃ mb, attempt U text pat p (utf8_next_iter text text.length k init)
                = Except.ok (none, mb)
              ∧ (anchor = true ∨ utf8_next_iter text text.length k init = text.length)
              ∧ find_pattern_loop U text pat find anchor p n ms init idx = Except.ok none)) := by
  intro n
  induction n with
  | zero => intro ms init idx _ _ _ h; omega
  | succ n ih =>
    intro ms init idx hfr hlen hinit hn
    have hsim := matchUTF8_sim U text pat (MAXCCALLS + 1) _ _ init p
      (StateAgree_initial text pat ms hfr hlen)
    have hnone : ∀ j, j < 0 → ∃ mb : MatchStateUTF8,
        attempt U text pat p (utf8_next_iter text text.length j init) = Except.ok (none, mb) :=
      fun j hj => absurd hj (Nat.not_lt_zero j)
    rw [find_pattern_loop]
    rcases ResAgree_elim hsim with ⟨err, h1, h2⟩ | ⟨r, m, m', h1, h2, hm⟩
    · rw [h2]
      exact ⟨0, fun _ => rfl, hnone, Or.inl ⟨err, h1, rfl⟩⟩
    · rw [h2]
      cases r with
      | some e =>
        simp only
        cases find
        · simp only [Bool.false_eq_true, if_false]
          rw [push_captures_agree text m m' _ _ hm]
          cases hp : push_capturesUTF8 text m (some init) e with
          | error err =>
            exact ⟨0, fun _ => rfl, hnone, Or.inr (Or.inl ⟨e, m, err, h1, hp, rfl⟩)⟩
          | ok caps =>
            exact ⟨0, fun _ => rfl, hnone, Or.inr (Or.inr (Or.inl ⟨e, m, caps, h1, hp, rfl⟩))⟩
        · simp only [if_true]
          rw [push_captures_agree text m m' _ _ hm]
          cases hp : push_capturesUTF8 text m none 0 with
          | error err =>
            exact ⟨0, fun _ => rfl, hnone, Or.inr (Or.inl ⟨e, m, err, h1, hp, rfl⟩)⟩
          | ok caps =>
            refine ⟨0, fun _ => rfl, hnone, Or.inr (Or.inr (Or.inl ⟨e, m, caps, h1, hp, ?_⟩))⟩
            simp only [Nat.cast_zero, add_zero]
            rfl
      | none =>
        simp only
        obtain ⟨hf, hk⟩ := ResOk_of_failed (matchUTF8_ok init U text pat _ _ _ _) h2
        have he1 : m'.src_end = text.length := by rw [hf.2.2.1]; exact hfr.2.2.1
        rw [he1]
        by_cases hend : init = text.length
        · rw [if_pos hend]
          exact ⟨0, fun _ => rfl, hnone, Or.inr (Or.inr (Or.inr ⟨m, h1, Or.inr hend, rfl⟩))⟩
        · rw [if_neg hend]
          by_cases ha : anchor = true
          · rw [if_neg (fun hc => hc.2 ha)]
            exact ⟨0, fun _ => rfl, hnone, Or.inr (Or.inr (Or.inr ⟨m, h1, Or.inl ha, rfl⟩))⟩
          · have hle1 := utf8_next_le text init text.length (le_refl _) hinit
            have hgt := utf8_next_gt text init text.length (by omega)
            rw [if_pos ⟨hle1, ha⟩]
            obtain ⟨k, _, hpre, hout⟩ := ih m' (utf8_next text init text.length) (idx + 1)
              (SameFrame_trans hfr hf) (by rw [hk.2.1]; exact hlen) hle1 (by omega)
            have hidx : idx + 1 + (k : Int) = idx + ((k + 1 : Nat) : Int) := by
              push_cast
              omega
            refine ⟨k + 1, fun h => absurd h ha, ?_, ?_⟩
            · intro j hj
              cases j with
              | zero => exact ⟨m, h1⟩
              | succ j =>
                rw [utf8_next_iter_succ]
                exact hpre j (by omega)
            · rw [utf8_next_iter_succ, ← hidx]
              exact hout

/-- Two candidates for the boundary at which a search stops are the same: the attempts before
each fail, the attempt at k does not fail, and at k0 the attempt does not fail or the search
stops there (the pattern is anchored or k0 is the end of the text). -/
theorem attempt_first_unique (U : UniData) (text pat : Bytes) (p init : Nat) (anchor : Prop)
    (k0 k : Nat) (hk0a : anchor → k0 = 0) (hka : anchor → k = 0)
    (hpre0 : ∀ j, j < k0 → ∃ mb : MatchStateUTF8,
      attempt U text pat p (utf8_next_iter text text.length j init) = Except.ok (none, mb))
    (hpre : ∀ j, j < k → ∃ mb : MatchStateUTF8,
      attempt U text pat p (utf8_next_iter text text.length j init) = Except.ok (none, mb))
    (hk : ¬ ∃ mb : MatchStateUTF8,
      attempt U text pat p (utf8_next_iter text text.length k init) = Except.ok (none, mb))
    (hterm : (¬ ∃ mb : MatchStateUTF8,
        attempt U text pat p (utf8_next_iter text text.length k0 init) = Except.ok (none, mb))
      ∨ anchor ∨ utf8_next_iter text text.length k0 init = text.length) : k0 = k := by
  rcases Nat.lt_trichotomy k0 k with hlt | heq | hgt
  · rcases hterm with h | h | h
    · exact absurd (hpre k0 hlt) h
    · have := hk0a h
      have := hka h
      omega
    · have hkend := utf8_next_iter_at_end text text.length init k0 h k (by omega)
      obtain ⟨mb, hmb⟩ := hpre k0 hlt
      rw [h] at hmb
      rw [hkend] at hk
      exact absurd ⟨mb, hmb⟩ hk
  · exact heq
  · exact absurd (hpre0 k hgt) hk

/-- C15: on the pattern path of find and match, with the start ordinal not beyond the length of
the text plus 1, the search is leftmost-first over the codepoint boundaries at or after the
start cursor (enumerated by repeated next, the end of the text included), an attempt being one
run of the matcher in the state the driver sets up. Values are returned exactly when the
attempt succeeds at a boundary k, the attempts at all boundaries before k fail, k is 0 for a
pattern with a leading anchor, and the captures can be pushed; they are then the values of that
match (for find, its start and end ordinals first). No match is returned exactly when the
attempt at the start cursor fails and, for an unanchored pattern, so does the attempt at every
boundary. An error is raised exactly when it is raised by the attempt at such a first boundary
or by pushing the captures of the match found there. -/
theorem C15_leftmost_first_search (U : UniData) (text pat : Bytes) (idx : Int)
    (plain find : Bool)
    (hstart : ¬ (idx > 0 ∧ idx > (utf8_length text 0 text.length : Int) + 1))
    (hpath : ¬ (find = true ∧ (plain = true ∨ nospecials pat 0 pat.length = true))) :
    find_init text idx ≤ text.length
      ∧ (∃ m, find_boundary text idx m = text.length)
      ∧ (∀ vals, find_aux U text pat idx plain find = Except.ok (some vals) ↔
          ∃ (k e : Nat) (ms1 : MatchStateUTF8) (caps : List LuaVal),
            (byteAt pat 0 = 94 → k = 0) ∧
            (∀ j, j < k → ∃ mb : MatchStateUTF8,
              attempt U text pat (pattern_start pat) (find_boundary text idx j)
                = Except.ok (none, mb)) ∧
            attempt U text pat (pattern_start pat) (find_boundary text idx k)
              = Except.ok (some e, ms1) ∧
            push_capturesUTF8 text ms1
              (if find then none else some (find_boundary text idx k))
              (if find then 0 else e) = Except.ok caps ∧
            vals = (if find then
              LuaVal.int (find_ordinal text idx + k) :: LuaVal.int (find_ordinal text idx + k
                + (utf8_length text (find_boundary text idx k) e : Int) - 1) :: caps
              else caps))
      ∧ (find_aux U text pat idx plain find = Except.ok none ↔
          (∃ mb : MatchStateUTF8,
            attempt U text pat (pattern_start pat) (find_boundary text idx 0)
              = Except.ok (none, mb)) ∧
          (byteAt pat 0 ≠ 94 → ∀ j, ∃ mb : MatchStateUTF8,
            attempt U text pat (pattern_start pat) (find_boundary text idx j)
              = Except.ok (none, mb)))
      ∧ (∀ err, find_aux U text pat idx plain find = Except.error err ↔
          ∃ k, (byteAt pat 0 = 94 → k = 0) ∧
            (∀ j, j < k → ∃ mb : MatchStateUTF8,
              attempt U text pat (pattern_start pat) (find_boundary text idx j)
                = Except.ok (none, mb)) ∧
            (attempt U text pat (pattern_start pat) (find_boundary text idx k)
                = Except.error err
              ∨ ∃ (e : Nat) (ms1 : MatchStateUTF8),
                attempt U text pat (pattern_start pat) (find_boundary text idx k)
                  = Except.ok (some e, ms1) ∧
                push_capturesUTF8 text ms1
                  (if find then none else some (find_boundary text idx k))
                  (if find then 0 else e) = Except.error err)) := by
  rw [find_aux_pattern_path U text pat idx plain find hstart hpath]
  obtain ⟨k0, hk0d, hpre0, hout⟩ := find_pattern_loop_attempts U text pat find
    (decide (byteAt pat 0 = 94)) (pattern_start pat) (text.length + 2) (initial_state text pat)
    (find_init text idx) (find_ordinal text idx) (SameFrame_refl _) (by simp [initial_state])
    (find_init_le text idx) (by omega)
  have hk0a : byteAt pat 0 = 94 → k0 = 0 := fun h => hk0d (decide_eq_true h)
  generalize find_pattern_loop U text pat find (decide (byteAt pat 0 = 94)) (pattern_start pat)
    (text.length + 2) (initial_state text pat) (find_init text idx) (find_ordinal text idx)
    = R at hout
  -- the boundary k0 is one at which the search stops
  have hterm : (¬ ∃ mb : MatchStateUTF8,
        attempt U text pat (pattern_start pat)
          (utf8_next_iter text text.length k0 (find_init text idx)) = Except.ok (none, mb))
      ∨ byteAt pat 0 = 94
      ∨ utf8_next_iter text text.length k0 (find_init text idx) = text.length := by
    rcases hout with ⟨err, h1, _⟩ | ⟨e, ms1, err, h1, _, _⟩ | ⟨e, ms1, caps, h1, _, _⟩
      | ⟨mb, _, h2, _⟩
    · exact Or.inl (fun ⟨mb, h⟩ => by rw [h1] at h; cases h)
    · exact Or.inl (fun ⟨mb, h⟩ => by rw [h1] at h; cases h)
    · exact Or.inl (fun ⟨mb, h⟩ => by rw [h1] at h; cases h)
    · rcases h2 with h2 | h2
      · exact Or.inr (Or.inl (of_decide_eq_true h2))
      · exact Or.inr (Or.inr h2)
  have huniq : ∀ k, (byteAt pat 0 = 94 → k = 0) →
      (∀ j, j < k → ∃ mb : MatchStateUTF8,
        attempt U text pat (pattern_start pat)
          (utf8_next_iter text text.length j (find_init text idx)) = Except.ok (none, mb)) →
      (¬ ∃ mb : MatchStateUTF8,
        attempt U text pat (pattern_start pat)
          (utf8_next_iter text text.length k (find_init text idx)) = Except.ok (none, mb)) →
      k0 = k :=
    fun k hka hpre hk => attempt_first_unique U text pat (pattern_start pat)
      (find_init text idx) (byteAt pat 0 = 94) k0 k hk0a hka hpre0 hpre hk hterm
  refine ⟨find_init_le text idx,
    ⟨_, utf8_next_iter_at_length text text.length (le_refl _) _ _ (find_init_le text idx)
      (le_refl _)⟩, fun vals => ⟨fun hv => ?_, ?_⟩, ⟨fun hn => ?_, ?_⟩,
    fun err => ⟨fun he => ?_, ?_⟩⟩
  · -- values returned: the third outcome
    rcases hout with ⟨err, _, h2⟩ | ⟨e, ms1, err, _, _, h2⟩ | ⟨e, ms1, caps, h1, hp, h2⟩
      | ⟨mb, _, _, h2⟩
    · rw [h2] at hv; cases hv
    · rw [h2] at hv; cases hv
    · rw [h2] at hv
      injection hv with hv
      injection hv with hv
      exact ⟨k0, e, ms1, caps, hk0a, hpre0, h1, hp, hv.symm⟩
    · rw [h2] at hv; cases hv
  · rintro ⟨k, e, ms1, caps, hka, hpre, hs, hp, hvals⟩
    have hk := huniq k hka hpre (fun ⟨mb, h⟩ => by
      rw [show find_boundary text idx k
        = utf8_next_iter text text.length k (find_init text idx) from rfl] at hs
      rw [hs] at h; cases h)
    subst hk
    have hs' : attempt U text pat (pattern_start pat)
        (utf8_next_iter text text.length k0 (find_init text idx)) = Except.ok (some e, ms1) := hs
    have hp' : push_capturesUTF8 text ms1
        (if find then none else some (utf8_next_iter text text.length k0 (find_init text idx)))
        (if find then 0 else e) = Except.ok caps := hp
    rcases hout with ⟨err, h1, _⟩ | ⟨e1, m1, err, h1, hp1, _⟩ | ⟨e1, m1, caps1, h1, hp1, h2⟩
      | ⟨mb, h1, _, _⟩
    · rw [hs'] at h1; cases h1
    · rw [hs'] at h1
      injection h1 with h1
      injection h1 with h1 h1'
      injection h1 with h1
      subst h1
      subst h1'
      rw [hp'] at hp1
      cases hp1
    · rw [hs'] at h1
      injection h1 with h1
      injection h1 with h1 h1'
      injection h1 with h1
      subst h1
      subst h1'
      rw [hp'] at hp1
      injection hp1 with hp1
      subst hp1
      rw [h2, hvals]
      rfl
    · rw [hs'] at h1; cases h1
  · -- no match returned: the fourth outcome
    rcases hout with ⟨err, _, h2⟩ | ⟨e, ms1, err, _, _, h2⟩ | ⟨e, ms1, caps, _, _, h2⟩
      | ⟨mb, h1, hstop, _⟩
    · rw [h2] at hn; cases hn
    · rw [h2] at hn; cases hn
    · rw [h2] at hn; cases hn
    · have h0 : ∃ mb : MatchStateUTF8,
          attempt U text pat (pattern_start pat) (find_boundary text idx 0)
            = Except.ok (none, mb) := by
        by_cases hk : k0 = 0
        · subst hk
          exact ⟨mb, h1⟩
        · exact hpre0 0 (by omega)
      refine ⟨h0, fun hna j => ?_⟩
      rcases hstop with hstop | hstop
      · exact absurd (of_decide_eq_true hstop) hna
      · by_cases hj : j < k0
        · exact hpre0 j hj
        · have := utf8_next_iter_at_end text text.length (find_init text idx) k0 hstop j
            (by omega)
          refine ⟨mb, ?_⟩
          show attempt U text pat (pattern_start pat)
            (utf8_next_iter text text.length j (find_init text idx)) = Except.ok (none, mb)
          rw [this, ← hstop]
          exact h1
  · rintro ⟨⟨mb0, h0⟩, hall⟩
    have hfail : ∃ mb : MatchStateUTF8, attempt U text pat (pattern_start pat)
        (utf8_next_iter text text.length k0 (find_init text idx)) = Except.ok (none, mb) := by
      by_cases ha : byteAt pat 0 = 94
      · rw [hk0a ha]
        exact ⟨mb0, h0⟩
      · exact hall ha k0
    obtain ⟨mbk, hmbk⟩ := hfail
    rcases hout with ⟨err, h1, _⟩ | ⟨e, ms1, err, h1, _, _⟩ | ⟨e, ms1, caps, h1, _, _⟩
      | ⟨mb, _, _, h2⟩
    · rw [hmbk] at h1; cases h1
    · rw [hmbk] at h1; cases h1
    · rw [hmbk] at h1; cases h1
    · exact h2
  · -- an error raised: the first or second outcome
    rcases hout with ⟨err1, h1, h2⟩ | ⟨e, ms1, err1, h1, hp, h2⟩ | ⟨e, ms1, caps, _, _, h2⟩
      | ⟨mb, _, _, h2⟩
    · rw [h2] at he
      injection he with he
      subst he
      exact ⟨k0, hk0a, hpre0, Or.inl h1⟩
    · rw [h2] at he
      injection he with he
      subst he
      exact ⟨k0, hk0a, hpre0, Or.inr ⟨e, ms1, h1, hp⟩⟩
    · rw [h2] at he; cases he
    · rw [h2] at he; cases he
  · rintro ⟨k, hka, hpre, hcase⟩
    have hnf : ¬ ∃ mb : MatchStateUTF8, attempt U text pat (pattern_start pat)
        (utf8_next_iter text text.length k (find_init text idx)) = Except.ok (none, mb) := by
      rintro ⟨mb, h⟩
      rcases hcase with hc | ⟨e, ms1, hc, _⟩
      · have hc' : attempt U text pat (pattern_start pat)
            (utf8_next_iter text text.length k (find_init text idx)) = Except.error err := hc
        rw [hc'] at h; cases h
      · have hc' : attempt U text pat (pattern_start pat)
            (utf8_next_iter text text.length k (find_init text idx))
            = Except.ok (some e, ms1) := hc
        rw [hc'] at h; cases h
    have hk := huniq k hka hpre hnf
    subst hk
    rcases hout with ⟨err1, h1, h2⟩ | ⟨e1, m1, err1, h1, hp1, h2⟩ | ⟨e1, m1, caps, h1, hp1, _⟩
      | ⟨mb, h1, _, _⟩
    · rcases hcase with hc | ⟨e, ms1, hc, _⟩
      · have hc' : attempt U text pat (pattern_start pat)
            (utf8_next_iter text text.length k0 (find_init text idx)) = Except.error err := hc
        rw [hc'] at h1
        injection h1 with h1
        subst h1
        exact h2
      · have hc' : attempt U text pat (pattern_start pat)
            (utf8_next_iter text text.length k0 (find_init text idx))
            = Except.ok (some e, ms1) := hc
        rw [hc'] at h1; cases h1
    · rcases hcase with hc | ⟨e, ms1, hc, hp⟩
      · have hc' : attempt U text pat (pattern_start pat)
            (utf8_next_iter text text.length k0 (find_init text idx)) = Except.error err := hc
        rw [hc'] at h1; cases h1
      · have hc' : attempt U text pat (pattern_start pat)
            (utf8_next_iter text text.length k0 (find_init text idx))
            = Except.ok (some e, ms1) := hc
        have hp' : push_capturesUTF8 text ms1
            (if find then none
              else some (utf8_next_iter text text.length k0 (find_init text idx)))
            (if find then 0 else e) = Except.error err := hp
        rw [hc'] at h1
        injection h1 with h1
        injection h1 with h1 h1'
        injection h1 with h1
        subst h1
        subst h1'
        rw [hp'] at hp1
        injection hp1 with hp1
        subst hp1
        exact h2
    · rcases hcase with hc | ⟨e, ms1, hc, hp⟩
      · have hc' : attempt U text pat (pattern_start pat)
            (utf8_next_iter text text.length k0 (find_init text idx)) = Except.error err := hc
        rw [hc'] at h1; cases h1
      · have hc' : attempt U text pat (pattern_start pat)
            (utf8_next_iter text text.length k0 (find_init text idx))
            = Except.ok (some e, ms1) := hc
        have hp' : push_capturesUTF8 text ms1
            (if find then none
              else some (utf8_next_iter text text.length k0 (find_init text idx)))
            (if find then 0 else e) = Except.error err := hp
        rw [hc'] at h1
        injection h1 with h1
        injection h1 with h1 h1'
        injection h1 with h1
        subst h1
        subst h1'
        rw [hp'] at hp1
        cases hp1
    · exact absurd ⟨mb, h1⟩ hnf

theorem gmatch_loop_attempts (U : UniData) (text pat : Bytes) :
    ∀ n (ms : MatchStateUTF8) (src : Nat),
      SameFrame (initial_state text pat) ms → ms.capture.length = LUA_MAXCAPTURES →
      src ≤ text.length → text.length + 1 - src < n →
      ∃ k,
        (∀ j, j < k → ∃ mb : MatchStateUTF8,
            attempt U text pat 0 (gmatch_position text src j) = Except.ok (none, mb))
        ∧ ((∃ err, attempt U text pat 0 (gmatch_position text src k) = Except.error err
              ∧ gmatch_loop U text pat n ms src = Except.error err)
          ∨ (∃ e ms1 err, attempt U text pat 0 (gmatch_position text src k)
                = Except.ok (some e, ms1)
              ∧ push_capturesUTF8 text ms1 (some (gmatch_position text src k)) e
                = Except.error err
              ∧ gmatch_loop U text pat n ms src = Except.error err)
          ∨ (∃ e ms1 caps, attempt U text pat 0 (gmatch_position text src k)
                = Except.ok (some e, ms1)
              ∧ push_capturesUTF8 text ms1 (some (gmatch_position text src k)) e
                = Except.ok caps
              ∧ gmatch_loop U text pat n ms src
                = Except.ok (some (if e = gmatch_position text src k then e + 1 else e, caps)))
          ∨ (∃ mb, attempt U text pat 0 (gmatch_position text src k) = Except.ok (none, mb)
              ∧ gmatch_position text src k = text.length
              ∧ gmatch_loop U text pat n ms src = Except.ok none)) := by
  intro n
  induction n with
  | zero => intro ms src _ _ _ h; omega
  | succ n ih =>
    intro ms src hfr hlen hsrc hn
    have hsim := matchUTF8_sim U text pat (MAXCCALLS + 1) _ _ src 0
      (StateAgree_initial text pat ms hfr hlen)
    have hnone : ∀ j, j < 0 → ∃ mb : MatchStateUTF8,
        attempt U text pat 0 (gmatch_position text src j) = Except.ok (none, mb) :=
      fun j hj => absurd hj (Nat.not_lt_zero j)
    have hms : ms.src_end = text.length := hfr.2.2.1
    rw [gmatch_loop, if_pos (show src ≤ ms.src_end by rw [hms]; exact hsrc)]
    rcases ResAgree_elim hsim with ⟨err, h1, h2⟩ | ⟨r, m, m', h1, h2, hm⟩
    · rw [h2]
      exact ⟨0, hnone, Or.inl ⟨err, h1, rfl⟩⟩
    · rw [h2]
      cases r with
      | some e =>
        simp only
        rw [push_captures_agree text m m' _ _ hm]
        cases hp : push_capturesUTF8 text m (some src) e with
        | error err =>
          exact ⟨0, hnone, Or.inr (Or.inl ⟨e, m, err, h1, hp, rfl⟩)⟩
        | ok caps =>
          exact ⟨0, hnone, Or.inr (Or.inr (Or.inl ⟨e, m, caps, h1, hp, rfl⟩))⟩
      | none =>
        simp only
        obtain ⟨hf, hk⟩ := ResOk_of_failed (matchUTF8_ok src U text pat _ _ _ _) h2
        have he1 : m'.src_end = text.length := by rw [hf.2.2.1]; exact hfr.2.2.1
        rw [he1]
        by_cases hend : src = text.length
        · rw [if_pos hend]
          exact ⟨0, hnone, Or.inr (Or.inr (Or.inr ⟨m, h1, hend, rfl⟩))⟩
        · rw [if_neg hend]
          have hle1 := utf8_next_le text src text.length (le_refl _) hsrc
          have hgt := utf8_next_gt text src text.length (by omega)
          obtain ⟨k, hpre, hout⟩ := ih m' (utf8_next text src text.length)
            (SameFrame_trans hfr hf) (by rw [hk.2.1]; exact hlen) hle1 (by omega)
          refine ⟨k + 1, ?_, ?_⟩
          · intro j hj
            cases j with
            | zero => exact ⟨m, h1⟩
            | succ j =>
              rw [← gmatch_position_succ]
              exact hpre j (by omega)
          · rw [← gmatch_position_succ]
            exact hout

/-- The outcome of one step of the iterator of gmatch from a stored cursor inside the text or
at its end, by the attempts of the matcher at the positions tried in turn. -/
theorem gmatch_aux_attempts (U : UniData) (text pat : Bytes) (cursor : Nat)
    (hc : cursor ≤ text.length) :
    ∃ k,
      (∀ j, j < k → ∃ mb : MatchStateUTF8,
          attempt U text pat 0 (gmatch_position text cursor j) = Except.ok (none, mb))
      ∧ ((∃ err, attempt U text pat 0 (gmatch_position text cursor k) = Except.error err
            ∧ gmatch_auxUTF8 U text pat cursor = Except.error err)
        ∨ (∃ e ms1 err, attempt U text pat 0 (gmatch_position text cursor k)
              = Except.ok (some e, ms1)
            ∧ push_capturesUTF8 text ms1 (some (gmatch_position text cursor k)) e
              = Except.error err
            ∧ gmatch_auxUTF8 U text pat cursor = Except.error err)
        ∨ (∃ e ms1 caps, attempt U text pat 0 (gmatch_position text cursor k)
              = Except.ok (some e, ms1)
            ∧ push_capturesUTF8 text ms1 (some (gmatch_position text cursor k)) e
              = Except.ok caps
            ∧ gmatch_auxUTF8 U text pat cursor
              = Except.ok (some (if e = gmatch_position text cursor k then e + 1 else e, caps)))
        ∨ (∃ mb, attempt U text pat 0 (gmatch_position text cursor k) = Except.ok (none, mb)
            ∧ gmatch_position text cursor k = text.length
            ∧ gmatch_auxUTF8 U text pat cursor = Except.ok none)) :=
  gmatch_loop_attempts U text pat (text.length + 2) (initial_state text pat) cursor
    (SameFrame_refl _) (by simp [initial_state]) hc (by omega)

theorem gmatch_aux_beyond (U : UniData) (text pat : Bytes) (cursor : Nat)
    (hc : ¬ cursor ≤ text.length) : gmatch_auxUTF8 U text pat cursor = Except.ok none := by
  unfold gmatch_auxUTF8
  rw [gmatch_loop, if_neg (show ¬ cursor ≤ (initial_state text pat).src_end from hc)]

theorem gmatch_position_le (text : Bytes) (cursor k : Nat) (hc : cursor ≤ text.length) :
    gmatch_position text cursor k ≤ text.length := by
  induction k generalizing cursor with
  | zero => simpa [gmatch_position] using hc
  | succ k ih =>
    rw [← gmatch_position_succ]
    exact ih _ (utf8_next_le text cursor text.length (le_refl _) hc)

/-- A successful attempt ends at or after its start cursor and inside the text. -/
theorem attempt_end (U : UniData) (text pat : Bytes) (p s e : Nat) (ms1 : MatchStateUTF8)
    (h : attempt U text pat p s = Except.ok (some e, ms1)) : s ≤ e := by
  exact ((matchUTF8_ok s U text pat (MAXCCALLS + 1) _ _ _ _ _ h).2.2 e rfl
    (CapInv_initial (initial_state text pat) _ (by simp [initial_state]))).1

/-- One step of the iterator of gmatch yields exactly the match found at the first position
tried at which the attempt of the matcher succeeds. -/
theorem gmatch_aux_yield_iff (U : UniData) (text pat : Bytes) (cursor c1 : Nat)
    (vals : List LuaVal) :
    gmatch_auxUTF8 U text pat cursor = Except.ok (some (c1, vals)) ↔
      ∃ src e, GmatchYield U text pat cursor src e c1 vals := by
  constructor
  · intro h
    by_cases hc : cursor ≤ text.length
    · obtain ⟨k, hpre, hout⟩ := gmatch_aux_attempts U text pat cursor hc
      rcases hout with ⟨err, _, h2⟩ | ⟨e, ms1, err, _, _, h2⟩ | ⟨e, ms1, caps, h1, hp, h2⟩
        | ⟨mb, _, _, h2⟩
      · rw [h2] at h; cases h
      · rw [h2] at h; cases h
      · rw [h2] at h
        injection h with h
        injection h with h
        injection h with hc1 hv
        subst hv
        have hge := gmatch_position_ge text cursor k
        have hle := gmatch_position_le text cursor k hc
        have hse := attempt_end U text pat 0 _ e ms1 h1
        refine ⟨gmatch_position text cursor k, e, k, ms1, rfl, hpre, h1, hp, hc1.symm, hge, hle,
          hse, ?_, ?_⟩
        · rw [← hc1]; split <;> omega
        · rw [← hc1]; split <;> omega
      · rw [h2] at h; cases h
    · rw [gmatch_aux_beyond U text pat cursor hc] at h
      cases h
  · rintro ⟨src, e, k, ms1, hsrc, hpre, hs, hp, hc1, b1, b2, _, _, _⟩
    subst hsrc
    obtain ⟨k0, hpre0, hout⟩ := gmatch_aux_attempts U text pat cursor (by omega)
    have hnf : ¬ ∃ mb : MatchStateUTF8,
        attempt U text pat 0 (gmatch_position text cursor k) = Except.ok (none, mb) :=
      fun ⟨mb, h⟩ => by rw [hs] at h; cases h
    have hterm : (¬ ∃ mb : MatchStateUTF8,
          attempt U text pat 0 (gmatch_position text cursor k0) = Except.ok (none, mb))
        ∨ False ∨ gmatch_position text cursor k0 = text.length := by
      rcases hout with ⟨err, h1, _⟩ | ⟨e1, m1, err, h1, _, _⟩ | ⟨e1, m1, caps, h1, _, _⟩
        | ⟨mb, _, h2, _⟩
      · exact Or.inl (fun ⟨mb, h⟩ => by rw [h1] at h; cases h)
      · exact Or.inl (fun ⟨mb, h⟩ => by rw [h1] at h; cases h)
      · exact Or.inl (fun ⟨mb, h⟩ => by rw [h1] at h; cases h)
      · exact Or.inr (Or.inr h2)
    have hk := attempt_first_unique U text pat 0 cursor False k0 k (fun h => h.elim)
      (fun h => h.elim) hpre0 hpre hnf hterm
    subst hk
    rcases hout with ⟨err, h1, _⟩ | ⟨e1, m1, err, h1, hp1, _⟩ | ⟨e1, m1, caps, h1, hp1, h2⟩
      | ⟨mb, h1, _, _⟩
    · rw [hs] at h1; cases h1
    · rw [hs] at h1
      injection h1 with h1
      injection h1 with h1 h1'
      injection h1 with h1
      subst h1
      subst h1'
      rw [hp] at hp1
      cases hp1
    · rw [hs] at h1
      injection h1 with h1
      injection h1 with h1 h1'
      injection h1 with h1
      subst h1
      subst h1'
      rw [hp] at hp1
      injection hp1 with hp1
      subst hp1
      rw [h2, hc1]
    · rw [hs] at h1; cases h1

/-- One step of the iterator of gmatch reports exhaustion exactly when the stored cursor is
beyond the end of the text or the attempt fails at every position tried. -/
theorem gmatch_aux_none_iff (U : UniData) (text pat : Bytes) (cursor : Nat) :
    gmatch_auxUTF8 U text pat cursor = Except.ok none ↔
      (cursor ≤ text.length → ∀ j, ∃ mb : MatchStateUTF8,
        attempt U text pat 0 (gmatch_position text cursor j) = Except.ok (none, mb)) := by
  by_cases hc : cursor ≤ text.length
  · obtain ⟨k0, hpre0, hout⟩ := gmatch_aux_attempts U text pat cursor hc
    constructor
    · intro hn _ j
      rcases hout with ⟨err, _, h2⟩ | ⟨e, ms1, err, _, _, h2⟩ | ⟨e, ms1, caps, _, _, h2⟩
        | ⟨mb, h1, hstop, _⟩
      · rw [h2] at hn; cases hn
      · rw [h2] at hn; cases hn
      · rw [h2] at hn; cases hn
      · by_cases hj : j < k0
        · exact hpre0 j hj
        · have := utf8_next_iter_at_end text text.length cursor k0 hstop j (by omega)
          refine ⟨mb, ?_⟩
          show attempt U text pat 0 (utf8_next_iter text text.length j cursor)
            = Except.ok (none, mb)
          rw [this, ← hstop]
          exact h1
    · intro hall
      obtain ⟨mbk, hmbk⟩ := hall hc k0
      rcases hout with ⟨err, h1, _⟩ | ⟨e, ms1, err, h1, _, _⟩ | ⟨e, ms1, caps, h1, _, _⟩
        | ⟨mb, _, _, h2⟩
      · rw [hmbk] at h1; cases h1
      · rw [hmbk] at h1; cases h1
      · rw [hmbk] at h1; cases h1
      · exact h2
  · exact ⟨fun _ h => absurd h hc, fun _ => gmatch_aux_beyond U text pat cursor hc⟩

/-- One step of the iterator of gmatch raises an error exactly when the attempt at the first
position tried that does not fail raises it, or pushing the captures of the match found there
does. -/
theorem gmatch_aux_error_iff (U : UniData) (text pat : Bytes) (cursor : Nat) (err : PatErr) :
    gmatch_auxUTF8 U text pat cursor = Except.error err ↔
      cursor ≤ text.length ∧ ∃ k,
        (∀ j, j < k → ∃ mb : MatchStateUTF8,
          attempt U text pat 0 (gmatch_position text cursor j) = Except.ok (none, mb)) ∧
        (attempt U text pat 0 (gmatch_position text cursor k) = Except.error err
          ∨ ∃ (e : Nat) (ms1 : MatchStateUTF8),
            attempt U text pat 0 (gmatch_position text cursor k) = Except.ok (some e, ms1) ∧
            push_capturesUTF8 text ms1 (some (gmatch_position text cursor k)) e
              = Except.error err) := by
  by_cases hc : cursor ≤ text.length
  · obtain ⟨k0, hpre0, hout⟩ := gmatch_aux_attempts U text pat cursor hc
    constructor
    · intro he
      rcases hout with ⟨err1, h1, h2⟩ | ⟨e, ms1, err1, h1, hp, h2⟩ | ⟨e, ms1, caps, _, _, h2⟩
        | ⟨mb, _, _, h2⟩
      · rw [h2] at he
        injection he with he
        subst he
        exact ⟨hc, k0, hpre0, Or.inl h1⟩
      · rw [h2] at he
        injection he with he
        subst he
        exact ⟨hc, k0, hpre0, Or.inr ⟨e, ms1, h1, hp⟩⟩
      · rw [h2] at he; cases he
      · rw [h2] at he; cases he
    · rintro ⟨_, k, hpre, hcase⟩
      have hnf : ¬ ∃ mb : MatchStateUTF8,
          attempt U text pat 0 (gmatch_position text cursor k) = Except.ok (none, mb) := by
        rintro ⟨mb, h⟩
        rcases hcase with hc' | ⟨e, ms1, hc', _⟩
        · rw [hc'] at h; cases h
        · rw [hc'] at h; cases h
      have hterm : (¬ ∃ mb : MatchStateUTF8,
            attempt U text pat 0 (gmatch_position text cursor k0) = Except.ok (none, mb))
          ∨ False ∨ gmatch_position text cursor k0 = text.length := by
        rcases hout with ⟨err, h1, _⟩ | ⟨e1, m1, err, h1, _, _⟩ | ⟨e1, m1, caps, h1, _, _⟩
          | ⟨mb, _, h2, _⟩
        · exact Or.inl (fun ⟨mb, h⟩ => by rw [h1] at h; cases h)
        · exact Or.inl (fun ⟨mb, h⟩ => by rw [h1] at h; cases h)
        · exact Or.inl (fun ⟨mb, h⟩ => by rw [h1] at h; cases h)
        · exact Or.inr (Or.inr h2)
      have hk := attempt_first_unique U text pat 0 cursor False k0 k (fun h => h.elim)
        (fun h => h.elim) hpre0 hpre hnf hterm
      subst hk
      rcases hout with ⟨err1, h1, h2⟩ | ⟨e1, m1, err1, h1, hp1, h2⟩
        | ⟨e1, m1, caps, h1, hp1, _⟩ | ⟨mb, h1, _, _⟩
      · rcases hcase with hc' | ⟨e, ms1, hc', _⟩
        · rw [hc'] at h1
          injection h1 with h1
          subst h1
          exact h2
        · rw [hc'] at h1; cases h1
      · rcases hcase with hc' | ⟨e, ms1, hc', hp⟩
        · rw [hc'] at h1; cases h1
        · rw [hc'] at h1
          injection h1 with h1
          injection h1 with h1 h1'
          injection h1 with h1
          subst h1
          subst h1'
          rw [hp] at hp1
          injection hp1 with hp1
          subst hp1
          exact h2
      · rcases hcase with hc' | ⟨e, ms1, hc', hp⟩
        · rw [hc'] at h1; cases h1
        · rw [hc'] at h1
          injection h1 with h1
          injection h1 with h1 h1'
          injection h1 with h1
          subst h1
          subst h1'
          rw [hp] at hp1
          cases hp1
      · exact absurd ⟨mb, h1⟩ hnf
  · rw [gmatch_aux_beyond U text pat cursor hc]
    exact ⟨fun h => (by cases h), fun h => absurd h.1 hc⟩

theorem gmatch_run_length (U : UniData) (text pat : Bytes) (cursor : Nat)
    (run : List (Nat × List LuaVal)) (h : GmatchRun U text pat cursor run) :
    run.length ≤ text.length + 1 - cursor := by
  induction run generalizing cursor with
  | nil => exact Nat.zero_le _
  | cons x rest ih =>
    obtain ⟨c1, vals⟩ := x
    obtain ⟨h1, h2⟩ := h
    obtain ⟨src, e, k, ms1, _, _, _, _, _, b1, b2, _, _, b5⟩ :=
      (gmatch_aux_yield_iff U text pat _ _ _).mp h1
    have := ih c1 h2
    simp only [List.length_cons]
    omega

/-- C7: one step of the iterator of gmatch, from the stored cursor, tries the positions reached
by repeated next in turn, an attempt being one run of the matcher in the state the driver sets
up. It yields exactly the match found at the first position, at or after the stored cursor,
where the attempt succeeds (the attempts at the positions before it fail), and stores the end
of that match, or one more for an empty match. It reports exhaustion exactly when the stored
cursor is beyond the end of the text or the attempt fails at every position. It raises an error
exactly when the first attempt that does not fail raises it or the captures of the match found
there cannot be pushed. Of two successive yields the second match starts at or after the end of
the first, the stored cursor strictly increases at every yield, and a run of successive yields
started at a cursor has at most byteLength(text) + 1 - cursor elements, so at most
byteLength(text) + 1 results are produced. -/
theorem C7_gmatch_successive_matches (U : UniData) (text pat : Bytes) :
    (∀ cursor c1 vals, gmatch_auxUTF8 U text pat cursor = Except.ok (some (c1, vals)) ↔
      ∃ src e, GmatchYield U text pat cursor src e c1 vals) ∧
    (∀ cursor, gmatch_auxUTF8 U text pat cursor = Except.ok none ↔
      (cursor ≤ text.length → ∀ j, ∃ mb : MatchStateUTF8,
        attempt U text pat 0 (gmatch_position text cursor j) = Except.ok (none, mb))) ∧
    (∀ cursor err, gmatch_auxUTF8 U text pat cursor = Except.error err ↔
      cursor ≤ text.length ∧ ∃ k,
        (∀ j, j < k → ∃ mb : MatchStateUTF8,
          attempt U text pat 0 (gmatch_position text cursor j) = Except.ok (none, mb)) ∧
        (attempt U text pat 0 (gmatch_position text cursor k) = Except.error err
          ∨ ∃ (e : Nat) (ms1 : MatchStateUTF8),
            attempt U text pat 0 (gmatch_position text cursor k) = Except.ok (some e, ms1) ∧
            push_capturesUTF8 text ms1 (some (gmatch_position text cursor k)) e
              = Except.error err)) ∧
    (∀ cursor c1 vals1 c2 vals2,
      gmatch_auxUTF8 U text pat cursor = Except.ok (some (c1, vals1)) →
      gmatch_auxUTF8 U text pat c1 = Except.ok (some (c2, vals2)) →
      ∃ src1 e1 src2 e2, GmatchYield U text pat cursor src1 e1 c1 vals1 ∧
        GmatchYield U text pat c1 src2 e2 c2 vals2 ∧ e1 ≤ src2 ∧ cursor < c1 ∧ c1 < c2) ∧
    (∀ cursor run, GmatchRun U text pat cursor run →
      run.length ≤ text.length + 1 - cursor) := by
  refine ⟨gmatch_aux_yield_iff U text pat, gmatch_aux_none_iff U text pat,
    gmatch_aux_error_iff U text pat, ?_, gmatch_run_length U text pat⟩
  intro cursor c1 vals1 c2 vals2 h1 h2
  obtain ⟨src1, e1, y1⟩ := (gmatch_aux_yield_iff U text pat _ _ _).mp h1
  obtain ⟨src2, e2, y2⟩ := (gmatch_aux_yield_iff U text pat _ _ _).mp h2
  refine ⟨src1, e1, src2, e2, y1, y2, ?_, ?_, ?_⟩
  · obtain ⟨_, _, _, _, _, _, _, _, _, _, a, _⟩ := y1
    obtain ⟨_, _, _, _, _, _, _, b, _⟩ := y2
    omega
  · obtain ⟨_, _, _, _, _, _, _, _, _, _, _, a⟩ := y1
    exact a
  · obtain ⟨_, _, _, _, _, _, _, _, _, _, _, a⟩ := y2
    exact a

/-- C7 on the example of the spec: text "a1b2c3", pattern "%a%d" yields "a1", "b2", "c3" with
the stored cursors 2, 4, 6, and then nothing; the two first yields are the matches at the
first positions where the attempt succeeds; on "xa1" the step from cursor 0 retries after the
failure at "x" and yields "a1"; and on "a1b2" nothing makes "b2" a yield from cursor 0. -/
theorem C7_gmatch_successive_matches_witness :
    gmatch_auxUTF8 ascii_tables [97, 49, 98, 50, 99, 51] [37, 97, 37, 100] 0
      = Except.ok (some (2, [LuaVal.str [97, 49]])) ∧
    gmatch_auxUTF8 ascii_tables [97, 49, 98, 50, 99, 51] [37, 97, 37, 100] 2
      = Except.ok (some (4, [LuaVal.str [98, 50]])) ∧
    gmatch_auxUTF8 ascii_tables [97, 49, 98, 50, 99, 51] [37, 97, 37, 100] 4
      = Except.ok (some (6, [LuaVal.str [99, 51]])) ∧
    gmatch_auxUTF8 ascii_tables [97, 49, 98, 50, 99, 51] [37, 97, 37, 100] 6
      = Except.ok none ∧
    (∃ src1 e1 src2 e2,
      GmatchYield ascii_tables [97, 49, 98, 50, 99, 51] [37, 97, 37, 100] 0 src1 e1 2
        [LuaVal.str [97, 49]] ∧
      GmatchYield ascii_tables [97, 49, 98, 50, 99, 51] [37, 97, 37, 100] 2 src2 e2 4
        [LuaVal.str [98, 50]] ∧ e1 ≤ src2 ∧ 0 < 2 ∧ 2 < 4) ∧
    gmatch_auxUTF8 ascii_tables [120, 97, 49] [37, 97, 37, 100] 0
      = Except.ok (some (3, [LuaVal.str [97, 49]])) ∧
    (∃ mb : MatchStateUTF8,
      attempt ascii_tables [120, 97, 49] [37, 97, 37, 100] 0 0 = Except.ok (none, mb)) ∧
    (∃ ms1 : MatchStateUTF8,
      attempt ascii_tables [120, 97, 49] [37, 97, 37, 100] 0 1 = Except.ok (some 3, ms1)) ∧
    (¬ ∃ src e, GmatchYield ascii_tables [97, 49, 98, 50] [37, 97, 37, 100] 0 src e 4
      [LuaVal.str [98, 50]]) :=
  ⟨rfl, rfl, rfl, rfl,
    (C7_gmatch_successive_matches ascii_tables [97, 49, 98, 50, 99, 51]
      [37, 97, 37, 100]).2.2.2.1 0 2 _ 4 _ rfl rfl,
    rfl, ⟨_, rfl⟩, ⟨_, rfl⟩,
    fun h => by
      have h2 := ((C7_gmatch_successive_matches ascii_tables [97, 49, 98, 50]
        [37, 97, 37, 100]).1 0 4 [LuaVal.str [98, 50]]).mpr h
      have h3 : gmatch_auxUTF8 ascii_tables [97, 49, 98, 50] [37, 97, 37, 100] 0
          = Except.ok (some (2, [LuaVal.str [97, 49]])) := rfl
      rw [h3] at h2
      injection h2 with h2
      injection h2 with h2
      injection h2 with h2 _
      exact absurd h2 (by decide)⟩

/-- C15 on examples: in "xxabcxx" the pattern "b." is found at ordinals 4 to 5, the attempts at
the three boundaries before it failing; the anchored pattern "^b" gives no match there; and on
"bbx" with the pattern "((b)%2x)" the attempt at the start cursor succeeds, find returning
1, 3, "bbx", "b". -/
theorem C15_leftmost_first_search_witness :
    Lutf8_find ascii_tables [120, 120, 97, 98, 99, 120, 120] [98, 46] 1 false
        = Except.ok (some [LuaVal.int 4, LuaVal.int 5])
      ∧ Lutf8_find ascii_tables [120, 120, 97, 98, 99, 120, 120] [94, 98] 1 false
        = Except.ok none
      ∧ (∃ (k e : Nat) (ms1 : MatchStateUTF8) (caps : List LuaVal),
            (byteAt [98, 46] 0 = 94 → k = 0) ∧
            (∀ j, j < k → ∃ mb : MatchStateUTF8,
              attempt ascii_tables [120, 120, 97, 98, 99, 120, 120] [98, 46]
                (pattern_start [98, 46])
                (find_boundary [120, 120, 97, 98, 99, 120, 120] 1 j) = Except.ok (none, mb)) ∧
            attempt ascii_tables [120, 120, 97, 98, 99, 120, 120] [98, 46]
              (pattern_start [98, 46])
              (find_boundary [120, 120, 97, 98, 99, 120, 120] 1 k) = Except.ok (some e, ms1) ∧
            push_capturesUTF8 [120, 120, 97, 98, 99, 120, 120] ms1
              (if true = true then none
                else some (find_boundary [120, 120, 97, 98, 99, 120, 120] 1 k))
              (if true = true then 0 else e) = Except.ok caps ∧
            [LuaVal.int 4, LuaVal.int 5] = (if true = true then
              LuaVal.int (find_ordinal [120, 120, 97, 98, 99, 120, 120] 1 + k)
                :: LuaVal.int (find_ordinal [120, 120, 97, 98, 99, 120, 120] 1 + k
                + (utf8_length [120, 120, 97, 98, 99, 120, 120]
                    (find_boundary [120, 120, 97, 98, 99, 120, 120] 1 k) e : Int) - 1)
                :: caps
              else caps))
      ∧ (∃ mb : MatchStateUTF8,
          attempt ascii_tables [120, 120, 97, 98, 99, 120, 120] [98, 46] 0 2
            = Except.ok (none, mb))
      ∧ (∃ ms1 : MatchStateUTF8,
          attempt ascii_tables [120, 120, 97, 98, 99, 120, 120] [98, 46] 0 3
            = Except.ok (some 5, ms1))
      ∧ Lutf8_find ascii_tables [98, 98, 120] [40, 40, 98, 41, 37, 50, 120, 41] 1 false
        = Except.ok (some [LuaVal.int 1, LuaVal.int 3, LuaVal.str [98, 98, 120],
            LuaVal.str [98]])
      ∧ (∃ ms1 : MatchStateUTF8,
          attempt ascii_tables [98, 98, 120] [40, 40, 98, 41, 37, 50, 120, 41] 0 0
            = Except.ok (some 3, ms1)) :=
  ⟨rfl, rfl,
    ((C15_leftmost_first_search ascii_tables [120, 120, 97, 98, 99, 120, 120] [98, 46] 1 false
      true (by decide) (by decide)).2.2.1 [LuaVal.int 4, LuaVal.int 5]).mp rfl,
    ⟨_, rfl⟩, ⟨_, rfl⟩, rfl, ⟨_, rfl⟩⟩

end Lutf8
